import Mathlib

/-!
Minithreads kernel: queues, multilevel queue, alarms, semaphores, scheduler,
datagram ports and stream sockets.

A shallow embedding of `queue.c`, `multilevel_queue.c`, `alarm.c`, `synch.c`,
`minithread.c`, `minimsg.c` and the client side of `minisocket.c` (connect,
send, receive, close and the handling of received packets).

Modelling conventions.

* A C pointer is a natural number, `0` is `NULL`.
* Dynamically allocated records live in typed heaps (`Ptr → Option record`);
  `none` is unallocated memory.  Reading or writing through a pointer whose
  heap cell is `none` has no defined result and the embedded function returns
  `none`; a failed `assert` likewise.
* `malloc` is an oracle: every function that allocates takes the returned
  address as an extra argument.  The theorems assume what C guarantees about
  a successful `malloc`: the address is not `NULL` and not currently
  allocated.
* `queue_t`, `multilevel_queue_t` and `semaphore_t` headers are passed and
  returned by value (explicit state passing); the linked nodes they own are in
  the shared node heap, exactly as in the C program.
* `while` loops over pointer chains take a fuel argument; running out of fuel
  gives `none`.
* C `int` / `long long` counters are mathematical integers: signed overflow
  is undefined in C, so no wrapped behaviour is modelled.
* The interrupt mask (`set_interrupt_level`) makes each primitive atomic, and
  every embedded call is atomic.  The mask itself is part of the state of the
  network layer and is followed through `miniport_create_unbound`; the other
  functions are embedded without it.
* Semaphores that C code reaches through pointers stored in sockets, ports
  and global variables live in a heap of their own.  A function of the network
  layer follows one thread: where that thread has to wait in `semaphore_P`,
  the embedded function takes the state in which the thread runs again as an
  argument, as it takes the results of `malloc` and of `network_send_pkt`.
* `unsigned int` fields are natural numbers reduced modulo `2 ^ 32`.
* Packets are kept with their header fields unpacked.  Constants of headers
  that are not among the sources are parameters (`Consts`).
-/

namespace Minithreads

/-! ## queue.c -/

/-- A C pointer; `0` is `NULL`. -/
abbrev Ptr := Nat

/-- The null pointer. -/
abbrev NULL : Ptr := 0

/-- Queue node: `struct queue_node`. -/
structure qnode where
  data : Ptr
  priority : Int
  next : Ptr
  deriving DecidableEq

/-- Queue header: `struct queue`. -/
structure queue where
  front : Ptr
  rear : Ptr
  count : Int
  deriving DecidableEq

/-- The heap of queue nodes. -/
abbrev NodeHeap := Ptr → Option qnode

/-- Store a record at an address. -/
def write {α : Type} (h : Ptr → Option α) (p : Ptr) (v : α) : Ptr → Option α :=
  fun a => if a = p then some v else h a

/-- Release the record at an address (`free`). -/
def release {α : Type} (h : Ptr → Option α) (p : Ptr) : Ptr → Option α :=
  fun a => if a = p then none else h a

/-- Node contents written by `create_qnode`: default priority 0. -/
def create_qnode (ndata : Ptr) : qnode :=
  { data := ndata, priority := 0, next := NULL }

/-- Node contents written by `creat_qnode_priority`. -/
def creat_qnode_priority (ndata : Ptr) (p : Int) : qnode :=
  { data := ndata, priority := p, next := NULL }

/-- An empty queue, as `queue_new` returns it. -/
def queue_new : queue :=
  { front := NULL, rear := NULL, count := 0 }

/-- The function `queue_prepend`; `n` is the address `malloc` returned for the node. -/
def queue_prepend (h : NodeHeap) (q : queue) (item : Ptr) (n : Ptr) :
    Option (Int × NodeHeap × queue) :=
  if n = NULL then none
  else
    let h1 := write h n (create_qnode item)
    if q.front = NULL then
      some (0, h1, { q with front := n, rear := n, count := q.count + 1 })
    else
      match h1 n with
      | none => none
      | some nd =>
        some (0, write h1 n { nd with next := q.front },
          { q with front := n, count := q.count + 1 })

/-- The function `queue_append`; `n` is the address `malloc` returned for the node
(`create_qnode` asserts that it is not `NULL`). -/
def queue_append (h : NodeHeap) (q : queue) (item : Ptr) (n : Ptr) :
    Option (Int × NodeHeap × queue) :=
  if n = NULL then none
  else
    let h1 := write h n (create_qnode item)
    if q.front = NULL then
      some (0, h1, { q with front := n, rear := n, count := q.count + 1 })
    else
      match h1 q.rear with
      | none => none
      | some r =>
        some (0, write h1 q.rear { r with next := n },
          { q with rear := n, count := q.count + 1 })

/-- The function `queue_dequeue`: result code, the item stored through the out-parameter,
the new heap and header. -/
def queue_dequeue (h : NodeHeap) (q : queue) : Option (Int × Ptr × NodeHeap × queue) :=
  if q.front = NULL then some (-1, NULL, h, q)
  else
    match h q.front with
    | none => none
    | some first =>
      let q1 : queue := { q with front := first.next }
      let h1 := release h q.front
      let q2 : queue := if q1.front = NULL then { q1 with rear := NULL } else q1
      some (0, first.data, h1, { q2 with count := q2.count - 1 })

/-- The function `queue_length`. -/
def queue_length (q : queue) : Int := q.count

/-- The function `queue_front`: the first item without dequeueing it. -/
def queue_front (h : NodeHeap) (q : queue) : Option Ptr :=
  if queue_length q = 0 then some NULL
  else
    match h q.front with
    | none => none
    | some nd => some nd.data

/-- A walk along the `next` pointers from node `n`, as in the `while (n)` loop of
`queue_iterate`, which collects the item stored in each node visited (`queue_iterate`
itself hands the node pointer to its callback).  The walk has no result when it reaches a
node that is not allocated. -/
def queue_items_loop : Nat → NodeHeap → Ptr → Option (List Ptr)
  | 0, _, _ => none
  | fuel + 1, h, n =>
    if n = NULL then some []
    else
      match h n with
      | none => none
      | some nd =>
        match queue_items_loop fuel h nd.next with
        | none => none
        | some rest => some (nd.data :: rest)

/-- The items stored in the nodes that a walk from the front of the queue visits, front
first; used to look at the content of a queue in the examples. -/
def queue_items (fuel : Nat) (h : NodeHeap) (q : queue) : Option (List Ptr) :=
  queue_items_loop fuel h q.front

/-- The `while (curr)` loop of `queue_delete`. -/
def queue_delete_loop : Nat → NodeHeap → queue → Ptr → Ptr → Ptr →
    Option (Int × NodeHeap × queue)
  | 0, _, _, _, _, _ => none
  | fuel + 1, h, q, item, curr, prev =>
    if curr = NULL then some (-1, h, q)
    else
      match h curr with
      | none => none
      | some c =>
        if c.data = item then
          let q1 : queue := if curr = q.front then { q with front := c.next } else q
          let q2 : queue := if curr = q1.rear then { q1 with rear := prev } else q1
          some (0, release h curr, { q2 with count := q2.count - 1 })
        else queue_delete_loop fuel h q item c.next curr

/-- The function `queue_delete` (`assert(queue && item)`). -/
def queue_delete (fuel : Nat) (h : NodeHeap) (q : queue) (item : Ptr) :
    Option (Int × NodeHeap × queue) :=
  if item = NULL then none
  else queue_delete_loop fuel h q item q.front NULL

/-- The `while (curr)` loop of `queue_insert_sorted` together with the code after it;
`n` is the new node. -/
def queue_insert_sorted_loop : Nat → NodeHeap → queue → Ptr → Ptr → Ptr →
    Option (Int × NodeHeap × queue)
  | 0, _, _, _, _, _ => none
  | fuel + 1, h, q, n, curr, prev =>
    if curr = NULL then
      match h prev with
      | none => none
      | some pv =>
        some (0, write h prev { pv with next := n },
          { q with rear := n, count := q.count + 1 })
    else
      match h n, h curr with
      | some nn, some c =>
        if nn.priority < c.priority then
          if prev = NULL then
            some (0, write h n { nn with next := curr },
              { q with front := n, count := q.count + 1 })
          else
            match h prev with
            | none => none
            | some pv =>
              let h1 := write h prev { pv with next := n }
              match h1 n with
              | none => none
              | some nn1 =>
                some (0, write h1 n { nn1 with next := curr },
                  { q with count := q.count + 1 })
        else queue_insert_sorted_loop fuel h q n c.next curr
      | _, _ => none

/-- The function `queue_insert_sorted` (`assert(item && queue)`); `n` is the address
`malloc` returned for the node. -/
def queue_insert_sorted (fuel : Nat) (h : NodeHeap) (q : queue) (item : Ptr) (p : Int)
    (n : Ptr) : Option (Int × NodeHeap × queue) :=
  if item = NULL ∨ n = NULL then none
  else
    let h1 := write h n (creat_qnode_priority item p)
    if queue_length q = 0 then
      some (0, h1, { q with front := n, rear := n, count := q.count + 1 })
    else queue_insert_sorted_loop fuel h1 q n q.front NULL

/-- One node of a queue as seen from outside: its address and what it stores. -/
structure Cell where
  addr : Ptr
  data : Ptr
  priority : Int
  deriving DecidableEq

/-- The nodes `cs` are linked from `p` and the last one points to `e`. -/
def lseg (h : NodeHeap) : Ptr → List Cell → Ptr → Prop
  | p, [], e => p = e
  | p, c :: cs, e =>
    p = c.addr ∧ p ≠ NULL ∧
      ∃ nx, h p = some { data := c.data, priority := c.priority, next := nx } ∧ lseg h nx cs e

/-- The addresses of a list of nodes. -/
def addrs (cs : List Cell) : List Ptr := cs.map Cell.addr

/-- The items of a list of nodes, front first. -/
def items (cs : List Cell) : List Ptr := cs.map Cell.data

/-- The address of the last node, `NULL` for no nodes. -/
def last_addr (cs : List Cell) : Ptr := (addrs cs).getLastD NULL

/-- Representation invariant of a queue: the header `q` in heap `h` holds exactly the
nodes `cs`, front first. -/
structure Rep (h : NodeHeap) (q : queue) (cs : List Cell) : Prop where
  chain : lseg h q.front cs NULL
  nodup : (addrs cs).Nodup
  rear : q.rear = last_addr cs
  count : q.count = cs.length

/-- Successive `queue_append` calls, one per item; `ns` are the addresses `malloc`
returns for the nodes. -/
def append_all : NodeHeap → queue → List Ptr → List Ptr → Option (NodeHeap × queue)
  | h, q, [], _ => some (h, q)
  | _, _, _ :: _, [] => none
  | h, q, x :: xs, n :: ns =>
    match queue_append h q x n with
    | none => none
    | some (_, h', q') => append_all h' q' xs ns

/-- Successive `queue_dequeue` calls: `k` of them.  Each call is logged as its return
code, the item it yielded and `queue_length` after it. -/
def dequeue_n : Nat → NodeHeap → queue → Option (List (Int × Ptr × Int) × NodeHeap × queue)
  | 0, h, q => some ([], h, q)
  | k + 1, h, q =>
    match queue_dequeue h q with
    | none => none
    | some (r, it, h', q') =>
      match dequeue_n k h' q' with
      | none => none
      | some (out, h'', q'') => some ((r, it, queue_length q') :: out, h'', q'')

/-- List-level view of a sorted insertion: the new node goes in front of the first node
of strictly greater priority, or to the back when there is none. -/
def insert_cell (c : Cell) : List Cell → List Cell
  | [] => [c]
  | d :: ds => if c.priority < d.priority then c :: d :: ds else d :: insert_cell c ds

/-- The nodes are in non-decreasing priority order. -/
def sorted_cells (cs : List Cell) : Prop :=
  cs.Pairwise (fun a b => a.priority ≤ b.priority)

/-! ## multilevel_queue.c -/

/-- Multilevel queue header: `struct multilevel_queue`; the array of level queues is a list. -/
structure multilevel_queue where
  level_queues : List queue
  n_levels : Int

/-- The function `multilevel_queue_new` (`assert(number_of_levels > 0)`). -/
def multilevel_queue_new (number_of_levels : Int) : Option multilevel_queue :=
  if number_of_levels > 0 then
    some { level_queues := List.replicate number_of_levels.toNat queue_new,
           n_levels := number_of_levels }
  else none

/-- The function `multilevel_queue_enqueue`; `n` is the address `malloc` returns for the
node.  An index outside the array of level queues has no defined result. -/
def multilevel_queue_enqueue (h : NodeHeap) (mq : multilevel_queue) (level : Int)
    (item n : Ptr) : Option (Int × NodeHeap × multilevel_queue) :=
  if level > mq.n_levels then some (-1, h, mq)
  else if level < 0 then none
  else
    match mq.level_queues[level.toNat]? with
    | none => none
    | some level_q =>
      match queue_append h level_q item n with
      | none => none
      | some (_, h', q') =>
        some (0, h', { mq with level_queues := mq.level_queues.set level.toNat q' })

/-- The `for` loop of `multilevel_queue_dequeue`: `rem` iterations are left, `i` is the
loop counter, `item` the current content of the out-parameter. -/
def multilevel_queue_dequeue_loop (level : Int) :
    Nat → Int → NodeHeap → multilevel_queue → Ptr →
      Option (Int × Ptr × NodeHeap × multilevel_queue)
  | 0, _, h, mq, item => some (-1, item, h, mq)
  | rem + 1, i, h, mq, _ =>
    let idx := Int.tmod (level + i) mq.n_levels
    if idx < 0 then none
    else
      match mq.level_queues[idx.toNat]? with
      | none => none
      | some level_q =>
        match queue_dequeue h level_q with
        | none => none
        | some (res, it, h', q') =>
          let mq' := { mq with level_queues := mq.level_queues.set idx.toNat q' }
          if res ≠ -1 then some (res, it, h', mq')
          else multilevel_queue_dequeue_loop level rem (i + 1) h' mq' it

/-- The function `multilevel_queue_dequeue` (`assert(queue && level < queue->n_levels)`);
`item` is the content of the out-parameter on entry.  The result is the return value,
the out-parameter, the new heap and header. -/
def multilevel_queue_dequeue (h : NodeHeap) (mq : multilevel_queue) (level : Int)
    (item : Ptr) : Option (Int × Ptr × NodeHeap × multilevel_queue) :=
  if level < mq.n_levels then
    multilevel_queue_dequeue_loop level mq.n_levels.toNat 0 h mq item
  else none

/-- The `for` loop of `multilevel_queue_is_empty`: `rem` iterations are left, `i` is the
loop counter. -/
def multilevel_queue_is_empty_loop (mq : multilevel_queue) : Nat → Nat → Option Int
  | 0, _ => some 1
  | rem + 1, i =>
    match mq.level_queues[i]? with
    | none => none
    | some level_q =>
      if queue_length level_q > 0 then some 0
      else multilevel_queue_is_empty_loop mq rem (i + 1)

/-- The function `multilevel_queue_is_empty`. -/
def multilevel_queue_is_empty (mq : multilevel_queue) : Option Int :=
  multilevel_queue_is_empty_loop mq mq.n_levels.toNat 0

/-- Representation invariant of several queues sharing the node heap: queue `i` holds
the nodes `css[i]`, and no node belongs to two queues. -/
structure RepAll (h : NodeHeap) (qs : List queue) (css : List (List Cell)) : Prop where
  length : qs.length = css.length
  rep : ∀ (i : Nat) (q : queue) (cs : List Cell), qs[i]? = some q → css[i]? = some cs → Rep h q cs
  disjoint : ∀ (i j : Nat) (a b : List Cell), i ≠ j → css[i]? = some a → css[j]? = some b →
    ∀ x, x ∈ addrs a → x ∉ addrs b

/-- Representation invariant of a multilevel queue: level `i` holds the nodes `css[i]`. -/
structure MRep (h : NodeHeap) (mq : multilevel_queue) (css : List (List Cell)) : Prop where
  levels : (mq.level_queues.length : Int) = mq.n_levels
  all : RepAll h mq.level_queues css

/-- Representation invariant of a multilevel queue next to further queues `qx`, holding
the nodes `cx`, in the same heap. -/
structure MRepX (h : NodeHeap) (mq : multilevel_queue) (css : List (List Cell))
    (qx : List queue) (cx : List (List Cell)) : Prop where
  levels : (mq.level_queues.length : Int) = mq.n_levels
  length : mq.level_queues.length = css.length
  all : RepAll h (mq.level_queues ++ qx) (css ++ cx)

/-! ## alarm.c -/

/-- The tick period in milliseconds (`#define PERIOD 100`, minithread.h). -/
def PERIOD : Int := 100

/-- Alarm record: `struct alarm`; the handler is a function pointer. -/
structure alarm where
  end_ : Int
  call_back : Ptr
  arg : Ptr
  deriving DecidableEq

/-! ## minithread.c: thread records and the scheduler state -/

/-- Thread states: `enum status`. -/
inductive status where
  | RUNNABLE
  | RUNNING
  | WAITING
  | ZOMBIE
  deriving DecidableEq

/-- Thread control block: `struct minithread`.  The stack pointers `base` and `top` are
managed by the machine primitives and left out. -/
structure minithread where
  id : Int
  s : status
  level : Int
  quanta : Int
  deriving DecidableEq

/-- The number of levels: `#define MAX_LEVELS 4`. -/
def MAX_LEVELS : Int := 4

/-- Table `level_max_quanta`. -/
def level_max_quanta : List Int := [80, 40, 24, 16]

/-- Table `level_quantum_value`. -/
def level_quantum_value : List Int := [1, 2, 4, 8]

/-- Reading `table[i]`; an index outside the table has no defined result. -/
def table_get (table : List Int) (i : Int) : Option Int :=
  if i < 0 then none else table[i.toNat]?

/-- The global variables of `minithread.c` and `alarm.c` together with the heaps. -/
structure State where
  nodes : NodeHeap
  threads : Ptr → Option minithread
  alarms : Ptr → Option alarm
  minithreads_count : Int
  nInterrupts : Int
  curr_level : Int
  curr_level_quanta : Int
  runnable_queue : Option multilevel_queue
  stopped_queue : Option queue
  running_thread : Ptr
  scheduler_thread : Ptr
  reaper_thread : Ptr
  alarm_queue : Option queue

/-- The function `register_alarm`; `a` is the address `malloc` returns for the alarm
record and `n` the one it returns for the queue node.  The result is the alarm id. -/
def register_alarm (fuel : Nat) (st : State) (delay : Int) (func arg : Ptr) (a n : Ptr) :
    Option (Ptr × State) :=
  let del := Int.tdiv delay PERIOD
  let del := if Int.tmod delay PERIOD ≠ 0 then del + 1 else del
  if a = NULL then some (NULL, st)
  else
    let newAlarm : alarm := { end_ := st.nInterrupts + del, call_back := func, arg := arg }
    let alarms' := write st.alarms a newAlarm
    match st.alarm_queue with
    | none => none
    | some aq =>
      match queue_insert_sorted fuel st.nodes aq a newAlarm.end_ n with
      | none => none
      | some (_, h', aq') =>
        some (a, { st with alarms := alarms', nodes := h', alarm_queue := some aq' })

/-- The statements `queue_delete(alarm_queue, a); free(a);` that both branches of
`deregister_alarm` execute; the result code of `queue_delete` is ignored. -/
def alarm_delete_and_free (fuel : Nat) (st : State) (a : Ptr) : Option State :=
  match st.alarm_queue with
  | none => none
  | some aq =>
    match queue_delete fuel st.nodes aq a with
    | none => none
    | some (_, h', aq') =>
      some { st with nodes := h', alarm_queue := some aq', alarms := release st.alarms a }

/-- The function `deregister_alarm` (`assert(alarm)`). -/
def deregister_alarm (fuel : Nat) (st : State) (a : Ptr) : Option (Int × State) :=
  if a = NULL then none
  else
    match st.alarms a with
    | none => none
    | some al =>
      if al.end_ ≤ st.nInterrupts then
        match alarm_delete_and_free fuel st a with
        | none => none
        | some st' => some (1, st')
      else
        match alarm_delete_and_free fuel st a with
        | none => none
        | some st' => some (0, st')

/-- The function `get_next_alarm`. -/
def get_next_alarm (st : State) : Option Ptr :=
  match st.alarm_queue with
  | none => none
  | some aq =>
    match queue_front st.nodes aq with
    | none => none
    | some next =>
      if next = NULL then some NULL
      else
        match st.alarms next with
        | none => none
        | some al => if al.end_ = st.nInterrupts then some next else some NULL

/-! ## minithread.c: thread management -/

/-- The function `minithread_create`; `m` is the address `malloc` returns for the thread
record and `s0` the indeterminate content of its `s` field, which the function does not
initialise. -/
def minithread_create (st : State) (m : Ptr) (s0 : status) : Ptr × State :=
  if m = NULL then (NULL, st)
  else
    (m, { st with
      threads := write st.threads m
        { id := st.minithreads_count, s := s0, level := 0, quanta := 0 },
      minithreads_count := st.minithreads_count + 1 })

/-- The function `minithread_self`. -/
def minithread_self (st : State) : Ptr := st.running_thread

/-- The function `minithread_start`; `n` is the address `malloc` returns for the queue
node. -/
def minithread_start (st : State) (t : Ptr) (n : Ptr) : Option State :=
  match st.threads t with
  | none => none
  | some th =>
    let st1 := { st with threads := write st.threads t { th with s := status.RUNNABLE } }
    match st1.runnable_queue with
    | none => some st1
    | some mq =>
      match multilevel_queue_enqueue st1.nodes mq th.level t n with
      | none => none
      | some (_, h', mq') => some { st1 with nodes := h', runnable_queue := some mq' }

/-- The function `minithread_fork`; `m`, `s0` as for `minithread_create`, `n` as for
`minithread_start`. -/
def minithread_fork (st : State) (m : Ptr) (s0 : status) (n : Ptr) : Option (Ptr × State) :=
  let (mthread, st1) := minithread_create st m s0
  if mthread = NULL then some (NULL, st1)
  else
    match minithread_start st1 mthread n with
    | none => none
    | some st2 => some (mthread, st2)

/-- The function `stop_running_thread`; the context switch itself does not change the
modelled state. -/
def stop_running_thread (st : State) : Option State :=
  match st.runnable_queue with
  | none => none
  | some mq =>
    match multilevel_queue_dequeue st.nodes mq st.curr_level NULL with
    | none => none
    | some (res, first_runnable, h', mq') =>
      let st1 := { st with nodes := h', runnable_queue := some mq' }
      if res ≠ -1 then
        match st1.threads first_runnable with
        | none => none
        | some fr =>
          let st2 :=
            if st1.curr_level ≠ fr.level then
              { st1 with curr_level := fr.level, curr_level_quanta := 0 }
            else st1
          if st2.running_thread ≠ first_runnable then
            some { st2 with running_thread := first_runnable }
          else some st2
      else some { st1 with running_thread := st1.scheduler_thread }

/-- The quanta accounting that `minithread_stop` does for the running thread. -/
def account_quantum (st : State) (rt : minithread) (qv : Int) : minithread :=
  let rt1 := { rt with quanta := rt.quanta + 1 }
  if rt1.quanta = qv then
    { rt1 with quanta := 0,
               level := if st.curr_level + 1 = MAX_LEVELS then st.curr_level
                        else st.curr_level + 1 }
  else rt1

/-- The function `minithread_stop`. -/
def minithread_stop (st : State) : Option State :=
  match st.threads st.running_thread, table_get level_quantum_value st.curr_level with
  | some rt, some qv =>
    stop_running_thread
      { st with threads := write st.threads st.running_thread (account_quantum st rt qv) }
  | _, _ => none

/-! ## synch.c -/

/-- Semaphore: `struct semaphore`. -/
structure semaphore where
  count : Int
  wait_list : queue

/-- The function `semaphore_initialize`. -/
def semaphore_initialize (cnt : Int) : semaphore :=
  { count := cnt, wait_list := queue_new }

/-- The function `semaphore_P`; `n` is the address `malloc` returns for the queue node
if the caller has to wait.  The second component of the result is the thread appended to
the wait list, if the call reached that. -/
def semaphore_P (st : State) (sem : semaphore) (n : Ptr) :
    Option (State × Option Ptr × semaphore) :=
  let sem1 : semaphore := { sem with count := sem.count - 1 }
  if sem1.count < 0 then
    match queue_append st.nodes sem1.wait_list (minithread_self st) n with
    | none => none
    | some (_, h', wl') =>
      match minithread_stop { st with nodes := h' } with
      | none => none
      | some st' => some (st', some (minithread_self st), { sem1 with wait_list := wl' })
  else some (st, none, sem1)

/-- The function `semaphore_V`; `n` is the address `malloc` returns for the queue node
if a thread is started.  The second component of the result is the thread handed to
`minithread_start`, if the call reached it. -/
def semaphore_V (st : State) (sem : semaphore) (n : Ptr) :
    Option (State × Option Ptr × semaphore) :=
  let sem1 : semaphore := { sem with count := sem.count + 1 }
  if sem1.count ≤ 0 then
    match queue_dequeue st.nodes sem1.wait_list with
    | none => none
    | some (_, thread, h', wl') =>
      match minithread_start { st with nodes := h' } thread n with
      | none => none
      | some st' => some (st', some thread, { sem1 with wait_list := wl' })
  else some (st, none, sem1)

/-- The function `semaphore_get_count`. -/
def semaphore_get_count (sem : semaphore) : Int := sem.count

/-! ## Runs of semaphore operations and the scheduler invariant -/

/-- One call on a semaphore, with the address `malloc` returns if the call allocates a
queue node. -/
inductive SemOp where
  | P (n : Ptr)
  | V (n : Ptr)

/-- A sequence of `semaphore_P` / `semaphore_V` calls on one semaphore, each made when the
previous one has switched or returned.  The result carries the threads that blocked in
`semaphore_P`, in order, and the threads that `semaphore_V` started, in order. -/
def sem_run : State → semaphore → List SemOp →
    Option (State × semaphore × List Ptr × List Ptr)
  | st, sem, [] => some (st, sem, [], [])
  | st, sem, SemOp.P n :: ops =>
    match semaphore_P st sem n with
    | none => none
    | some (st1, b, sem1) =>
      match sem_run st1 sem1 ops with
      | none => none
      | some (st2, sem2, bl, wk) => some (st2, sem2, b.toList ++ bl, wk)
  | st, sem, SemOp.V n :: ops =>
    match semaphore_V st sem n with
    | none => none
    | some (st1, w, sem1) =>
      match sem_run st1 sem1 ops with
      | none => none
      | some (st2, sem2, bl, wk) => some (st2, sem2, bl, w.toList ++ wk)

/-- The addresses in a sequence of calls are ones `malloc` can return: each is non-null
and unallocated at the time of its call. -/
def oracles_fresh : State → semaphore → List SemOp → Bool
  | _, _, [] => true
  | st, sem, SemOp.P n :: ops =>
    decide (n ≠ NULL) && (st.nodes n).isNone &&
      (match semaphore_P st sem n with
       | none => true
       | some (st1, _, sem1) => oracles_fresh st1 sem1 ops)
  | st, sem, SemOp.V n :: ops =>
    decide (n ≠ NULL) && (st.nodes n).isNone &&
      (match semaphore_V st sem n with
       | none => true
       | some (st1, _, sem1) => oracles_fresh st1 sem1 ops)

/-- Well-formedness of the scheduler state: the runnable queue `mq` has `MAX_LEVELS`
levels holding the nodes `css`, next to further queues `qx` holding `cx`; every queued
item is an allocated thread; the running thread and the scheduler thread are allocated;
`curr_level` and every thread's level are within `0 .. MAX_LEVELS - 1`. -/
structure SchedInv (st : State) (mq : multilevel_queue) (css : List (List Cell))
    (qx : List queue) (cx : List (List Cell)) : Prop where
  rq : st.runnable_queue = some mq
  four : mq.n_levels = MAX_LEVELS
  rep : MRepX st.nodes mq css qx cx
  curr : 0 ≤ st.curr_level ∧ st.curr_level < MAX_LEVELS
  running : st.threads st.running_thread ≠ none
  sched : st.threads st.scheduler_thread ≠ none
  queued : ∀ cs ∈ css ++ cx, ∀ c ∈ cs, st.threads c.data ≠ none
  levels : ∀ t th, st.threads t = some th → 0 ≤ th.level ∧ th.level < MAX_LEVELS

/-- Well-formedness of the scheduler state together with one semaphore whose wait list
holds the nodes `ws`: the number of waiters is `max(0, -count)`. -/
structure SysInv (st : State) (sem : semaphore) (mq : multilevel_queue)
    (css : List (List Cell)) (ws : List Cell) : Prop where
  sched : SchedInv st mq css [sem.wait_list] [ws]
  count : (ws.length : Int) = max 0 (-sem.count)

/-! ## minithread.c: yielding, the clock tick and system initialisation -/

/-- The statements that `yield_running_thread` and `stop_running_thread` execute after the
dequeue: with a thread found, `curr_level` follows its level and it becomes the running
thread; otherwise the scheduler thread runs.  The context switch itself does not change
the modelled state. -/
def switch_to_next (st : State) (res : Int) (first_runnable : Ptr) : Option State :=
  if res ≠ -1 then
    match st.threads first_runnable with
    | none => none
    | some fr =>
      let st2 :=
        if st.curr_level ≠ fr.level then
          { st with curr_level := fr.level, curr_level_quanta := 0 }
        else st
      if st2.running_thread ≠ first_runnable then
        some { st2 with running_thread := first_runnable }
      else some st2
  else some { st with running_thread := st.scheduler_thread }

/-- The function `yield_running_thread`; `n` is the address `malloc` returns for the
queue node of the re-enqueued caller.  The dequeue of the next thread comes before the
caller is appended. -/
def yield_running_thread (st : State) (n : Ptr) : Option State :=
  match st.runnable_queue with
  | none => none
  | some mq =>
    match multilevel_queue_dequeue st.nodes mq st.curr_level NULL with
    | none => none
    | some (res, first_runnable, h', mq') =>
      let st1 := { st with nodes := h', runnable_queue := some mq' }
      if st1.running_thread ≠ st1.scheduler_thread then
        match st1.threads st1.running_thread with
        | none => none
        | some rt =>
          match multilevel_queue_enqueue st1.nodes mq' rt.level st1.running_thread n with
          | none => none
          | some (_, h2, mq2) =>
            switch_to_next { st1 with nodes := h2, runnable_queue := some mq2 } res
              first_runnable
      else switch_to_next st1 res first_runnable

/-- The level a thread moves to when it has used up its quanta: the next level, or
`curr_level` itself on the last level. -/
def next_level (st : State) : Int :=
  if st.curr_level + 1 = MAX_LEVELS then st.curr_level else st.curr_level + 1

/-- The function `minithread_yield`.  The statement `running_thread->quanta++` sits
inside the comment above the test, so the quanta are compared without being advanced. -/
def minithread_yield (st : State) (n : Ptr) : Option State :=
  match st.threads st.running_thread, table_get level_quantum_value st.curr_level with
  | some rt, some qv =>
    if rt.quanta = qv then
      yield_running_thread
        { st with threads := write st.threads st.running_thread
                    { rt with quanta := 0, level := next_level st } } n
    else yield_running_thread st n
  | _, _ => none

/-- The function `implement_scheduler`; `n` is the address `malloc` returns if the running
thread is re-enqueued. -/
def implement_scheduler (st : State) (n : Ptr) : Option State :=
  let st1 := { st with curr_level_quanta := st.curr_level_quanta + 1 }
  match st1.threads st1.running_thread with
  | none => none
  | some rt0 =>
    let rt : minithread := { rt0 with quanta := rt0.quanta + 1 }
    let st2 := { st1 with threads := write st1.threads st1.running_thread rt }
    match table_get level_max_quanta st2.curr_level,
        table_get level_quantum_value st2.curr_level with
    | some mx, some qv =>
      if st2.curr_level_quanta = mx then
        let st3 :=
          if rt.quanta = qv then
            { st2 with threads := write st2.threads st2.running_thread
                         { rt with quanta := 0, level := next_level st2 } }
          else st2
        yield_running_thread
          { st3 with curr_level := Int.tmod (st3.curr_level + 1) MAX_LEVELS,
                     curr_level_quanta := 0 } n
      else if rt.quanta = qv then
        yield_running_thread
          { st2 with threads := write st2.threads st2.running_thread
                       { rt with quanta := 0, level := next_level st2 } } n
      else some st2
    | _, _ => none

/-- The function `scheduler_thread_create`; `m` is the address `malloc` returns, which the
function does not check, `s0` and `q0` are the indeterminate contents of the fields `s` and
`quanta`, which it does not initialise. -/
def scheduler_thread_create (st : State) (m : Ptr) (s0 : status) (q0 : Int) :
    Option (Ptr × State) :=
  if m = NULL then none
  else
    some (m, { st with
      threads := write st.threads m
        { id := st.minithreads_count, s := s0, level := 0, quanta := q0 },
      minithreads_count := st.minithreads_count + 1 })

/-- The function `minithread_system_initialize` up to its scheduler loop (`assert` on the
scheduler thread).  `sched`, `reaper`, `main` are the addresses `malloc` returns for the
three thread records, `n` the one for the queue node of the main thread.  The
initialisers of the network layer that it calls act on other parts of the state
(`minimsg_initialize`, `minisocket_initialize` below). -/
def minithread_system_initialize (st : State) (sched : Ptr) (s0 : status) (q0 : Int)
    (reaper : Ptr) (s1 : status) (main : Ptr) (s2 : status) (n : Ptr) : Option State :=
  let st1 := { st with runnable_queue := multilevel_queue_new MAX_LEVELS,
                       stopped_queue := some queue_new }
  match scheduler_thread_create st1 sched s0 q0 with
  | none => none
  | some (t, st2) =>
    let st3 := { st2 with scheduler_thread := t, running_thread := t,
                          alarm_queue := some queue_new }
    let r := minithread_create st3 reaper s1
    let st4 := { r.2 with reaper_thread := r.1 }
    match minithread_fork st4 main s2 n with
    | none => none
    | some (_, st5) => some st5

/-- The global variables before `minithread_system_initialize` runs: all pointers NULL,
all counters 0, nothing allocated. -/
def state_null : State :=
  { nodes := fun _ => none, threads := fun _ => none, alarms := fun _ => none,
    minithreads_count := 0, nInterrupts := 0, curr_level := 0, curr_level_quanta := 0,
    runnable_queue := none, stopped_queue := none, running_thread := NULL,
    scheduler_thread := NULL, reaper_thread := NULL, alarm_queue := none }

/-- The scheduler states reachable from initialisation: by creating, starting and forking
threads, by `minithread_yield` and `minithread_stop` of the running thread, by the
scheduling step of a clock tick, and by steps of the rest of the system that leave the
thread records, the scheduler variables and the nodes of the runnable queue alone (alarm
and semaphore queues live in other nodes of the same heap).  `malloc` returns non-null
addresses that are not allocated.  Threads that run to completion are not part of this
relation. -/
inductive Reach : State → Prop where
  | boot (sched : Ptr) (s0 : status) (q0 : Int) (reaper : Ptr) (s1 : status) (main : Ptr)
      (s2 : status) (n : Ptr) (st : State) :
      sched ≠ NULL → reaper ≠ NULL → main ≠ NULL → sched ≠ reaper → sched ≠ main →
      reaper ≠ main → n ≠ NULL →
      minithread_system_initialize state_null sched s0 q0 reaper s1 main s2 n = some st →
      Reach st
  | create (st : State) (m : Ptr) (s0 : status) :
      Reach st → st.threads m = none → Reach (minithread_create st m s0).2
  | start (st : State) (t n : Ptr) (st' : State) :
      Reach st → n ≠ NULL → st.nodes n = none → minithread_start st t n = some st' →
      Reach st'
  | fork (st : State) (m : Ptr) (s0 : status) (n t : Ptr) (st' : State) :
      Reach st → st.threads m = none → n ≠ NULL → st.nodes n = none →
      minithread_fork st m s0 n = some (t, st') → Reach st'
  | yield (st : State) (n : Ptr) (st' : State) :
      Reach st → n ≠ NULL → st.nodes n = none → minithread_yield st n = some st' →
      Reach st'
  | stop (st st' : State) :
      Reach st → minithread_stop st = some st' → Reach st'
  | tick (st : State) (n : Ptr) (st' : State) :
      Reach st → n ≠ NULL → st.nodes n = none → implement_scheduler st n = some st' →
      Reach st'
  | other (st st' : State) :
      Reach st → st'.threads = st.threads → st'.minithreads_count = st.minithreads_count →
      st'.curr_level = st.curr_level → st'.curr_level_quanta = st.curr_level_quanta →
      st'.runnable_queue = st.runnable_queue → st'.running_thread = st.running_thread →
      st'.scheduler_thread = st.scheduler_thread → st'.reaper_thread = st.reaper_thread →
      (∀ mq css, st.runnable_queue = some mq → MRep st.nodes mq css →
        ∀ cs ∈ css, ∀ a ∈ addrs cs, st'.nodes a = st.nodes a) →
      Reach st'

/-- Invariant of the reachable scheduler states: the state is well formed, a running
thread other than the scheduler thread runs on `curr_level`, and every thread other than
the scheduler thread has used fewer quanta than its level allows. -/
structure RunInv (st : State) (mq : multilevel_queue) (css : List (List Cell))
    (qx : List queue) (cx : List (List Cell)) : Prop where
  sched : SchedInv st mq css qx cx
  curr_run : st.running_thread ≠ st.scheduler_thread →
    ∀ th, st.threads st.running_thread = some th → th.level = st.curr_level
  quanta : ∀ t th qv, t ≠ st.scheduler_thread → st.threads t = some th →
    table_get level_quantum_value th.level = some qv → 0 ≤ th.quanta ∧ th.quanta < qv

/-! ## minithread.c and alarm.c: the clock handler -/

/-- The function `call_handler` (`assert(alarm)`): the call `alarm->call_back(alarm->arg)`
through the function pointer; `run f x` is the effect of calling the function at address
`f` with argument `x`. -/
def call_handler (run : Ptr → Ptr → State → Option State) (st : State) (a : Ptr) :
    Option State :=
  if a = NULL then none
  else
    match st.alarms a with
    | none => none
    | some al => run al.call_back al.arg st

/-- The `while (next_alarm)` loop of `clock_handler`.  The list collects the handler calls
made, as pairs of function and argument, in order. -/
def clock_handler_loop (run : Ptr → Ptr → State → Option State) (qfuel : Nat) :
    Nat → State → Ptr → List (Ptr × Ptr) → Option (State × List (Ptr × Ptr))
  | 0, _, _, _ => none
  | fuel + 1, st, next_alarm, calls =>
    if next_alarm = NULL then some (st, calls)
    else
      match st.alarms next_alarm, call_handler run st next_alarm with
      | some al, some st1 =>
        match deregister_alarm qfuel st1 next_alarm with
        | none => none
        | some (_, st2) =>
          match get_next_alarm st2 with
          | none => none
          | some next =>
            clock_handler_loop run qfuel fuel st2 next (calls ++ [(al.call_back, al.arg)])
      | _, _ => none

/-- The function `clock_handler`; `n` is the address `malloc` returns if the scheduling
step re-enqueues the running thread.  The result carries the handler calls made. -/
def clock_handler (run : Ptr → Ptr → State → Option State) (qfuel fuel : Nat) (st : State)
    (n : Ptr) : Option (State × List (Ptr × Ptr)) :=
  let st1 := { st with nInterrupts := st.nInterrupts + 1 }
  match get_next_alarm st1 with
  | none => none
  | some next_alarm =>
    match clock_handler_loop run qfuel fuel st1 next_alarm [] with
    | none => none
    | some (st2, calls) =>
      match implement_scheduler st2 n with
      | none => none
      | some st3 => some (st3, calls)

/-! ## minisocket.h, minimsg.c, minisocket.c: types and the state of the network layer -/

/-- Socket states: `enum minisocket_status`. -/
inductive m_status where
  | INITIAL
  | WAITING_SYN
  | WAITING_SYNACK
  | WAITING_ACK
  | OPEN
  | CLOSING
  | CLOSED
  deriving DecidableEq

/-- Error codes: `enum minisocket_error`. -/
inductive minisocket_error where
  | SOCKET_NOERROR
  | SOCKET_NOMOREPORTS
  | SOCKET_PORTINUSE
  | SOCKET_NOSERVER
  | SOCKET_BUSY
  | SOCKET_SENDERROR
  | SOCKET_RECEIVEERROR
  | SOCKET_INVALIDPARAMS
  | SOCKET_OUTOFMEMORY
  deriving DecidableEq

/-- The value of the protocol byte of a packet, as the tests `header->protocol - '0' == ..`
see it. -/
inductive protocol_t where
  | PROTOCOL_MINIDATAGRAM
  | PROTOCOL_MINISTREAM
  | PROTOCOL_OTHER
  deriving DecidableEq

/-- The value of the message type byte of a stream packet, as the tests
`header->message_type - '0' == ..` see it. -/
inductive msg_t where
  | MSG_SYN
  | MSG_SYNACK
  | MSG_ACK
  | MSG_FIN
  | MSG_OTHER
  deriving DecidableEq

/-- Modelled from the spec: the header of a packet with its fields unpacked (protocol,
source address and port, destination address and port, and for stream packets message
type, sequence and acknowledgement number).  The byte layout and the pack and unpack
functions of `miniheader.h` are not among the sources. -/
structure mini_header where
  protocol : protocol_t
  source_address : Nat
  source_port : Int
  destination_address : Nat
  destination_port : Int
  message_type : msg_t
  seq_number : Nat
  ack_number : Nat
  deriving DecidableEq

/-- Modelled from the spec: a received packet (`network_interrupt_arg_t` of `network.h`):
its size in bytes, its header, and the bytes that follow the header. -/
structure network_interrupt_arg where
  size : Int
  header : mini_header
  payload : List Nat
  deriving DecidableEq

/-- Constants of `network.h`, `miniheader.h` and `minimsg.h`, which are not among the
sources: `sizeof(mini_header_t)`, `sizeof(mini_header_reliable_t)`, `MAX_NETWORK_PKT_SIZE`,
`MAX_PORTS`, `MIN_BOUND_PORT`, `MIN_UNBOUND_PORT`, `MAX_UNBOUND_PORT`. -/
structure Consts where
  mini_header_size : Int
  mini_header_reliable_size : Int
  MAX_NETWORK_PKT_SIZE : Int
  MAX_PORTS : Int
  MIN_BOUND_PORT : Int
  MIN_UNBOUND_PORT : Int
  MAX_UNBOUND_PORT : Int

/-- Stream socket: `struct minisocket`.  Network addresses are numbers; `data` is the
header of the queue the field points to. -/
structure minisocket where
  socket_type : Char
  socket_state : m_status
  local_port : Int
  local_addr : Nat
  remote_port : Int
  remote_addr : Nat
  data : queue
  data_ready : Ptr
  seq_number : Nat
  ack_number : Nat
  ack_flag : Int
  wait_for_ack : Ptr
  send_receive_mutex : Ptr

/-- Datagram port: `struct miniport`, with the fields of both members of the union. -/
structure miniport where
  p_type : Char
  p_number : Int
  data : queue
  data_ready : Ptr
  remote_addr : Nat
  remote_unbound_port : Int

/-- `#define N_TRUE 1`. -/
def N_TRUE : Int := 1

/-- `#define N_FALSE 0`. -/
def N_FALSE : Int := 0

/-- `#define MIN_SERVER_PORT 0`. -/
def MIN_SERVER_PORT : Int := 0

/-- `#define MAX_SERVER_PORT 32767`. -/
def MAX_SERVER_PORT : Int := 32767

/-- `#define MIN_CLIENT_PORT 32768`. -/
def MIN_CLIENT_PORT : Int := 32768

/-- `#define MAX_CLIENT_PORT 65535`. -/
def MAX_CLIENT_PORT : Int := 65535

/-- `N_CLIENT_PORTS`: `MAX_CLIENT_PORT - MIN_CLIENT_PORT + 1`. -/
def N_CLIENT_PORTS : Int := MAX_CLIENT_PORT - MIN_CLIENT_PORT + 1

/-- `N_PORTS`: the number of server ports plus the number of client ports. -/
def N_PORTS : Int := (MAX_SERVER_PORT - MIN_SERVER_PORT + 1) + N_CLIENT_PORTS

/-- The address of the function `semaphore_V`, as it is passed to `register_alarm`.  The
addresses of functions are arbitrary distinct numbers. -/
def FN_SEMAPHORE_V : Ptr := 1

/-- The address of the function `minisocket_close`. -/
def FN_MINISOCKET_CLOSE : Ptr := 2

/-- Modelled from the spec: the interrupt levels of `interrupts.h`, which is not among the
sources. -/
inductive interrupt_level_t where
  | DISABLED
  | ENABLED
  deriving DecidableEq

/-- The state of the whole system: the scheduler and alarm state, the heaps of
semaphores, packets, sockets and datagram ports, the global variables of `minisocket.c`
(`ports`, `n_client_ports`, `ports_mutex`, `local_host`) and of `minimsg.c` (`nPorts`,
`bound_ports_free`, `unbound_ports`, `mutex`), the packets handed to
`network_send_pkt` so far (destination, header, data bytes), oldest first, and the
interrupt level, which is `ENABLED` while threads run. -/
structure Net where
  st : State
  sems : Ptr → Option semaphore
  packets : Ptr → Option network_interrupt_arg
  sockets : Ptr → Option minisocket
  miniports : Ptr → Option miniport
  ports : Int → Ptr
  n_client_ports : Int
  ports_mutex : Ptr
  local_host : Nat
  nPorts : Int
  bound_ports_free : Int → Int
  unbound_ports : Int → Ptr
  mutex : Ptr
  sent : List (Nat × mini_header × List Nat)
  interrupt_level : interrupt_level_t := interrupt_level_t.ENABLED

/-- Modelled from the spec: the function `set_interrupt_level` of `interrupts.h`, which
is not among the sources: it sets the interrupt level and returns the previous one. -/
def set_interrupt_level (net : Net) (newlevel : interrupt_level_t) :
    interrupt_level_t × Net :=
  (net.interrupt_level, { net with interrupt_level := newlevel })

/-- What a call of `semaphore_P` needs from outside: the address `malloc` returns for the
node if the caller has to wait, and, for that case, the state of the system at the moment
the caller runs again (other threads and interrupt handlers have run in between). -/
structure Wait where
  node : Ptr
  env : Net → Net

/-- What a transmission needs from outside: whether `malloc` has memory for the header,
and the result of `network_send_pkt`. -/
structure Send where
  header : Bool
  result : Int

/-- Updating one entry of a table indexed by integers. -/
def table_set {α : Type} (t : Int → α) (i : Int) (v : α) : Int → α :=
  fun j => if j = i then v else t j

/-- The call `semaphore_P(sem)` made by the running thread: `semaphore_P` on the
semaphore record; if the caller had to wait, it continues in the state `w.env` gives. -/
def sem_P (net : Net) (sem : Ptr) (w : Wait) : Option Net :=
  match net.sems sem with
  | none => none
  | some s =>
    match semaphore_P net.st s w.node with
    | none => none
    | some (st', blocked, s') =>
      let net' := { net with st := st', sems := write net.sems sem s' }
      match blocked with
      | none => some net'
      | some _ => some (w.env net')

/-- The call `semaphore_V(sem)`; `n` is the address `malloc` returns if a thread is
started. -/
def sem_V (net : Net) (sem : Ptr) (n : Ptr) : Option Net :=
  match net.sems sem with
  | none => none
  | some s =>
    match semaphore_V net.st s n with
    | none => none
    | some (st', _, s') => some { net with st := st', sems := write net.sems sem s' }

/-- The statement `free(arg)` for a packet. -/
def free_packet (net : Net) (arg : Ptr) : Net :=
  { net with packets := release net.packets arg }

/-! ## minisocket.c -/

/-- The functions `create_control_header` and `send_control_message`: a header-only stream
packet from `local_host`.  `error` is the content of the out-parameter on entry, the
second component of the result its content on return. -/
def send_control_message (net : Net) (msg_type : msg_t) (dest_port : Int) (dest_addr : Nat)
    (src_port : Int) (seq ack : Nat) (error : minisocket_error) (o : Send) :
    Net × minisocket_error :=
  if o.header = false then (net, minisocket_error.SOCKET_OUTOFMEMORY)
  else
    let header : mini_header :=
      { protocol := protocol_t.PROTOCOL_MINISTREAM,
        source_address := net.local_host, source_port := src_port,
        destination_address := dest_addr, destination_port := dest_port,
        message_type := msg_type, seq_number := seq, ack_number := ack }
    let net1 := { net with sent := net.sent ++ [(dest_addr, header, [])] }
    if o.result = -1 then (net1, minisocket_error.SOCKET_SENDERROR) else (net1, error)

/-- The loop `while (queue_dequeue(q, &packet) != -1) free(packet);`. -/
def drain_packets : Nat → Net → queue → Option (Net × queue)
  | 0, _, _ => none
  | fuel + 1, net, q =>
    match queue_dequeue net.st.nodes q with
    | none => none
    | some (res, packet, h', q') =>
      let st1 : State := { net.st with nodes := h' }
      let net1 := { net with st := st1 }
      if res ≠ -1 then drain_packets fuel (free_packet net1 packet) q'
      else some (net1, q')

/-- The function `semaphore_destroy` (`assert(sem)`); `queue_free` has no effect on the
modelled state. -/
def semaphore_destroy (net : Net) (sem : Ptr) : Option Net :=
  if sem = NULL then none
  else
    match net.sems sem with
    | none => none
    | some _ => some { net with sems := release net.sems sem }

/-- The function `minisocket_free`; `lock` and `unlock` serve the `semaphore_P` and
`semaphore_V` on `ports_mutex`. -/
def minisocket_free (fuel : Nat) (net : Net) (sock : Ptr) (lock : Wait) (unlock : Ptr) :
    Option Net :=
  match net.sockets sock with
  | none => none
  | some s =>
    match drain_packets fuel net s.data with
    | none => none
    | some (net1, data1) =>
      let s2 : minisocket := { s with data := data1 }
      let net2 := { net1 with sockets := write net1.sockets sock s2 }
      match (semaphore_destroy net2 s.data_ready).bind
          (fun n => (semaphore_destroy n s.wait_for_ack).bind
            (fun n => semaphore_destroy n s.send_receive_mutex)) with
      | none => none
      | some net3 =>
        match sem_P net3 net3.ports_mutex lock with
        | none => none
        | some net4 =>
          match net4.sockets sock with
          | none => none
          | some s4 =>
            if s4.local_port < 0 ∨ s4.local_port ≥ N_PORTS then none
            else
              match sem_V { net4 with ports := table_set net4.ports s4.local_port NULL }
                  net4.ports_mutex unlock with
              | none => none
              | some net5 => some { net5 with sockets := release net5.sockets sock }

/-- The `for` loop of `minisocket_client_create` that looks for a free client port: `rem`
iterations are left, `i` is the loop counter; -1 if none is free. -/
def client_port_search (ports : Int → Ptr) : Nat → Int → Int
  | 0, _ => -1
  | rem + 1, i => if ports i = NULL then i else client_port_search ports rem (i + 1)

/-- The port selection of `minisocket_client_create`: the value of `port_val` and the
update of the cursor `n_client_ports`. -/
def client_port_select (net : Net) : Option (Int × Net) :=
  if net.n_client_ports < 0 ∨ net.n_client_ports ≥ N_PORTS then none
  else
    let port_val :=
      if net.ports net.n_client_ports = NULL then net.n_client_ports
      else client_port_search net.ports N_CLIENT_PORTS.toNat MIN_CLIENT_PORT
    let n1 := port_val + 1
    some (port_val, { net with n_client_ports := if n1 > MAX_CLIENT_PORT then 0 else n1 })

/-- What `minisocket_free` and the statements after it need from outside. -/
structure Cleanup where
  lock : Wait
  unlock : Ptr
  lock2 : Wait
  unlock2 : Ptr

/-- What one round of the client handshake needs from outside: the transmission of the
SYN, the addresses `malloc` returns for the alarm record and its queue node, the wait on
`data_ready`, and the transmission of the ACK. -/
structure Round where
  syn : Send
  alarm : Ptr
  alarm_node : Ptr
  wait : Wait
  ack : Send

/-- The statements of `minisocket_client_create` after a transmission has run out of
memory: `minisocket_free`, then `ports[new_socket->local_port] = NULL` under the mutex,
which reads the freed socket record. -/
def client_out_of_memory (fuel : Nat) (net : Net) (sock : Ptr) (s_error : minisocket_error)
    (c : Cleanup) : Option (Ptr × minisocket_error × Net) :=
  match minisocket_free fuel net sock c.lock c.unlock with
  | none => none
  | some net1 =>
    match sem_P net1 net1.ports_mutex c.lock2 with
    | none => none
    | some net2 =>
      match net2.sockets sock with
      | none => none
      | some s =>
        if s.local_port < 0 ∨ s.local_port ≥ N_PORTS then none
        else
          match sem_V { net2 with ports := table_set net2.ports s.local_port NULL }
              net2.ports_mutex c.unlock2 with
          | none => none
          | some net3 => some (NULL, s_error, net3)

/-- The `while (wait_val <= 12800)` loop of `minisocket_client_create` and the statements
after it.  Each round takes one element of the list.  `s_error` is the local variable,
`error` the content of the out-parameter.  The result is the return value, the content of
the out-parameter, the state, and the delays of the alarms registered, in order. -/
def client_handshake (fuel : Nat) (c : Cleanup) (sock : Ptr) :
    List Round → Net → Int → minisocket_error → minisocket_error → List Int →
      Option (Ptr × minisocket_error × Net × List Int)
  | [], net, wait_val, _, error, waits =>
    if wait_val ≤ 12800 then none
    else (minisocket_free fuel net sock c.lock c.unlock).map (fun n => (NULL, error, n, waits))
  | o :: os, net, wait_val, s_error, error, waits =>
    if wait_val ≤ 12800 then
      match net.sockets sock with
      | none => none
      | some s =>
        let r := send_control_message net msg_t.MSG_SYN s.remote_port s.remote_addr
          s.local_port 0 0 s_error o.syn
        let s1 : minisocket := { s with seq_number := 1, ack_number := 0 }
        let net1 := { r.1 with sockets := write r.1.sockets sock s1 }
        if r.2 = minisocket_error.SOCKET_OUTOFMEMORY then
          (client_out_of_memory fuel net1 sock r.2 c).map (fun x => (x.1, x.2.1, x.2.2, waits))
        else
          match register_alarm fuel net1.st wait_val FN_SEMAPHORE_V s.data_ready o.alarm
              o.alarm_node with
          | none => none
          | some (a, st2) =>
            match sem_P { net1 with st := st2 } s.data_ready o.wait with
            | none => none
            | some net3 =>
              match net3.sockets sock with
              | none => none
              | some s3 =>
                match (if queue_length s3.data ≠ 0 then
                        (deregister_alarm fuel net3.st a).map
                          (fun x => { net3 with st := x.2 })
                       else some net3) with
                | none => none
                | some net4 =>
                  if queue_length s3.data = 0 then
                    client_handshake fuel c sock os net4 (wait_val * 2) r.2 error
                      (waits ++ [wait_val])
                  else
                    match queue_dequeue net4.st.nodes s3.data with
                    | none => none
                    | some (_, arg, h', data') =>
                      let s4 : minisocket := { s3 with data := data' }
                      let st5 : State := { net4.st with nodes := h' }
                      let net5 := { net4 with st := st5, sockets := write net4.sockets sock s4 }
                      match net5.packets arg with
                      | none => none
                      | some pkt =>
                        if pkt.header.source_port = s3.remote_port ∧
                            pkt.header.source_address = s3.remote_addr then
                          if pkt.header.message_type = msg_t.MSG_SYNACK then
                            let r2 := send_control_message net5 msg_t.MSG_ACK s3.remote_port
                              s3.remote_addr s3.local_port 1 1 r.2 o.ack
                            let s5 : minisocket := { s4 with seq_number := 1, ack_number := 1 }
                            let net5a := { r2.1 with sockets := write r2.1.sockets sock s5 }
                            if r2.2 = minisocket_error.SOCKET_OUTOFMEMORY then
                              (client_out_of_memory fuel net5a sock r2.2 c).map
                                (fun x => (x.1, x.2.1, x.2.2, waits ++ [wait_val]))
                            else
                              match drain_packets fuel net5a data' with
                              | none => none
                              | some (net6, data6) =>
                                let s6 : minisocket :=
                                  { s5 with data := data6, socket_state := m_status.OPEN,
                                            seq_number := 2, ack_number := 1 }
                                let sems6 := write net6.sems s3.data_ready
                                  ( semaphore_initialize 0)
                                some (sock, error,
                                  { net6 with sems := sems6,
                                              sockets := write net6.sockets sock s6 },
                                  waits ++ [wait_val])
                          else if pkt.header.message_type = msg_t.MSG_FIN then
                            (minisocket_free fuel net5 sock c.lock c.unlock).map
                              (fun n => (NULL, error, n, waits ++ [wait_val]))
                          else
                            client_handshake fuel c sock os (free_packet net5 arg) wait_val
                              r.2 error (waits ++ [wait_val])
                        else
                          client_handshake fuel c sock os (free_packet net5 arg) wait_val
                            r.2 error (waits ++ [wait_val])
    else (minisocket_free fuel net sock c.lock c.unlock).map (fun n => (NULL, error, n, waits))

/-- What `minisocket_client_create` needs from outside: the addresses `malloc` returns
for the socket and its three semaphores, the indeterminate content of the field `ack_flag`
of the new socket record, which the function does not write, the indeterminate initial
content of the local variable `s_error`, the `semaphore_P` and `semaphore_V` on
`ports_mutex`, the rounds of the handshake, and the clean-up. -/
structure ClientOracle where
  socket : Ptr
  data_ready : Ptr
  wait_for_ack : Ptr
  send_receive_mutex : Ptr
  ack_flag : Int
  s_error : minisocket_error
  lock : Wait
  unlock : Ptr
  rounds : List Round
  cleanup : Cleanup

/-- The statements of `minisocket_client_create` before the handshake loop; `addr` is
`none` for a null address.  The result is either the return value and error code of an
early return, or the state in which the loop starts.  The socket record appears in the
heap with the first write to it; the fields written later are shown with their later
values from the start, as nothing reads them in between.  The field `ack_flag` is never
written and keeps what the allocation held. -/
def client_setup (net : Net) (addr : Option Nat) (port : Int) (o : ClientOracle) :
    Option ((Ptr × minisocket_error × Net) ⊕ Net) :=
  match addr with
  | none => some (Sum.inl (NULL, minisocket_error.SOCKET_INVALIDPARAMS, net))
  | some remote =>
    if port < MIN_SERVER_PORT ∨ port > MAX_SERVER_PORT then
      some (Sum.inl (NULL, minisocket_error.SOCKET_INVALIDPARAMS, net))
    else
      match client_port_select net with
      | none => none
      | some (port_val, net1) =>
        if port_val = -1 then
          some (Sum.inl (NULL, minisocket_error.SOCKET_NOMOREPORTS, net1))
        else if o.socket = NULL then
          some (Sum.inl (NULL, minisocket_error.SOCKET_OUTOFMEMORY, net1))
        else
          let s : minisocket :=
            { socket_type := 'c', socket_state := m_status.INITIAL, local_port := port_val,
              local_addr := net1.local_host, remote_port := port, remote_addr := remote,
              data := queue_new, data_ready := o.data_ready, seq_number := 0,
              ack_number := 0, ack_flag := o.ack_flag, wait_for_ack := o.wait_for_ack,
              send_receive_mutex := o.send_receive_mutex }
          let net2 := { net1 with sockets := write net1.sockets o.socket s }
          match sem_P net2 net2.ports_mutex o.lock with
          | none => none
          | some net3 =>
            match sem_V { net3 with ports := table_set net3.ports port_val o.socket }
                net3.ports_mutex o.unlock with
            | none => none
            | some net4 =>
              if o.data_ready = NULL ∨ o.wait_for_ack = NULL ∨ o.send_receive_mutex = NULL
              then none
              else
                let sems1 := write (write (write net4.sems o.data_ready
                  ( semaphore_initialize 0)) o.wait_for_ack ( semaphore_initialize 0))
                  o.send_receive_mutex ( semaphore_initialize 1)
                let s5 : minisocket := { s with socket_state := m_status.WAITING_SYNACK }
                some (Sum.inr { net4 with sems := sems1,
                                          sockets := write net4.sockets o.socket s5 })

/-- The function `minisocket_client_create`; `error` is the content of the out-parameter
on entry.  The result is the return value, the content of the out-parameter on return,
the state, and the delays of the alarms the handshake registered, one for each SYN handed
to the network. -/
def minisocket_client_create (fuel : Nat) (net : Net) (addr : Option Nat) (port : Int)
    (error : minisocket_error) (o : ClientOracle) :
    Option (Ptr × minisocket_error × Net × List Int) :=
  match client_setup net addr port o with
  | none => none
  | some (Sum.inl r) => some (r.1, r.2.1, r.2.2, [])
  | some (Sum.inr net5) =>
    client_handshake fuel o.cleanup o.socket o.rounds net5 100 o.s_error error []

/-- A handshake in which no packet is ever received: in every round the transmission of
the SYN does not end with `SOCKET_OUTOFMEMORY` in `s_error`, the alarm is registered, the
caller waits on `data_ready` and, when it runs again, finds the data queue of its socket
empty; and the final `minisocket_free` returns. -/
def quiet_rounds (fuel : Nat) (c : Cleanup) (sock : Ptr) :
    List Round → Net → Int → minisocket_error → Bool
  | [], net, wait_val, _ =>
    decide (12800 < wait_val) && (minisocket_free fuel net sock c.lock c.unlock).isSome
  | o :: os, net, wait_val, s_error =>
    if wait_val ≤ 12800 then
      match net.sockets sock with
      | none => false
      | some s =>
        let r := send_control_message net msg_t.MSG_SYN s.remote_port s.remote_addr
          s.local_port 0 0 s_error o.syn
        let s1 : minisocket := { s with seq_number := 1, ack_number := 0 }
        let net1 := { r.1 with sockets := write r.1.sockets sock s1 }
        decide (r.2 ≠ minisocket_error.SOCKET_OUTOFMEMORY) &&
          match register_alarm fuel net1.st wait_val FN_SEMAPHORE_V s.data_ready o.alarm
              o.alarm_node with
          | none => false
          | some (_, st2) =>
            match sem_P { net1 with st := st2 } s.data_ready o.wait with
            | none => false
            | some net3 =>
              match net3.sockets sock with
              | none => false
              | some s3 =>
                decide (queue_length s3.data = 0) &&
                  quiet_rounds fuel c sock os net3 (wait_val * 2) r.2
    else (minisocket_free fuel net sock c.lock c.unlock).isSome

/-- The delays of a handshake without replies that starts with the delay `w`: `w`, `2w`,
`4w`, .. as long as they do not exceed 12800, at most `n` of them. -/
def backoff : Nat → Int → List Int
  | 0, _ => []
  | n + 1, w => if w ≤ 12800 then w :: backoff n (w * 2) else []

/-- The function `minisocket_initialize`; `m` is the address `semaphore_create` returns
(`assert(sem)`), `host` the address `network_get_my_address` reports. -/
def minisocket_initialize (net : Net) (m : Ptr) (host : Nat) : Option Net :=
  if m = NULL then none
  else
    some { net with
      ports := fun _ => NULL, ports_mutex := m,
      sems := write net.sems m ( semaphore_initialize 1),
      n_client_ports := MIN_CLIENT_PORT, local_host := host }

/-- What `minisocket_receive` needs from outside: the waits on the mutex and on
`data_ready`, the `semaphore_V` on the mutex, and for the branch that puts a remainder
back: whether `malloc` has memory for a header, the address of the local variable `arg`
and the address `malloc` returns for the queue node. -/
structure Receive where
  lock : Wait
  ready : Wait
  unlock : Ptr
  header : Bool
  stack : Ptr
  node : Ptr

/-- The function `minisocket_receive`; `msg_null` says that the buffer pointer is null,
`error` is the content of the out-parameter on entry.  The result is the return value, the
content of the out-parameter on return, the bytes written to the buffer, and the state. -/
def minisocket_receive (k : Consts) (net : Net) (sock : Ptr) (msg_null : Bool)
    (max_len : Int) (error : minisocket_error) (o : Receive) :
    Option (Int × minisocket_error × List Nat × Net) :=
  match net.sockets sock with
  | none => none
  | some s =>
    if s.socket_state = m_status.CLOSED ∨ s.socket_state = m_status.CLOSING then
      some (0, minisocket_error.SOCKET_RECEIVEERROR, [], net)
    else if s.socket_state ≠ m_status.OPEN ∨ msg_null = true then
      some (-1, minisocket_error.SOCKET_INVALIDPARAMS, [], net)
    else if max_len = 0 then some (0, minisocket_error.SOCKET_NOERROR, [], net)
    else
      match (sem_P net s.send_receive_mutex o.lock).bind
          (fun n => match n.sockets sock with
            | none => none
            | some s1 => sem_P n s1.data_ready o.ready) with
      | none => none
      | some net2 =>
        match net2.sockets sock with
        | none => none
        | some s2 =>
          if s2.socket_state = m_status.CLOSED ∨ s2.socket_state = m_status.CLOSING then
            some (0, minisocket_error.SOCKET_RECEIVEERROR, [], net2)
          else
            match queue_dequeue net2.st.nodes s2.data with
            | none => none
            | some (_, arg, h', data') =>
              let s3 : minisocket := { s2 with data := data' }
              let st3 : State := { net2.st with nodes := h' }
              let net3 := { net2 with st := st3, sockets := write net2.sockets sock s3 }
              match net3.packets arg with
              | none => none
              | some pkt =>
                let msg_len := pkt.size - k.mini_header_reliable_size
                if msg_len > 0 then
                  let copy_len := if msg_len > max_len then max_len else msg_len
                  let msg := (List.range copy_len.toNat).map (fun i => pkt.payload.getD i 0)
                  if copy_len > max_len then
                    if o.header = false then
                      (sem_V net3 s3.send_receive_mutex o.unlock).map
                        (fun n => (-1, minisocket_error.SOCKET_OUTOFMEMORY, msg, n))
                    else
                      let hd : mini_header :=
                        { pkt.header with
                          seq_number := (pkt.header.seq_number + max_len.toNat) % 2 ^ 32 }
                      let pkt1 : network_interrupt_arg :=
                        { size := msg_len + k.mini_header_reliable_size, header := hd,
                          payload := pkt.payload.drop max_len.toNat }
                      match queue_prepend net3.st.nodes s3.data o.stack o.node with
                      | none => none
                      | some (_, h4, data4) =>
                        let s4 : minisocket := { s3 with data := data4 }
                        let st4 : State := { net3.st with nodes := h4 }
                        let net4 := { net3 with
                          st := st4, packets := write net3.packets arg pkt1,
                          sockets := write net3.sockets sock s4 }
                        (sem_V net4 s4.send_receive_mutex o.unlock).map
                          (fun n => (copy_len, error, msg, n))
                  else
                    (sem_V net3 s3.send_receive_mutex o.unlock).map
                      (fun n => (copy_len, error, msg, n))
                else none

/-- What one round of the FIN retransmission in `minisocket_close` needs from outside. -/
structure CloseRound where
  fin : Send
  alarm : Ptr
  alarm_node : Ptr
  wait : Wait

/-- The `while (wait_val <= 12800)` loop of `minisocket_close` and the `semaphore_V` on
the mutex after it. -/
def close_loop (fuel : Nat) (c : Cleanup) (sock : Ptr) (unlock : Ptr) :
    List CloseRound → Net → Int → minisocket_error → Option Net
  | [], net, wait_val, _ =>
    if wait_val ≤ 12800 then none
    else
      match net.sockets sock with
      | none => none
      | some s => sem_V net s.send_receive_mutex unlock
  | o :: os, net, wait_val, s_error =>
    if wait_val ≤ 12800 then
      match net.sockets sock with
      | none => none
      | some s =>
        let r := send_control_message net msg_t.MSG_FIN s.remote_port s.remote_addr
          s.local_port s.seq_number s.ack_number s_error o.fin
        let s1 : minisocket := { s with seq_number := (s.seq_number + 1) % 2 ^ 32 }
        let net1 := { r.1 with sockets := write r.1.sockets sock s1 }
        if r.2 = minisocket_error.SOCKET_OUTOFMEMORY then some net1
        else
          match register_alarm fuel net1.st wait_val FN_SEMAPHORE_V s.wait_for_ack o.alarm
              o.alarm_node with
          | none => none
          | some (a, st2) =>
            match sem_P { net1 with st := st2 } s.wait_for_ack o.wait with
            | none => none
            | some net3 =>
              match net3.sockets sock with
              | none => none
              | some s3 =>
                if s3.ack_flag = 0 then
                  let s4 : minisocket :=
                    { s3 with seq_number := (s3.seq_number + (2 ^ 32 - 1)) % 2 ^ 32 }
                  close_loop fuel c sock unlock os
                    { net3 with sockets := write net3.sockets sock s4 } (wait_val * 2) r.2
                else if s3.ack_flag = 1 then
                  match deregister_alarm fuel net3.st a with
                  | none => none
                  | some x => minisocket_free fuel { net3 with st := x.2 } sock c.lock c.unlock
                else close_loop fuel c sock unlock os net3 wait_val r.2
    else
      match net.sockets sock with
      | none => none
      | some s => sem_V net s.send_receive_mutex unlock

/-- What `minisocket_close` needs from outside. -/
structure CloseOracle where
  s_error : minisocket_error
  rounds : List CloseRound
  cleanup : Cleanup
  unlock : Ptr

/-- The function `minisocket_close`.  With a null socket the function goes on to
`semaphore_V(socket->send_receive_mutex)`, which reads through the null pointer. -/
def minisocket_close (fuel : Nat) (net : Net) (sock : Ptr) (o : CloseOracle) : Option Net :=
  if sock ≠ NULL then
    match net.sockets sock with
    | none => none
    | some s =>
      if s.socket_state = m_status.CLOSING then
        let s1 : minisocket := { s with socket_state := m_status.WAITING_SYN }
        some { net with sockets := write net.sockets sock s1 }
      else if s.socket_state = m_status.CLOSED then
        minisocket_free fuel net sock o.cleanup.lock o.cleanup.unlock
      else close_loop fuel o.cleanup sock o.unlock o.rounds net 100 o.s_error
  else none

/-- What the handlers of received packets need from outside: the addresses `malloc`
returns for the node in `queue_append`, for the nodes of the threads that `semaphore_V`
starts (on `data_ready`, in the loop after a FIN, on `wait_for_ack`), for the alarm record
and its node, and the transmission of the reply. -/
structure Ingress where
  node : Ptr
  wake : Ptr
  wakes : List Ptr
  wake_ack : Ptr
  send : Send
  alarm : Ptr
  alarm_node : Ptr

/-- The loop `while (count < 0) { semaphore_V(sem); count++; }`. -/
def wake_all (sem : Ptr) : List Ptr → Net → Int → Option Net
  | [], net, count => if count < 0 then none else some net
  | n :: ns, net, count =>
    if count < 0 then
      match sem_V net sem n with
      | none => none
      | some net1 => wake_all sem ns net1 (count + 1)
    else some net

/-- The statements of `minisocket_handle_tcp_packet` for the data of an acknowledgement
with the expected number, `sock` being `ports[port]` and `s` its record: a packet with
`packet_size != 0` is appended to the data queue, `data_ready` is signalled, `ack_number`
advances by `packet_size`, and a bare acknowledgement is sent. -/
def tcp_ack_payload (k : Consts) (net : Net) (arg : Ptr) (pkt : network_interrupt_arg)
    (sock : Ptr) (s : minisocket) (o : Ingress) : Option Net :=
  let packet_size := pkt.size - k.mini_header_reliable_size
  if packet_size ≠ 0 then
    match queue_append net.st.nodes s.data arg o.node with
    | none => none
    | some (_, h', data') =>
      let s1 : minisocket := { s with data := data' }
      let st1 : State := { net.st with nodes := h' }
      match sem_V { net with st := st1, sockets := write net.sockets sock s1 }
          s.data_ready o.wake with
      | none => none
      | some net1 =>
        match net1.sockets sock with
        | none => none
        | some s2 =>
          let s3 : minisocket := { s2 with
            ack_number := ((s2.ack_number + packet_size) % 2 ^ 32).toNat }
          let net2 := (send_control_message net1 msg_t.MSG_ACK pkt.header.source_port
            pkt.header.source_address pkt.header.destination_port s3.seq_number s3.ack_number
            minisocket_error.SOCKET_NOERROR o.send).1
          some { net2 with sockets := write net2.sockets sock s3 }
  else some net

/-- The statements of `minisocket_handle_tcp_packet` that end the handling of an
acknowledgement with the expected number: `if (ports[port]->ack_flag == 0)` the flag is
set and `wait_for_ack` is signalled. -/
def tcp_ack_flag (net : Net) (sock : Ptr) (o : Ingress) : Option Net :=
  match net.sockets sock with
  | none => none
  | some s4 =>
    if s4.ack_flag = 0 then
      let s5 : minisocket := { s4 with ack_flag := 1 }
      sem_V { net with sockets := write net.sockets sock s5 } s5.wait_for_ack o.wake_ack
    else some net

/-- The function `minisocket_handle_tcp_packet`. -/
def minisocket_handle_tcp_packet (fuel : Nat) (k : Consts) (net : Net) (arg : Ptr)
    (o : Ingress) : Option Net :=
  match net.packets arg with
  | none => none
  | some pkt =>
    let port := pkt.header.destination_port
    if port < MIN_SERVER_PORT ∨ port > MAX_CLIENT_PORT ∨ net.ports port = NULL then
      some (free_packet net arg)
    else
      match net.sockets (net.ports port) with
      | none => none
      | some s =>
        if s.socket_state = m_status.INITIAL ∨ s.socket_state = m_status.CLOSED then
          some (free_packet net arg)
        else if s.socket_state ≠ m_status.OPEN then
          match queue_append net.st.nodes s.data arg o.node with
          | none => none
          | some (_, h', data') =>
            let s1 : minisocket := { s with data := data' }
            let st1 : State := { net.st with nodes := h' }
            sem_V { net with st := st1, sockets := write net.sockets (net.ports port) s1 }
              s.data_ready o.wake
        else
          let saddr := pkt.header.source_address
          let sport := pkt.header.source_port
          if s.remote_addr ≠ saddr ∨ s.remote_port ≠ sport then
            if pkt.header.message_type = msg_t.MSG_SYN then
              some (free_packet (send_control_message net msg_t.MSG_FIN sport saddr port 0 0
                minisocket_error.SOCKET_NOERROR o.send).1 arg)
            else some (free_packet net arg)
          else if pkt.header.message_type = msg_t.MSG_SYNACK then
            some (free_packet (send_control_message net msg_t.MSG_ACK sport saddr port 0 0
              minisocket_error.SOCKET_NOERROR o.send).1 arg)
          else if pkt.header.message_type = msg_t.MSG_FIN then
            let s1 : minisocket := { s with ack_number := (s.ack_number + 1) % 2 ^ 32 }
            let net1 := (send_control_message net msg_t.MSG_ACK sport saddr port s1.seq_number
              s1.ack_number minisocket_error.SOCKET_NOERROR o.send).1
            let s2 : minisocket := { s1 with socket_state := m_status.CLOSING }
            let net2 := { net1 with sockets := write net1.sockets (net.ports port) s2 }
            match net2.sems s2.data_ready with
            | none => none
            | some dr =>
              match wake_all s2.data_ready o.wakes net2 (semaphore_get_count dr) with
              | none => none
              | some net3 =>
                match register_alarm fuel net3.st 15000 FN_MINISOCKET_CLOSE (net.ports port)
                    o.alarm o.alarm_node with
                | none => none
                | some (_, st4) => some (free_packet { net3 with st := st4 } arg)
          else if pkt.header.message_type = msg_t.MSG_ACK then
            if pkt.header.ack_number = s.seq_number then
              match tcp_ack_payload k net arg pkt (net.ports port) s o with
              | none => none
              | some net3 => tcp_ack_flag net3 (net.ports port) o
            else some (free_packet net arg)
          else some net

/-! ## minimsg.c -/

/-- The function `minimsg_initialize`; `m` is the address `semaphore_create` returns. -/
def minimsg_initialize (net : Net) (m : Ptr) : Option Net :=
  if m = NULL then none
  else
    some { net with
      nPorts := 0, mutex := m, sems := write net.sems m ( semaphore_initialize 1),
      bound_ports_free := fun _ => N_TRUE, unbound_ports := fun _ => NULL }

/-- The `for` loop of `miniport_create_bound`, which goes through the whole table: `rem`
iterations are left, `i` is the loop counter, `p_number` the port number assigned so
far. -/
def bound_port_search (k : Consts) : Nat → Int → (Int → Int) → Int → (Int → Int) × Int
  | 0, _, free, p_number => (free, p_number)
  | rem + 1, i, free, p_number =>
    if free i = N_TRUE then
      bound_port_search k rem (i + 1) (table_set free i N_FALSE) (i + k.MIN_BOUND_PORT)
    else bound_port_search k rem (i + 1) free p_number

/-- The function `miniport_create_bound`; `addr` is `none` for a null address, `m` the
address `malloc` returns for the port, `lock` and `unlock` serve the `semaphore_P` and
`semaphore_V` on `mutex`.  The result is the return value and the state. -/
def miniport_create_bound (k : Consts) (net : Net) (addr : Option Nat)
    (remote_unbound_port_number : Int) (m : Ptr) (lock : Wait) (unlock : Ptr) :
    Option (Ptr × Net) :=
  match addr with
  | none => some (NULL, net)
  | some remote =>
    if remote_unbound_port_number < k.MIN_UNBOUND_PORT ∨
        remote_unbound_port_number > k.MAX_UNBOUND_PORT then some (NULL, net)
    else if m = NULL then some (NULL, net)
    else
      let p0 : miniport :=
        { p_type := 'b', p_number := -1, data := queue_new, data_ready := NULL,
          remote_addr := 0, remote_unbound_port := 0 }
      match sem_P { net with miniports := write net.miniports m p0 } net.mutex lock with
      | none => none
      | some net1 =>
        match (if net1.nPorts < k.MAX_PORTS - 1 then
            if net1.nPorts < 0 then none
            else
              some ({ net1 with
                bound_ports_free := table_set net1.bound_ports_free net1.nPorts N_FALSE,
                nPorts := net1.nPorts + 1 }, net1.nPorts + k.MIN_BOUND_PORT)
          else
            let r := bound_port_search k k.MAX_PORTS.toNat 0 net1.bound_ports_free (-1)
            some ({ net1 with bound_ports_free := r.1 }, r.2)) with
        | none => none
        | some (net2, p_number) =>
          let p1 : miniport := { p0 with p_number := p_number }
          match sem_V { net2 with miniports := write net2.miniports m p1 } net2.mutex
              unlock with
          | none => none
          | some net3 =>
            if p_number = -1 then some (NULL, net3)
            else
              let p2 : miniport :=
                { p1 with remote_addr := remote,
                          remote_unbound_port := remote_unbound_port_number }
              some (m, { net3 with miniports := write net3.miniports m p2 })

/-- The function `miniport_destroy` (`assert(miniport)`).  For an unbound port the
function clears the entry of `unbound_ports` and then calls `queue_dequeue` with a null
out-parameter `item`, through which `queue_dequeue` writes on both of its paths: that
branch has no defined result. -/
def miniport_destroy (k : Consts) (net : Net) (p : Ptr) (lock : Wait) (unlock : Ptr) :
    Option Net :=
  if p = NULL then none
  else
    match net.miniports p with
    | none => none
    | some mp =>
      if mp.p_type = 'u' then none
      else
        match sem_P net net.mutex lock with
        | none => none
        | some net1 =>
          match net1.miniports p with
          | none => none
          | some mp1 =>
            let i := mp1.p_number - k.MIN_BOUND_PORT
            if i < 0 ∨ i ≥ k.MAX_PORTS then none
            else
              match sem_V { net1 with
                  bound_ports_free := table_set net1.bound_ports_free i N_TRUE }
                  net1.mutex unlock with
              | none => none
              | some net2 => some { net2 with miniports := release net2.miniports p }

/-- The function `miniport_create_unbound`; `m` is the address `malloc` returns for the
port, `sm` the one `semaphore_create` returns (`assert(sem)`).  The interrupt level is
followed through each path: `old_level` is what `set_interrupt_level(DISABLED)` returned. -/
def miniport_create_unbound (k : Consts) (net : Net) (port_number : Int) (m sm : Ptr) :
    Option (Ptr × Net) :=
  if port_number > k.MAX_UNBOUND_PORT ∨ port_number < k.MIN_UNBOUND_PORT then
    some (NULL, net)
  else
    let r := set_interrupt_level net interrupt_level_t.DISABLED
    let old_level := r.1
    let net1 := r.2
    if port_number < 0 ∨ port_number ≥ k.MAX_PORTS then none
    else if net1.unbound_ports port_number ≠ NULL then
      some (net1.unbound_ports port_number, net1)
    else if m = NULL then some (NULL, (set_interrupt_level net1 old_level).2)
    else
      let net2 := { net1 with unbound_ports := table_set net1.unbound_ports port_number m }
      let net3 := (set_interrupt_level net2 old_level).2
      if sm = NULL then none
      else
        let p : miniport :=
          { p_type := 'u', p_number := port_number, data := queue_new, data_ready := sm,
            remote_addr := 0, remote_unbound_port := 0 }
        some (m, { net3 with
          miniports := write net3.miniports m p,
          sems := write net3.sems sm ( semaphore_initialize 0) })

/-- The function `handle_udp_packet`, with `minimsg_get_data_queue` and
`minimsg_get_semaphore`. -/
def handle_udp_packet (k : Consts) (net : Net) (arg : Ptr) (o : Ingress) : Option Net :=
  match net.packets arg with
  | none => none
  | some pkt =>
    if pkt.size ≤ k.mini_header_size ∨ pkt.size > k.MAX_NETWORK_PKT_SIZE then
      some (free_packet net arg)
    else
      let port := pkt.header.destination_port
      if port < 0 ∨ port ≥ k.MAX_PORTS then none
      else if net.unbound_ports port = NULL then some (free_packet net arg)
      else
        match net.miniports (net.unbound_ports port) with
        | none => none
        | some mp =>
          match queue_append net.st.nodes mp.data arg o.node with
          | none => none
          | some (_, h', data') =>
            let mp1 : miniport := { mp with data := data' }
            let st1 : State := { net.st with nodes := h' }
            sem_V { net with
                st := st1, miniports := write net.miniports (net.unbound_ports port) mp1 }
              mp1.data_ready o.wake

/-! ## minithread.c: the network handler -/

/-- The function `network_handler`. -/
def network_handler (fuel : Nat) (k : Consts) (net : Net) (a : Ptr) (o : Ingress) :
    Option Net :=
  if a = NULL then some net
  else
    match net.packets a with
    | none => none
    | some pkt =>
      if pkt.size < k.mini_header_size then some (free_packet net a)
      else if pkt.header.protocol = protocol_t.PROTOCOL_MINIDATAGRAM then
        handle_udp_packet k net a o
      else if pkt.header.protocol = protocol_t.PROTOCOL_MINISTREAM then
        minisocket_handle_tcp_packet fuel k net a o
      else some (free_packet net a)

/-- Well-formedness of an unbound port in the system: the runnable queue `mq` (with
`MAX_LEVELS` levels holding the nodes `css`), the data queue `dq` of the port (holding
`ds`) and the wait list of its semaphore (holding `ws`) lie in the node heap without
sharing nodes; every waiter is an allocated thread with a level in range; the number of
waiters is `max(0, -count)`. -/
structure PortInv (st : State) (dq : queue) (sem : semaphore) (mq : multilevel_queue)
    (css : List (List Cell)) (ds ws : List Cell) : Prop where
  rq : st.runnable_queue = some mq
  four : mq.n_levels = MAX_LEVELS
  rep : MRepX st.nodes mq css [dq, sem.wait_list] [ds, ws]
  waiters : ∀ c ∈ ws, ∃ th, st.threads c.data = some th ∧ 0 ≤ th.level ∧ th.level < MAX_LEVELS
  count : (ws.length : Int) = max 0 (-sem.count)

/-- The alarm records behind the nodes `cs` of the alarm queue: every node holds a
non-null allocated alarm whose deadline is the priority of the node, and no alarm is
queued twice. -/
structure AlarmsOk (st : State) (cs : List Cell) : Prop where
  alloc : ∀ c ∈ cs, c.data ≠ NULL ∧ ∃ al, st.alarms c.data = some al ∧ al.end_ = c.priority
  nodup : (items cs).Nodup

/-- The handler calls for the alarms in the nodes `cs`. -/
def alarm_calls (st : State) (cs : List Cell) : List (Ptr × Ptr) :=
  cs.filterMap (fun c => (st.alarms c.data).map (fun al => (al.call_back, al.arg)))

/-- The outcome of `get_next_alarm` at tick `t` on an alarm queue with nodes `cs`: the
head alarm if its deadline is `t`, else NULL. -/
def next_due (t : Int) : List Cell → Ptr
  | [] => NULL
  | c :: _ => if c.priority = t then c.data else NULL

/-- The number of `semaphore_P` calls in a sequence of calls. -/
def count_P : List SemOp → Int
  | [] => 0
  | SemOp.P _ :: ops => count_P ops + 1
  | SemOp.V _ :: ops => count_P ops

/-- The number of `semaphore_V` calls in a sequence of calls. -/
def count_V : List SemOp → Int
  | [] => 0
  | SemOp.P _ :: ops => count_V ops
  | SemOp.V _ :: ops => count_V ops + 1

/-- The state in which `implement_scheduler` reaches its test `if (schedule_next)`, for the
record `rt` of the running thread and the table entries `qv` and `mx` of `curr_level`:
both counters are advanced; the running thread has moved to the next level with its
quanta reset if it has used `qv` quanta; the level cursor has moved on with its counter
reset if that counter has reached `mx`. -/
def tick_account (st : State) (rt : minithread) (qv mx : Int) : State :=
  let rt1 : minithread :=
    if rt.quanta + 1 = qv then { rt with quanta := 0, level := next_level st }
    else { rt with quanta := rt.quanta + 1 }
  let lv : Int :=
    if st.curr_level_quanta + 1 = mx then Int.tmod (st.curr_level + 1) MAX_LEVELS
    else st.curr_level
  let lq : Int := if st.curr_level_quanta + 1 = mx then 0 else st.curr_level_quanta + 1
  { st with threads := write st.threads st.running_thread rt1, curr_level := lv,
            curr_level_quanta := lq }

/-- What one transmission in `minisocket_send` needs from outside: the result of
`network_send_pkt`, the addresses `malloc` returns for the alarm record and its queue
node, the wait on `wait_for_ack`, and the address `malloc` returns if the `semaphore_V`
on the mutex starts a thread. -/
structure SendRound where
  result : Int
  alarm : Ptr
  alarm_node : Ptr
  wait : Wait
  unlock : Ptr

/-- What the transmissions of one chunk need from outside: whether `malloc` has memory
for the header, and the rounds. -/
structure SendChunk where
  header : Bool
  rounds : List SendRound

/-- What `minisocket_send` needs from outside: the wait on the mutex, the chunks, and the
address `malloc` returns if the `semaphore_V` on the mutex after the loops starts a
thread. -/
structure SendOracle where
  lock : Wait
  chunks : List SendChunk
  unlock : Ptr

/-- The `while (wait <= 12800)` loop of `minisocket_send` for one chunk: `header` is the
header made for the chunk, `payload` its bytes.  Each round takes one element of the list.
The result is `Sum.inl` with return value, error code and state if the function returned
from inside the loop, and `Sum.inr` with the state, `sent_byte` and `wait` if the loop was
left; next to it the alarms registered so far (delay, handler, argument), in order. -/
def send_rounds (fuel : Nat) (sock : Ptr) (header : mini_header) (payload : List Nat)
    (transfer_length sent_byte : Int) :
    List SendRound → Net → Int → List (Int × Ptr × Ptr) →
      Option (((Int × minisocket_error × Net) ⊕ (Net × Int × Int)) × List (Int × Ptr × Ptr))
  | [], net, wait, log =>
    if wait ≤ 12800 then none else some (Sum.inr (net, sent_byte, wait), log)
  | o :: os, net, wait, log =>
    if wait ≤ 12800 then
      match net.sockets sock with
      | none => none
      | some s =>
        let s1 : minisocket := { s with ack_flag := 0 }
        let s2 : minisocket :=
          { s1 with seq_number := (((s.seq_number : Int) + transfer_length) % 2 ^ 32).toNat }
        let net1 := { net with sent := net.sent ++ [(s.remote_addr, header, payload)],
                               sockets := write net.sockets sock s2 }
        if o.result = -1 then
          (sem_V net1 s.send_receive_mutex o.unlock).map
            (fun n => (Sum.inl (if sent_byte = 0 then -1 else sent_byte,
              minisocket_error.SOCKET_SENDERROR, n), log))
        else
          match register_alarm fuel net1.st wait FN_SEMAPHORE_V s.data_ready o.alarm
              o.alarm_node with
          | none => none
          | some (a, st2) =>
            let log1 := log ++ [(wait, FN_SEMAPHORE_V, s.data_ready)]
            match sem_P { net1 with st := st2 } s.wait_for_ack o.wait with
            | none => none
            | some net3 =>
              match net3.sockets sock with
              | none => none
              | some s3 =>
                if s3.socket_state = m_status.CLOSED ∨
                    s3.socket_state = m_status.CLOSING then
                  some (Sum.inl (0, minisocket_error.SOCKET_SENDERROR, net3), log1)
                else if s3.ack_flag = 0 then
                  let s4 : minisocket := { s3 with
                    seq_number := (((s3.seq_number : Int) - transfer_length) % 2 ^ 32).toNat }
                  match sem_V { net3 with sockets := write net3.sockets sock s4 }
                      s3.send_receive_mutex o.unlock with
                  | none => none
                  | some net5 =>
                    send_rounds fuel sock header payload transfer_length sent_byte os net5
                      (wait * 2) log1
                else if s3.ack_flag = 1 then
                  match deregister_alarm fuel net3.st a with
                  | none => none
                  | some x =>
                    match sem_V { net3 with st := x.2 } s3.send_receive_mutex o.unlock with
                    | none => none
                    | some net5 =>
                      some (Sum.inr (net5, sent_byte + transfer_length, wait), log1)
                else
                  send_rounds fuel sock header payload transfer_length sent_byte os net3
                    wait log1
    else some (Sum.inr (net, sent_byte, wait), log)

/-- The `do .. while (sent_byte != len)` loop of `minisocket_send` and the statements after
it.  Each chunk takes one element of the list.  The header returned by
`create_control_header` is handed to `network_send_pkt` unchecked: without memory for it
there is no defined result. -/
def send_chunks (fuel : Nat) (k : Consts) (sock : Ptr) (msg : List Nat) (len : Int)
    (unlock : Ptr) (error : minisocket_error) :
    List SendChunk → Net → Int → List (Int × Ptr × Ptr) →
      Option (Int × minisocket_error × Net × List (Int × Ptr × Ptr))
  | [], _, _, _ => none
  | c :: cs, net, sent_byte, log =>
    match net.sockets sock with
    | none => none
    | some s =>
      if c.header = false then none
      else
        let header : mini_header :=
          { protocol := protocol_t.PROTOCOL_MINISTREAM,
            source_address := net.local_host, source_port := s.local_port,
            destination_address := s.remote_addr, destination_port := s.remote_port,
            message_type := msg_t.MSG_ACK, seq_number := s.seq_number,
            ack_number := s.ack_number }
        let fragment_length := k.MAX_NETWORK_PKT_SIZE - k.mini_header_reliable_size
        let transfer_length :=
          if len - sent_byte > fragment_length then fragment_length else len - sent_byte
        let payload := (msg.drop sent_byte.toNat).take transfer_length.toNat
        match send_rounds fuel sock header payload transfer_length sent_byte c.rounds net 100
            log with
        | none => none
        | some (Sum.inl r, log1) => some (r.1, r.2.1, r.2.2, log1)
        | some (Sum.inr r, log1) =>
          match r.1.sockets sock with
          | none => none
          | some s1 =>
            if r.2.2 > 12800 then
              (sem_V r.1 s1.send_receive_mutex unlock).map
                (fun n => (if r.2.1 = 0 then -1 else r.2.1,
                  minisocket_error.SOCKET_SENDERROR, n, log1))
            else if r.2.1 ≠ len then send_chunks fuel k sock msg len unlock error cs r.1 r.2.1 log1
            else (sem_V r.1 s1.send_receive_mutex unlock).map (fun n => (len, error, n, log1))

/-- The function `minisocket_send`; `msg_null` says that the buffer pointer is null, `msg`
are the bytes of the buffer, `error` is the content of the out-parameter on entry.  The
state of the socket is read before the socket pointer is tested.  The result is the return
value, the content of the out-parameter on return, the state, and the alarms registered
(delay, handler, argument), one for each transmission handed to the network. -/
def minisocket_send (fuel : Nat) (k : Consts) (net : Net) (sock : Ptr) (msg_null : Bool)
    (msg : List Nat) (len : Int) (error : minisocket_error) (o : SendOracle) :
    Option (Int × minisocket_error × Net × List (Int × Ptr × Ptr)) :=
  match net.sockets sock with
  | none => none
  | some s =>
    if s.socket_state = m_status.CLOSED ∨ s.socket_state = m_status.CLOSING then
      some (0, minisocket_error.SOCKET_SENDERROR, net, [])
    else if sock = NULL ∨ s.socket_state ≠ m_status.OPEN ∨ msg_null = true ∨ len = 0 then
      some (-1, minisocket_error.SOCKET_INVALIDPARAMS, net, [])
    else
      match sem_P net s.send_receive_mutex o.lock with
      | none => none
      | some net1 => send_chunks fuel k sock msg len o.unlock error o.chunks net1 0 []

/-- Well-formedness of a stream socket in the system: the runnable queue `mq` (with
`MAX_LEVELS` levels holding the nodes `css`), the data queue `dq` of the socket (holding
`ds`) and the wait lists of its semaphores `dr` (`data_ready`, holding `ws1`) and `wa`
(`wait_for_ack`, holding `ws2`) lie in the node heap without sharing nodes; every waiter
is an allocated thread with a level in range; the number of waiters of each semaphore is
`max(0, -count)`. -/
structure SockInv (st : State) (dq : queue) (dr wa : semaphore) (mq : multilevel_queue)
    (css : List (List Cell)) (ds ws1 ws2 : List Cell) : Prop where
  rq : st.runnable_queue = some mq
  four : mq.n_levels = MAX_LEVELS
  rep : MRepX st.nodes mq css [dq, dr.wait_list, wa.wait_list] [ds, ws1, ws2]
  waiters : ∀ c ∈ ws1 ++ ws2,
    ∃ th, st.threads c.data = some th ∧ 0 ≤ th.level ∧ th.level < MAX_LEVELS
  count1 : (ws1.length : Int) = max 0 (-dr.count)
  count2 : (ws2.length : Int) = max 0 (-wa.count)

/-- The threads held by the level queues with nodes `css` and the further queues with
nodes `cx`, queue after queue. -/
def queued_threads (css cx : List (List Cell)) : List Ptr := items (css.flatten ++ cx.flatten)

/-- The scheduler together with the semaphores `sems` of the system: the states reachable
from `minithread_system_initialize` by creating semaphores, by `minithread_fork`,
`minithread_yield` and `minithread_stop` of the running thread, by the scheduling step of
a clock tick, and by `semaphore_P` and `semaphore_V` on one of the semaphores.
`semaphore_P` is called by a running thread other than the scheduler thread, whose code is
the loop at the end of `minithread_system_initialize` and calls `minithread_yield` only;
`semaphore_V` is called by threads and by interrupt handlers alike.  `malloc` returns
non-null addresses that are not allocated.  Threads that run to completion, sleeping
threads and alarms are not part of this relation. -/
inductive SysReach : State → List semaphore → Prop where
  | boot (sched : Ptr) (s0 : status) (q0 : Int) (reaper : Ptr) (s1 : status) (main : Ptr)
      (s2 : status) (n : Ptr) (st : State) :
      sched ≠ NULL → sched ≠ reaper → sched ≠ main → reaper ≠ main → n ≠ NULL →
      minithread_system_initialize state_null sched s0 q0 reaper s1 main s2 n = some st →
      SysReach st []
  | create (st : State) (sems : List semaphore) (cnt : Int) :
      SysReach st sems → SysReach st (sems ++ [ semaphore_initialize cnt])
  | fork (st : State) (sems : List semaphore) (m : Ptr) (s0 : status) (n t : Ptr)
      (st' : State) :
      SysReach st sems → st.threads m = none → n ≠ NULL → st.nodes n = none →
      minithread_fork st m s0 n = some (t, st') → SysReach st' sems
  | yield (st : State) (sems : List semaphore) (n : Ptr) (st' : State) :
      SysReach st sems → n ≠ NULL → st.nodes n = none →
      minithread_yield st n = some st' → SysReach st' sems
  | stop (st : State) (sems : List semaphore) (st' : State) :
      SysReach st sems → minithread_stop st = some st' → SysReach st' sems
  | tick (st : State) (sems : List semaphore) (n : Ptr) (st' : State) :
      SysReach st sems → n ≠ NULL → st.nodes n = none →
      implement_scheduler st n = some st' → SysReach st' sems
  | P (st : State) (sems : List semaphore) (i : Nat) (sem : semaphore) (n : Ptr)
      (st' : State) (b : Option Ptr) (sem' : semaphore) :
      SysReach st sems → sems[i]? = some sem → st.running_thread ≠ st.scheduler_thread →
      n ≠ NULL → st.nodes n = none → semaphore_P st sem n = some (st', b, sem') →
      SysReach st' (sems.set i sem')
  | V (st : State) (sems : List semaphore) (i : Nat) (sem : semaphore) (n : Ptr)
      (st' : State) (w : Option Ptr) (sem' : semaphore) :
      SysReach st sems → sems[i]? = some sem → n ≠ NULL → st.nodes n = none →
      semaphore_V st sem n = some (st', w, sem') → SysReach st' (sems.set i sem')

/-- Invariant of the reachable states of scheduler and semaphores: the state is well
formed with the wait lists `qx` holding the nodes `cx`, no thread record lives at `NULL`,
no thread is queued twice, and neither the running thread nor the scheduler thread is
queued. -/
structure QueueInv (st : State) (mq : multilevel_queue) (css : List (List Cell))
    (qx : List queue) (cx : List (List Cell)) : Prop where
  sched : SchedInv st mq css qx cx
  null : st.threads NULL = none
  nodup : (queued_threads css cx).Nodup
  running : st.running_thread ∉ queued_threads css cx
  idle : st.scheduler_thread ∉ queued_threads css cx

/-- What the scheduler operations leave alone: the stopped queue, the scheduler thread, and
the addresses without a thread record. -/
structure Keeps (st st' : State) : Prop where
  stopped : st'.stopped_queue = st.stopped_queue
  idle : st'.scheduler_thread = st.scheduler_thread
  free : ∀ t, st.threads t = none → st'.threads t = none

/-- The empty heap. -/
def heap_empty : NodeHeap := fun _ => none

/-- A heap with one node at address 1: item 10, priority 5. -/
def heap_one : NodeHeap :=
  write heap_empty 1 { data := 10, priority := 5, next := NULL }

/-- The header of the one-node queue in `heap_one`. -/
def queue_one : queue := { front := 1, rear := 1, count := 1 }

/-- A multilevel queue with two levels in `heap_one`: level 0 is empty, level 1 holds
the node at address 1. -/
def mlq_two : multilevel_queue :=
  { level_queues := [queue_new, queue_one], n_levels := 2 }

/-- A heap with three linked nodes at the addresses 1, 2, 3 holding the items 10, 20, 30. -/
def heap_three : NodeHeap :=
  write (write (write heap_empty 1 { data := 10, priority := 0, next := 2 })
    2 { data := 20, priority := 0, next := 3 })
    3 { data := 30, priority := 0, next := NULL }

/-- The header of the three-node queue in `heap_three`. -/
def queue_three : queue := { front := 1, rear := 3, count := 3 }

/-- The state of the system before any thread or alarm exists: empty heaps, tick
counter 0, an empty alarm queue. -/
def state_zero : State :=
  { nodes := heap_empty, threads := fun _ => none, alarms := fun _ => none,
    minithreads_count := 0, nInterrupts := 0, curr_level := 0, curr_level_quanta := 0,
    runnable_queue := none, stopped_queue := none, running_thread := NULL,
    scheduler_thread := NULL, reaper_thread := NULL, alarm_queue := some queue_new }

/-- Two alarms registered at tick 0: 250 ms (alarm record 11, node 1) and then 500 ms
(alarm record 12, node 2). -/
def two_alarms : Option (Ptr × State) :=
  (register_alarm 3 state_zero 250 7 8 11 1).bind
    (fun r => register_alarm 3 r.2 500 7 9 12 2)

/-- A booted system: four empty runnable levels, the scheduler thread at address 100 and
a thread at address 101, which is running. -/
def state_boot : State :=
  { nodes := heap_empty,
    threads := write (write (fun _ => none) 100 { id := 0, s := status.RUNNABLE, level := 0, quanta := 0 })
      101 { id := 1, s := status.RUNNABLE, level := 0, quanta := 0 },
    alarms := fun _ => none,
    minithreads_count := 2, nInterrupts := 0, curr_level := 0, curr_level_quanta := 0,
    runnable_queue := multilevel_queue_new MAX_LEVELS, stopped_queue := some queue_new,
    running_thread := 101, scheduler_thread := 100, reaper_thread := NULL,
    alarm_queue := some queue_new }

/-- The runnable queue of `state_boot`. -/
def mlq_boot : multilevel_queue :=
  { level_queues := [queue_new, queue_new, queue_new, queue_new], n_levels := 4 }

/-- The state after `minithread_system_initialize`: scheduler thread 100 (running), reaper
thread 101, main thread 102 queued on level 0 in node 1. -/
def state_init : State :=
  ( minithread_system_initialize state_null 100 status.RUNNABLE 0 101 status.RUNNABLE 102
    status.RUNNABLE 1).getD state_null

/-- The state after the scheduler thread has yielded in `state_init`: the main thread 102
runs and the runnable queue is empty. -/
def state_main : State := (minithread_yield state_init 2).getD state_null

/-- A handler that does nothing. -/
def run_nothing : Ptr → Ptr → State → Option State := fun _ _ st => some st

/-- An alarm with delay 0 (record 11, node 1) and then one of 100 ms (record 12, node 2),
registered at tick 0 in `state_boot`: deadlines 0 and 1. -/
def stale_alarms : Option (Ptr × State) :=
  (register_alarm 3 state_boot 0 7 8 11 1).bind
    (fun r => register_alarm 3 r.2 100 7 9 12 2)

/-- Three alarms registered at tick 0 in `state_boot`: 100 ms (record 11, node 1), 100 ms
(record 12, node 2) and 200 ms (record 13, node 3), after which the second one is
deregistered. -/
def three_alarms_one_gone : Option (Int × State) :=
  (((register_alarm 4 state_boot 100 7 8 11 1).bind
    (fun r => register_alarm 4 r.2 100 7 9 12 2)).bind
    (fun r => register_alarm 4 r.2 200 7 10 13 3)).bind
    (fun r => deregister_alarm 4 r.2 12)

/-- The network layer after `minimsg_initialize` and `minisocket_initialize` on top of
`state_boot`: no sockets, no ports, both mutexes (semaphores 50 and 51) free. -/
def net_boot : Net :=
  { st := state_boot,
    sems := write (write (fun _ => none) 50 ( semaphore_initialize 1)) 51
      ( semaphore_initialize 1),
    packets := fun _ => none, sockets := fun _ => none, miniports := fun _ => none,
    ports := fun _ => NULL, n_client_ports := MIN_CLIENT_PORT, ports_mutex := 50,
    local_host := 7, nPorts := 0, bound_ports_free := fun _ => N_TRUE,
    unbound_ports := fun _ => NULL, mutex := 51, sent := [] }

/-- A wait that is not expected to happen. -/
def no_wait : Wait := { node := 9, env := fun net => net }

/-- The rest of the system while a thread waits on semaphore `sem` with the alarm `a`
pending and no packet arrives: the clock reaches the deadline of the alarm, the alarm's
handler `semaphore_V(sem)` makes the waiting thread runnable, the alarm is removed, and
the scheduler thread yields to the waiting thread. -/
def env_timeout (sem a : Ptr) (net : Net) : Net :=
  match net.st.alarms a with
  | none => net
  | some al =>
    let st1 : State := { net.st with nInterrupts := al.end_ }
    match sem_V { net with st := st1 } sem 21 with
    | none => net
    | some net1 =>
      match deregister_alarm 3 net1.st a with
      | none => net
      | some r =>
        match minithread_yield r.2 22 with
        | none => net
        | some st2 => { net1 with st := st2 }

/-- A round of the handshake in which no packet arrives. -/
def quiet_round : Round :=
  { syn := { header := true, result := 34 }, alarm := 30, alarm_node := 31,
    wait := { node := 32, env := env_timeout 61 30 },
    ack := { header := true, result := 34 } }

/-- A client that creates socket 60 with the semaphores 61, 62, 63 and meets `rounds`. -/
def client_oracle (rounds : List Round) : ClientOracle :=
  { socket := 60, data_ready := 61, wait_for_ack := 62, send_receive_mutex := 63,
    ack_flag := 0, s_error := minisocket_error.SOCKET_NOERROR, lock := no_wait, unlock := 9,
    rounds := rounds,
    cleanup := { lock := no_wait, unlock := 9, lock2 := no_wait, unlock2 := 9 } }

/-- Example values for the constants that are not among the sources: the 21-byte datagram
header and the 34-byte stream header of the specification, unbound ports 0..32767, bound
ports 32768..65535, and a maximal packet size of 8192 bytes. -/
def consts_example : Consts :=
  { mini_header_size := 21, mini_header_reliable_size := 34, MAX_NETWORK_PKT_SIZE := 8192,
    MAX_PORTS := 32768, MIN_BOUND_PORT := 32768, MIN_UNBOUND_PORT := 0,
    MAX_UNBOUND_PORT := 32767 }

/-- The header of a stream packet of type `t` from port 80 of host 5 to port `port` of
the local host 7. -/
def header_from_peer (t : msg_t) (port : Int) : mini_header :=
  { protocol := protocol_t.PROTOCOL_MINISTREAM, source_address := 5, source_port := 80,
    destination_address := 7, destination_port := port, message_type := t,
    seq_number := 0, ack_number := 0 }

/-- The addresses `malloc` returns in the example calls of the packet handlers. -/
def ingress_example : Ingress :=
  { node := 41, wake := 42, wakes := [43, 44], wake_ack := 45,
    send := { header := true, result := 34 }, alarm := 46, alarm_node := 47 }

/-- The rest of the system while a thread waits and the packet `pkt` arrives: the packet
is received into the buffer at address 70, `network_handler` runs, and the scheduler
thread yields. -/
def env_packet (pkt : network_interrupt_arg) (net : Net) : Net :=
  match network_handler 3 consts_example { net with packets := write net.packets 70 pkt } 70
      ingress_example with
  | none => net
  | some net1 =>
    match minithread_yield net1.st 22 with
    | none => net
    | some st2 => { net1 with st := st2 }

/-- A round of the handshake in which the header-only packet of type `t` from the peer
arrives for port `port`. -/
def reply_round (t : msg_t) (port : Int) : Round :=
  { syn := { header := true, result := 34 }, alarm := 30, alarm_node := 31,
    wait := { node := 32,
              env := env_packet { size := 34, header := header_from_peer t port,
                                  payload := [] } },
    ack := { header := true, result := 34 } }

/-- The network layer with the client-port cursor on the last client port. -/
def net_last : Net := { net_boot with n_client_ports := MAX_CLIENT_PORT }

/-- A second client: socket 64 with the semaphores 65, 66, 67. -/
def client_oracle_two (rounds : List Round) : ClientOracle :=
  { socket := 64, data_ready := 65, wait_for_ack := 66, send_receive_mutex := 67,
    ack_flag := 0, s_error := minisocket_error.SOCKET_NOERROR, lock := no_wait, unlock := 9,
    rounds := rounds,
    cleanup := { lock := no_wait, unlock := 9, lock2 := no_wait, unlock2 := 9 } }

/-- The state after a client socket (60, local port 32768) has been connected to port 80
of host 5. -/
def net_open : Option Net :=
  (minisocket_client_create 3 net_boot (some 5) 80 minisocket_error.SOCKET_NOERROR
    (client_oracle [reply_round msg_t.MSG_SYNACK 32768])).map (fun r => r.2.2.1)

/-- A data packet from the peer for port 32768 with sequence number 1, acknowledging 2,
that carries the five bytes 1, 2, 3, 4, 5 behind the 34-byte header. -/
def packet_five : network_interrupt_arg :=
  { size := 39,
    header := { header_from_peer msg_t.MSG_ACK 32768 with seq_number := 1, ack_number := 2 },
    payload := [1, 2, 3, 4, 5] }

/-- The connected socket after `packet_five` has been received into the buffer at 70. -/
def net_data : Option Net :=
  net_open.bind (fun net =>
    network_handler 3 consts_example { net with packets := write net.packets 70 packet_five }
      70 ingress_example)

/-- The addresses and waits of the example call of `minisocket_receive`. -/
def receive_example : Receive :=
  { lock := no_wait, ready := no_wait, unlock := 9, header := true, stack := 90, node := 48 }

/-- A FIN from the peer for port 32768. -/
def packet_fin : network_interrupt_arg :=
  { size := 34, header := header_from_peer msg_t.MSG_FIN 32768, payload := [] }

/-- The connected socket after a FIN from the peer has been received into the buffer at
71. -/
def net_fin : Option Net :=
  net_open.bind (fun net =>
    network_handler 3 consts_example { net with packets := write net.packets 71 packet_fin }
      71 ingress_example)

/-- The call of `minisocket_close` that the linger alarm makes. -/
def close_example : CloseOracle :=
  { s_error := minisocket_error.SOCKET_NOERROR, rounds := [],
    cleanup := { lock := no_wait, unlock := 9, lock2 := no_wait, unlock2 := 9 },
    unlock := 9 }

/-- The network layer with the unbound port 7 (record 80, semaphore 81). -/
def net_port : Option Net :=
  (miniport_create_unbound consts_example net_boot 7 80 81).map (fun r => r.2)

/-- A datagram of `size` bytes for port 7 from port 3 of host 5. -/
def datagram (size : Int) (payload : List Nat) : network_interrupt_arg :=
  { size := size,
    header := { protocol := protocol_t.PROTOCOL_MINIDATAGRAM, source_address := 5,
                source_port := 3, destination_address := 7, destination_port := 7,
                message_type := msg_t.MSG_OTHER, seq_number := 0, ack_number := 0 },
    payload := payload }

/-- The state in which the handshake loop of the client 60 starts on `net_boot`. -/
def net_syn : Net :=
  match client_setup net_boot (some 5) 80 (client_oracle []) with
  | some (Sum.inr net) => net
  | _ => net_boot

/-- The table of free bound port numbers after the numbers 32768 .. 65534 have been
handed out in order and the ports 32773 and 32777 have been destroyed: the entries 5, 9
and the entry 32767, which the sequential phase never reaches, are free. -/
def free_example : Int → Int :=
  fun i => if i = 5 ∨ i = 9 ∨ i = 32767 then N_TRUE else N_FALSE

/-- The network layer with the sequential phase of the bound ports used up (`nPorts` is
`MAX_PORTS - 1`) and the table `free_example`. -/
def net_full : Net :=
  { net_boot with nPorts := 32767, bound_ports_free := free_example }

/-- The network layer with the unbound port 7 and a 22-byte datagram for it in the
buffer at address 70. -/
def net_datagram : Net :=
  match net_port with
  | none => net_boot
  | some net => { net with packets := write net.packets 70 (datagram 22 [9]) }

/-- An acknowledgement from the peer for port 32768 that acknowledges the sequence
number `ack` and carries no data. -/
def packet_ack (ack : Nat) : network_interrupt_arg :=
  { size := 34,
    header := { header_from_peer msg_t.MSG_ACK 32768 with seq_number := 1, ack_number := ack },
    payload := [] }

/-- A transmission that the peer acknowledges with `packet_ack ack`. -/
def acked_round (ack : Nat) : SendRound :=
  { result := 35, alarm := 33, alarm_node := 34,
    wait := { node := 35, env := env_packet (packet_ack ack) }, unlock := 36 }

/-- A call of `minisocket_send` whose single chunk is acknowledged after the first
transmission. -/
def send_example : SendOracle :=
  { lock := no_wait, chunks := [{ header := true, rounds := [acked_round 3] }], unlock := 37 }

/-- The connected socket of `net_open` with `packet_five`, an acknowledgement of the
socket's sequence number 2 that carries five bytes, received into the buffer at 70. -/
def net_acked : Net :=
  match net_open with
  | none => net_boot
  | some net => { net with packets := write net.packets 70 packet_five }

/-- The main thread 102 of `state_main` has forked thread 103, queued on level 0 in
node 5. -/
def state_forked : State :=
  ((minithread_fork state_main 103 status.RUNNABLE 5).map (fun r => r.2)).getD state_null

/-- The main thread calls `semaphore_P` on a new semaphore of count 0 in `state_forked`;
node 6 is for the wait list. -/
def blocked_run : Option (State × Option Ptr × semaphore) :=
  semaphore_P state_forked ( semaphore_initialize 0) 6

/-- The state after that call: the main thread waits and thread 103 runs. -/
def state_blocked : State := (blocked_run.map (fun r => r.1)).getD state_null

/-- The semaphore after that call. -/
def sem_blocked : semaphore := (blocked_run.map (fun r => r.2.2)).getD ( semaphore_initialize 0)

/-- Thread 103 calls `semaphore_V` on the semaphore in `state_blocked`; node 7 is for the
level queue. -/
def woken_run : Option (State × Option Ptr × semaphore) :=
  semaphore_V state_blocked sem_blocked 7

/-- The state after that call: the main thread is queued again, on level 1, to which
`minithread_stop` has moved it. -/
def state_woken : State := (woken_run.map (fun r => r.1)).getD state_null

/-- The semaphore after that call. -/
def sem_woken : semaphore := (woken_run.map (fun r => r.2.2)).getD ( semaphore_initialize 0)
/-- What the restriction on the caller of `semaphore_P` excludes: the scheduler thread 100
calls `semaphore_P` on a semaphore of count 0 in `state_init`; node 6 is for the wait
list. -/
def idle_wait_run : Option (State × Option Ptr × semaphore) :=
  semaphore_P state_init ( semaphore_initialize 0) 6

/-- After that call the main thread runs; this is the state after the main thread has
called `minithread_stop`: the level queues are empty, so the scheduler thread runs again. -/
def state_idle_waits : State :=
  ( minithread_stop ((idle_wait_run.map (fun r => r.1)).getD state_null)).getD state_null

/-- A `semaphore_V` on the semaphore in `state_idle_waits`; node 7 is for the level
queue. -/
def idle_woken_run : Option (State × Option Ptr × semaphore) :=
  semaphore_V state_idle_waits
    ((idle_wait_run.map (fun r => r.2.2)).getD ( semaphore_initialize 0)) 7

/-- The oracle of the handshake without replies, with the uninitialised local variable
`s_error` of `minisocket_client_create` holding `SOCKET_OUTOFMEMORY` when the function
starts. -/
def client_oracle_stale : ClientOracle :=
  { client_oracle (List.replicate 8 quiet_round) with
    s_error := minisocket_error.SOCKET_OUTOFMEMORY }

/-! ## Lemmas on linked segments -/

theorem write_same {α : Type} (h : Ptr → Option α) (p : Ptr) (v : α) :
    write h p v p = some v := by
  simp [write]

theorem write_other {α : Type} (h : Ptr → Option α) {p a : Ptr} (v : α) (hne : a ≠ p) :
    write h p v a = h a := by
  simp [write, hne]

theorem release_same {α : Type} (h : Ptr → Option α) (p : Ptr) :
    release h p p = none := by
  simp [release]

theorem release_other {α : Type} (h : Ptr → Option α) {p a : Ptr} (hne : a ≠ p) :
    release h p a = h a := by
  simp [release, hne]

theorem addrs_cons (c : Cell) (cs : List Cell) : addrs (c :: cs) = c.addr :: addrs cs := rfl

theorem addrs_append (xs ys : List Cell) : addrs (xs ++ ys) = addrs xs ++ addrs ys := by
  simp [addrs]

theorem lseg_frame {h h' : NodeHeap} {cs : List Cell} :
    ∀ {p e : Ptr}, (∀ a ∈ addrs cs, h' a = h a) → lseg h p cs e → lseg h' p cs e := by
  induction cs with
  | nil => intro p e _ hl; exact hl
  | cons c cs ih =>
    intro p e hf hl
    obtain ⟨hp, hp0, nx, hnx, hrest⟩ := hl
    refine ⟨hp, hp0, nx, ?_, ih (fun a ha => hf a ?_) hrest⟩
    · rw [hf p (by simp [addrs, hp])]; exact hnx
    · simp only [addrs, List.map_cons, List.mem_cons] at ha ⊢
      exact Or.inr ha

theorem lseg_alloc {h : NodeHeap} {cs : List Cell} :
    ∀ {p e : Ptr}, lseg h p cs e → ∀ a ∈ addrs cs, a ≠ NULL ∧ h a ≠ none := by
  induction cs with
  | nil => intro p e _ a ha; simp [addrs] at ha
  | cons c cs ih =>
    intro p e hl a ha
    obtain ⟨hp, hp0, nx, hnx, hrest⟩ := hl
    simp only [addrs, List.map_cons, List.mem_cons] at ha
    rcases ha with ha | ha
    · subst ha; rw [← hp]; exact ⟨hp0, by simp [hnx]⟩
    · exact ih hrest a ha

theorem lseg_append {h : NodeHeap} {xs ys : List Cell} :
    ∀ {p e : Ptr}, lseg h p (xs ++ ys) e ↔ ∃ m, lseg h p xs m ∧ lseg h m ys e := by
  induction xs with
  | nil =>
    intro p e
    constructor
    · intro hl; exact ⟨p, rfl, hl⟩
    · rintro ⟨m, hm, hl⟩; cases hm; exact hl
  | cons c cs ih =>
    intro p e
    constructor
    · rintro ⟨hp, hp0, nx, hnx, hrest⟩
      obtain ⟨m, h1, h2⟩ := ih.mp hrest
      exact ⟨m, ⟨hp, hp0, nx, hnx, h1⟩, h2⟩
    · rintro ⟨m, ⟨hp, hp0, nx, hnx, h1⟩, h2⟩
      exact ⟨hp, hp0, nx, hnx, ih.mpr ⟨m, h1, h2⟩⟩

theorem last_addr_append_singleton (cs : List Cell) (c : Cell) :
    last_addr (cs ++ [c]) = c.addr := by
  simp [last_addr, addrs, List.getLastD_eq_getLast?]

theorem last_addr_cons_cons (c d : Cell) (cs : List Cell) :
    last_addr (c :: d :: cs) = last_addr (d :: cs) := by
  simp [last_addr, addrs, List.getLastD_eq_getLast?, List.getLast?_cons_cons]

/-! ## Specifications of the queue operations on represented queues -/

theorem rep_new (h : NodeHeap) : Rep h queue_new [] :=
  ⟨rfl, by simp [addrs], rfl, rfl⟩

theorem rep_front_null {h : NodeHeap} {q : queue} {cs : List Cell} (hr : Rep h q cs) :
    q.front = NULL ↔ cs = [] := by
  cases cs with
  | nil => simpa using hr.chain
  | cons c cs =>
    obtain ⟨_, hp0, _⟩ := hr.chain
    simp [hp0]

theorem rep_fresh {h : NodeHeap} {q : queue} {cs : List Cell} (hr : Rep h q cs) {n : Ptr}
    (hn : h n = none) : n ∉ addrs cs :=
  fun hmem => (lseg_alloc hr.chain n hmem).2 hn

/-- Linking a fresh node behind the last node of a segment. -/
theorem lseg_snoc {h : NodeHeap} {cs : List Cell} {l : Cell} {n : Ptr} (nd : qnode) :
    ∀ {p : Ptr}, lseg h p (cs ++ [l]) NULL → (addrs (cs ++ [l])).Nodup →
      n ∉ addrs (cs ++ [l]) → n ≠ NULL →
      lseg (write (write h n nd) l.addr { data := l.data, priority := l.priority, next := n })
        p (cs ++ [l] ++ [{ addr := n, data := nd.data, priority := nd.priority }]) nd.next := by
  induction cs with
  | nil =>
    intro p hl _ hn hn0
    obtain ⟨hp, hp0, nx, _, _⟩ := hl
    have hne : n ≠ l.addr := by
      intro e; apply hn; simp [addrs, e]
    refine ⟨hp, hp0, n, ?_, rfl, hn0, nd.next, ?_, rfl⟩
    · rw [hp]; exact write_same _ _ _
    · rw [write_other _ _ hne]; exact write_same _ _ _
  | cons c cs ih =>
    intro p hl hnd hn hn0
    obtain ⟨hp, hp0, nx, hnx, hrest⟩ := hl
    simp only [List.cons_append, addrs_cons, List.nodup_cons, List.mem_cons, not_or] at hnd hn
    refine ⟨hp, hp0, nx, ?_, ih hrest hnd.2 hn.2 hn0⟩
    have h1 : p ≠ l.addr := by
      intro e; apply hnd.1; rw [← hp, e]; simp [addrs]
    have h2 : p ≠ n := by
      intro e; apply hn.1; rw [← hp, e]
    rw [write_other _ _ h1, write_other _ _ h2]; exact hnx

theorem lseg_last_alloc {h : NodeHeap} {cs : List Cell} {l : Cell} :
    ∀ {p : Ptr}, lseg h p (cs ++ [l]) NULL →
      h l.addr = some { data := l.data, priority := l.priority, next := NULL } := by
  induction cs with
  | nil =>
    intro p hl
    obtain ⟨hp, _, nx, hnx, hrest⟩ := hl
    cases hrest
    rw [← hp]; exact hnx
  | cons c cs ih =>
    intro p hl
    obtain ⟨_, _, nx, _, hrest⟩ := hl
    exact ih hrest

/-- Outcome of `queue_append` on a represented queue. -/
theorem queue_append_spec {h : NodeHeap} {q : queue} {cs : List Cell} (hr : Rep h q cs)
    (item : Ptr) {n : Ptr} (hn0 : n ≠ NULL) (hn : h n = none) :
    ∃ h' q', queue_append h q item n = some (0, h', q') ∧
      Rep h' q' (cs ++ [{ addr := n, data := item, priority := 0 }]) ∧
      (∀ a, a ∉ addrs cs → a ≠ n → h' a = h a) := by
  have hfresh := rep_fresh hr hn
  rcases List.eq_nil_or_concat cs with hcs | ⟨cs0, l, hcs⟩
  · subst hcs
    have hf : q.front = NULL := (rep_front_null hr).mpr rfl
    refine ⟨write h n (create_qnode item), { q with front := n, rear := n, count := q.count + 1 },
      ?_, ⟨?_, ?_, ?_, ?_⟩, ?_⟩
    · simp [queue_append, hn0, hf]
    · exact ⟨rfl, hn0, NULL, write_same _ _ _, rfl⟩
    · simp [addrs]
    · simp [last_addr, addrs]
    · simp [hr.count]
    · intro a _ ha; exact write_other _ _ ha
  · subst hcs
    have hf : q.front ≠ NULL := fun e => by
      have := (rep_front_null hr).mp e
      simp at this
    have hrear : q.rear = l.addr := by rw [hr.rear]; simp [List.concat_eq_append, last_addr_append_singleton]
    have hne : l.addr ≠ n := by
      intro e; apply hfresh; simp [addrs, e]
    have hl := hr.chain
    rw [List.concat_eq_append] at hl hfresh
    have hnd := hr.nodup
    rw [List.concat_eq_append] at hnd
    have hlast := lseg_last_alloc hl
    refine ⟨write (write h n (create_qnode item)) l.addr
        { data := l.data, priority := l.priority, next := n },
      { q with rear := n, count := q.count + 1 }, ?_, ⟨?_, ?_, ?_, ?_⟩, ?_⟩
    · simp [queue_append, hn0, hf, hrear, write_other _ _ hne, hlast]
    · have := lseg_snoc (create_qnode item) hl hnd hfresh hn0
      simpa [create_qnode, List.concat_eq_append] using this
    · rw [List.concat_eq_append, addrs_append, List.nodup_append]
      refine ⟨hnd, by simp [addrs], ?_⟩
      intro a ha hb
      simp [addrs] at hb
      subst hb
      exact hfresh ha
    · rw [List.concat_eq_append, last_addr_append_singleton]
    · simp only [hr.count, List.length_append, List.length_concat, List.length_singleton]
      push_cast; ring
    · intro a ha han
      have : a ≠ l.addr := by
        intro e; apply ha; simp [addrs, e]
      rw [write_other _ _ this, write_other _ _ han]

/-- Outcome of `queue_dequeue` on a non-empty represented queue. -/
theorem queue_dequeue_spec {h : NodeHeap} {q : queue} {c : Cell} {cs : List Cell}
    (hr : Rep h q (c :: cs)) :
    ∃ q', queue_dequeue h q = some (0, c.data, release h c.addr, q') ∧
      Rep (release h c.addr) q' cs ∧ queue_length q' = queue_length q - 1 := by
  obtain ⟨hp, hp0, nx, hnx, hrest⟩ := hr.chain
  have hnd := hr.nodup
  simp only [addrs_cons, List.nodup_cons] at hnd
  have hframe : lseg (release h c.addr) nx cs NULL :=
    lseg_frame (fun a ha => release_other _ (fun e => hnd.1 (e ▸ ha))) hrest
  have hnxnull : nx = NULL ↔ cs = [] := by
    cases cs with
    | nil => simpa using hrest
    | cons d ds =>
      obtain ⟨_, hd0, _⟩ := hrest
      simp [hd0]
  by_cases hcs : cs = []
  · subst hcs
    have hnx0 : nx = NULL := hnxnull.mpr rfl
    refine ⟨{ front := nx, rear := NULL, count := q.count - 1 }, ?_, ⟨?_, ?_, ?_, ?_⟩, ?_⟩
    · simp [queue_dequeue, hp0, hnx, hnx0, ← hp]
    · exact hframe
    · exact hnd.2
    · simp [last_addr, addrs]
    · simp [hr.count]
    · simp [queue_length]
  · have hnx0 : nx ≠ NULL := fun e => hcs (hnxnull.mp e)
    refine ⟨{ front := nx, rear := q.rear, count := q.count - 1 }, ?_, ⟨?_, ?_, ?_, ?_⟩, ?_⟩
    · simp [queue_dequeue, hp0, hnx, hnx0, ← hp]
    · exact hframe
    · exact hnd.2
    · rw [hr.rear]
      cases cs with
      | nil => exact absurd rfl hcs
      | cons d ds => exact last_addr_cons_cons c d ds
    · simp [hr.count]
    · simp [queue_length]

/-- Outcome of `queue_dequeue` on an empty represented queue. -/
theorem queue_dequeue_empty {h : NodeHeap} {q : queue} (hr : Rep h q []) :
    queue_dequeue h q = some (-1, NULL, h, q) := by
  have hf : q.front = NULL := (rep_front_null hr).mpr rfl
  simp [queue_dequeue, hf]

/-! ## Sorted insertion -/

theorem last_addr_append_cons (xs : List Cell) (y : Cell) (ys : List Cell) :
    last_addr (xs ++ y :: ys) = last_addr (y :: ys) := by
  induction xs with
  | nil => rfl
  | cons x xs ih =>
    cases hx : xs ++ y :: ys with
    | nil => simp at hx
    | cons d ds => rw [List.cons_append, hx, last_addr_cons_cons, ← hx, ih]

theorem last_addr_mem {cs : List Cell} (hne : cs ≠ []) : last_addr cs ∈ addrs cs := by
  rcases List.eq_nil_or_concat cs with hcs | ⟨cs0, l, hcs⟩
  · exact absurd hcs hne
  · subst hcs
    rw [List.concat_eq_append, last_addr_append_singleton]
    simp [addrs]

/-- Redirecting the `next` field of the last node of a segment. -/
theorem lseg_redirect {hh : NodeHeap} {cs : List Cell} {l : Cell} {e : Ptr} (e' : Ptr) :
    ∀ {p : Ptr}, lseg hh p (cs ++ [l]) e → (addrs (cs ++ [l])).Nodup →
      lseg (write hh l.addr { data := l.data, priority := l.priority, next := e' })
        p (cs ++ [l]) e' := by
  induction cs with
  | nil =>
    intro p hl _
    obtain ⟨hp, hp0, nx, _, _⟩ := hl
    exact ⟨hp, hp0, e', by rw [hp]; exact write_same _ _ _, rfl⟩
  | cons c cs ih =>
    intro p hl hnd
    obtain ⟨hp, hp0, nx, hnx, hrest⟩ := hl
    simp only [List.cons_append, addrs_cons, List.nodup_cons] at hnd
    refine ⟨hp, hp0, nx, ?_, ih hrest hnd.2⟩
    have h1 : p ≠ l.addr := by
      intro e1; apply hnd.1; rw [← hp, e1]; simp [addrs]
    rw [write_other _ _ h1]; exact hnx

theorem lseg_last_cell {hh : NodeHeap} {cs : List Cell} {l : Cell} {e : Ptr} :
    ∀ {p : Ptr}, lseg hh p (cs ++ [l]) e →
      hh l.addr = some { data := l.data, priority := l.priority, next := e } := by
  induction cs with
  | nil =>
    intro p hl
    obtain ⟨hp, _, nx, hnx, hrest⟩ := hl
    cases hrest
    rw [← hp]; exact hnx
  | cons c cs ih =>
    intro p hl
    obtain ⟨_, _, nx, _, hrest⟩ := hl
    exact ih hrest

theorem insert_cell_length (c : Cell) (cs : List Cell) :
    (insert_cell c cs).length = cs.length + 1 := by
  induction cs with
  | nil => rfl
  | cons d ds ih =>
    unfold insert_cell
    split <;> simp [ih]

theorem insert_cell_ne_nil (c : Cell) (cs : List Cell) : insert_cell c cs ≠ [] := by
  intro e
  have := insert_cell_length c cs
  rw [e] at this
  simp at this

theorem addrs_insert_cell_perm (c : Cell) (cs : List Cell) :
    (addrs (insert_cell c cs)).Perm (c.addr :: addrs cs) := by
  induction cs with
  | nil => exact List.Perm.refl _
  | cons d ds ih =>
    unfold insert_cell
    split
    · exact List.Perm.refl _
    · simp only [addrs_cons]
      exact (List.Perm.cons _ ih).trans (List.Perm.swap _ _ _)

/-- Where the sorted insertion puts the new node. -/
theorem insert_cell_split (c : Cell) (cs : List Cell) (hs : sorted_cells cs) :
    ∃ l1 l2, cs = l1 ++ l2 ∧ insert_cell c cs = l1 ++ c :: l2 ∧
      (∀ x ∈ l1, x.priority ≤ c.priority) ∧ (∀ x ∈ l2, c.priority < x.priority) := by
  induction cs with
  | nil => exact ⟨[], [], rfl, rfl, by simp, by simp⟩
  | cons d ds ih =>
    unfold sorted_cells at hs
    rw [List.pairwise_cons] at hs
    by_cases hlt : c.priority < d.priority
    · refine ⟨[], d :: ds, rfl, by simp [insert_cell, hlt], by simp, ?_⟩
      intro x hx
      rcases List.mem_cons.mp hx with hx | hx
      · rw [hx]; exact hlt
      · exact lt_of_lt_of_le hlt (hs.1 x hx)
    · obtain ⟨l1, l2, h1, h2, h3, h4⟩ := ih hs.2
      refine ⟨d :: l1, l2, by simp [h1], by simp [insert_cell, hlt, h2], ?_, h4⟩
      intro x hx
      rcases List.mem_cons.mp hx with hx | hx
      · rw [hx]; exact not_lt.mp hlt
      · exact h3 x hx

theorem insert_cell_sorted (c : Cell) (cs : List Cell) (hs : sorted_cells cs) :
    sorted_cells (insert_cell c cs) := by
  obtain ⟨l1, l2, h1, h2, h3, h4⟩ := insert_cell_split c cs hs
  unfold sorted_cells at hs ⊢
  rw [h1, List.pairwise_append] at hs
  rw [h2, List.pairwise_append, List.pairwise_cons]
  refine ⟨hs.1, ⟨fun x hx => le_of_lt (h4 x hx), hs.2.1⟩, ?_⟩
  intro a ha b hb
  rcases List.mem_cons.mp hb with hb | hb
  · rw [hb]; exact h3 a ha
  · exact hs.2.2 a ha b hb

/-- The loop of `queue_insert_sorted`, entered with the nodes `pre` already passed (all
of priority at most `p`) and the nodes `suf` still ahead. -/
theorem queue_insert_sorted_loop_spec {n item : Ptr} {p : Int} (hn0 : n ≠ NULL)
    (suf : List Cell) :
    ∀ (pre : List Cell) (fuel : Nat) (hh : NodeHeap) (q : queue) (curr prev : Ptr),
      lseg hh q.front pre curr → lseg hh curr suf NULL → prev = last_addr pre →
      (addrs (pre ++ suf)).Nodup → n ∉ addrs (pre ++ suf) →
      hh n = some { data := item, priority := p, next := NULL } →
      (suf = [] → pre ≠ []) → suf.length < fuel →
      q.rear = last_addr (pre ++ suf) → q.count = (pre ++ suf).length →
      ∃ h' q', queue_insert_sorted_loop fuel hh q n curr prev = some (0, h', q') ∧
        Rep h' q' (pre ++ insert_cell { addr := n, data := item, priority := p } suf) ∧
        (∀ a, a ∉ addrs (pre ++ suf) → a ≠ n → h' a = hh a) := by
  induction suf with
  | nil =>
    intro pre fuel hh q curr prev hpre hsuf hprev hnd hfresh hhn hne hfuel hrear hcount
    cases fuel with
    | zero => simp at hfuel
    | succ f =>
      have hcurr : curr = NULL := hsuf
      rcases List.eq_nil_or_concat pre with hp | ⟨pre0, l, hp⟩
      · exact absurd hp (hne rfl)
      · rw [List.concat_eq_append] at hp
        subst hp
        simp only [List.append_nil] at hnd hfresh hrear hcount
        have hpv : prev = l.addr := by rw [hprev, last_addr_append_singleton]
        have hl := lseg_last_cell hpre
        have hln : l.addr ≠ n := by
          intro e; apply hfresh; simp [addrs, e]
        refine ⟨write hh l.addr { data := l.data, priority := l.priority, next := n },
          { q with rear := n, count := q.count + 1 }, ?_, ⟨?_, ?_, ?_, ?_⟩, ?_⟩
        · simp [queue_insert_sorted_loop, hcurr, hpv, hl]
        · refine lseg_append.mpr ⟨n, lseg_redirect n hpre hnd, rfl, hn0, NULL, ?_, rfl⟩
          rw [write_other _ _ (Ne.symm hln)]; exact hhn
        · show (addrs (pre0 ++ [l] ++ [{ addr := n, data := item, priority := p }])).Nodup
          rw [addrs_append, List.nodup_append]
          refine ⟨hnd, by simp [addrs], ?_⟩
          intro a ha hb
          simp [addrs] at hb
          subst hb
          exact hfresh ha
        · simp only [insert_cell]
          rw [last_addr_append_singleton]
        · simp only [insert_cell, hcount, List.length_append, List.length_singleton]
          push_cast; ring
        · intro a ha _
          have : a ≠ l.addr := by
            intro e; apply ha; simp [addrs, e]
          rw [write_other _ _ this]
  | cons d ds ih =>
    intro pre fuel hh q curr prev hpre hsuf hprev hnd hfresh hhn _ hfuel hrear hcount
    cases fuel with
    | zero => simp at hfuel
    | succ f =>
      obtain ⟨hc, hc0, nx, hnx, hrest⟩ := hsuf
      have hcn : curr ≠ n := by
        intro e; apply hfresh; rw [← e, hc]; simp [addrs]
      by_cases hlt : p < d.priority
      · -- the new node goes in front of `d`
        have hins : insert_cell { addr := n, data := item, priority := p } (d :: ds) =
            { addr := n, data := item, priority := p } :: d :: ds := by
          simp [insert_cell, hlt]
        rw [hins]
        have hsuf' : ∀ h2 : NodeHeap, (∀ a ∈ addrs (d :: ds), h2 a = hh a) →
            lseg h2 curr (d :: ds) NULL :=
          fun h2 hf => lseg_frame hf ⟨hc, hc0, nx, hnx, hrest⟩
        have hndn : (addrs (pre ++ { addr := n, data := item, priority := p } :: d :: ds)).Nodup := by
          have hperm : (addrs (pre ++ { addr := n, data := item, priority := p } :: d :: ds)).Perm
              (n :: addrs (pre ++ d :: ds)) := by
            simp only [addrs_append, addrs_cons]
            exact List.perm_middle
          exact hperm.nodup_iff.mpr (List.nodup_cons.mpr ⟨hfresh, hnd⟩)
        rcases List.eq_nil_or_concat pre with hp | ⟨pre0, l, hp⟩
        · subst hp
          have hpv : prev = NULL := by rw [hprev]; rfl
          have hfront : q.front = curr := hpre
          refine ⟨write hh n { data := item, priority := p, next := curr },
            { q with front := n, count := q.count + 1 }, ?_, ⟨?_, ?_, ?_, ?_⟩, ?_⟩
          · simp [queue_insert_sorted_loop, hc0, hhn, hnx, hlt, hpv]
          · refine ⟨rfl, hn0, curr, write_same _ _ _, hsuf' _ ?_⟩
            intro a ha
            have : a ≠ n := fun e => hfresh (by simpa [e] using ha)
            exact write_other _ _ this
          · simpa using hndn
          · simp only [List.nil_append] at hrear ⊢
            rw [hrear]
            exact (last_addr_cons_cons _ d ds).symm
          · simp only [hcount, List.nil_append, List.length_cons]
            push_cast; ring
          · intro a _ han
            exact write_other _ _ han
        · rw [List.concat_eq_append] at hp
          subst hp
          have hpv : prev = l.addr := by rw [hprev, last_addr_append_singleton]
          have hl := lseg_last_cell hpre
          have hln : l.addr ≠ n := by
            intro e; apply hfresh; simp [addrs, e]
          have hl0 : l.addr ≠ NULL := (lseg_alloc hpre l.addr (by simp [addrs])).1
          have hndpre : (addrs (pre0 ++ [l])).Nodup := by
            rw [addrs_append] at hnd
            exact (List.nodup_append.mp hnd).1
          refine ⟨write (write hh l.addr { data := l.data, priority := l.priority, next := n }) n
              { data := item, priority := p, next := curr },
            { q with count := q.count + 1 }, ?_, ⟨?_, ?_, ?_, ?_⟩, ?_⟩
          · simp [queue_insert_sorted_loop, hc0, hhn, hnx, hlt, hpv, hl0, hl,
              write_other _ _ (Ne.symm hln)]
          · refine lseg_append.mpr ⟨n, ?_, rfl, hn0, curr, write_same _ _ _, hsuf' _ ?_⟩
            · refine lseg_frame ?_ (lseg_redirect n hpre hndpre)
              intro a ha
              have : a ≠ n := fun e => hfresh (by rw [addrs_append]; simp [← e, ha])
              exact write_other _ _ this
            · intro a ha
              have h1 : a ≠ n := fun e => hfresh (by rw [addrs_append]; simp [← e, ha])
              have h2 : a ≠ l.addr := by
                intro e
                rw [addrs_append] at hnd
                exact (List.nodup_append.mp hnd).2.2 (by simp [addrs]) (e ▸ ha)
              rw [write_other _ _ h1, write_other _ _ h2]
          · exact hndn
          · show q.rear = _
            rw [hrear, last_addr_append_cons, last_addr_append_cons]
            exact (last_addr_cons_cons _ d ds).symm
          · simp only [hcount, List.length_append, List.length_cons]
            push_cast; ring
          · intro a ha han
            have h2 : a ≠ l.addr := by
              intro e; apply ha; rw [addrs_append, addrs_append]; simp [addrs, e]
            rw [write_other _ _ han, write_other _ _ h2]
      · -- the loop moves on past `d`
        have hins : insert_cell { addr := n, data := item, priority := p } (d :: ds) =
            d :: insert_cell { addr := n, data := item, priority := p } ds := by
          simp [insert_cell, hlt]
        have hpre' : lseg hh q.front (pre ++ [d]) nx :=
          lseg_append.mpr ⟨curr, hpre, hc, hc0, nx, hnx, rfl⟩
        have happ : pre ++ d :: ds = (pre ++ [d]) ++ ds := by simp
        obtain ⟨h', q', hrun, hrep, hframe⟩ := ih (pre ++ [d]) f hh q nx curr hpre' hrest
          (by rw [last_addr_append_singleton]; exact hc) (happ ▸ hnd) (happ ▸ hfresh) hhn
          (fun _ => by simp) (by simpa using hfuel) (happ ▸ hrear) (happ ▸ hcount)
        refine ⟨h', q', ?_, ?_, ?_⟩
        · rw [← hrun]
          simp [queue_insert_sorted_loop, hc0, hhn, hnx, hlt]
        · rw [hins]
          simpa using hrep
        · intro a ha han
          exact hframe a (happ ▸ ha) han

/-- Outcome of `queue_insert_sorted` on a represented queue. -/
theorem queue_insert_sorted_spec {h : NodeHeap} {q : queue} {cs : List Cell} (hr : Rep h q cs)
    {item n : Ptr} (p : Int) (hitem : item ≠ NULL) (hn0 : n ≠ NULL) (hn : h n = none)
    {fuel : Nat} (hfuel : cs.length < fuel) :
    ∃ h' q', queue_insert_sorted fuel h q item p n = some (0, h', q') ∧
      Rep h' q' (insert_cell { addr := n, data := item, priority := p } cs) ∧
      (∀ a, a ∉ addrs cs → a ≠ n → h' a = h a) := by
  have hfresh := rep_fresh hr hn
  by_cases hcs : cs = []
  · subst hcs
    refine ⟨write h n (creat_qnode_priority item p),
      { q with front := n, rear := n, count := q.count + 1 }, ?_, ⟨?_, ?_, ?_, ?_⟩, ?_⟩
    · simp [queue_insert_sorted, hitem, hn0, queue_length, hr.count]
    · exact ⟨rfl, hn0, NULL, write_same _ _ _, rfl⟩
    · simp [insert_cell, addrs]
    · simp [insert_cell, last_addr, addrs]
    · simp [insert_cell, hr.count]
    · intro a _ han; exact write_other _ _ han
  · have hlen : queue_length q ≠ 0 := by
      rw [queue_length, hr.count]
      simpa using hcs
    have hchain : lseg (write h n (creat_qnode_priority item p)) q.front cs NULL :=
      lseg_frame (fun a ha => write_other _ _ (fun e => hfresh (e ▸ ha))) hr.chain
    obtain ⟨h', q', hrun, hrep, hframe⟩ := @queue_insert_sorted_loop_spec n item p
      hn0 cs [] fuel (write h n (creat_qnode_priority item p)) q q.front NULL rfl hchain rfl
      (by simpa using hr.nodup) (by simpa using hfresh) (write_same _ _ _)
      (fun e => absurd e hcs) hfuel (by simpa using hr.rear) (by simpa using hr.count)
    refine ⟨h', q', ?_, by simpa using hrep, ?_⟩
    · simp [queue_insert_sorted, hitem, hn0, hlen, hrun]
    · intro a ha han
      rw [hframe a (by simpa using ha) han, write_other _ _ han]

theorem rep_queue_one : Rep heap_one queue_one [{ addr := 1, data := 10, priority := 5 }] :=
  ⟨⟨rfl, by decide, NULL, rfl, rfl⟩, by decide, rfl, rfl⟩

/-- C2. On a queue whose nodes are in non-decreasing priority order,
`queue_insert_sorted(q, item, p)` returns 0 and leaves a queue that is again in
non-decreasing priority order, that holds the previous nodes `l1 ++ l2` in their previous
order with the new node between them, every node before the new one having priority at
most `p` and every node after it priority greater than `p` (so the new item comes after
all existing items of priority less than or equal to `p`). -/
theorem queue_insert_sorted_keeps_order {h : NodeHeap} {q : queue} {cs : List Cell}
    (hr : Rep h q cs) (hs : sorted_cells cs) {item n : Ptr} (p : Int) (hitem : item ≠ NULL)
    (hn0 : n ≠ NULL) (hn : h n = none) {fuel : Nat} (hfuel : cs.length < fuel) :
    ∃ h' q' l1 l2, queue_insert_sorted fuel h q item p n = some (0, h', q') ∧
      cs = l1 ++ l2 ∧
      Rep h' q' (l1 ++ { addr := n, data := item, priority := p } :: l2) ∧
      sorted_cells (l1 ++ { addr := n, data := item, priority := p } :: l2) ∧
      (∀ x ∈ l1, x.priority ≤ p) ∧ (∀ x ∈ l2, p < x.priority) := by
  obtain ⟨h', q', hrun, hrep, _⟩ := queue_insert_sorted_spec hr p hitem hn0 hn hfuel
  obtain ⟨l1, l2, h1, h2, h3, h4⟩ :=
    insert_cell_split { addr := n, data := item, priority := p } cs hs
  have hsorted := insert_cell_sorted { addr := n, data := item, priority := p } cs hs
  rw [h2] at hrep hsorted
  exact ⟨h', q', l1, l2, hrun, h1, hrep, hsorted, h3, h4⟩

/-- C2 at a concrete input: item 20 with priority 5 inserted into a queue holding one
item of priority 5. -/
theorem queue_insert_sorted_keeps_order_witness :
    ∃ h' q' l1 l2, queue_insert_sorted 2 heap_one queue_one 20 5 2 = some (0, h', q') ∧
      [({ addr := 1, data := 10, priority := 5 } : Cell)] = l1 ++ l2 ∧
      Rep h' q' (l1 ++ { addr := 2, data := 20, priority := 5 } :: l2) ∧
      sorted_cells (l1 ++ { addr := 2, data := 20, priority := 5 } :: l2) ∧
      (∀ x ∈ l1, x.priority ≤ 5) ∧ (∀ x ∈ l2, 5 < x.priority) :=
  @queue_insert_sorted_keeps_order heap_one queue_one _ rep_queue_one (by simp [sorted_cells])
    20 2 5 (by decide) (by decide) rfl 2 (by decide)

/-! ## First in, first out -/

/-- The nodes created by appending the items `xs` at the addresses `ns`. -/
theorem append_all_spec (xs : List Ptr) :
    ∀ (ns : List Ptr) (h : NodeHeap) (q : queue) (cs : List Cell), Rep h q cs →
      ns.length = xs.length → ns.Nodup → (∀ n ∈ ns, n ≠ NULL ∧ h n = none) →
      ∃ h' q', append_all h q xs ns = some (h', q') ∧
        Rep h' q' (cs ++ List.zipWith (fun x n => { addr := n, data := x, priority := 0 }) xs ns) := by
  induction xs with
  | nil =>
    intro ns h q cs hr _ _ _
    exact ⟨h, q, rfl, by simpa using hr⟩
  | cons x xs ih =>
    intro ns h q cs hr hlen hnd hfresh
    cases ns with
    | nil => simp at hlen
    | cons n ns =>
      simp only [List.length_cons, add_left_inj] at hlen
      simp only [List.nodup_cons] at hnd
      obtain ⟨hn0, hn⟩ := hfresh n (by simp)
      obtain ⟨h1, q1, happ, hr1, hframe⟩ := queue_append_spec hr x hn0 hn
      have hfresh1 : ∀ m ∈ ns, m ≠ NULL ∧ h1 m = none := by
        intro m hm
        obtain ⟨hm0, hmn⟩ := hfresh m (by simp [hm])
        refine ⟨hm0, ?_⟩
        rw [hframe m (rep_fresh hr hmn) (fun e => hnd.1 (e ▸ hm))]
        exact hmn
      obtain ⟨h2, q2, hall, hr2⟩ := ih ns h1 q1 _ hr1 hlen hnd.2 hfresh1
      refine ⟨h2, q2, ?_, ?_⟩
      · simp [append_all, happ, hall]
      · simpa using hr2

/-- The log of `k` dequeues from a represented queue of at least `k` nodes. -/
theorem dequeue_n_spec (k : Nat) :
    ∀ (h : NodeHeap) (q : queue) (cs : List Cell), Rep h q cs → k ≤ cs.length →
      ∃ out h' q', dequeue_n k h q = some (out, h', q') ∧ Rep h' q' (cs.drop k) ∧
        out.map (fun r => r.1) = List.replicate k 0 ∧
        out.map (fun r => r.2.1) = items (cs.take k) ∧
        out.map (fun r => r.2.2) = (List.range k).map (fun (i : Nat) => (cs.length : Int) - 1 - (i : Int)) := by
  induction k with
  | zero =>
    intro h q cs hr _
    exact ⟨[], h, q, rfl, by simpa using hr, by simp, by simp [items], by simp⟩
  | succ k ih =>
    intro h q cs hr hk
    cases cs with
    | nil => simp at hk
    | cons c cs =>
      simp only [List.length_cons, add_le_add_iff_right] at hk
      obtain ⟨q1, hdq, hr1, hlen1⟩ := queue_dequeue_spec hr
      obtain ⟨out, h2, q2, hrest, hr2, ho1, ho2, ho3⟩ := ih _ q1 cs hr1 hk
      refine ⟨(0, c.data, queue_length q1) :: out, h2, q2, ?_, ?_, ?_, ?_, ?_⟩
      · simp [dequeue_n, hdq, hrest]
      · simpa using hr2
      · simp [ho1, List.replicate_succ]
      · simp [ho2, items]
      · rw [List.range_succ_eq_map]
        simp only [List.map_cons, List.map_map, ho3, List.length_cons]
        refine congrArg₂ _ ?_ ?_
        · simp [queue_length, hr1.count]
        · apply List.map_congr_left
          intro i _
          simp only [Function.comp, Nat.cast_succ, Nat.cast_add, Nat.cast_one]
          ring

/-- C1. Items appended to a new queue with `queue_append` leave it first in, first out:
each of the first `k` successive `queue_dequeue` calls returns 0, the items come out in
the order in which they were appended, and `queue_length` goes down by one per call. -/
theorem queue_fifo (h : NodeHeap) (xs ns : List Ptr) (hlen : ns.length = xs.length)
    (hnd : ns.Nodup) (hfresh : ∀ n ∈ ns, n ≠ NULL ∧ h n = none) :
    ∃ h1 q1, append_all h queue_new xs ns = some (h1, q1) ∧
      queue_length q1 = xs.length ∧
      ∀ k, k ≤ xs.length → ∃ out h2 q2, dequeue_n k h1 q1 = some (out, h2, q2) ∧
        out.map (fun r => r.1) = List.replicate k 0 ∧
        out.map (fun r => r.2.1) = xs.take k ∧
        out.map (fun r => r.2.2) = (List.range k).map (fun (i : Nat) => (xs.length : Int) - 1 - (i : Int)) := by
  obtain ⟨h1, q1, hall, hr1⟩ := append_all_spec xs ns h queue_new [] (rep_new h) hlen hnd hfresh
  have hl : (List.zipWith (fun x n => ({ addr := n, data := x, priority := 0 } : Cell)) xs ns).length
      = xs.length := by simp [hlen]
  refine ⟨h1, q1, hall, ?_, ?_⟩
  · simp [queue_length, hr1.count, hlen]
  · intro k hk
    obtain ⟨out, h2, q2, hdq, _, ho1, ho2, ho3⟩ := dequeue_n_spec k h1 q1 _ hr1 (by simpa [hlen] using hk)
    refine ⟨out, h2, q2, hdq, ho1, ?_, ?_⟩
    · rw [ho2, List.nil_append, items, List.map_take]
      have hz : ∀ (ys ms : List Ptr), ms.length = ys.length →
          (List.zipWith (fun x n => ({ addr := n, data := x, priority := 0 } : Cell)) ys ms).map
            Cell.data = ys := by
        intro ys
        induction ys with
        | nil => intro ms _; simp
        | cons y ys ih =>
          intro ms hms
          cases ms with
          | nil => simp at hms
          | cons m ms => simp [ih ms (by simpa using hms)]
      rw [hz xs ns hlen]
    · rw [ho3]; simp [hlen]

/-- C1 at a concrete input: two items appended at the addresses 1 and 2 of an empty heap. -/
theorem queue_fifo_witness :
    ∃ h1 q1, append_all (fun _ => none) queue_new [7, 8] [1, 2] = some (h1, q1) ∧
      queue_length q1 = ([7, 8] : List Ptr).length ∧
      ∀ k, k ≤ ([7, 8] : List Ptr).length → ∃ out h2 q2,
        dequeue_n k h1 q1 = some (out, h2, q2) ∧
        out.map (fun r => r.1) = List.replicate k 0 ∧
        out.map (fun r => r.2.1) = ([7, 8] : List Ptr).take k ∧
        out.map (fun r => r.2.2) =
          (List.range k).map (fun (i : Nat) => (([7, 8] : List Ptr).length : Int) - 1 - (i : Int)) :=
  queue_fifo (fun _ => none) [7, 8] [1, 2] rfl (by decide) (by decide)

/-! ## Several queues in one heap -/

theorem rep_frame {h h' : NodeHeap} {q : queue} {cs : List Cell} (hr : Rep h q cs)
    (hf : ∀ a ∈ addrs cs, h' a = h a) : Rep h' q cs :=
  ⟨lseg_frame hf hr.chain, hr.nodup, hr.rear, hr.count⟩

theorem set_getElem?_self {α : Type} (l : List α) (i : Nat) (a : α) (hi : l[i]? = some a) :
    l.set i a = l := by
  apply List.ext_getElem?
  intro j
  rw [List.getElem?_set]
  split
  · next hij =>
    subst hij
    have : i < l.length := by
      by_contra hge
      rw [List.getElem?_eq_none (by omega)] at hi
      cases hi
    simp [this, hi]
  · rfl

/-- Replacing the content of one queue while the other queues' nodes stay untouched. -/
theorem repAll_update {h h' : NodeHeap} {qs : List queue} {css : List (List Cell)} {i : Nat}
    {q q' : queue} {cs cs' : List Cell} (hall : RepAll h qs css) (hq : qs[i]? = some q)
    (hcs : css[i]? = some cs) (hr' : Rep h' q' cs')
    (hframe : ∀ a, a ∉ addrs cs → h a ≠ none → h' a = h a)
    (hsub : ∀ a ∈ addrs cs', a ∈ addrs cs ∨ h a = none) :
    RepAll h' (qs.set i q') (css.set i cs') := by
  have hiq : i < qs.length := by
    by_contra hge
    rw [List.getElem?_eq_none (by omega)] at hq
    cases hq
  have hic : i < css.length := hall.length ▸ hiq
  have halloc : ∀ (j : Nat) (b : List Cell), css[j]? = some b → ∀ x ∈ addrs b, h x ≠ none := by
    intro j b hb x hx
    have hj : j < qs.length := by
      rw [hall.length]
      by_contra hge
      rw [List.getElem?_eq_none (by omega)] at hb
      cases hb
    have hqj : qs[j]? = some qs[j] := List.getElem?_eq_getElem hj
    exact (lseg_alloc (hall.rep j _ b hqj hb).chain x hx).2
  refine ⟨by simp [hall.length], ?_, ?_⟩
  · intro j qj cj hqj hcj
    rw [List.getElem?_set] at hqj hcj
    by_cases hij : i = j
    · subst hij
      simp only [if_true, hiq, hic] at hqj hcj
      cases hqj; cases hcj
      exact hr'
    · simp only [hij, if_false] at hqj hcj
      refine rep_frame (hall.rep j qj cj hqj hcj) ?_
      intro a ha
      exact hframe a (hall.disjoint j i cj cs (Ne.symm hij) hcj hcs a ha) (halloc j cj hcj a ha)
  · intro j k a b hjk ha hb x hxa hxb
    rw [List.getElem?_set] at ha hb
    by_cases hij : i = j
    · subst hij
      have hik : ¬ i = k := hjk
      simp only [if_true, hic, hik, if_false] at ha hb
      cases ha
      rcases hsub x hxa with hx | hx
      · exact hall.disjoint i k cs b hjk hcs hb x hx hxb
      · exact halloc k b hb x hxb hx
    · simp only [hij, if_false] at ha
      by_cases hik : i = k
      · subst hik
        simp only [if_true, hic] at hb
        cases hb
        rcases hsub x hxb with hx | hx
        · exact hall.disjoint j i a cs hjk ha hcs x hxa hx
        · exact halloc j a ha x hxa hx
      · simp only [hik, if_false] at hb
        exact hall.disjoint j k a b hjk ha hb x hxa hxb

/-- Dequeueing from one of several queues. -/
theorem repAll_dequeue {h : NodeHeap} {qs : List queue} {css : List (List Cell)} {i : Nat}
    {q : queue} {c : Cell} {cs : List Cell} (hall : RepAll h qs css) (hq : qs[i]? = some q)
    (hcs : css[i]? = some (c :: cs)) :
    ∃ q', queue_dequeue h q = some (0, c.data, release h c.addr, q') ∧
      RepAll (release h c.addr) (qs.set i q') (css.set i cs) := by
  obtain ⟨q', hdq, hr', _⟩ := queue_dequeue_spec (hall.rep i q _ hq hcs)
  refine ⟨q', hdq, repAll_update hall hq hcs hr' ?_ ?_⟩
  · intro a ha _
    exact release_other _ (fun e => ha (by simp [addrs, e]))
  · intro a ha
    exact Or.inl (by simp only [addrs_cons, List.mem_cons]; exact Or.inr ha)

/-- Appending to one of several queues. -/
theorem repAll_append {h : NodeHeap} {qs : List queue} {css : List (List Cell)} {i : Nat}
    {q : queue} {cs : List Cell} (hall : RepAll h qs css) (hq : qs[i]? = some q)
    (hcs : css[i]? = some cs) (item : Ptr) {n : Ptr} (hn0 : n ≠ NULL) (hn : h n = none) :
    ∃ h' q', queue_append h q item n = some (0, h', q') ∧
      RepAll h' (qs.set i q') (css.set i (cs ++ [{ addr := n, data := item, priority := 0 }])) ∧
      (∀ a, a ∉ addrs cs → a ≠ n → h' a = h a) := by
  obtain ⟨h', q', happ, hr', hframe⟩ := queue_append_spec (hall.rep i q _ hq hcs) item hn0 hn
  refine ⟨h', q', happ, repAll_update hall hq hcs hr' ?_ ?_, hframe⟩
  · intro a ha hal
    exact hframe a ha (fun e => hal (e ▸ hn))
  · intro a ha
    rw [addrs_append] at ha
    rcases List.mem_append.mp ha with ha | ha
    · exact Or.inl ha
    · simp [addrs] at ha
      exact Or.inr (ha ▸ hn)

/-! ## The circular search of the multilevel queue -/

theorem tmod_cast (lv k n : Nat) :
    Int.tmod ((lv : Int) + (k : Int)) (n : Int) = (((lv + k) % n : Nat) : Int) := by
  rw [Int.tmod_eq_emod (by positivity) (by positivity)]
  push_cast
  rfl

theorem getElem?_lt {α : Type} {l : List α} {i : Nat} {a : α} (hi : l[i]? = some a) :
    i < l.length := by
  by_contra hge
  rw [List.getElem?_eq_none (by omega)] at hi
  cases hi

theorem getElem?_of_lt {α : Type} {l : List α} {i : Nat} (hi : i < l.length) :
    ∃ a, l[i]? = some a :=
  ⟨_, List.getElem?_eq_getElem hi⟩

theorem mrepx_of_mrep {h : NodeHeap} {mq : multilevel_queue} {css : List (List Cell)}
    (hm : MRep h mq css) : MRepX h mq css [] [] :=
  ⟨hm.levels, hm.all.length, by simpa using hm.all⟩

theorem mrep_of_mrepx {h : NodeHeap} {mq : multilevel_queue} {css : List (List Cell)}
    (hm : MRepX h mq css [] []) : MRep h mq css :=
  ⟨hm.levels, by simpa using hm.all⟩

theorem mrepx_n_levels {h : NodeHeap} {mq : multilevel_queue} {css : List (List Cell)}
    {qx : List queue} {cx : List (List Cell)} (hm : MRepX h mq css qx cx) :
    mq.n_levels = (css.length : Int) := by
  rw [← hm.levels, hm.length]

/-- Dequeueing from one level of a multilevel queue. -/
theorem mrepx_dequeue {h : NodeHeap} {mq : multilevel_queue} {css : List (List Cell)}
    {qx : List queue} {cx : List (List Cell)} (hm : MRepX h mq css qx cx) {i : Nat}
    {q : queue} {c : Cell} {cs : List Cell} (hq : mq.level_queues[i]? = some q)
    (hcs : css[i]? = some (c :: cs)) :
    ∃ q', queue_dequeue h q = some (0, c.data, release h c.addr, q') ∧
      MRepX (release h c.addr) { mq with level_queues := mq.level_queues.set i q' }
        (css.set i cs) qx cx := by
  have hi := getElem?_lt hq
  have hi' := getElem?_lt hcs
  obtain ⟨q', hdq, hall⟩ := repAll_dequeue hm.all
    (by rw [List.getElem?_append_left hi]; exact hq)
    (by rw [List.getElem?_append_left hi']; exact hcs)
  rw [List.set_append_left _ _ hi, List.set_append_left _ _ hi'] at hall
  exact ⟨q', hdq, by simp [hm.levels], by simp [hm.length], hall⟩

/-- The queue header of an empty level. -/
theorem mrepx_level_rep {h : NodeHeap} {mq : multilevel_queue} {css : List (List Cell)}
    {qx : List queue} {cx : List (List Cell)} (hm : MRepX h mq css qx cx) {i : Nat}
    {q : queue} {cs : List Cell} (hq : mq.level_queues[i]? = some q)
    (hcs : css[i]? = some cs) : Rep h q cs :=
  hm.all.rep i q cs
    (by rw [List.getElem?_append_left (getElem?_lt hq)]; exact hq)
    (by rw [List.getElem?_append_left (getElem?_lt hcs)]; exact hcs)

/-- One iteration of the search loop. -/
theorem multilevel_queue_dequeue_loop_step {h : NodeHeap} {mq : multilevel_queue} {n : Nat}
    (hn : mq.n_levels = (n : Int)) (lv rem k : Nat) (item : Ptr) {q : queue}
    (hq : mq.level_queues[(lv + k) % n]? = some q) :
    multilevel_queue_dequeue_loop lv (rem + 1) k h mq item =
      match queue_dequeue h q with
      | none => none
      | some (res, it, h', q') =>
        if res ≠ -1 then
          some (res, it, h', { mq with level_queues := mq.level_queues.set ((lv + k) % n) q' })
        else
          multilevel_queue_dequeue_loop lv rem ((k + 1 : Nat) : Int) h'
            { mq with level_queues := mq.level_queues.set ((lv + k) % n) q' } it := by
  have hnn : ¬ ((((lv + k) % n : Nat) : Int) < 0) := by
    have : (0 : Int) ≤ (((lv + k) % n : Nat) : Int) := Int.ofNat_nonneg _
    omega
  rw [multilevel_queue_dequeue_loop]
  simp only [hn, tmod_cast, hnn, if_false, Int.toNat_ofNat, hq, Nat.cast_succ]

/-- The search loop, `j` empty levels before the first non-empty one. -/
theorem multilevel_queue_dequeue_loop_found {h : NodeHeap} {mq : multilevel_queue}
    {css : List (List Cell)} {qx : List queue} {cx : List (List Cell)}
    (hm : MRepX h mq css qx cx) (lv : Nat) {c : Cell} {cs : List Cell} :
    ∀ (j rem k : Nat) (item : Ptr), j < rem →
      (∀ j', j' < j → css[(lv + (k + j')) % css.length]? = some []) →
      css[(lv + (k + j)) % css.length]? = some (c :: cs) →
      ∃ q', multilevel_queue_dequeue_loop lv rem k h mq item =
          some (0, c.data, release h c.addr,
            { mq with level_queues := mq.level_queues.set ((lv + (k + j)) % css.length) q' }) ∧
        MRepX (release h c.addr)
          { mq with level_queues := mq.level_queues.set ((lv + (k + j)) % css.length) q' }
          (css.set ((lv + (k + j)) % css.length) cs) qx cx := by
  intro j
  induction j with
  | zero =>
    intro rem k item hrem _ hfound
    cases rem with
    | zero => simp at hrem
    | succ r =>
      simp only [Nat.add_zero] at hfound ⊢
      have hidx := getElem?_lt hfound
      obtain ⟨q, hq⟩ := getElem?_of_lt (show (lv + k) % css.length < mq.level_queues.length by
        rw [hm.length]; exact hidx)
      obtain ⟨q', hdq, hrep⟩ := mrepx_dequeue hm hq hfound
      refine ⟨q', ?_, hrep⟩
      rw [multilevel_queue_dequeue_loop_step (mrepx_n_levels hm) lv r k item hq, hdq]
      simp
  | succ j ih =>
    intro rem k item hrem hempty hfound
    cases rem with
    | zero => simp at hrem
    | succ r =>
      have h0 := hempty 0 (Nat.succ_pos j)
      simp only [Nat.add_zero] at h0
      have hidx := getElem?_lt h0
      obtain ⟨q, hq⟩ := getElem?_of_lt (show (lv + k) % css.length < mq.level_queues.length by
        rw [hm.length]; exact hidx)
      have hdq := queue_dequeue_empty (mrepx_level_rep hm hq h0)
      have hself : ({ mq with level_queues := mq.level_queues.set ((lv + k) % css.length) q }
          : multilevel_queue) = mq := by
        rw [set_getElem?_self _ _ _ hq]
      have hk : ∀ x, k + 1 + x = k + (x + 1) := fun x => by omega
      obtain ⟨q', hrun, hrep⟩ := ih r (k + 1) NULL (by omega)
        (fun j' hj' => by rw [hk]; exact hempty (j' + 1) (by omega))
        (by rw [hk]; exact hfound)
      rw [hk] at hrun hrep
      refine ⟨q', ?_, hrep⟩
      rw [← hrun, multilevel_queue_dequeue_loop_step (mrepx_n_levels hm) lv r k item hq, hdq]
      simp [hself]

/-- The search loop when every level is empty. -/
theorem multilevel_queue_dequeue_loop_empty {h : NodeHeap} {mq : multilevel_queue}
    {css : List (List Cell)} {qx : List queue} {cx : List (List Cell)}
    (hm : MRepX h mq css qx cx) (lv : Nat) (hlv : lv < css.length)
    (hempty : ∀ cs ∈ css, cs = []) :
    ∀ (rem k : Nat) (item : Ptr),
      multilevel_queue_dequeue_loop lv (rem + 1) k h mq item = some (-1, NULL, h, mq) := by
  intro rem
  induction rem with
  | zero =>
    intro k item
    have hidx : (lv + k) % css.length < css.length := Nat.mod_lt _ (by omega)
    have hc : css[(lv + k) % css.length]? = some [] := by
      rw [List.getElem?_eq_getElem hidx]
      exact congrArg some (hempty _ (List.getElem_mem _))
    obtain ⟨q, hq⟩ := getElem?_of_lt (show (lv + k) % css.length < mq.level_queues.length by
        rw [hm.length]; exact hidx)
    have hdq := queue_dequeue_empty (mrepx_level_rep hm hq hc)
    rw [multilevel_queue_dequeue_loop_step (mrepx_n_levels hm) lv 0 k item hq, hdq]
    simp [set_getElem?_self _ _ _ hq, multilevel_queue_dequeue_loop]
  | succ r ih =>
    intro k item
    have hidx : (lv + k) % css.length < css.length := Nat.mod_lt _ (by omega)
    have hc : css[(lv + k) % css.length]? = some [] := by
      rw [List.getElem?_eq_getElem hidx]
      exact congrArg some (hempty _ (List.getElem_mem _))
    obtain ⟨q, hq⟩ := getElem?_of_lt (show (lv + k) % css.length < mq.level_queues.length by
        rw [hm.length]; exact hidx)
    have hdq := queue_dequeue_empty (mrepx_level_rep hm hq hc)
    rw [← ih (k + 1) NULL,
      multilevel_queue_dequeue_loop_step (mrepx_n_levels hm) lv (r + 1) k item hq, hdq]
    simp [set_getElem?_self _ _ _ hq]

/-- Outcome of `multilevel_queue_dequeue` when level `(lv + j) mod n` is the first
non-empty one in circular order. -/
theorem multilevel_queue_dequeue_found {h : NodeHeap} {mq : multilevel_queue}
    {css : List (List Cell)} {qx : List queue} {cx : List (List Cell)}
    (hm : MRepX h mq css qx cx) (lv : Nat) (hlv : lv < css.length) (item : Ptr)
    {j : Nat} {c : Cell} {cs : List Cell} (hj : j < css.length)
    (hempty : ∀ j', j' < j → css[(lv + j') % css.length]? = some [])
    (hfound : css[(lv + j) % css.length]? = some (c :: cs)) :
    ∃ q', multilevel_queue_dequeue h mq lv item =
        some (0, c.data, release h c.addr,
          { mq with level_queues := mq.level_queues.set ((lv + j) % css.length) q' }) ∧
      MRepX (release h c.addr)
        { mq with level_queues := mq.level_queues.set ((lv + j) % css.length) q' }
        (css.set ((lv + j) % css.length) cs) qx cx := by
  have hn := mrepx_n_levels hm
  have hlt : (lv : Int) < mq.n_levels := by rw [hn]; exact_mod_cast hlv
  have htn : mq.n_levels.toNat = css.length := by rw [hn]; simp
  obtain ⟨q', hrun, hrep⟩ := multilevel_queue_dequeue_loop_found hm lv j css.length 0 item hj
    (fun j' hj' => by simpa using hempty j' hj') (by simpa using hfound)
  simp only [Nat.zero_add] at hrun hrep
  refine ⟨q', ?_, hrep⟩
  rw [multilevel_queue_dequeue, if_pos hlt, htn]
  exact_mod_cast hrun

/-- Outcome of `multilevel_queue_dequeue` when every level is empty. -/
theorem multilevel_queue_dequeue_all_empty {h : NodeHeap} {mq : multilevel_queue}
    {css : List (List Cell)} {qx : List queue} {cx : List (List Cell)}
    (hm : MRepX h mq css qx cx) (lv : Nat) (hlv : lv < css.length) (item : Ptr)
    (hempty : ∀ cs ∈ css, cs = []) :
    multilevel_queue_dequeue h mq lv item = some (-1, NULL, h, mq) := by
  have hn := mrepx_n_levels hm
  have hlt : (lv : Int) < mq.n_levels := by rw [hn]; exact_mod_cast hlv
  have htn : mq.n_levels.toNat = css.length := by rw [hn]; simp
  obtain ⟨m, hm1⟩ : ∃ m, css.length = m + 1 := ⟨css.length - 1, by omega⟩
  have := multilevel_queue_dequeue_loop_empty hm lv hlv hempty m 0 item
  rw [multilevel_queue_dequeue, if_pos hlt, htn, hm1]
  exact_mod_cast this

/-- C4. On a multilevel queue with `n` levels and a start level `lv < n`,
`multilevel_queue_dequeue` removes and yields the head of the first non-empty level in
the circular order `lv, lv+1, ..., (lv+n-1) mod n` and leaves every other level as it is
(only that level's header and the freed node change); if all levels are empty it returns
-1 with a `NULL` item and changes nothing. -/
theorem multilevel_queue_dequeue_circular {h : NodeHeap} {mq : multilevel_queue}
    {css : List (List Cell)} (hm : MRep h mq css) (lv : Nat) (hlv : lv < css.length)
    (item : Ptr) :
    (∀ (j : Nat) (c : Cell) (cs : List Cell), j < css.length →
      (∀ j', j' < j → css[(lv + j') % css.length]? = some []) →
      css[(lv + j) % css.length]? = some (c :: cs) →
      ∃ res q', multilevel_queue_dequeue h mq lv item =
          some (res, c.data, release h c.addr,
            { mq with level_queues := mq.level_queues.set ((lv + j) % css.length) q' }) ∧
        res ≠ -1 ∧
        MRep (release h c.addr)
          { mq with level_queues := mq.level_queues.set ((lv + j) % css.length) q' }
          (css.set ((lv + j) % css.length) cs)) ∧
    ((∀ cs ∈ css, cs = []) →
      multilevel_queue_dequeue h mq lv item = some (-1, NULL, h, mq)) := by
  have hx := mrepx_of_mrep hm
  constructor
  · intro j c cs hj hempty hfound
    obtain ⟨q', hrun, hrep⟩ := multilevel_queue_dequeue_found hx lv hlv item hj hempty hfound
    exact ⟨0, q', hrun, by decide, mrep_of_mrepx hrep⟩
  · intro hempty
    exact multilevel_queue_dequeue_all_empty hx lv hlv item hempty

theorem mrep_mlq_two : MRep heap_one mlq_two [[], [{ addr := 1, data := 10, priority := 5 }]] := by
  refine ⟨by decide, by decide, ?_, ?_⟩
  · intro i q cs hq hc
    match i with
    | 0 =>
      simp [mlq_two] at hq hc
      subst hq; subst hc
      exact rep_new _
    | 1 =>
      simp [mlq_two] at hq hc
      subst hq; subst hc
      exact rep_queue_one
    | k + 2 => simp [mlq_two] at hq
  · intro i j a b hij ha hb x hx
    match i, j with
    | 0, _ =>
      simp at ha
      subst ha
      simp [addrs] at hx
    | 1, 0 =>
      simp at hb
      subst hb
      simp [addrs]
    | 1, 1 => exact absurd rfl hij
    | 1, k + 2 => simp at hb
    | k + 2, _ => simp at ha

/-- C4 at a concrete input: two levels, level 0 empty, the item 10 at the head of level 1,
search started at level 0. -/
theorem multilevel_queue_dequeue_circular_witness :
    ∃ res q', multilevel_queue_dequeue heap_one mlq_two (0 : Nat) NULL =
        some (res, 10, release heap_one 1,
          { mlq_two with level_queues := mlq_two.level_queues.set 1 q' }) ∧
      res ≠ -1 ∧
      MRep (release heap_one 1)
        { mlq_two with level_queues := mlq_two.level_queues.set 1 q' } [[], []] :=
  (multilevel_queue_dequeue_circular mrep_mlq_two 0 (by decide) NULL).1 1
    { addr := 1, data := 10, priority := 5 } [] (by decide)
    (fun j' hj' => by
      have : j' = 0 := by omega
      subst this
      rfl)
    rfl

/-! ## Scheduler steps on well-formed states -/

/-- Outcome of `multilevel_queue_enqueue` on an existing level. -/
theorem multilevel_queue_enqueue_spec {h : NodeHeap} {mq : multilevel_queue}
    {css : List (List Cell)} {qx : List queue} {cx : List (List Cell)}
    (hm : MRepX h mq css qx cx) {level : Int} (h0 : 0 ≤ level) {cs : List Cell}
    (hcs : css[level.toNat]? = some cs) (item : Ptr) {n : Ptr} (hn0 : n ≠ NULL)
    (hn : h n = none) :
    ∃ h' q', multilevel_queue_enqueue h mq level item n =
        some (0, h', { mq with level_queues := mq.level_queues.set level.toNat q' }) ∧
      MRepX h' { mq with level_queues := mq.level_queues.set level.toNat q' }
        (css.set level.toNat (cs ++ [{ addr := n, data := item, priority := 0 }])) qx cx ∧
      (∀ a, a ∉ addrs cs → a ≠ n → h' a = h a) := by
  have hi' := getElem?_lt hcs
  have hi : level.toNat < mq.level_queues.length := by rw [hm.length]; exact hi'
  obtain ⟨q, hq⟩ := getElem?_of_lt hi
  obtain ⟨h', q', happ, hall, hframe⟩ := repAll_append hm.all
    (by rw [List.getElem?_append_left hi]; exact hq)
    (by rw [List.getElem?_append_left hi']; exact hcs) item hn0 hn
  rw [List.set_append_left _ _ hi, List.set_append_left _ _ hi'] at hall
  have hle : ¬ level > mq.n_levels := by
    have := mrepx_n_levels hm
    have h2 : (level.toNat : Int) = level := Int.toNat_of_nonneg h0
    omega
  refine ⟨h', q', ?_, ⟨by simp [hm.levels], by simp [hm.length], hall⟩, hframe⟩
  simp [multilevel_queue_enqueue, hle, not_lt.mpr h0, hq, happ]

/-- Appending to a queue that lives next to the multilevel queue. -/
theorem mrepx_extra_append {h : NodeHeap} {mq : multilevel_queue} {css : List (List Cell)}
    {q : queue} {ws : List Cell} (hm : MRepX h mq css [q] [ws]) (item : Ptr) {n : Ptr}
    (hn0 : n ≠ NULL) (hn : h n = none) :
    ∃ h' q', queue_append h q item n = some (0, h', q') ∧
      MRepX h' mq css [q'] [ws ++ [{ addr := n, data := item, priority := 0 }]] ∧
      (∀ a, h a = none → a ≠ n → h' a = none) := by
  have hq : (mq.level_queues ++ [q])[css.length]? = some q := by
    rw [← hm.length]; exact List.getElem?_concat_length _ _
  have hw : (css ++ [ws])[css.length]? = some ws := List.getElem?_concat_length _ _
  obtain ⟨h', q', happ, hall, hframe⟩ := repAll_append hm.all hq hw item hn0 hn
  have e1 : (mq.level_queues ++ [q]).set css.length q' = mq.level_queues ++ [q'] := by
    rw [List.set_append_right _ _ (by rw [hm.length]), hm.length]; simp
  have e2 : ∀ x, (css ++ [ws]).set css.length x = css ++ [x] := by
    intro x
    rw [List.set_append_right _ _ (le_refl _)]; simp
  rw [e1, e2] at hall
  refine ⟨h', q', happ, ⟨hm.levels, hm.length, hall⟩, ?_⟩
  intro a ha han
  rw [hframe a (rep_fresh (hm.all.rep _ _ _ hq hw) ha) han]
  exact ha

/-- Dequeueing from a queue that lives next to the multilevel queue. -/
theorem mrepx_extra_dequeue {h : NodeHeap} {mq : multilevel_queue} {css : List (List Cell)}
    {q : queue} {c : Cell} {ws : List Cell} (hm : MRepX h mq css [q] [c :: ws]) :
    ∃ q', queue_dequeue h q = some (0, c.data, release h c.addr, q') ∧
      MRepX (release h c.addr) mq css [q'] [ws] := by
  have hq : (mq.level_queues ++ [q])[css.length]? = some q := by
    rw [← hm.length]; exact List.getElem?_concat_length _ _
  have hw : (css ++ [c :: ws])[css.length]? = some (c :: ws) :=
    List.getElem?_concat_length _ _
  obtain ⟨q', hdq, hall⟩ := repAll_dequeue hm.all hq hw
  have e1 : (mq.level_queues ++ [q]).set css.length q' = mq.level_queues ++ [q'] := by
    rw [List.set_append_right _ _ (by rw [hm.length]), hm.length]; simp
  have e2 : ∀ x, (css ++ [c :: ws]).set css.length x = css ++ [x] := by
    intro x
    rw [List.set_append_right _ _ (le_refl _)]; simp
  rw [e1, e2] at hall
  exact ⟨q', hdq, hm.levels, hm.length, hall⟩

/-- Some level is non-empty: there is a first one in circular order from `lv`. -/
theorem first_nonempty {css : List (List Cell)} (lv : Nat) (hlv : lv < css.length)
    (hne : ¬ ∀ cs ∈ css, cs = []) :
    ∃ (j : Nat) (c : Cell) (cs : List Cell), j < css.length ∧
      (∀ j', j' < j → css[(lv + j') % css.length]? = some []) ∧
      css[(lv + j) % css.length]? = some (c :: cs) := by
  classical
  push_neg at hne
  obtain ⟨cs0, hmem, hcs0⟩ := hne
  obtain ⟨i, hi⟩ := List.mem_iff_getElem?.mp hmem
  have hil := getElem?_lt hi
  have hex : ∃ j, j < css.length ∧ css[(lv + j) % css.length]? ≠ some [] := by
    refine ⟨(i + css.length - lv) % css.length, Nat.mod_lt _ (by omega), ?_⟩
    have : (lv + (i + css.length - lv) % css.length) % css.length = i := by
      rw [Nat.add_mod_mod, show lv + (i + css.length - lv) = i + css.length by omega,
        Nat.add_mod_right, Nat.mod_eq_of_lt hil]
    rw [this, hi]
    intro e
    exact hcs0 (Option.some.inj e)
  have hj := Nat.find_spec hex
  have hmin := fun j' (hj' : j' < Nat.find hex) => Nat.find_min hex hj'
  have hidx : (lv + Nat.find hex) % css.length < css.length := Nat.mod_lt _ (by omega)
  obtain ⟨x, hx⟩ := getElem?_of_lt hidx
  cases x with
  | nil => exact absurd hx hj.2
  | cons c cs =>
    refine ⟨Nat.find hex, c, cs, hj.1, ?_, hx⟩
    intro j' hj'
    have := hmin j' hj'
    simp only [not_and, not_not] at this
    exact this (by omega)

theorem write_ne_none {α : Type} {h : Ptr → Option α} {t : Ptr} (p : Ptr) (v : α)
    (ht : h t ≠ none) : write h p v t ≠ none := by
  unfold write
  split
  · simp
  · exact ht

theorem schedInv_length {st : State} {mq : multilevel_queue} {css : List (List Cell)}
    {qx : List queue} {cx : List (List Cell)} (hinv : SchedInv st mq css qx cx) :
    css.length = 4 := by
  have h1 := mrepx_n_levels hinv.rep
  have h2 := hinv.four
  simp only [MAX_LEVELS] at h2
  omega

theorem mem_of_mem_set {α : Type} {l : List α} {i : Nat} {a x : α} (hx : x ∈ l.set i a) :
    x ∈ l ∨ x = a := by
  obtain ⟨k, hk⟩ := List.mem_iff_getElem?.mp hx
  rw [List.getElem?_set] at hk
  split at hk
  · split at hk
    · exact Or.inr (Option.some.inj hk).symm
    · cases hk
  · exact Or.inl (List.mem_iff_getElem?.mpr ⟨k, hk⟩)

/-- Outcome of `stop_running_thread` on a well-formed state. -/
theorem stop_running_thread_inv {st : State} {mq : multilevel_queue}
    {css : List (List Cell)} {qx : List queue} {cx : List (List Cell)}
    (hinv : SchedInv st mq css qx cx) :
    ∃ st' mq' css', stop_running_thread st = some st' ∧ SchedInv st' mq' css' qx cx ∧
      st'.threads = st.threads ∧ (∀ a, st.nodes a = none → st'.nodes a = none) := by
  have hlen := schedInv_length hinv
  obtain ⟨hc0, hc4⟩ := hinv.curr
  simp only [MAX_LEVELS] at hc4
  have hcast : ((st.curr_level.toNat : Nat) : Int) = st.curr_level := Int.toNat_of_nonneg hc0
  have hlv : st.curr_level.toNat < css.length := by omega
  by_cases hall : ∀ cs ∈ css, cs = []
  · have hrun := multilevel_queue_dequeue_all_empty hinv.rep _ hlv NULL hall
    rw [hcast] at hrun
    refine ⟨{ st with running_thread := st.scheduler_thread }, mq, css, ?_,
      ⟨hinv.rq, hinv.four, hinv.rep, hinv.curr, hinv.sched, hinv.sched, hinv.queued,
        hinv.levels⟩, rfl, fun a ha => ha⟩
    simp only [stop_running_thread, hinv.rq, hrun]
    have : ({ st with nodes := st.nodes, runnable_queue := some mq } : State) = st := by
      cases st
      simp only [State.mk.injEq, true_and, and_true]
      exact hinv.rq.symm
    simp [this]
  · obtain ⟨j, c, cs, hj, hempty, hfound⟩ := first_nonempty _ hlv hall
    obtain ⟨q', hrun, hrep⟩ :=
      multilevel_queue_dequeue_found hinv.rep _ hlv NULL hj hempty hfound
    rw [hcast] at hrun
    have hcmem : (c :: cs) ∈ css ++ cx :=
      List.mem_append_left _ (List.mem_iff_getElem?.mpr ⟨_, hfound⟩)
    have hvalid := hinv.queued _ hcmem c (List.mem_cons_self _ _)
    obtain ⟨fr, hfr⟩ := Option.ne_none_iff_exists'.mp hvalid
    refine ⟨{ st with
        nodes := release st.nodes c.addr,
        runnable_queue := some { mq with level_queues := mq.level_queues.set ((st.curr_level.toNat + j) % css.length) q' },
        curr_level := fr.level,
        curr_level_quanta := if st.curr_level ≠ fr.level then 0 else st.curr_level_quanta,
        running_thread := c.data },
      _, _, ?_, ⟨rfl, hinv.four, hrep, hinv.levels _ _ hfr, hvalid, hinv.sched, ?_,
        hinv.levels⟩, rfl, ?_⟩
    · simp only [stop_running_thread, hinv.rq, hrun, hfr]
      by_cases h1 : st.curr_level = fr.level <;> by_cases h2 : st.running_thread = c.data
      all_goals simp [h1, h2]
    · intro xs hxs x hx
      rcases List.mem_append.mp hxs with hxs | hxs
      · rcases mem_of_mem_set hxs with hxs | hxs
        · exact hinv.queued xs (List.mem_append_left _ hxs) x hx
        · subst hxs
          exact hinv.queued _ hcmem x (List.mem_cons_of_mem _ hx)
      · exact hinv.queued xs (List.mem_append_right _ hxs) x hx
    · intro a ha
      show release st.nodes c.addr a = none
      unfold release
      split
      · rfl
      · exact ha

theorem account_quantum_level {st : State} (rt : minithread) (qv : Int)
    (hc : 0 ≤ st.curr_level ∧ st.curr_level < MAX_LEVELS)
    (hl : 0 ≤ rt.level ∧ rt.level < MAX_LEVELS) :
    0 ≤ (account_quantum st rt qv).level ∧ (account_quantum st rt qv).level < MAX_LEVELS := by
  unfold account_quantum
  simp only [MAX_LEVELS] at hc hl ⊢
  split
  · split
    · exact hc
    · constructor <;> simp only <;> omega
  · exact hl

/-- Outcome of `minithread_stop` on a well-formed state. -/
theorem minithread_stop_inv {st : State} {mq : multilevel_queue}
    {css : List (List Cell)} {qx : List queue} {cx : List (List Cell)}
    (hinv : SchedInv st mq css qx cx) :
    ∃ st' mq' css', minithread_stop st = some st' ∧ SchedInv st' mq' css' qx cx ∧
      (∀ a, st.nodes a = none → st'.nodes a = none) := by
  obtain ⟨rt, hrt⟩ := Option.ne_none_iff_exists'.mp hinv.running
  obtain ⟨hc0, hc4⟩ := hinv.curr
  have hqv : ∃ qv, table_get level_quantum_value st.curr_level = some qv := by
    simp only [MAX_LEVELS] at hc4
    have : st.curr_level = 0 ∨ st.curr_level = 1 ∨ st.curr_level = 2 ∨ st.curr_level = 3 := by
      omega
    rcases this with e | e | e | e <;> rw [e] <;> exact ⟨_, rfl⟩
  obtain ⟨qv, hqv⟩ := hqv
  have hinv1 : SchedInv
      { st with threads := write st.threads st.running_thread (account_quantum st rt qv) }
      mq css qx cx := by
    refine ⟨hinv.rq, hinv.four, hinv.rep, hinv.curr, ?_, write_ne_none _ _ hinv.sched, ?_, ?_⟩
    · show write st.threads st.running_thread _ st.running_thread ≠ none
      rw [write_same]; simp
    · intro cs hcs c hc
      exact write_ne_none _ _ (hinv.queued cs hcs c hc)
    · intro t th hth
      by_cases ht : t = st.running_thread
      · subst ht
        have : th = account_quantum st rt qv := by
          have h1 : write st.threads st.running_thread (account_quantum st rt qv)
              st.running_thread = some th := hth
          rw [write_same] at h1
          exact (Option.some.inj h1).symm
        rw [this]
        exact account_quantum_level rt qv hinv.curr (hinv.levels _ _ hrt)
      · have h1 : write st.threads st.running_thread (account_quantum st rt qv) t = some th :=
          hth
        rw [write_other _ _ ht] at h1
        exact hinv.levels t th h1
  obtain ⟨st', mq', css', hrun, hinv', _, hframe⟩ := stop_running_thread_inv hinv1
  refine ⟨st', mq', css', ?_, hinv', hframe⟩
  simp only [minithread_stop, hrt, hqv]
  exact hrun

/-- Outcome of `minithread_start` on a well-formed state: the thread is marked RUNNABLE
and appended to the level queue of its level. -/
theorem minithread_start_inv {st : State} {mq : multilevel_queue}
    {css : List (List Cell)} {qx : List queue} {cx : List (List Cell)}
    (hinv : SchedInv st mq css qx cx) {t : Ptr} {th : minithread}
    (ht : st.threads t = some th) {n : Ptr} (hn0 : n ≠ NULL) (hn : st.nodes n = none) :
    ∃ st' mq' cs, minithread_start st t n = some st' ∧ css[th.level.toNat]? = some cs ∧
      SchedInv st' mq'
        (css.set th.level.toNat (cs ++ [{ addr := n, data := t, priority := 0 }])) qx cx ∧
      st'.threads = write st.threads t { th with s := status.RUNNABLE } ∧
      (∀ a, st.nodes a = none → a ≠ n → st'.nodes a = none) := by
  have hlen := schedInv_length hinv
  obtain ⟨hl0, hl4⟩ := hinv.levels t th ht
  simp only [MAX_LEVELS] at hl4
  have hlv : th.level.toNat < css.length := by omega
  obtain ⟨cs, hcs⟩ := getElem?_of_lt hlv
  obtain ⟨h', q', henq, hrep, hframe⟩ :=
    multilevel_queue_enqueue_spec hinv.rep hl0 hcs t hn0 hn
  refine ⟨{ st with
      threads := write st.threads t { th with s := status.RUNNABLE },
      nodes := h',
      runnable_queue := some { mq with level_queues := mq.level_queues.set th.level.toNat q' } },
    _, cs, ?_, hcs, ⟨rfl, hinv.four, hrep, hinv.curr, write_ne_none _ _ hinv.running,
      write_ne_none _ _ hinv.sched, ?_, ?_⟩, rfl, ?_⟩
  · simp only [minithread_start, ht, hinv.rq, henq]
  · intro xs hxs x hx
    apply write_ne_none
    rcases List.mem_append.mp hxs with hxs | hxs
    · rcases mem_of_mem_set hxs with hxs | hxs
      · exact hinv.queued xs (List.mem_append_left _ hxs) x hx
      · subst hxs
        rcases List.mem_append.mp hx with hx | hx
        · exact hinv.queued cs
            (List.mem_append_left _ (List.mem_iff_getElem?.mpr ⟨_, hcs⟩)) x hx
        · simp only [List.mem_singleton] at hx
          subst hx
          simp [ht]
    · exact hinv.queued xs (List.mem_append_right _ hxs) x hx
  · intro t' th' hth'
    by_cases htt : t' = t
    · subst htt
      have h1 : write st.threads t' { th with s := status.RUNNABLE } t' = some th' := hth'
      rw [write_same] at h1
      rw [← Option.some.inj h1]
      exact hinv.levels _ th ht
    · have h1 : write st.threads t { th with s := status.RUNNABLE } t' = some th' := hth'
      rw [write_other _ _ htt] at h1
      exact hinv.levels t' th' h1
  · intro a ha han
    show h' a = none
    have hmem : a ∉ addrs cs := by
      have hq := getElem?_of_lt (show th.level.toNat < mq.level_queues.length by
        rw [hinv.rep.length]; exact hlv)
      obtain ⟨q, hq⟩ := hq
      exact rep_fresh (mrepx_level_rep hinv.rep hq hcs) ha
    rw [hframe a hmem han]
    exact ha

/-! ## Semaphores -/

theorem sysInv_wait_rep {st : State} {sem : semaphore} {mq : multilevel_queue}
    {css : List (List Cell)} {ws : List Cell} (hinv : SysInv st sem mq css ws) :
    Rep st.nodes sem.wait_list ws := by
  have hm := hinv.sched.rep
  refine hm.all.rep css.length _ _ ?_ (List.getElem?_concat_length _ _)
  rw [← hm.length]
  exact List.getElem?_concat_length _ _

/-- `semaphore_V` with a waiter `c` at the head of the wait list: exactly that thread is
taken off the wait list, marked RUNNABLE and appended to the level queue of its level. -/
theorem semaphore_V_wakes {st : State} {sem : semaphore} {mq : multilevel_queue}
    {css : List (List Cell)} {c : Cell} {ws : List Cell}
    (hinv : SysInv st sem mq css (c :: ws)) {n : Ptr} (hn0 : n ≠ NULL)
    (hn : st.nodes n = none) :
    ∃ st' sem' mq' th cs, semaphore_V st sem n = some (st', some c.data, sem') ∧
      st.threads c.data = some th ∧ css[th.level.toNat]? = some cs ∧
      st'.threads c.data = some { th with s := status.RUNNABLE } ∧
      sem'.count = sem.count + 1 ∧
      SysInv st' sem' mq'
        (css.set th.level.toNat (cs ++ [{ addr := n, data := c.data, priority := 0 }])) ws := by
  have hcount := hinv.count
  simp only [List.length_cons] at hcount
  have hneg : sem.count + 1 ≤ 0 := by
    push_cast at hcount
    omega
  obtain ⟨wl', hdq, hrep⟩ := mrepx_extra_dequeue hinv.sched.rep
  have hvalid : st.threads c.data ≠ none :=
    hinv.sched.queued (c :: ws) (List.mem_append_right _ (List.mem_singleton_self _)) c
      (List.mem_cons_self _ _)
  obtain ⟨th, hth⟩ := Option.ne_none_iff_exists'.mp hvalid
  have hinv1 : SchedInv { st with nodes := release st.nodes c.addr } mq css [wl'] [ws] := by
    refine ⟨hinv.sched.rq, hinv.sched.four, hrep, hinv.sched.curr, hinv.sched.running,
      hinv.sched.sched, ?_, hinv.sched.levels⟩
    intro xs hxs x hx
    rcases List.mem_append.mp hxs with hxs | hxs
    · exact hinv.sched.queued xs (List.mem_append_left _ hxs) x hx
    · simp only [List.mem_singleton] at hxs
      subst hxs
      exact hinv.sched.queued (c :: xs) (List.mem_append_right _ (List.mem_singleton_self _)) x
        (List.mem_cons_of_mem _ hx)
  have hn1 : ({ st with nodes := release st.nodes c.addr } : State).nodes n = none := by
    show release st.nodes c.addr n = none
    unfold release
    split
    · rfl
    · exact hn
  obtain ⟨st', mq', cs, hstart, hcs, hinv', hthreads, _⟩ :=
    minithread_start_inv hinv1 hth hn0 hn1
  refine ⟨st', { count := sem.count + 1, wait_list := wl' }, mq', th, cs, ?_, hth, hcs, ?_,
    rfl, ⟨hinv', ?_⟩⟩
  · simp only [semaphore_V, hneg, if_true, hdq, hstart]
  · rw [hthreads]
    exact write_same _ _ _
  · show (ws.length : Int) = max 0 (-(sem.count + 1))
    push_cast at hcount
    omega

/-- `semaphore_V` keeps the state well-formed; a started thread is the head waiter. -/
theorem semaphore_V_inv {st : State} {sem : semaphore} {mq : multilevel_queue}
    {css : List (List Cell)} {ws : List Cell} (hinv : SysInv st sem mq css ws) {n : Ptr}
    (hn0 : n ≠ NULL) (hn : st.nodes n = none) :
    ∃ st' w sem' mq' css' ws', semaphore_V st sem n = some (st', w, sem') ∧
      SysInv st' sem' mq' css' ws' ∧ items ws = w.toList ++ items ws' := by
  by_cases hneg : sem.count + 1 ≤ 0
  · cases ws with
    | nil =>
      have := hinv.count
      simp only [List.length_nil] at this
      push_cast at this
      omega
    | cons c ws =>
      obtain ⟨st', sem', mq', th, cs, hrun, _, _, _, _, hinv'⟩ := semaphore_V_wakes hinv hn0 hn
      exact ⟨st', some c.data, sem', mq', _, ws, hrun, hinv', by simp [items]⟩
  · refine ⟨st, none, { sem with count := sem.count + 1 }, mq, css, ws, ?_,
      ⟨hinv.sched, ?_⟩, by simp⟩
    · simp only [semaphore_V, hneg, if_false]
    · show (ws.length : Int) = max 0 (-(sem.count + 1))
      have := hinv.count
      omega

/-- `semaphore_P` keeps the state well-formed; a caller that has to wait is appended at
the tail of the wait list. -/
theorem semaphore_P_inv {st : State} {sem : semaphore} {mq : multilevel_queue}
    {css : List (List Cell)} {ws : List Cell} (hinv : SysInv st sem mq css ws) {n : Ptr}
    (hn0 : n ≠ NULL) (hn : st.nodes n = none) :
    ∃ st' b sem' mq' css' ws', semaphore_P st sem n = some (st', b, sem') ∧
      SysInv st' sem' mq' css' ws' ∧ items ws' = items ws ++ b.toList := by
  by_cases hneg : sem.count - 1 < 0
  · obtain ⟨h', wl', happ, hrep, _⟩ :=
      mrepx_extra_append hinv.sched.rep (minithread_self st) hn0 hn
    have hinv1 : SchedInv { st with nodes := h' } mq css [wl']
        [ws ++ [{ addr := n, data := minithread_self st, priority := 0 }]] := by
      refine ⟨hinv.sched.rq, hinv.sched.four, hrep, hinv.sched.curr, hinv.sched.running,
        hinv.sched.sched, ?_, hinv.sched.levels⟩
      intro xs hxs x hx
      rcases List.mem_append.mp hxs with hxs | hxs
      · exact hinv.sched.queued xs (List.mem_append_left _ hxs) x hx
      · simp only [List.mem_singleton] at hxs
        subst hxs
        rcases List.mem_append.mp hx with hx | hx
        · exact hinv.sched.queued ws (List.mem_append_right _ (List.mem_singleton_self _)) x hx
        · simp only [List.mem_singleton] at hx
          subst hx
          exact hinv.sched.running
    obtain ⟨st', mq', css', hstop, hinv', _⟩ := minithread_stop_inv hinv1
    refine ⟨st', some (minithread_self st), { count := sem.count - 1, wait_list := wl' }, mq',
      css', _, ?_, ⟨hinv', ?_⟩, by simp [items]⟩
    · simp only [semaphore_P, hneg, if_true, happ, hstop]
    · show ((ws ++ [_]).length : Int) = max 0 (-(sem.count - 1))
      have := hinv.count
      simp only [List.length_append, List.length_singleton]
      push_cast
      omega
  · refine ⟨st, none, { sem with count := sem.count - 1 }, mq, css, ws, ?_,
      ⟨hinv.sched, ?_⟩, by simp⟩
    · simp only [semaphore_P, hneg, if_false]
    · show (ws.length : Int) = max 0 (-(sem.count - 1))
      have := hinv.count
      omega

/-- Any sequence of `semaphore_P` / `semaphore_V` calls runs to completion from a
well-formed state and leaves a well-formed state; the threads started so far followed by
the threads still waiting are the threads waiting at the start followed by the threads
that blocked. -/
theorem sem_run_inv (ops : List SemOp) :
    ∀ (st : State) (sem : semaphore) (mq : multilevel_queue) (css : List (List Cell))
      (ws : List Cell), SysInv st sem mq css ws → oracles_fresh st sem ops = true →
      ∃ st' sem' bl wk mq' css' ws', sem_run st sem ops = some (st', sem', bl, wk) ∧
        SysInv st' sem' mq' css' ws' ∧ wk ++ items ws' = items ws ++ bl := by
  induction ops with
  | nil =>
    intro st sem mq css ws hinv _
    exact ⟨st, sem, [], [], mq, css, ws, rfl, hinv, by simp⟩
  | cons op ops ih =>
    intro st sem mq css ws hinv hfresh
    cases op with
    | P n =>
      simp only [oracles_fresh, Bool.and_eq_true, decide_eq_true_eq, Option.isNone_iff_eq_none]
        at hfresh
      obtain ⟨⟨hn0, hn⟩, hrest⟩ := hfresh
      obtain ⟨st1, b, sem1, mq1, css1, ws1, hP, hinv1, hws1⟩ := semaphore_P_inv hinv hn0 hn
      rw [hP] at hrest
      obtain ⟨st2, sem2, bl, wk, mq2, css2, ws2, hrun, hinv2, hlog⟩ :=
        ih st1 sem1 mq1 css1 ws1 hinv1 hrest
      refine ⟨st2, sem2, b.toList ++ bl, wk, mq2, css2, ws2, ?_, hinv2, ?_⟩
      · simp only [sem_run, hP, hrun]
      · rw [hlog, hws1, List.append_assoc]
    | V n =>
      simp only [oracles_fresh, Bool.and_eq_true, decide_eq_true_eq, Option.isNone_iff_eq_none]
        at hfresh
      obtain ⟨⟨hn0, hn⟩, hrest⟩ := hfresh
      obtain ⟨st1, w, sem1, mq1, css1, ws1, hV, hinv1, hws1⟩ := semaphore_V_inv hinv hn0 hn
      rw [hV] at hrest
      obtain ⟨st2, sem2, bl, wk, mq2, css2, ws2, hrun, hinv2, hlog⟩ :=
        ih st1 sem1 mq1 css1 ws1 hinv1 hrest
      refine ⟨st2, sem2, bl, w.toList ++ wk, mq2, css2, ws2, ?_, hinv2, ?_⟩
      · simp only [sem_run, hV, hrun]
      · rw [List.append_assoc, hlog, hws1, List.append_assoc]

/-! ## Claims on semaphores and thread creation -/

theorem repAll_empty (h : NodeHeap) {qs : List queue} {css : List (List Cell)}
    (hlen : qs.length = css.length) (hq : ∀ q ∈ qs, q = queue_new)
    (hc : ∀ cs ∈ css, cs = []) : RepAll h qs css := by
  refine ⟨hlen, ?_, ?_⟩
  · intro i q cs hqi hci
    rw [hq q (List.mem_iff_getElem?.mpr ⟨i, hqi⟩), hc cs (List.mem_iff_getElem?.mpr ⟨i, hci⟩)]
    exact rep_new h
  · intro i j a b _ ha _ x hx
    rw [hc a (List.mem_iff_getElem?.mpr ⟨i, ha⟩)] at hx
    simp [addrs] at hx

theorem schedInv_boot : SchedInv state_boot mlq_boot [[], [], [], []] [queue_new] [[]] := by
  refine ⟨rfl, rfl, ⟨by decide, rfl, repAll_empty _ rfl ?_ ?_⟩, by decide, by decide, by decide,
    ?_, ?_⟩
  · intro q hq
    simp [mlq_boot] at hq
    exact hq
  · intro cs hcs
    simp at hcs
    exact hcs
  · intro cs hcs c hc
    simp at hcs
    subst hcs
    simp at hc
  · intro t th hth
    have h1 : (if t = 101 then some ({ id := 1, s := status.RUNNABLE, level := 0, quanta := 0 } : minithread)
        else if t = 100 then some { id := 0, s := status.RUNNABLE, level := 0, quanta := 0 }
        else none) = some th := hth
    split at h1
    · rw [← Option.some.inj h1]; decide
    · split at h1
      · rw [← Option.some.inj h1]; decide
      · cases h1

theorem sysInv_init {st : State} {mq : multilevel_queue} {css : List (List Cell)}
    (hinv : SchedInv st mq css [queue_new] [[]]) {cnt : Int} (hcnt : 0 ≤ cnt) :
    SysInv st ( semaphore_initialize cnt) mq css [] :=
  ⟨hinv, by
    show (([] : List Cell).length : Int) = max 0 (-cnt)
    simp only [List.length_nil]
    push_cast
    omega⟩

/-- C8. For a semaphore initialised with a non-negative count in a well-formed system,
any sequence of `semaphore_P` and `semaphore_V` calls runs to completion, and afterwards
the wait list holds exactly `max(0, -count)` threads (as nodes and as `queue_length`);
hence `count + |waiters| ≥ 0`, and a non-empty wait list implies `count ≤ 0`. -/
theorem semaphore_waiters_count {st : State} {mq : multilevel_queue} {css : List (List Cell)}
    (hinv : SchedInv st mq css [queue_new] [[]]) {cnt : Int} (hcnt : 0 ≤ cnt)
    (ops : List SemOp) (hfresh : oracles_fresh st ( semaphore_initialize cnt) ops = true) :
    ∃ st' sem' bl wk ws, sem_run st ( semaphore_initialize cnt) ops = some (st', sem', bl, wk) ∧
      Rep st'.nodes sem'.wait_list ws ∧
      (ws.length : Int) = max 0 (-sem'.count) ∧
      queue_length sem'.wait_list = max 0 (-sem'.count) ∧
      0 ≤ sem'.count + (ws.length : Int) ∧ (ws ≠ [] → sem'.count ≤ 0) := by
  obtain ⟨st', sem', bl, wk, mq', css', ws, hrun, hinv', _⟩ :=
    sem_run_inv ops st _ mq css [] (sysInv_init hinv hcnt) hfresh
  have hrep := sysInv_wait_rep hinv'
  have hcount := hinv'.count
  refine ⟨st', sem', bl, wk, ws, hrun, hrep, hcount, ?_, ?_, ?_⟩
  · rw [queue_length, hrep.count]; exact hcount
  · omega
  · intro hne
    have : 0 < ws.length := List.length_pos.mpr hne
    omega

/-- C8 at a concrete input: in the booted system a semaphore of count 0, then the running
thread calls P and a V follows. -/
theorem semaphore_waiters_count_witness :
    ∃ st' sem' bl wk ws,
      sem_run state_boot ( semaphore_initialize 0) [SemOp.P 1, SemOp.V 2] =
        some (st', sem', bl, wk) ∧
      Rep st'.nodes sem'.wait_list ws ∧
      (ws.length : Int) = max 0 (-sem'.count) ∧
      queue_length sem'.wait_list = max 0 (-sem'.count) ∧
      0 ≤ sem'.count + (ws.length : Int) ∧ (ws ≠ [] → sem'.count ≤ 0) :=
  semaphore_waiters_count schedInv_boot (le_refl 0) [SemOp.P 1, SemOp.V 2] rfl

/-- C9. Waiters are released first in, first out.  After any sequence of `semaphore_P`
and `semaphore_V` calls on a semaphore initialised with a non-negative count, the threads
started by V, in order, are the first threads that blocked in P, in order (the k-th
thread started is the k-th thread that blocked), and the threads still waiting are the
remaining blocked threads in order.  A further V with a waiter present starts exactly one
thread, the next blocked one: it leaves the wait list, is marked RUNNABLE and is appended
to the runnable level of its own level, nothing else in the queues changing. -/
theorem semaphore_fifo {st : State} {mq : multilevel_queue} {css : List (List Cell)}
    (hinv : SchedInv st mq css [queue_new] [[]]) {cnt : Int} (hcnt : 0 ≤ cnt)
    (ops : List SemOp) (hfresh : oracles_fresh st ( semaphore_initialize cnt) ops = true) :
    ∃ st' sem' bl wk mq' css' ws,
      sem_run st ( semaphore_initialize cnt) ops = some (st', sem', bl, wk) ∧
      wk = bl.take wk.length ∧ items ws = bl.drop wk.length ∧
      SysInv st' sem' mq' css' ws ∧
      (∀ (n : Ptr) (c : Cell) (ws' : List Cell), n ≠ NULL → st'.nodes n = none →
        ws = c :: ws' →
        ∃ st'' sem'' mq'' th cs,
          semaphore_V st' sem' n = some (st'', some c.data, sem'') ∧
          bl[wk.length]? = some c.data ∧
          st'.threads c.data = some th ∧ css'[th.level.toNat]? = some cs ∧
          st''.threads c.data = some { th with s := status.RUNNABLE } ∧
          SysInv st'' sem'' mq''
            (css'.set th.level.toNat (cs ++ [{ addr := n, data := c.data, priority := 0 }]))
            ws') := by
  obtain ⟨st', sem', bl, wk, mq', css', ws, hrun, hinv', hlog⟩ :=
    sem_run_inv ops st _ mq css [] (sysInv_init hinv hcnt) hfresh
  simp only [items, List.map_nil, List.nil_append] at hlog
  have htake : wk = bl.take wk.length := by rw [← hlog]; simp
  have hdrop : items ws = bl.drop wk.length := by rw [← hlog]; simp [items]
  refine ⟨st', sem', bl, wk, mq', css', ws, hrun, htake, hdrop, hinv', ?_⟩
  intro n c ws' hn0 hn hws
  subst hws
  obtain ⟨st'', sem'', mq'', th, cs, hV, hth, hcs, hth', _, hinv''⟩ :=
    semaphore_V_wakes hinv' hn0 hn
  refine ⟨st'', sem'', mq'', th, cs, hV, ?_, hth, hcs, hth', hinv''⟩
  rw [← hlog, List.getElem?_append_right (le_refl _)]
  simp

/-- C9 at a concrete input: in the booted system a semaphore of count 0; the running
thread calls P and blocks, the scheduler thread calls P and blocks, then two V calls. -/
theorem semaphore_fifo_witness :
    ∃ st' sem' bl wk mq' css' ws,
      sem_run state_boot ( semaphore_initialize 0)
          [SemOp.P 1, SemOp.P 2, SemOp.V 3, SemOp.V 4] = some (st', sem', bl, wk) ∧
      wk = bl.take wk.length ∧ items ws = bl.drop wk.length ∧
      SysInv st' sem' mq' css' ws ∧
      (∀ (n : Ptr) (c : Cell) (ws' : List Cell), n ≠ NULL → st'.nodes n = none →
        ws = c :: ws' →
        ∃ st'' sem'' mq'' th cs,
          semaphore_V st' sem' n = some (st'', some c.data, sem'') ∧
          bl[wk.length]? = some c.data ∧
          st'.threads c.data = some th ∧ css'[th.level.toNat]? = some cs ∧
          st''.threads c.data = some { th with s := status.RUNNABLE } ∧
          SysInv st'' sem'' mq''
            (css'.set th.level.toNat (cs ++ [{ addr := n, data := c.data, priority := 0 }]))
            ws') :=
  semaphore_fifo schedInv_boot (le_refl 0) [SemOp.P 1, SemOp.P 2, SemOp.V 3, SemOp.V 4] rfl

/-- Outcome of `minithread_fork` and of `minithread_create` in a system whose runnable
queue is initialised and in which every thread id is below `minithreads_count`: the
forked thread has level 0 and quanta 0, is marked RUNNABLE and sits in a new node at the
tail of level 0 of the runnable queue, all other levels being unchanged; the created
thread has level 0, quanta 0 and an id that no other thread has, its status field is as
allocated, and the runnable queue and its nodes are untouched. -/
theorem minithread_fork_create_spec {st : State} {mq : multilevel_queue} {l0 : List Cell}
    {rest : List (List Cell)} (hrq : st.runnable_queue = some mq)
    (hm : MRep st.nodes mq (l0 :: rest))
    (hids : ∀ t th, st.threads t = some th → th.id < st.minithreads_count)
    {m n : Ptr} (s0 : status) (hm0 : m ≠ NULL) (hn0 : n ≠ NULL) (hn : st.nodes n = none) :
    (∃ st' mq', minithread_fork st m s0 n = some (m, st') ∧
      st'.threads m = some { id := st.minithreads_count, s := status.RUNNABLE,
                             level := 0, quanta := 0 } ∧
      st'.runnable_queue = some mq' ∧
      MRep st'.nodes mq' ((l0 ++ [{ addr := n, data := m, priority := 0 }]) :: rest)) ∧
    (∃ st', minithread_create st m s0 = (m, st') ∧
      st'.threads m = some { id := st.minithreads_count, s := s0, level := 0, quanta := 0 } ∧
      (∀ t th, t ≠ m → st'.threads t = some th → th.id ≠ st.minithreads_count) ∧
      (∀ t, t ≠ m → st'.threads t = st.threads t) ∧
      st'.runnable_queue = st.runnable_queue ∧ st'.nodes = st.nodes) := by
  obtain ⟨st1, hst1⟩ : ∃ st1 : State, st1 = { st with
      threads := write st.threads m
        { id := st.minithreads_count, s := s0, level := 0, quanta := 0 },
      minithreads_count := st.minithreads_count + 1 } := ⟨_, rfl⟩
  have hcreate : minithread_create st m s0 = (m, st1) := by
    simp only [minithread_create, hm0, if_false, hst1]
  have hth1 : st1.threads m =
      some { id := st.minithreads_count, s := s0, level := 0, quanta := 0 } := by
    rw [hst1]; exact write_same _ _ _
  constructor
  · obtain ⟨h', q', henq, hrep, _⟩ := multilevel_queue_enqueue_spec (mrepx_of_mrep hm)
      (le_refl 0) (show (l0 :: rest)[(0 : Int).toNat]? = some l0 by simp) m hn0 hn
    rw [show (0 : Int).toNat = 0 from rfl, List.set_cons_zero] at hrep
    rw [show (0 : Int).toNat = 0 from rfl] at henq
    obtain ⟨st2, hst2⟩ : ∃ st2 : State, st2 = { st1 with
        threads := write st1.threads m
          { id := st.minithreads_count, s := status.RUNNABLE, level := 0, quanta := 0 },
        nodes := h',
        runnable_queue := some { mq with level_queues := mq.level_queues.set 0 q' } } :=
      ⟨_, rfl⟩
    have hstart : minithread_start st1 m n = some st2 := by
      have hrq1 : st1.runnable_queue = some mq := by rw [hst1]; exact hrq
      have hn1 : st1.nodes = st.nodes := by rw [hst1]
      simp only [minithread_start, hth1, hrq1, hn1, henq, hst2]
    refine ⟨st2, { mq with level_queues := mq.level_queues.set 0 q' }, ?_, ?_, ?_, ?_⟩
    · simp only [minithread_fork, hcreate, hm0, if_false, hstart]
    · rw [hst2]; exact write_same _ _ _
    · rw [hst2]
    · rw [hst2]; exact mrep_of_mrepx hrep
  · refine ⟨st1, hcreate, hth1, ?_, ?_, by rw [hst1], by rw [hst1]⟩
    · intro t th ht hth
      rw [hst1] at hth
      have h1 : write st.threads m
          { id := st.minithreads_count, s := s0, level := 0, quanta := 0 } t = some th := hth
      rw [write_other _ _ ht] at h1
      exact ne_of_lt (hids t th h1)
    · intro t ht
      rw [hst1]
      exact write_other _ _ ht

/-- The outcome of `minithread_fork` and `minithread_create` in the booted system. -/
theorem minithread_fork_create_spec_boot :
    (∃ st' mq', minithread_fork state_boot 102 status.ZOMBIE 1 = some (102, st') ∧
      st'.threads 102 = some { id := state_boot.minithreads_count, s := status.RUNNABLE,
                               level := 0, quanta := 0 } ∧
      st'.runnable_queue = some mq' ∧
      MRep st'.nodes mq' (([] ++ [{ addr := 1, data := 102, priority := 0 }]) :: [[], [], []])) ∧
    (∃ st', minithread_create state_boot 102 status.ZOMBIE = (102, st') ∧
      st'.threads 102 = some { id := state_boot.minithreads_count, s := status.ZOMBIE,
                               level := 0, quanta := 0 } ∧
      (∀ t th, t ≠ 102 → st'.threads t = some th → th.id ≠ state_boot.minithreads_count) ∧
      (∀ t, t ≠ 102 → st'.threads t = state_boot.threads t) ∧
      st'.runnable_queue = state_boot.runnable_queue ∧ st'.nodes = state_boot.nodes) :=
  @minithread_fork_create_spec state_boot mlq_boot [] [[], [], []] rfl
    (mrep_of_mrepx ⟨by decide, rfl, repAll_empty _ rfl (by simp [mlq_boot]) (by simp)⟩)
    (by
      intro t th hth
      have h1 : (if t = 101 then some ({ id := 1, s := status.RUNNABLE, level := 0, quanta := 0 } : minithread)
          else if t = 100 then some { id := 0, s := status.RUNNABLE, level := 0, quanta := 0 }
          else none) = some th := hth
      split at h1
      · rw [← Option.some.inj h1]; decide
      · split at h1
        · rw [← Option.some.inj h1]; decide
        · cases h1)
    102 1 status.ZOMBIE (by decide) (by decide) rfl

/-! ## Alarms -/

/-- The tick count `register_alarm` computes for a delay. -/
theorem alarm_ticks_eq_ceil (delay : Int) (hd : 0 ≤ delay) :
    (if Int.tmod delay PERIOD ≠ 0 then Int.tdiv delay PERIOD + 1 else Int.tdiv delay PERIOD)
      = ⌈(delay : ℚ) / 100⌉ := by
  have hp : (0 : Int) ≤ PERIOD := by decide
  rw [Int.tmod_eq_emod hd hp, Int.tdiv_eq_ediv hd hp]
  simp only [PERIOD]
  symm
  rw [Int.ceil_eq_iff]
  have h1 := Int.emod_add_ediv delay 100
  have h2 := Int.emod_nonneg delay (by decide : (100 : Int) ≠ 0)
  have h3 := Int.emod_lt_of_pos delay (by decide : (0 : Int) < 100)
  have h100 : (0 : ℚ) < 100 := by norm_num
  split
  · next hne =>
    constructor
    · rw [lt_div_iff₀ h100]
      have : (delay / 100 + 1 - 1) * 100 < delay := by omega
      exact_mod_cast this
    · rw [div_le_iff₀ h100]
      have : delay ≤ (delay / 100 + 1) * 100 := by omega
      exact_mod_cast this
  · next heq =>
    simp only [ne_eq, not_not] at heq
    constructor
    · rw [lt_div_iff₀ h100]
      have : (delay / 100 - 1) * 100 < delay := by omega
      exact_mod_cast this
    · rw [div_le_iff₀ h100]
      have : delay ≤ (delay / 100) * 100 := by omega
      exact_mod_cast this

/-- C6. For a non-negative delay in milliseconds, `register_alarm(delay, fn, arg)` returns
the new alarm, whose deadline is `T + ceil(delay / 100)` with `T` the tick counter at
registration (`T + 3` for a delay of 250 ms), and inserts it into the deadline-sorted
alarm queue: the queue stays sorted and holds the previous nodes `l1 ++ l2` in order with
the new node between them, behind all deadlines up to its own. -/
theorem register_alarm_deadline {st : State} {aq : queue} {cs : List Cell}
    (haq : st.alarm_queue = some aq) (hr : Rep st.nodes aq cs) (hs : sorted_cells cs)
    (delay : Int) (hd : 0 ≤ delay) (func arg : Ptr) {a n : Ptr} (ha0 : a ≠ NULL)
    (hn0 : n ≠ NULL) (hn : st.nodes n = none) {fuel : Nat} (hfuel : cs.length < fuel) :
    ∃ st' aq' l1 l2, register_alarm fuel st delay func arg a n = some (a, st') ∧
      st'.alarms a = some { end_ := st.nInterrupts + ⌈(delay : ℚ) / 100⌉,
                            call_back := func, arg := arg } ∧
      (delay = 250 → st'.alarms a = some { end_ := st.nInterrupts + 3,
                                           call_back := func, arg := arg }) ∧
      st'.alarm_queue = some aq' ∧ cs = l1 ++ l2 ∧
      Rep st'.nodes aq'
        (l1 ++ { addr := n, data := a, priority := st.nInterrupts + ⌈(delay : ℚ) / 100⌉ } :: l2) ∧
      sorted_cells
        (l1 ++ { addr := n, data := a, priority := st.nInterrupts + ⌈(delay : ℚ) / 100⌉ } :: l2) ∧
      (∀ x ∈ l1, x.priority ≤ st.nInterrupts + ⌈(delay : ℚ) / 100⌉) ∧
      (∀ x ∈ l2, st.nInterrupts + ⌈(delay : ℚ) / 100⌉ < x.priority) := by
  obtain ⟨h', aq', hrun, hrep, _⟩ :=
    queue_insert_sorted_spec hr (st.nInterrupts + ⌈(delay : ℚ) / 100⌉) ha0 hn0 hn hfuel
  obtain ⟨l1, l2, hsplit, h2, hle, hgt⟩ := insert_cell_split
    { addr := n, data := a, priority := st.nInterrupts + ⌈(delay : ℚ) / 100⌉ } cs hs
  have hsorted := insert_cell_sorted
    { addr := n, data := a, priority := st.nInterrupts + ⌈(delay : ℚ) / 100⌉ } cs hs
  rw [h2] at hrep hsorted
  have hticks := alarm_ticks_eq_ceil delay hd
  refine ⟨{ st with
      alarms := write st.alarms a
        ({ end_ := st.nInterrupts + ⌈(delay : ℚ) / 100⌉, call_back := func, arg := arg } : alarm),
      nodes := h', alarm_queue := some aq' }, aq', l1, l2,
    ?_, write_same _ _ _, ?_, rfl, hsplit, hrep, hsorted, hle, hgt⟩
  · simp only [register_alarm, ha0, if_false, haq, hticks, hrun]
  · intro h250
    subst h250
    have : ⌈((250 : Int) : ℚ) / 100⌉ = 3 := by
      rw [Int.ceil_eq_iff]; norm_num
    rw [← this]
    exact write_same _ _ _

/-- C6 at a concrete input: a 250 ms alarm registered at tick 0 in an empty alarm queue. -/
theorem register_alarm_deadline_witness :
    ∃ st' aq' l1 l2, register_alarm 1 state_zero 250 7 8 11 1 = some (11, st') ∧
      st'.alarms 11 = some { end_ := state_zero.nInterrupts + ⌈((250 : Int) : ℚ) / 100⌉,
                             call_back := 7, arg := 8 } ∧
      ((250 : Int) = 250 → st'.alarms 11 = some { end_ := state_zero.nInterrupts + 3,
                                                  call_back := 7, arg := 8 }) ∧
      st'.alarm_queue = some aq' ∧ ([] : List Cell) = l1 ++ l2 ∧
      Rep st'.nodes aq'
        (l1 ++ { addr := 1, data := 11,
                 priority := state_zero.nInterrupts + ⌈((250 : Int) : ℚ) / 100⌉ } :: l2) ∧
      sorted_cells
        (l1 ++ { addr := 1, data := 11,
                 priority := state_zero.nInterrupts + ⌈((250 : Int) : ℚ) / 100⌉ } :: l2) ∧
      (∀ x ∈ l1, x.priority ≤ state_zero.nInterrupts + ⌈((250 : Int) : ℚ) / 100⌉) ∧
      (∀ x ∈ l2, state_zero.nInterrupts + ⌈((250 : Int) : ℚ) / 100⌉ < x.priority) :=
  @register_alarm_deadline state_zero queue_new [] rfl (rep_new _) (by simp [sorted_cells])
    250 (by decide) 7 8 11 1 (by decide) (by decide) rfl 1 (by decide)

/-! ## What `queue_delete` does get right -/

/-- The loop of `queue_delete` over nodes none of which holds the item. -/
theorem queue_delete_loop_absent {h : NodeHeap} {q : queue} {item : Ptr} (suf : List Cell) :
    ∀ (fuel : Nat) (curr prev : Ptr), lseg h curr suf NULL → item ∉ items suf →
      suf.length < fuel → queue_delete_loop fuel h q item curr prev = some (-1, h, q) := by
  induction suf with
  | nil =>
    intro fuel curr prev hl _ hfuel
    cases fuel with
    | zero => simp at hfuel
    | succ f =>
      have hc : curr = NULL := hl
      simp [queue_delete_loop, hc]
  | cons d ds ih =>
    intro fuel curr prev hl hmem hfuel
    cases fuel with
    | zero => simp at hfuel
    | succ f =>
      obtain ⟨_, hc0, nx, hnx, hrest⟩ := hl
      simp only [items, List.map_cons, List.mem_cons, not_or] at hmem
      have hne : ¬ d.data = item := fun e => hmem.1 e.symm
      have := ih f nx curr hrest hmem.2 (by simpa using hfuel)
      simp [queue_delete_loop, hc0, hnx, hne, this]

/-- An item that is not in the queue: `queue_delete` returns -1 and changes nothing. -/
theorem queue_delete_absent {h : NodeHeap} {q : queue} {cs : List Cell} (hr : Rep h q cs)
    {item : Ptr} (hitem : item ≠ NULL) (hmem : item ∉ items cs) {fuel : Nat}
    (hfuel : cs.length < fuel) : queue_delete fuel h q item = some (-1, h, q) := by
  simp only [queue_delete, hitem, if_false]
  exact queue_delete_loop_absent cs fuel q.front NULL hr.chain hmem hfuel

/-- The item at the front of the queue: `queue_delete` returns 0 and removes its node. -/
theorem queue_delete_front {h : NodeHeap} {q : queue} {c : Cell} {cs : List Cell}
    (hr : Rep h q (c :: cs)) (hitem : c.data ≠ NULL) (fuel : Nat) :
    ∃ q', queue_delete (fuel + 1) h q c.data = some (0, release h c.addr, q') ∧
      Rep (release h c.addr) q' cs := by
  obtain ⟨hp, hp0, nx, hnx, hrest⟩ := hr.chain
  have hnd := hr.nodup
  simp only [addrs_cons, List.nodup_cons] at hnd
  have hframe : lseg (release h c.addr) nx cs NULL :=
    lseg_frame (fun a ha => release_other _ (fun e => hnd.1 (e ▸ ha))) hrest
  cases cs with
  | nil =>
    have hnx0 : nx = NULL := hrest
    have hrear : q.rear = c.addr := by rw [hr.rear]; rfl
    refine ⟨{ front := nx, rear := NULL, count := q.count - 1 }, ?_, ⟨hframe, hnd.2, ?_, ?_⟩⟩
    · simp [queue_delete, queue_delete_loop, hitem, hp0, hnx, ← hp, hrear]
    · simp [last_addr, addrs]
    · simp [hr.count]
  | cons d ds =>
    have hrear : q.rear ≠ c.addr := by
      rw [hr.rear, last_addr_cons_cons]
      intro e
      exact hnd.1 (e ▸ last_addr_mem (List.cons_ne_nil d ds))
    refine ⟨{ front := nx, rear := q.rear, count := q.count - 1 }, ?_,
      ⟨hframe, hnd.2, ?_, ?_⟩⟩
    · have hfr : ¬ q.front = q.rear := fun e => hrear (e ▸ hp)
      simp [queue_delete, queue_delete_loop, hitem, hp0, hnx, ← hp, hfr]
    · show q.rear = _
      rw [hr.rear]
      exact last_addr_cons_cons c d ds
    · simp [hr.count]

/-! ## The missing unlink in `queue_delete` -/

/-- The loop of `queue_delete` reaching the first node `c` that holds the item: the node
is freed and no other heap cell is written. -/
theorem queue_delete_loop_frees {h : NodeHeap} {q : queue} {c : Cell} {suf : List Cell}
    {e : Ptr} (mid : List Cell) :
    ∀ (fuel : Nat) (curr prev : Ptr), lseg h curr (mid ++ c :: suf) e →
      c.data ∉ items mid → mid.length < fuel →
      ∃ q', queue_delete_loop fuel h q c.data curr prev = some (0, release h c.addr, q') := by
  induction mid with
  | nil =>
    intro fuel curr prev hl _ hfuel
    cases fuel with
    | zero => simp at hfuel
    | succ f =>
      obtain ⟨hc, hc0, nx, hnx, _⟩ := hl
      apply Exists.intro
      rw [queue_delete_loop, if_neg hc0, hnx]
      simp only [if_true, hc]
      rfl
  | cons d ds ih =>
    intro fuel curr prev hl hmem hfuel
    cases fuel with
    | zero => simp at hfuel
    | succ f =>
      obtain ⟨_, hc0, nx, hnx, hrest⟩ := hl
      simp only [items, List.map_cons, List.mem_cons, not_or] at hmem
      have hne : ¬ d.data = c.data := fun e => hmem.1 e.symm
      obtain ⟨q', hq'⟩ := ih f nx curr hrest hmem.2 (by simpa using hfuel)
      exact ⟨q', by simp only [queue_delete_loop, hc0, if_false, hnx, hne, hq']⟩

/-- Deleting an item whose first instance `c` is not at the front, `l` being the node
before it: `queue_delete` returns 0 and frees the node of `c`, and afterwards `l` still
points to the freed node. -/
theorem queue_delete_dangling {h : NodeHeap} {q : queue} {pre : List Cell} {l c : Cell}
    {suf : List Cell} (hr : Rep h q (pre ++ l :: c :: suf)) (hitem : c.data ≠ NULL)
    (habs : c.data ∉ items (pre ++ [l])) {fuel : Nat} (hfuel : pre.length + 1 < fuel) :
    ∃ q', queue_delete fuel h q c.data = some (0, release h c.addr, q') ∧
      release h c.addr l.addr =
        some { data := l.data, priority := l.priority, next := c.addr } ∧
      release h c.addr c.addr = none := by
  have hchain : lseg h q.front ((pre ++ [l]) ++ c :: suf) NULL := by
    simpa using hr.chain
  obtain ⟨q', hq'⟩ := queue_delete_loop_frees (q := q) (pre ++ [l]) fuel q.front NULL hchain
    habs (by simpa using hfuel)
  refine ⟨q', by simp only [queue_delete, hitem, if_false, hq'], ?_, release_same _ _⟩
  obtain ⟨m, hm1, hm2⟩ := lseg_append.mp hchain
  have hl := lseg_last_cell hm1
  obtain ⟨hmc, _, _⟩ := hm2
  have hne : l.addr ≠ c.addr := by
    have hnd := hr.nodup
    rw [addrs_append, List.nodup_append] at hnd
    have := hnd.2.1
    simp only [addrs_cons, List.nodup_cons, List.mem_cons, not_or] at this
    exact this.1.1
  rw [release_other _ hne, hl, hmc]

/-! ## Defects found by evaluation -/

theorem rep_queue_three : Rep heap_three queue_three
    [{ addr := 1, data := 10, priority := 0 }, { addr := 2, data := 20, priority := 0 },
     { addr := 3, data := 30, priority := 0 }] :=
  ⟨⟨rfl, by decide, 2, rfl, rfl, by decide, 3, rfl, rfl, by decide, NULL, rfl, rfl⟩,
    by decide, rfl, rfl⟩

/-- C3 (defect). In a well-formed queue holding the items 10, 20, 30, `queue_delete` of
the item 20 returns 0 and lowers the count to 2, but it frees the node without unlinking
it: the node of item 10 still points to the freed node at address 2.  So the items 10 and
30 are not what is reachable from the front: a walk from the front runs into freed memory,
and so does the second of two following `queue_dequeue` calls. -/
theorem queue_delete_keeps_link :
    queue_items 4 heap_three queue_three = some [10, 20, 30] ∧
    (queue_delete 4 heap_three queue_three 20).map
        (fun r => (r.1, r.2.2, r.2.1 1, r.2.1 2)) =
      some (0, { front := 1, rear := 3, count := 2 },
        some { data := 10, priority := 0, next := 2 }, none) ∧
    (queue_delete 4 heap_three queue_three 20).map
        (fun r => queue_items 4 r.2.1 r.2.2) = some none ∧
    ((queue_delete 4 heap_three queue_three 20).bind
        (fun r => dequeue_n 2 r.2.1 r.2.2)).isNone = true := by
  refine ⟨?_, ?_, ?_, ?_⟩ <;> rfl

/-- C5 (defect). With the only item on level 1 of a two-level queue,
`multilevel_queue_dequeue` returns 0, the result code of `queue_dequeue`, and not the
level 1 on which the item was located, whether the search starts at level 1 or at
level 0. -/
theorem multilevel_queue_dequeue_returns_zero :
    (multilevel_queue_dequeue heap_one mlq_two 1 NULL).map (fun r => (r.1, r.2.1)) =
      some (0, 10) ∧
    (multilevel_queue_dequeue heap_one mlq_two 0 NULL).map (fun r => (r.1, r.2.1)) =
      some (0, 10) := by
  constructor <;> rfl

/-- C7 (defect). With two alarms queued at tick 0 (deadlines 3 and 5), `deregister_alarm`
of the second one returns 0, as its deadline has not passed, and frees the record, but
the alarm's node is freed without being unlinked (the defect of `queue_delete`): the node
of the first alarm still points to the freed node at address 2.  So the queue does not
hold just the other alarm: a walk from the front runs into freed memory, and so does a
following `register_alarm` that has to pass the first alarm. -/
theorem deregister_alarm_keeps_link :
    two_alarms.map (fun r => r.2.alarm_queue.map (queue_items 3 r.2.nodes)) =
      some (some (some [11, 12])) ∧
    (two_alarms.bind (fun r => deregister_alarm 3 r.2 12)).map
        (fun r => (r.1, r.2.alarm_queue, r.2.nodes 1, r.2.nodes 2, r.2.alarms 12)) =
      some (0, some { front := 1, rear := 1, count := 1 },
        some { data := 11, priority := 3, next := 2 }, none, none) ∧
    (two_alarms.bind (fun r => deregister_alarm 3 r.2 12)).map
        (fun r => r.2.alarm_queue.map (queue_items 3 r.2.nodes)) = some (some none) ∧
    ((two_alarms.bind (fun r => deregister_alarm 3 r.2 12)).bind
        (fun r => register_alarm 3 r.2 900 7 9 13 3)).isNone = true := by
  refine ⟨?_, ?_, ?_, ?_⟩ <;> rfl

/-! ## Yielding and the clock tick on well-formed states -/

theorem switch_to_next_found {st : State} {res : Int} {t : Ptr} {fr : minithread}
    (hres : res ≠ -1) (hfr : st.threads t = some fr) :
    switch_to_next st res t = some { st with
      curr_level := fr.level,
      curr_level_quanta := if st.curr_level ≠ fr.level then 0 else st.curr_level_quanta,
      running_thread := t } := by
  simp only [switch_to_next, hres, hfr]
  by_cases h1 : st.curr_level = fr.level <;> by_cases h2 : st.running_thread = t
  all_goals simp [h1, h2]
  all_goals (cases st; simp_all)

theorem switch_to_next_none {st : State} (t : Ptr) :
    switch_to_next st (-1) t = some { st with running_thread := st.scheduler_thread } := by
  simp [switch_to_next]

theorem stop_running_thread_eq (st : State) :
    stop_running_thread st =
      match st.runnable_queue with
      | none => none
      | some mq =>
        match multilevel_queue_dequeue st.nodes mq st.curr_level NULL with
        | none => none
        | some (res, first_runnable, h', mq') =>
          switch_to_next { st with nodes := h', runnable_queue := some mq' } res
            first_runnable := by
  unfold stop_running_thread switch_to_next
  rfl

/-- The switch to the next thread keeps a well-formed state well formed; the new running
thread is the one found, on whose level `curr_level` now stands, or the scheduler
thread. -/
theorem switch_to_next_inv {st : State} {mq : multilevel_queue} {css : List (List Cell)}
    {qx : List queue} {cx : List (List Cell)} (hinv : SchedInv st mq css qx cx)
    (res : Int) (t : Ptr) (ht : res ≠ -1 → st.threads t ≠ none) :
    ∃ st', switch_to_next st res t = some st' ∧ SchedInv st' mq css qx cx ∧
      st'.threads = st.threads ∧ st'.nodes = st.nodes ∧
      st'.scheduler_thread = st.scheduler_thread ∧
      (res = -1 → st'.running_thread = st.scheduler_thread) ∧
      (res ≠ -1 → st'.running_thread = t ∧
        ∀ th, st.threads t = some th → th.level = st'.curr_level) := by
  by_cases hres : res = -1
  · subst hres
    refine ⟨_, switch_to_next_none t, ⟨hinv.rq, hinv.four, hinv.rep, hinv.curr, hinv.sched,
      hinv.sched, hinv.queued, hinv.levels⟩, rfl, rfl, rfl, fun _ => rfl, fun h => absurd rfl h⟩
  · obtain ⟨fr, hfr⟩ := Option.ne_none_iff_exists'.mp (ht hres)
    refine ⟨_, switch_to_next_found hres hfr, ⟨hinv.rq, hinv.four, hinv.rep,
      hinv.levels _ _ hfr, ht hres, hinv.sched, hinv.queued, hinv.levels⟩, rfl, rfl, rfl,
      fun h => absurd h hres, fun _ => ⟨rfl, ?_⟩⟩
    intro th hth
    rw [hfr] at hth
    rw [← Option.some.inj hth]

/-- The dequeue of the next thread on a well-formed state: either every level is empty
and nothing changes, or the head of the first non-empty level in circular order from
`curr_level` is taken out. -/
theorem dequeue_next_inv {st : State} {mq : multilevel_queue} {css : List (List Cell)}
    {qx : List queue} {cx : List (List Cell)} (hinv : SchedInv st mq css qx cx) :
    ∃ res t h1 mq1 css1,
      multilevel_queue_dequeue st.nodes mq st.curr_level NULL = some (res, t, h1, mq1) ∧
      SchedInv { st with nodes := h1, runnable_queue := some mq1 } mq1 css1 qx cx ∧
      (∀ a, st.nodes a = none → h1 a = none) ∧
      (((∀ cs ∈ css, cs = []) ∧ res = -1 ∧ css1 = css) ∨
       (∃ j c cs, j < css.length ∧
          (∀ j', j' < j → css[(st.curr_level.toNat + j') % css.length]? = some []) ∧
          css[(st.curr_level.toNat + j) % css.length]? = some (c :: cs) ∧
          res ≠ -1 ∧ t = c.data ∧ st.threads c.data ≠ none ∧
          css1 = css.set ((st.curr_level.toNat + j) % css.length) cs)) := by
  have hlen := schedInv_length hinv
  obtain ⟨hc0, hc4⟩ := hinv.curr
  simp only [MAX_LEVELS] at hc4
  have hcast : ((st.curr_level.toNat : Nat) : Int) = st.curr_level := Int.toNat_of_nonneg hc0
  have hlv : st.curr_level.toNat < css.length := by omega
  by_cases hall : ∀ cs ∈ css, cs = []
  · have hrun := multilevel_queue_dequeue_all_empty hinv.rep _ hlv NULL hall
    rw [hcast] at hrun
    refine ⟨-1, NULL, st.nodes, mq, css, hrun, ⟨rfl, hinv.four, hinv.rep, hinv.curr,
      hinv.running, hinv.sched, hinv.queued, hinv.levels⟩, fun a ha => ha,
      Or.inl ⟨hall, rfl, rfl⟩⟩
  · obtain ⟨j, c, cs, hj, hempty, hfound⟩ := first_nonempty _ hlv hall
    obtain ⟨q', hrun, hrep⟩ :=
      multilevel_queue_dequeue_found hinv.rep _ hlv NULL hj hempty hfound
    rw [hcast] at hrun
    have hcmem : (c :: cs) ∈ css ++ cx :=
      List.mem_append_left _ (List.mem_iff_getElem?.mpr ⟨_, hfound⟩)
    have hvalid := hinv.queued _ hcmem c (List.mem_cons_self _ _)
    refine ⟨0, c.data, release st.nodes c.addr, _, _, hrun, ⟨rfl, hinv.four, hrep, hinv.curr,
      hinv.running, hinv.sched, ?_, hinv.levels⟩, ?_,
      Or.inr ⟨j, c, cs, hj, hempty, hfound, by decide, rfl, hvalid, rfl⟩⟩
    · intro xs hxs x hx
      rcases List.mem_append.mp hxs with hxs | hxs
      · rcases mem_of_mem_set hxs with hxs | hxs
        · exact hinv.queued xs (List.mem_append_left _ hxs) x hx
        · subst hxs
          exact hinv.queued _ hcmem x (List.mem_cons_of_mem _ hx)
      · exact hinv.queued xs (List.mem_append_right _ hxs) x hx
    · intro a ha
      show release st.nodes c.addr a = none
      unfold release
      split
      · rfl
      · exact ha

/-- Appending the running thread to the level queue of its level. -/
theorem requeue_running_inv {st : State} {mq : multilevel_queue} {css : List (List Cell)}
    {qx : List queue} {cx : List (List Cell)} (hinv : SchedInv st mq css qx cx)
    {rt : minithread} (hrt : st.threads st.running_thread = some rt) {n : Ptr}
    (hn0 : n ≠ NULL) (hn : st.nodes n = none) :
    ∃ r h2 mq2 cs, css[rt.level.toNat]? = some cs ∧
      multilevel_queue_enqueue st.nodes mq rt.level st.running_thread n = some (r, h2, mq2) ∧
      SchedInv { st with nodes := h2, runnable_queue := some mq2 } mq2
        (css.set rt.level.toNat
          (cs ++ [{ addr := n, data := st.running_thread, priority := 0 }])) qx cx ∧
      (∀ a, st.nodes a = none → a ≠ n → h2 a = none) := by
  have hlen := schedInv_length hinv
  obtain ⟨hl0, hl4⟩ := hinv.levels _ rt hrt
  simp only [MAX_LEVELS] at hl4
  have hlv : rt.level.toNat < css.length := by omega
  obtain ⟨cs, hcs⟩ := getElem?_of_lt hlv
  obtain ⟨h', q', henq, hrep, hframe⟩ :=
    multilevel_queue_enqueue_spec hinv.rep hl0 hcs st.running_thread hn0 hn
  refine ⟨0, h', _, cs, hcs, henq, ⟨rfl, hinv.four, hrep, hinv.curr, hinv.running,
    hinv.sched, ?_, hinv.levels⟩, ?_⟩
  · intro xs hxs x hx
    rcases List.mem_append.mp hxs with hxs | hxs
    · rcases mem_of_mem_set hxs with hxs | hxs
      · exact hinv.queued xs (List.mem_append_left _ hxs) x hx
      · subst hxs
        rcases List.mem_append.mp hx with hx | hx
        · exact hinv.queued cs
            (List.mem_append_left _ (List.mem_iff_getElem?.mpr ⟨_, hcs⟩)) x hx
        · simp only [List.mem_singleton] at hx
          subst hx
          exact hinv.running
    · exact hinv.queued xs (List.mem_append_right _ hxs) x hx
  · intro a ha han
    have hmem : a ∉ addrs cs := by
      obtain ⟨q, hq⟩ := getElem?_of_lt (show rt.level.toNat < mq.level_queues.length by
        rw [hinv.rep.length]; exact hlv)
      exact rep_fresh (mrepx_level_rep hinv.rep hq hcs) ha
    rw [hframe a hmem han]
    exact ha

/-- Outcome of `yield_running_thread` on a well-formed state: the next thread is taken
from the runnable queue as it stands before the caller is appended; a caller other than
the scheduler thread is then appended to the level queue of its level. -/
theorem yield_running_thread_spec {st : State} {mq : multilevel_queue}
    {css : List (List Cell)} {qx : List queue} {cx : List (List Cell)}
    (hinv : SchedInv st mq css qx cx) {rt : minithread}
    (hrt : st.threads st.running_thread = some rt) {n : Ptr} (hn0 : n ≠ NULL)
    (hn : st.nodes n = none) :
    ∃ st' mq' css1 cs,
      yield_running_thread st n = some st' ∧
      (((∀ cs ∈ css, cs = []) ∧ css1 = css ∧ st'.running_thread = st.scheduler_thread) ∨
       (∃ j c cs', j < css.length ∧
          (∀ j', j' < j → css[(st.curr_level.toNat + j') % css.length]? = some []) ∧
          css[(st.curr_level.toNat + j) % css.length]? = some (c :: cs') ∧
          css1 = css.set ((st.curr_level.toNat + j) % css.length) cs' ∧
          st'.running_thread = c.data ∧
          ∃ th, st.threads c.data = some th ∧ th.level = st'.curr_level)) ∧
      css1[rt.level.toNat]? = some cs ∧
      SchedInv st' mq'
        (if st.running_thread ≠ st.scheduler_thread then
          css1.set rt.level.toNat
            (cs ++ [{ addr := n, data := st.running_thread, priority := 0 }])
         else css1) qx cx ∧
      st'.threads = st.threads ∧ st'.scheduler_thread = st.scheduler_thread ∧
      (∀ a, st.nodes a = none → a ≠ n → st'.nodes a = none) := by
  obtain ⟨res, t, h1, mq1, css1, hdq, hinv1, hfr1, hcases⟩ := dequeue_next_inv hinv
  have ht : res ≠ -1 → st.threads t ≠ none := by
    intro hres
    rcases hcases with ⟨_, h, _⟩ | ⟨j, c, cs', _, _, _, _, htc, hv, _⟩
    · exact absurd h hres
    · rw [htc]; exact hv
  have hdesc : ∀ st' : State,
      (res = -1 → st'.running_thread = st.scheduler_thread) →
      (res ≠ -1 → st'.running_thread = t ∧
        ∀ th, st.threads t = some th → th.level = st'.curr_level) →
      (((∀ cs ∈ css, cs = []) ∧ css1 = css ∧ st'.running_thread = st.scheduler_thread) ∨
       (∃ j c cs', j < css.length ∧
          (∀ j', j' < j → css[(st.curr_level.toNat + j') % css.length]? = some []) ∧
          css[(st.curr_level.toNat + j) % css.length]? = some (c :: cs') ∧
          css1 = css.set ((st.curr_level.toNat + j) % css.length) cs' ∧
          st'.running_thread = c.data ∧
          ∃ th, st.threads c.data = some th ∧ th.level = st'.curr_level)) := by
    intro st' h1 h2
    rcases hcases with ⟨hall, hres, hc⟩ | ⟨j, c, cs', hj, hempty, hfound, hres, htc, hv, hc⟩
    · exact Or.inl ⟨hall, hc, h1 hres⟩
    · obtain ⟨th, hth⟩ := Option.ne_none_iff_exists'.mp hv
      refine Or.inr ⟨j, c, cs', hj, hempty, hfound, hc, htc ▸ (h2 hres).1, th, hth, ?_⟩
      exact (h2 hres).2 th (htc ▸ hth)
  have hlen1 := schedInv_length hinv1
  obtain ⟨hl0, hl4⟩ := hinv.levels _ rt hrt
  simp only [MAX_LEVELS] at hl4
  by_cases hs : st.running_thread = st.scheduler_thread
  · obtain ⟨cs, hcs⟩ := getElem?_of_lt (show rt.level.toNat < css1.length by omega)
    obtain ⟨st', hsw, hinv', hthr, hnodes, hsched, hr1, hr2⟩ :=
      switch_to_next_inv hinv1 res t ht
    refine ⟨st', mq1, css1, cs, ?_, hdesc st' hr1 hr2, hcs, ?_, hthr, hsched, ?_⟩
    · simp only [hs] at hsw
      simp only [yield_running_thread, hinv.rq, hdq, hs, ne_eq, not_true_eq_false, if_false]
      exact hsw
    · simp only [hs, ne_eq, not_true_eq_false, if_false]
      exact hinv'
    · intro a ha _
      rw [hnodes]
      exact hfr1 a ha
  · obtain ⟨r, h2, mq2, cs, hcs, henq, hinv2, hframe2⟩ :=
      requeue_running_inv hinv1 hrt hn0 (hfr1 n hn)
    obtain ⟨st', hsw, hinv', hthr, hnodes, hsched, hr1, hr2⟩ :=
      switch_to_next_inv hinv2 res t ht
    refine ⟨st', mq2, css1, cs, ?_, hdesc st' hr1 hr2, hcs, ?_, hthr, hsched, ?_⟩
    · simp only [yield_running_thread, hinv.rq, hdq, ne_eq, hs, not_false_eq_true, if_true,
        hrt, henq]
      exact hsw
    · simp only [ne_eq, hs, not_false_eq_true, if_true]
      exact hinv'
    · intro a ha han
      rw [hnodes]
      exact hframe2 a (hfr1 a ha) han

theorem level_quantum_value_pos {l qv : Int}
    (h : table_get level_quantum_value l = some qv) : 0 < qv := by
  unfold table_get at h
  split at h
  · cases h
  · obtain ⟨k, hk⟩ : ∃ k, l.toNat = k := ⟨_, rfl⟩
    rw [hk] at h
    match k, h with
    | 0, h => simp [level_quantum_value] at h; omega
    | 1, h => simp [level_quantum_value] at h; omega
    | 2, h => simp [level_quantum_value] at h; omega
    | 3, h => simp [level_quantum_value] at h; omega
    | k + 4, h => simp [level_quantum_value] at h

theorem table_get_some {l : Int} (hl : 0 ≤ l ∧ l < MAX_LEVELS) :
    (∃ qv, table_get level_quantum_value l = some qv) ∧
    (∃ mx, table_get level_max_quanta l = some mx) := by
  obtain ⟨h0, h4⟩ := hl
  simp only [MAX_LEVELS] at h4
  have : l = 0 ∨ l = 1 ∨ l = 2 ∨ l = 3 := by omega
  rcases this with e | e | e | e <;> rw [e] <;> exact ⟨⟨_, rfl⟩, ⟨_, rfl⟩⟩

theorem next_level_range {st : State} (hc : 0 ≤ st.curr_level ∧ st.curr_level < MAX_LEVELS) :
    0 ≤ next_level st ∧ next_level st < MAX_LEVELS := by
  unfold next_level
  simp only [MAX_LEVELS] at hc ⊢
  split
  · exact hc
  · constructor <;> omega

/-- Changing thread records and scheduler counters keeps a state well formed as long as
no thread record disappears and levels stay in range. -/
theorem schedInv_congr {st st' : State} {mq : multilevel_queue} {css : List (List Cell)}
    {qx : List queue} {cx : List (List Cell)} (hinv : SchedInv st mq css qx cx)
    (hrq : st'.runnable_queue = st.runnable_queue) (hnodes : st'.nodes = st.nodes)
    (hcurr : 0 ≤ st'.curr_level ∧ st'.curr_level < MAX_LEVELS)
    (hrun : st'.threads st'.running_thread ≠ none)
    (hsched : st'.threads st'.scheduler_thread ≠ none)
    (hth : ∀ t, st.threads t ≠ none → st'.threads t ≠ none)
    (hlev : ∀ t th, st'.threads t = some th → 0 ≤ th.level ∧ th.level < MAX_LEVELS) :
    SchedInv st' mq css qx cx :=
  ⟨hrq.trans hinv.rq, hinv.four, hnodes ▸ hinv.rep, hcurr, hrun, hsched,
    fun cs hcs c hc => hth _ (hinv.queued cs hcs c hc), hlev⟩

/-- Outcome of `yield_running_thread` for the invariant of the reachable states. -/
theorem yield_running_thread_run {st : State} {mq : multilevel_queue}
    {css : List (List Cell)} {qx : List queue} {cx : List (List Cell)}
    (hinv : SchedInv st mq css qx cx)
    (hq : ∀ t th qv, t ≠ st.scheduler_thread → st.threads t = some th →
      table_get level_quantum_value th.level = some qv → 0 ≤ th.quanta ∧ th.quanta < qv)
    {n : Ptr} (hn0 : n ≠ NULL) (hn : st.nodes n = none) :
    ∃ st' mq' css', yield_running_thread st n = some st' ∧ RunInv st' mq' css' qx cx := by
  obtain ⟨rt, hrt⟩ := Option.ne_none_iff_exists'.mp hinv.running
  obtain ⟨st', mq', css1, cs, hrun, hdesc, _, hinv', hthr, hsched, _⟩ :=
    yield_running_thread_spec hinv hrt hn0 hn
  refine ⟨st', mq', _, hrun, hinv', ?_, ?_⟩
  · intro hne th hth
    rcases hdesc with ⟨_, _, hr⟩ | ⟨j, c, cs', _, _, _, _, hr, th0, hth0, hlv⟩
    · exact absurd (hr.trans hsched.symm) hne
    · rw [hthr, hr, hth0] at hth
      rw [← Option.some.inj hth]
      exact hlv
  · rw [hthr, hsched]
    exact hq

/-- Outcome of `stop_running_thread` for the invariant of the reachable states. -/
theorem stop_running_thread_run {st : State} {mq : multilevel_queue}
    {css : List (List Cell)} {qx : List queue} {cx : List (List Cell)}
    (hinv : SchedInv st mq css qx cx)
    (hq : ∀ t th qv, t ≠ st.scheduler_thread → st.threads t = some th →
      table_get level_quantum_value th.level = some qv → 0 ≤ th.quanta ∧ th.quanta < qv) :
    ∃ st' mq' css', stop_running_thread st = some st' ∧ RunInv st' mq' css' qx cx := by
  obtain ⟨res, t, h1, mq1, css1, hdq, hinv1, hfr1, hcases⟩ := dequeue_next_inv hinv
  have ht : res ≠ -1 → st.threads t ≠ none := by
    intro hres
    rcases hcases with ⟨_, h, _⟩ | ⟨j, c, cs', _, _, _, _, htc, hv, _⟩
    · exact absurd h hres
    · rw [htc]; exact hv
  obtain ⟨st', hsw, hinv', hthr, hnodes, hsched, hr1, hr2⟩ :=
    switch_to_next_inv hinv1 res t ht
  refine ⟨st', mq1, css1, ?_, hinv', ?_, ?_⟩
  · rw [stop_running_thread_eq]
    simp only [hinv.rq, hdq]
    exact hsw
  · intro hne th hth
    by_cases hres : res = -1
    · exact absurd ((hr1 hres).trans hsched.symm) hne
    · rw [(hr2 hres).1, hthr] at hth
      exact (hr2 hres).2 th hth
  · rw [hthr, hsched]
    exact hq

/-- The quanta bound after the record of the running thread has been rewritten. -/
theorem quanta_write {threads : Ptr → Option minithread} {sched t : Ptr} {rt : minithread}
    (hq : ∀ t th qv, t ≠ sched → threads t = some th →
      table_get level_quantum_value th.level = some qv → 0 ≤ th.quanta ∧ th.quanta < qv)
    (hrt : t ≠ sched → ∀ qv, table_get level_quantum_value rt.level = some qv →
      0 ≤ rt.quanta ∧ rt.quanta < qv) :
    ∀ t' th qv, t' ≠ sched → write threads t rt t' = some th →
      table_get level_quantum_value th.level = some qv → 0 ≤ th.quanta ∧ th.quanta < qv := by
  intro t' th qv hne hth hqv
  by_cases htt : t' = t
  · subst htt
    rw [write_same] at hth
    rw [← Option.some.inj hth] at hqv ⊢
    exact hrt hne qv hqv
  · rw [write_other _ _ htt] at hth
    exact hq t' th qv hne hth hqv

theorem levels_write {threads : Ptr → Option minithread} {t : Ptr} {rt : minithread}
    (hl : ∀ t th, threads t = some th → 0 ≤ th.level ∧ th.level < MAX_LEVELS)
    (hrt : 0 ≤ rt.level ∧ rt.level < MAX_LEVELS) :
    ∀ t' th, write threads t rt t' = some th → 0 ≤ th.level ∧ th.level < MAX_LEVELS := by
  intro t' th hth
  by_cases htt : t' = t
  · subst htt
    rw [write_same] at hth
    rw [← Option.some.inj hth]
    exact hrt
  · rw [write_other _ _ htt] at hth
    exact hl t' th hth

theorem write_write {α : Type} (h : Ptr → Option α) (p : Ptr) (a b : α) :
    write (write h p a) p b = write h p b := by
  funext x
  unfold write
  split <;> rfl

/-- The record of a running thread after it has been charged one quantum: below the
bound of its level again. -/
theorem charged_quanta {rt : minithread} {qv : Int}
    (hqv : table_get level_quantum_value rt.level = some qv)
    (hb : 0 ≤ rt.quanta ∧ rt.quanta < qv) (hne : rt.quanta + 1 ≠ qv) :
    ∀ qv', table_get level_quantum_value rt.level = some qv' →
      0 ≤ rt.quanta + 1 ∧ rt.quanta + 1 < qv' := by
  intro qv' hqv'
  rw [hqv] at hqv'
  rw [← Option.some.inj hqv']
  omega

/-- Outcome of `minithread_yield` for the invariant of the reachable states. -/
theorem minithread_yield_run {st : State} {mq : multilevel_queue}
    {css : List (List Cell)} {qx : List queue} {cx : List (List Cell)}
    (hri : RunInv st mq css qx cx) {n : Ptr} (hn0 : n ≠ NULL) (hn : st.nodes n = none) :
    ∃ st' mq' css', minithread_yield st n = some st' ∧ RunInv st' mq' css' qx cx := by
  have hinv := hri.sched
  obtain ⟨rt, hrt⟩ := Option.ne_none_iff_exists'.mp hinv.running
  obtain ⟨qv, hqv⟩ := (table_get_some hinv.curr).1
  by_cases heq : rt.quanta = qv
  · have hinv1 : SchedInv
        { st with threads := write st.threads st.running_thread
                    { rt with quanta := 0, level := next_level st } } mq css qx cx :=
      schedInv_congr hinv rfl rfl hinv.curr (by show write _ _ _ _ ≠ none; rw [write_same]; simp)
        (write_ne_none _ _ hinv.sched) (fun t ht => write_ne_none _ _ ht)
        (levels_write hinv.levels (next_level_range hinv.curr))
    obtain ⟨st', mq', css', hrun, hri'⟩ := yield_running_thread_run hinv1
      (quanta_write hri.quanta (fun _ qv' h' => ⟨le_refl _, level_quantum_value_pos h'⟩))
      hn0 hn
    refine ⟨st', mq', css', ?_, hri'⟩
    simp only [minithread_yield, hrt, hqv, heq, if_true]
    exact hrun
  · obtain ⟨st', mq', css', hrun, hri'⟩ := yield_running_thread_run hinv hri.quanta hn0 hn
    refine ⟨st', mq', css', ?_, hri'⟩
    simp only [minithread_yield, hrt, hqv, heq, if_false]
    exact hrun

/-- Outcome of `minithread_stop` for the invariant of the reachable states. -/
theorem minithread_stop_run {st : State} {mq : multilevel_queue}
    {css : List (List Cell)} {qx : List queue} {cx : List (List Cell)}
    (hri : RunInv st mq css qx cx) :
    ∃ st' mq' css', minithread_stop st = some st' ∧ RunInv st' mq' css' qx cx := by
  have hinv := hri.sched
  obtain ⟨rt, hrt⟩ := Option.ne_none_iff_exists'.mp hinv.running
  obtain ⟨qv, hqv⟩ := (table_get_some hinv.curr).1
  have hinv1 : SchedInv
      { st with threads := write st.threads st.running_thread (account_quantum st rt qv) }
      mq css qx cx :=
    schedInv_congr hinv rfl rfl hinv.curr (by show write _ _ _ _ ≠ none; rw [write_same]; simp)
      (write_ne_none _ _ hinv.sched) (fun t ht => write_ne_none _ _ ht)
      (levels_write hinv.levels (account_quantum_level rt qv hinv.curr (hinv.levels _ _ hrt)))
  have hq1 := @quanta_write _ _ _ (account_quantum st rt qv) hri.quanta (by
    intro hne qv' hqv'
    have hlv := hri.curr_run hne rt hrt
    have hb := hri.quanta _ rt qv hne hrt (hlv ▸ hqv)
    unfold account_quantum at hqv' ⊢
    by_cases h1 : rt.quanta + 1 = qv
    · simp only [h1, if_true] at hqv' ⊢
      exact ⟨le_refl _, level_quantum_value_pos hqv'⟩
    · simp only [h1, if_false] at hqv' ⊢
      exact charged_quanta (hlv ▸ hqv) hb h1 qv' hqv')
  obtain ⟨st', mq', css', hrun, hri'⟩ := stop_running_thread_run hinv1 hq1
  refine ⟨st', mq', css', ?_, hri'⟩
  simp only [minithread_stop, hrt, hqv]
  exact hrun

theorem next_cursor_range {c : Int} (hc : 0 ≤ c ∧ c < MAX_LEVELS) :
    0 ≤ Int.tmod (c + 1) MAX_LEVELS ∧ Int.tmod (c + 1) MAX_LEVELS < MAX_LEVELS := by
  obtain ⟨h0, h4⟩ := hc
  simp only [MAX_LEVELS] at h4 ⊢
  have : c = 0 ∨ c = 1 ∨ c = 2 ∨ c = 3 := by omega
  rcases this with e | e | e | e <;> rw [e] <;> decide

/-- Outcome of `implement_scheduler` for the invariant of the reachable states. -/
theorem implement_scheduler_run {st : State} {mq : multilevel_queue}
    {css : List (List Cell)} {qx : List queue} {cx : List (List Cell)}
    (hri : RunInv st mq css qx cx) {n : Ptr} (hn0 : n ≠ NULL) (hn : st.nodes n = none) :
    ∃ st' mq' css', implement_scheduler st n = some st' ∧ RunInv st' mq' css' qx cx := by
  have hinv := hri.sched
  obtain ⟨rt, hrt⟩ := Option.ne_none_iff_exists'.mp hinv.running
  obtain ⟨⟨qv, hqv⟩, ⟨mx, hmx⟩⟩ := table_get_some hinv.curr
  have hreset : ∀ t' th qv', t' ≠ st.scheduler_thread →
      write st.threads st.running_thread
        { rt with quanta := 0, level := next_level st } t' = some th →
      table_get level_quantum_value th.level = some qv' → 0 ≤ th.quanta ∧ th.quanta < qv' :=
    quanta_write hri.quanta (fun _ qv' h' => ⟨le_refl _, level_quantum_value_pos h'⟩)
  have hcharge : rt.quanta + 1 ≠ qv → ∀ t' th qv', t' ≠ st.scheduler_thread →
      write st.threads st.running_thread { rt with quanta := rt.quanta + 1 } t' = some th →
      table_get level_quantum_value th.level = some qv' → 0 ≤ th.quanta ∧ th.quanta < qv' := by
    intro h1
    refine quanta_write hri.quanta ?_
    intro hne qv' hqv'
    have hlv := hri.curr_run hne rt hrt
    exact charged_quanta (hlv ▸ hqv) (hri.quanta _ rt qv hne hrt (hlv ▸ hqv)) h1 qv' hqv'
  have hw : ∀ rt' : minithread,
      write st.threads st.running_thread rt' st.running_thread ≠ none := by
    intro rt'; rw [write_same]; simp
  by_cases hm : st.curr_level_quanta + 1 = mx
  · by_cases h1 : rt.quanta + 1 = qv
    · have hinv1 : SchedInv
          { st with
            curr_level_quanta := 0,
            threads := write st.threads st.running_thread
              { rt with quanta := 0, level := next_level st },
            curr_level := Int.tmod (st.curr_level + 1) MAX_LEVELS } mq css qx cx :=
        schedInv_congr hinv rfl rfl (next_cursor_range hinv.curr) (hw _)
          (write_ne_none _ _ hinv.sched) (fun t ht => write_ne_none _ _ ht)
          (levels_write hinv.levels (next_level_range hinv.curr))
      obtain ⟨st', mq', css', hrun, hri'⟩ := yield_running_thread_run hinv1 hreset hn0 hn
      refine ⟨st', mq', css', ?_, hri'⟩
      simp only [implement_scheduler, hrt, hqv, hmx, hm, h1, if_true, write_write]
      exact hrun
    · have hinv1 : SchedInv
          { st with
            curr_level_quanta := 0,
            threads := write st.threads st.running_thread
              { rt with quanta := rt.quanta + 1 },
            curr_level := Int.tmod (st.curr_level + 1) MAX_LEVELS } mq css qx cx :=
        schedInv_congr hinv rfl rfl (next_cursor_range hinv.curr) (hw _)
          (write_ne_none _ _ hinv.sched) (fun t ht => write_ne_none _ _ ht)
          (levels_write hinv.levels (hinv.levels _ rt hrt))
      obtain ⟨st', mq', css', hrun, hri'⟩ :=
        yield_running_thread_run hinv1 (hcharge h1) hn0 hn
      refine ⟨st', mq', css', ?_, hri'⟩
      simp only [implement_scheduler, hrt, hqv, hmx, hm, h1, if_true, if_false]
      exact hrun
  · by_cases h1 : rt.quanta + 1 = qv
    · have hinv1 : SchedInv
          { st with
            curr_level_quanta := st.curr_level_quanta + 1,
            threads := write st.threads st.running_thread
              { rt with quanta := 0, level := next_level st } } mq css qx cx :=
        schedInv_congr hinv rfl rfl hinv.curr (hw _)
          (write_ne_none _ _ hinv.sched) (fun t ht => write_ne_none _ _ ht)
          (levels_write hinv.levels (next_level_range hinv.curr))
      obtain ⟨st', mq', css', hrun, hri'⟩ := yield_running_thread_run hinv1 hreset hn0 hn
      refine ⟨st', mq', css', ?_, hri'⟩
      simp only [implement_scheduler, hrt, hqv, hmx, hm, h1, if_true, if_false, write_write]
      exact hrun
    · refine ⟨{ st with
          curr_level_quanta := st.curr_level_quanta + 1,
          threads := write st.threads st.running_thread
            { rt with quanta := rt.quanta + 1 } }, mq, css, ?_, ⟨?_, ?_, ?_⟩⟩
      · simp only [implement_scheduler, hrt, hqv, hmx, hm, h1, if_false]
      · exact schedInv_congr hinv rfl rfl hinv.curr (hw _)
          (write_ne_none _ _ hinv.sched) (fun t ht => write_ne_none _ _ ht)
          (levels_write hinv.levels (hinv.levels _ rt hrt))
      · intro hne th hth
        have hth' : write st.threads st.running_thread { rt with quanta := rt.quanta + 1 }
            st.running_thread = some th := hth
        rw [write_same] at hth'
        rw [← Option.some.inj hth']
        exact hri.curr_run hne rt hrt
      · exact hcharge h1

/-- Outcome of `minithread_create` for the invariant of the reachable states. -/
theorem minithread_create_run {st : State} {mq : multilevel_queue}
    {css : List (List Cell)} {qx : List queue} {cx : List (List Cell)}
    (hri : RunInv st mq css qx cx) {m : Ptr} (hm : st.threads m = none) (s0 : status) :
    RunInv (minithread_create st m s0).2 mq css qx cx ∧
      (minithread_create st m s0).2.nodes = st.nodes ∧
      (m ≠ NULL → (minithread_create st m s0).1 = m ∧
        (minithread_create st m s0).2.threads m ≠ none) ∧
      (m = NULL → (minithread_create st m s0).1 = NULL) := by
  have hinv := hri.sched
  by_cases h0 : m = NULL
  · have e : minithread_create st m s0 = (NULL, st) := by simp [minithread_create, h0]
    rw [e]
    exact ⟨hri, rfl, fun h => absurd h0 h, fun _ => rfl⟩
  · have e : minithread_create st m s0 = (m, { st with
        threads := write st.threads m
          { id := st.minithreads_count, s := s0, level := 0, quanta := 0 },
        minithreads_count := st.minithreads_count + 1 }) := by
      simp [minithread_create, h0]
    rw [e]
    have hrm : st.running_thread ≠ m := fun e => hinv.running (e ▸ hm)
    refine ⟨⟨?_, ?_, ?_⟩, rfl, fun _ => ⟨rfl, ?_⟩, fun h => absurd h h0⟩
    · exact schedInv_congr hinv rfl rfl hinv.curr (write_ne_none _ _ hinv.running)
        (write_ne_none _ _ hinv.sched) (fun t ht => write_ne_none _ _ ht)
        (levels_write hinv.levels ⟨le_refl _, by simp [MAX_LEVELS]⟩)
    · intro hne th hth
      have hth' : write st.threads m
          { id := st.minithreads_count, s := s0, level := 0, quanta := 0 }
          st.running_thread = some th := hth
      rw [write_other _ _ hrm] at hth'
      exact hri.curr_run hne th hth'
    · exact quanta_write hri.quanta
        (fun _ qv' h' => ⟨le_refl _, level_quantum_value_pos h'⟩)
    · show write st.threads m _ m ≠ none
      rw [write_same]; simp

/-- The fields `minithread_start` leaves alone. -/
theorem minithread_start_fields {st st' : State} {t n : Ptr}
    (h : minithread_start st t n = some st') :
    st'.curr_level = st.curr_level ∧ st'.running_thread = st.running_thread ∧
      st'.scheduler_thread = st.scheduler_thread ∧ ∃ th, st.threads t = some th := by
  cases hth : st.threads t with
  | none => simp [minithread_start, hth] at h
  | some th =>
    simp only [minithread_start, hth] at h
    split at h
    · cases h
      exact ⟨rfl, rfl, rfl, th, rfl⟩
    · split at h
      · cases h
      · cases h
        exact ⟨rfl, rfl, rfl, th, rfl⟩

/-- Outcome of `minithread_start` for the invariant of the reachable states. -/
theorem minithread_start_run {st st' : State} {mq : multilevel_queue}
    {css : List (List Cell)} {qx : List queue} {cx : List (List Cell)}
    (hri : RunInv st mq css qx cx) {t n : Ptr} (hn0 : n ≠ NULL) (hn : st.nodes n = none)
    (h : minithread_start st t n = some st') :
    ∃ mq' css', RunInv st' mq' css' qx cx := by
  obtain ⟨hc, hr, hs, th, hth⟩ := minithread_start_fields h
  obtain ⟨st2, mq', cs, hrun, _, hinv', hthr, _⟩ := minithread_start_inv hri.sched hth hn0 hn
  rw [h] at hrun
  cases hrun
  refine ⟨mq', _, hinv', ?_, ?_⟩
  · intro hne th' hth'
    rw [hr, hthr] at hth'
    rw [hc]
    rw [hr, hs] at hne
    by_cases htt : st.running_thread = t
    · rw [htt, write_same] at hth'
      rw [← Option.some.inj hth']
      exact hri.curr_run hne th (htt ▸ hth)
    · rw [write_other _ _ htt] at hth'
      exact hri.curr_run hne th' hth'
  · rw [hthr, hs]
    refine quanta_write hri.quanta ?_
    intro hne qv' hqv'
    exact hri.quanta t th qv' hne hth hqv'

/-- Outcome of `minithread_fork` for the invariant of the reachable states. -/
theorem minithread_fork_run {st st' : State} {mq : multilevel_queue}
    {css : List (List Cell)} {qx : List queue} {cx : List (List Cell)}
    (hri : RunInv st mq css qx cx) {m : Ptr} (hm : st.threads m = none) {s0 : status}
    {n t : Ptr} (hn0 : n ≠ NULL) (hn : st.nodes n = none)
    (h : minithread_fork st m s0 n = some (t, st')) :
    ∃ mq' css', RunInv st' mq' css' qx cx := by
  obtain ⟨hri1, hnodes, h1, h2⟩ := minithread_create_run hri hm s0
  unfold minithread_fork at h
  by_cases h0 : m = NULL
  · have e := h2 h0
    simp only [e, if_true] at h
    cases h
    exact ⟨mq, css, hri1⟩
  · have e := (h1 h0).1
    simp only [e, h0, if_false] at h
    split at h
    · cases h
    · next st2 hst2 =>
      cases h
      exact minithread_start_run hri1 hn0 (hnodes ▸ hn) hst2

/-- Changes to memory outside the nodes of the runnable queue keep the invariant. -/
theorem runInv_other {st st' : State} {mq : multilevel_queue} {css : List (List Cell)}
    (hri : RunInv st mq css [] []) (hthr : st'.threads = st.threads)
    (hcl : st'.curr_level = st.curr_level) (hrq : st'.runnable_queue = st.runnable_queue)
    (hrun : st'.running_thread = st.running_thread)
    (hsch : st'.scheduler_thread = st.scheduler_thread)
    (hframe : ∀ mq css, st.runnable_queue = some mq → MRep st.nodes mq css →
      ∀ cs ∈ css, ∀ a ∈ addrs cs, st'.nodes a = st.nodes a) :
    RunInv st' mq css [] [] := by
  have hinv := hri.sched
  have hm := mrep_of_mrepx hinv.rep
  have hf := hframe mq css hinv.rq hm
  have hm' : MRep st'.nodes mq css := by
    refine ⟨hm.levels, hm.all.length, ?_, hm.all.disjoint⟩
    intro i q cs hq hcs
    exact rep_frame (hm.all.rep i q cs hq hcs)
      (hf cs (List.mem_iff_getElem?.mpr ⟨i, hcs⟩))
  refine ⟨⟨hrq.trans hinv.rq, hinv.four, mrepx_of_mrep hm', hcl ▸ hinv.curr, ?_, ?_, ?_, ?_⟩,
    ?_, ?_⟩
  · rw [hthr, hrun]; exact hinv.running
  · rw [hthr, hsch]; exact hinv.sched
  · rw [hthr]; exact hinv.queued
  · rw [hthr]; exact hinv.levels
  · rw [hthr, hrun, hsch, hcl]; exact hri.curr_run
  · rw [hthr, hsch]; exact hri.quanta

/-- The state `minithread_system_initialize` leaves satisfies the invariant. -/
theorem runInv_boot {sched : Ptr} {s0 : status} {q0 : Int} {reaper : Ptr} {s1 : status}
    {main : Ptr} {s2 : status} {n : Ptr} {st : State} (hs0 : sched ≠ NULL)
    (hsr : sched ≠ reaper) (hsm : sched ≠ main) (hrm : reaper ≠ main) (hn0 : n ≠ NULL)
    (h : minithread_system_initialize state_null sched s0 q0 reaper s1 main s2 n = some st) :
    ∃ mq css, RunInv st mq css [] [] := by
  obtain ⟨st3, hst3⟩ : ∃ st3 : State, st3 =
      { state_null with
        runnable_queue := some mlq_boot, stopped_queue := some queue_new,
        threads := write state_null.threads sched
          { id := state_null.minithreads_count, s := s0, level := 0, quanta := q0 },
        minithreads_count := state_null.minithreads_count + 1,
        scheduler_thread := sched, running_thread := sched,
        alarm_queue := some queue_new } := ⟨_, rfl⟩
  have hri3 : RunInv st3 mlq_boot [[], [], [], []] [] [] := by
    subst hst3
    refine ⟨⟨rfl, rfl, ⟨by decide, rfl, repAll_empty _ rfl ?_ ?_⟩,
      (show (0 : Int) ≤ 0 ∧ (0 : Int) < MAX_LEVELS from ⟨le_refl _, by simp [MAX_LEVELS]⟩),
      ?_, ?_, ?_, ?_⟩, fun h => absurd rfl h, ?_⟩
    · intro q hq
      simp only [mlq_boot, List.append_nil, List.mem_cons, List.mem_singleton,
        List.not_mem_nil, or_false] at hq
      rcases hq with e | e | e | e <;> exact e
    · intro cs hcs
      simp only [List.append_nil, List.mem_cons, List.mem_singleton, List.not_mem_nil,
        or_false] at hcs
      rcases hcs with e | e | e | e <;> exact e
    · show write _ sched _ sched ≠ none
      rw [write_same]; simp
    · show write _ sched _ sched ≠ none
      rw [write_same]; simp
    · intro cs hcs c hc
      simp only [List.append_nil, List.mem_cons, List.mem_singleton, List.not_mem_nil,
        or_false] at hcs
      rcases hcs with e | e | e | e <;> rw [e] at hc <;> cases hc
    · exact levels_write (fun t th ht => by cases ht) ⟨le_refl _, by simp [MAX_LEVELS]⟩
    · intro t th qv hne hth
      have hth' : write state_null.threads sched
          { id := state_null.minithreads_count, s := s0, level := 0, quanta := q0 } t =
          some th := hth
      rw [write_other _ _ hne] at hth'
      cases hth'
  have hthr3 : ∀ t, t ≠ sched → st3.threads t = none := by
    intro t ht
    subst hst3
    show write state_null.threads sched _ t = none
    rw [write_other _ _ ht]
    rfl
  have hnodes3 : st3.nodes n = none := by subst hst3; rfl
  obtain ⟨hri4, hnodes4, h41, h42⟩ :=
    minithread_create_run hri3 (hthr3 reaper (Ne.symm hsr)) s1
  have hri5 : RunInv
      { (minithread_create st3 reaper s1).2 with
        reaper_thread := (minithread_create st3 reaper s1).1 } mlq_boot [[], [], [], []] [] [] :=
    runInv_other hri4 rfl rfl rfl rfl rfl (fun _ _ _ _ _ _ _ _ => rfl)
  have hthr5 : (minithread_create st3 reaper s1).2.threads main = none := by
    unfold minithread_create
    split
    · exact hthr3 main (Ne.symm hsm)
    · show write st3.threads reaper _ main = none
      rw [write_other _ _ (Ne.symm hrm)]
      exact hthr3 main (Ne.symm hsm)
  have hinit : minithread_system_initialize state_null sched s0 q0 reaper s1 main s2 n =
      match minithread_fork { (minithread_create st3 reaper s1).2 with
          reaper_thread := (minithread_create st3 reaper s1).1 } main s2 n with
      | none => none
      | some (_, st5) => some st5 := by
    subst hst3
    simp only [ minithread_system_initialize, scheduler_thread_create, hs0, if_false]
    rfl
  rw [hinit] at h
  split at h
  · cases h
  · next t st5 hfork =>
    cases h
    exact minithread_fork_run hri5 hthr5 hn0 (hnodes4 ▸ hnodes3) hfork

/-- Every reachable scheduler state satisfies the invariant. -/
theorem reach_inv {st : State} (hr : Reach st) : ∃ mq css, RunInv st mq css [] [] := by
  induction hr with
  | boot sched s0 q0 reaper s1 main s2 n st hs0 _ _ hsr hsm hrm hn0 h =>
    exact runInv_boot hs0 hsr hsm hrm hn0 h
  | create st m s0 _ hm ih =>
    obtain ⟨mq, css, hri⟩ := ih
    exact ⟨mq, css, (minithread_create_run hri hm s0).1⟩
  | start st t n st' _ hn0 hn h ih =>
    obtain ⟨mq, css, hri⟩ := ih
    exact minithread_start_run hri hn0 hn h
  | fork st m s0 n t st' _ hm hn0 hn h ih =>
    obtain ⟨mq, css, hri⟩ := ih
    exact minithread_fork_run hri hm hn0 hn h
  | yield st n st' _ hn0 hn h ih =>
    obtain ⟨mq, css, hri⟩ := ih
    obtain ⟨st2, mq', css', h2, hri'⟩ := minithread_yield_run hri hn0 hn
    rw [h] at h2
    cases h2
    exact ⟨mq', css', hri'⟩
  | stop st st' _ h ih =>
    obtain ⟨mq, css, hri⟩ := ih
    obtain ⟨st2, mq', css', h2, hri'⟩ := minithread_stop_run hri
    rw [h] at h2
    cases h2
    exact ⟨mq', css', hri'⟩
  | tick st n st' _ hn0 hn h ih =>
    obtain ⟨mq, css, hri⟩ := ih
    obtain ⟨st2, mq', css', h2, hri'⟩ := implement_scheduler_run hri hn0 hn
    rw [h] at h2
    cases h2
    exact ⟨mq', css', hri'⟩
  | other st st' _ hthr _ hcl _ hrq hrun hsch _ hframe ih =>
    obtain ⟨mq, css, hri⟩ := ih
    exact ⟨mq, css, runInv_other hri hthr hcl hrq hrun hsch hframe⟩

/-! ## Yielding in reachable states -/

theorem multilevel_queue_is_empty_loop_spec {h : NodeHeap} {mq : multilevel_queue}
    {css : List (List Cell)} (hm : MRep h mq css) :
    ∀ (rem i : Nat), i + rem = css.length →
      ∃ r, multilevel_queue_is_empty_loop mq rem i = some r ∧
        (r = 1 ∧ (∀ k cs, i ≤ k → css[k]? = some cs → cs = []) ∨
         r = 0 ∧ ∃ k cs, i ≤ k ∧ css[k]? = some cs ∧ cs ≠ []) := by
  intro rem
  induction rem with
  | zero =>
    intro i hi
    refine ⟨1, rfl, Or.inl ⟨rfl, ?_⟩⟩
    intro k cs hk hcs
    have := getElem?_lt hcs
    omega
  | succ rem ih =>
    intro i hi
    obtain ⟨cs, hcs⟩ := getElem?_of_lt (show i < css.length by omega)
    obtain ⟨q, hq⟩ := getElem?_of_lt (show i < mq.level_queues.length by
      rw [hm.all.length]; omega)
    have hrep := hm.all.rep i q cs hq hcs
    have hcount : queue_length q = (cs.length : Int) := hrep.count
    by_cases hpos : queue_length q > 0
    · refine ⟨0, ?_, Or.inr ⟨rfl, i, cs, le_refl _, hcs, ?_⟩⟩
      · simp only [multilevel_queue_is_empty_loop, hq, hpos, if_true]
      · intro e
        rw [e] at hcount
        simp at hcount
        omega
    · obtain ⟨r, hr, hdesc⟩ := ih (i + 1) (by omega)
      refine ⟨r, ?_, ?_⟩
      · simp only [multilevel_queue_is_empty_loop, hq, hpos, if_false]
        exact hr
      · have hnil : cs = [] := by
          cases cs with
          | nil => rfl
          | cons c cs =>
            have hlt : (0 : Int) < ((c :: cs).length : Int) := by
              exact_mod_cast Nat.succ_pos _
            rw [hcount] at hpos
            exact absurd hlt hpos
        rcases hdesc with ⟨h1, hall⟩ | ⟨h0, k, cs', hk, hcs', hne⟩
        · refine Or.inl ⟨h1, ?_⟩
          intro k cs' hk hcs'
          by_cases hki : k = i
          · subst hki
            rw [hcs] at hcs'
            rw [← Option.some.inj hcs']
            exact hnil
          · exact hall k cs' (by omega) hcs'
        · exact Or.inr ⟨h0, k, cs', by omega, hcs', hne⟩

/-- C19, as the code has it: on a well-formed multilevel queue `multilevel_queue_is_empty`
returns 0 if some level contains an element and 1 if every level is empty. -/
theorem multilevel_queue_is_empty_spec {h : NodeHeap} {mq : multilevel_queue}
    {css : List (List Cell)} (hm : MRep h mq css) :
    ((∃ cs ∈ css, cs ≠ []) → multilevel_queue_is_empty mq = some 0) ∧
    ((∀ cs ∈ css, cs = []) → multilevel_queue_is_empty mq = some 1) := by
  have hlen : mq.n_levels.toNat = css.length := by
    rw [← hm.levels, hm.all.length]; simp
  obtain ⟨r, hr, hdesc⟩ := multilevel_queue_is_empty_loop_spec hm css.length 0 (by omega)
  unfold multilevel_queue_is_empty
  rw [hlen, hr]
  constructor
  · rintro ⟨cs, hmem, hne⟩
    rcases hdesc with ⟨_, hall⟩ | ⟨h0, _⟩
    · obtain ⟨k, hk⟩ := List.mem_iff_getElem?.mp hmem
      exact absurd (hall k cs (Nat.zero_le _) hk) hne
    · rw [h0]
  · intro hall
    rcases hdesc with ⟨h1, _⟩ | ⟨_, k, cs, _, hcs, hne⟩
    · rw [h1]
    · exact absurd (hall cs (List.mem_iff_getElem?.mpr ⟨k, hcs⟩)) hne

theorem multilevel_queue_is_empty_spec_witness :
    MRep heap_one mlq_two [[], [{ addr := 1, data := 10, priority := 5 }]] ∧
    ((∃ cs ∈ [[], [({ addr := 1, data := 10, priority := 5 } : Cell)]], cs ≠ []) →
      multilevel_queue_is_empty mlq_two = some 0) ∧
    ((∀ cs ∈ [[], [({ addr := 1, data := 10, priority := 5 } : Cell)]], cs = []) →
      multilevel_queue_is_empty mlq_two = some 1) :=
  ⟨mrep_mlq_two, multilevel_queue_is_empty_spec mrep_mlq_two⟩

/-- C19, counterexample: with an element on level 1 the function returns 0, not 1, and on
the empty four-level queue it returns 1, not 0. -/
theorem multilevel_queue_is_empty_inverted :
    (∃ cs ∈ [[], [({ addr := 1, data := 10, priority := 5 } : Cell)]], cs ≠ []) ∧
    MRep heap_one mlq_two [[], [{ addr := 1, data := 10, priority := 5 }]] ∧
    multilevel_queue_is_empty mlq_two = some 0 ∧
    MRep heap_empty mlq_boot [[], [], [], []] ∧
    multilevel_queue_is_empty mlq_boot = some 1 := by
  refine ⟨⟨_, List.mem_cons_of_mem _ (List.mem_singleton.mpr rfl), by simp⟩, mrep_mlq_two,
    rfl, ⟨by decide, repAll_empty _ rfl ?_ ?_⟩, rfl⟩
  · intro q hq
    simp only [mlq_boot, List.mem_cons, List.mem_singleton, List.not_mem_nil, or_false] at hq
    rcases hq with e | e | e | e <;> exact e
  · intro cs hcs
    simp only [List.mem_cons, List.mem_singleton, List.not_mem_nil, or_false] at hcs
    rcases hcs with e | e | e | e <;> exact e

/-! ## The clock handler and stale alarms -/

/-- C20 (defect). An alarm registered with delay 0 gets the deadline of the current tick,
which no later tick equals, and it stays at the head of the sorted alarm queue.  After
`register_alarm(0, ..)` and `register_alarm(100, ..)` at tick 0 the queue holds the
deadlines 0 and 1; the clock tick that advances the counter to 1 finds the head's deadline
different from 1 and calls no handler: the alarm with deadline 1 is not fired and both
alarms remain queued.  Also, after an alarm behind the head has been deregistered, the
tick that fires the head reads the freed node that `queue_delete` left linked. -/
theorem clock_handler_skips_due_alarm :
    stale_alarms.map (fun r => (r.2.nInterrupts, (r.2.alarms 11).map (fun a => a.end_),
        (r.2.alarms 12).map (fun a => a.end_),
        r.2.alarm_queue.map (queue_items 3 r.2.nodes))) =
      some (0, some 0, some 1, some (some [11, 12])) ∧
    (stale_alarms.bind (fun r => clock_handler run_nothing 3 3 r.2 5)).map
        (fun r => (r.2, r.1.nInterrupts, (r.1.alarms 12).map (fun a => a.end_),
          r.1.alarm_queue.map (queue_items 3 r.1.nodes))) =
      some ([], 1, some 1, some (some [11, 12])) ∧
    three_alarms_one_gone.map (fun r => (r.1,
        r.2.alarm_queue.map (fun q => q.count), r.2.nodes 1, r.2.nodes 2)) =
      some (0, some 2, some { data := 11, priority := 1, next := 2 }, none) ∧
    (three_alarms_one_gone.bind (fun r =>
        (call_handler run_nothing { r.2 with nInterrupts := 1 } 11).bind
          (fun st1 => deregister_alarm 4 st1 11))).map
        (fun r => (r.1, r.2.alarm_queue, get_next_alarm r.2)) =
      some (1, some { front := 2, rear := 3, count := 1 }, none) ∧
    (three_alarms_one_gone.bind (fun r => clock_handler run_nothing 4 4 r.2 5)).isNone =
      true := by
  refine ⟨?_, ?_, ?_, ?_, ?_⟩ <;> rfl

/-! ## The stream sockets and datagram ports on examples -/

/-- The clean handshake used in the examples: one SYN, the SYNACK of the peer, and the
socket 60 is OPEN on local port 32768 with its cursor advanced. -/
theorem net_open_eval :
    net_open.map (fun net => ((net.sockets 60).map (fun s => (s.socket_state, s.local_port,
      s.remote_port, s.remote_addr, s.seq_number, s.ack_number, s.data)),
      net.ports 32768, net.n_client_ports, net.sent.map (fun p => p.2.1.message_type))) =
    some (some (m_status.OPEN, 32768, 80, 5, 2, 1, { front := NULL, rear := NULL, count := 0 }),
      60, 32769, [msg_t.MSG_SYN, msg_t.MSG_ACK]) := by
  rfl

/-- C12 (defect). The socket holds one packet with the five payload bytes 1..5 and
`minisocket_receive` is called with `max_len = 3`: it returns 3 and delivers 1, 2, 3, but
the test `copy_len > max_len` that guards the re-queueing never holds (`copy_len` is
the minimum of the two), so nothing is put back: the data queue is empty afterwards,
`data_ready` is back at 0, and the bytes 4, 5 are lost. -/
theorem minisocket_receive_remainder :
    net_data.map (fun net => ((net.sockets 60).map (fun s => (s.socket_state, s.data.count)),
      (net.sems 61).map (fun s => s.count), (net.packets 70).map (fun p => p.payload))) =
      some (some (m_status.OPEN, 1), some 1, some [1, 2, 3, 4, 5]) ∧
    (net_data.bind (fun net => minisocket_receive consts_example net 60 false 3
        minisocket_error.SOCKET_NOERROR receive_example)).map
      (fun r => (r.1, r.2.1, r.2.2.1, (r.2.2.2.sockets 60).map (fun s => s.data),
        (r.2.2.2.sems 61).map (fun s => s.count), (r.2.2.2.sems 63).map (fun s => s.count))) =
      some (3, minisocket_error.SOCKET_NOERROR, [1, 2, 3],
        some { front := NULL, rear := NULL, count := 0 }, some 0, some 1) := by
  constructor <;> rfl

/-- C13 (defect). A handshake whose eight rounds all time out, and a handshake that gets a
FIN from the peer in its first round, both return NULL with the port table entry
cleared and the socket freed, but neither writes the out-parameter: the caller's
`SOCKET_NOERROR` is still there, not `SOCKET_NOSERVER`. -/
theorem minisocket_client_create_no_server :
    (minisocket_client_create 3 net_boot (some 5) 80 minisocket_error.SOCKET_NOERROR
      (client_oracle (List.replicate 8 quiet_round))).map
      (fun r => (r.1, r.2.1, r.2.2.1.ports 32768, r.2.2.1.sockets 60 |>.isNone, r.2.2.2)) =
      some (NULL, minisocket_error.SOCKET_NOERROR, NULL, true,
        [100, 200, 400, 800, 1600, 3200, 6400, 12800]) ∧
    (minisocket_client_create 3 net_boot (some 5) 80 minisocket_error.SOCKET_NOERROR
      (client_oracle [reply_round msg_t.MSG_FIN 32768])).map
      (fun r => (r.1, r.2.1, r.2.2.1.ports 32768, r.2.2.1.sockets 60 |>.isNone, r.2.2.2)) =
      some (NULL, minisocket_error.SOCKET_NOERROR, NULL, true, [100]) := by
  constructor <;> rfl

/-- C14 (defect). A FIN from the peer puts the OPEN socket into CLOSING and registers an
alarm for `minisocket_close` on the socket 15000 ms (150 ticks) ahead, but
`minisocket_close` on a CLOSING socket sets the state to WAITING_SYN, not CLOSED. -/
theorem minisocket_close_after_linger :
    net_fin.map (fun net => ((net.sockets 60).map (fun s => s.socket_state),
      net.st.nInterrupts, net.st.alarms 46)) =
      some (some m_status.CLOSING, 0,
        some { end_ := 150, call_back := FN_MINISOCKET_CLOSE, arg := 60 }) ∧
    (net_fin.bind (fun net => minisocket_close 3 net 60 close_example)).map
      (fun net => (net.sockets 60).map (fun s => s.socket_state)) =
      some (some m_status.WAITING_SYN) := by
  constructor <;> rfl

/-- C15 (defect). With the cursor on 65535 a client gets the local port 65535 and the
cursor wraps to 0 instead of `MIN_CLIENT_PORT`; the next client gets the local port 0,
which is a server port. -/
theorem minisocket_client_port_range :
    (minisocket_client_create 3 net_last (some 5) 80 minisocket_error.SOCKET_NOERROR
      (client_oracle [reply_round msg_t.MSG_SYNACK 65535])).map
      (fun r => (r.1, (r.2.2.1.sockets 60).map (fun s => (s.socket_state, s.local_port)),
        r.2.2.1.n_client_ports)) =
      some (60, some (m_status.OPEN, 65535), 0) ∧
    ((minisocket_client_create 3 net_last (some 5) 80 minisocket_error.SOCKET_NOERROR
      (client_oracle [reply_round msg_t.MSG_SYNACK 65535])).bind
      (fun r => minisocket_client_create 3 r.2.2.1 (some 5) 80
        minisocket_error.SOCKET_NOERROR
        (client_oracle_two [reply_round msg_t.MSG_SYNACK 0]))).map
      (fun r => (r.1, (r.2.2.1.sockets 64).map (fun s => (s.socket_state, s.local_port)),
        r.2.2.1.ports 0, r.2.2.1.n_client_ports)) =
      some (64, some (m_status.OPEN, 0), 64, 1) := by
  constructor <;> rfl

/-- C17 (defect). A datagram of exactly 21 bytes (the header and no payload) for the
existing unbound port 7 passes the test of `network_handler`, which is
`size < sizeof(mini_header_t)`, but is dropped by `handle_udp_packet`, whose test is
`size <= sizeof(mini_header_t)`: the queue and the semaphore of the port are unchanged and
the packet is freed, although `minimsg_send` accepts a message of length 0 and
`minimsg_receive` has a branch for a received message of length 0.  A datagram of 9000
bytes, which is more than `MAX_NETWORK_PKT_SIZE` in the example, is dropped by the same
test.  A datagram of 22 bytes is appended and `data_ready` goes from 0 to 1. -/
theorem handle_udp_packet_header_only :
    (net_port.bind (fun net => network_handler 3 consts_example
        { net with packets := write net.packets 70 (datagram 21 []) } 70 ingress_example)).map
      (fun net => (net.unbound_ports 7, (net.miniports 80).map (fun p => p.data),
        (net.sems 81).map (fun s => s.count), (net.packets 70).isNone)) =
      some (80, some { front := NULL, rear := NULL, count := 0 }, some 0, true) ∧
    (net_port.bind (fun net => network_handler 3 consts_example
        { net with packets := write net.packets 70 (datagram 9000 [9]) } 70
        ingress_example)).map
      (fun net => (net.unbound_ports 7, (net.miniports 80).map (fun p => p.data),
        (net.sems 81).map (fun s => s.count), (net.packets 70).isNone)) =
      some (80, some { front := NULL, rear := NULL, count := 0 }, some 0, true) ∧
    (net_port.bind (fun net => network_handler 3 consts_example
        { net with packets := write net.packets 70 (datagram 22 [9]) } 70 ingress_example)).map
      (fun net => (net.unbound_ports 7, (net.miniports 80).map (fun p => p.data),
        (net.sems 81).map (fun s => s.count), (net.packets 70).isNone)) =
      some (80, some { front := 41, rear := 41, count := 1 }, some 1, false) := by
  refine ⟨?_, ?_, ?_⟩ <;> rfl

/-! ## The client handshake without replies -/

theorem minisocket_free_freed {fuel : Nat} {net net' : Net} {sock : Ptr} {lock : Wait}
    {unlock : Ptr} (h : minisocket_free fuel net sock lock unlock = some net') :
    net'.sockets sock = none := by
  unfold minisocket_free at h
  split at h
  · cases h
  · split at h
    · cases h
    · simp only at h
      split at h
      · cases h
      · split at h
        · cases h
        · split at h
          · cases h
          · split at h
            · cases h
            · split at h
              · cases h
              · cases h
                exact release_same _ _

theorem backoff_stable {fuel : Nat} {c : Cleanup} {sock : Ptr} :
    ∀ (os : List Round) (net : Net) (w : Int) (s_error : minisocket_error),
      quiet_rounds fuel c sock os net w s_error = true →
      ∀ n, os.length ≤ n → backoff n w = backoff os.length w := by
  intro os
  induction os with
  | nil =>
    intro net w s_error hq n _
    simp only [quiet_rounds, Bool.and_eq_true, decide_eq_true_eq] at hq
    cases n with
    | zero => rfl
    | succ n => simp [backoff, not_le.mpr hq.1]
  | cons o os ih =>
    intro net w s_error hq n hn
    obtain ⟨m, rfl⟩ : ∃ m, n = m + 1 := ⟨n - 1, by simp at hn; omega⟩
    simp only [List.length_cons, backoff]
    by_cases hw : w ≤ 12800
    · simp only [hw, if_true]
      congr 1
      simp only [quiet_rounds, hw, if_true] at hq
      split at hq
      · cases hq
      · simp only [Bool.and_eq_true, decide_eq_true_eq] at hq
        obtain ⟨_, hq⟩ := hq
        split at hq
        · cases hq
        · split at hq
          · cases hq
          · split at hq
            · cases hq
            · simp only [Bool.and_eq_true, decide_eq_true_eq] at hq
              exact ih _ _ _ hq.2 m (by simp at hn; omega)
    · simp only [hw, if_false]

/-- A handshake without replies runs through the delays `w`, `2w`, .. up to 12800, then
frees the socket and returns NULL, leaving the out-parameter as it was. -/
theorem client_handshake_quiet {fuel : Nat} {c : Cleanup} {sock : Ptr}
    (error : minisocket_error) :
    ∀ (os : List Round) (net : Net) (w : Int) (s_error : minisocket_error)
      (waits : List Int),
      quiet_rounds fuel c sock os net w s_error = true →
      ∃ net', client_handshake fuel c sock os net w s_error error waits =
          some (NULL, error, net', waits ++ backoff os.length w) ∧
        net'.sockets sock = none := by
  intro os
  induction os with
  | nil =>
    intro net w s_error waits hq
    simp only [quiet_rounds, Bool.and_eq_true, decide_eq_true_eq] at hq
    obtain ⟨hw, hfree⟩ := hq
    obtain ⟨net', hnet'⟩ := Option.isSome_iff_exists.mp hfree
    refine ⟨net', ?_, minisocket_free_freed hnet'⟩
    simp [client_handshake, not_le.mpr hw, hnet', backoff]
  | cons o os ih =>
    intro net w s_error waits hq
    by_cases hw : w ≤ 12800
    · simp only [quiet_rounds, hw, if_true] at hq
      cases hs : net.sockets sock with
      | none => simp [hs] at hq
      | some s =>
        simp only [hs, Bool.and_eq_true, decide_eq_true_eq] at hq
        obtain ⟨hoom, hq⟩ := hq
        cases hreg : register_alarm fuel
            ({ (send_control_message net msg_t.MSG_SYN s.remote_port s.remote_addr s.local_port
                  0 0 s_error o.syn).1 with
                sockets := write (send_control_message net msg_t.MSG_SYN s.remote_port
                  s.remote_addr s.local_port 0 0 s_error o.syn).1.sockets sock
                  { s with seq_number := 1, ack_number := 0 } } : Net).st
            w FN_SEMAPHORE_V s.data_ready o.alarm o.alarm_node with
        | none => simp [hreg] at hq
        | some x =>
          obtain ⟨a, st2⟩ := x
          simp only [hreg] at hq
          split at hq
          · cases hq
          · next net3 hP =>
            split at hq
            · cases hq
            · next s3 hs3 =>
              simp only [Bool.and_eq_true, decide_eq_true_eq] at hq
              obtain ⟨hlen, hq⟩ := hq
              obtain ⟨net', hrun, hfreed⟩ := ih net3 (w * 2) _ (waits ++ [w]) hq
              refine ⟨net', ?_, hfreed⟩
              simp only [client_handshake, hw, if_true, hs, hoom, if_false, hreg, hP, hs3,
                hlen, ne_eq, not_true_eq_false, hrun, List.length_cons, backoff,
                List.append_assoc, List.singleton_append]
    · obtain ⟨net', hnet'⟩ : ∃ net', minisocket_free fuel net sock c.lock c.unlock = some net' := by
        simp only [quiet_rounds, hw, if_false] at hq
        exact Option.isSome_iff_exists.mp hq
      refine ⟨net', ?_, minisocket_free_freed hnet'⟩
      simp [client_handshake, hw, hnet', backoff]

theorem backoff_from_100 (n : Nat) :
    backoff (n + 9) 100 = [100, 200, 400, 800, 1600, 3200, 6400, 12800] := by
  simp [backoff]

/-- The handshake without replies when the error code does not interfere: if the set-up of
`minisocket_client_create` reaches the handshake loop, no packet is ever received and no
SYN transmission leaves `SOCKET_OUTOFMEMORY` in `s_error`, the function goes through
exactly 8 rounds, each with one SYN and one time-out alarm, with the delays 100, 200, 400,
.., 12800 ms, 25500 ms in all, and then gives up: it frees the socket and returns NULL. -/
theorem minisocket_client_create_backoff {fuel : Nat} {net net5 : Net} {addr : Option Nat}
    {port : Int} {o : ClientOracle} (error : minisocket_error)
    (hs : client_setup net addr port o = some (Sum.inr net5))
    (hq : quiet_rounds fuel o.cleanup o.socket o.rounds net5 100 o.s_error = true) :
    ∃ net', minisocket_client_create fuel net addr port error o =
        some (NULL, error, net', [100, 200, 400, 800, 1600, 3200, 6400, 12800]) ∧
      ([100, 200, 400, 800, 1600, 3200, 6400, 12800] : List Int).length = 8 ∧
      ([100, 200, 400, 800, 1600, 3200, 6400, 12800] : List Int).sum = 25500 ∧
      net'.sockets o.socket = none := by
  obtain ⟨net', hrun, hfreed⟩ := client_handshake_quiet error _ _ _ _ [] hq
  have hb := backoff_stable _ _ _ _ hq (o.rounds.length + 9) (by omega)
  rw [backoff_from_100] at hb
  refine ⟨net', ?_, rfl, rfl, hfreed⟩
  simp only [minisocket_client_create, hs, hrun, ← hb, List.nil_append]

/-- The handshake without replies on the example. -/
theorem minisocket_client_create_backoff_example :
    client_setup net_boot (some 5) 80 (client_oracle (List.replicate 8 quiet_round)) =
      some (Sum.inr net_syn) ∧
    quiet_rounds 3 (client_oracle (List.replicate 8 quiet_round)).cleanup
      (client_oracle (List.replicate 8 quiet_round)).socket
      (client_oracle (List.replicate 8 quiet_round)).rounds net_syn 100
      (client_oracle (List.replicate 8 quiet_round)).s_error = true ∧
    ∃ net', minisocket_client_create 3 net_boot (some 5) 80 minisocket_error.SOCKET_NOERROR
        (client_oracle (List.replicate 8 quiet_round)) =
        some (NULL, minisocket_error.SOCKET_NOERROR, net',
          [100, 200, 400, 800, 1600, 3200, 6400, 12800]) ∧
      ([100, 200, 400, 800, 1600, 3200, 6400, 12800] : List Int).length = 8 ∧
      ([100, 200, 400, 800, 1600, 3200, 6400, 12800] : List Int).sum = 25500 ∧
      net'.sockets (client_oracle (List.replicate 8 quiet_round)).socket = none :=
  ⟨rfl, rfl, minisocket_client_create_backoff minisocket_error.SOCKET_NOERROR rfl rfl⟩

/-! ## The search for a free bound port -/

theorem sem_P_free {net : Net} {sem : Ptr} {s : semaphore} (w : Wait)
    (hs : net.sems sem = some s) (hc : 0 < s.count) :
    sem_P net sem w =
      some { net with sems := write net.sems sem { s with count := s.count - 1 } } := by
  have h : ¬ s.count - 1 < 0 := by omega
  simp [sem_P, hs, semaphore_P, h]

theorem sem_V_free {net : Net} {sem : Ptr} {s : semaphore} (n : Ptr)
    (hs : net.sems sem = some s) (hc : 0 ≤ s.count) :
    sem_V net sem n =
      some { net with sems := write net.sems sem { s with count := s.count + 1 } } := by
  have h : ¬ s.count + 1 ≤ 0 := by omega
  simp [sem_V, hs, semaphore_V, h]

/-- The search loop marks every free entry it passes as used. -/
theorem bound_port_search_marks (k : Consts) :
    ∀ (rem : Nat) (i : Int) (free : Int → Int) (p j : Int),
      (bound_port_search k rem i free p).1 j =
        if i ≤ j ∧ j < i + rem ∧ free j = N_TRUE then N_FALSE else free j := by
  intro rem
  induction rem with
  | zero =>
    intro i free p j
    have : ¬ (i ≤ j ∧ j < i + (0 : Nat) ∧ free j = N_TRUE) := by
      rintro ⟨h1, h2, _⟩
      simp at h2
      omega
    simp only [bound_port_search, this, if_false]
  | succ rem ih =>
    intro i free p j
    unfold bound_port_search
    by_cases hi : free i = N_TRUE
    · simp only [hi, if_true]
      rw [ih]
      by_cases hj : j = i
      · subst hj
        have h1 : ¬ (j + 1 ≤ j ∧ j < j + 1 + (rem : Int) ∧
            table_set free j N_FALSE j = N_TRUE) := by
          rintro ⟨h, _⟩; omega
        have h2 : j ≤ j ∧ j < j + ((rem + 1 : Nat) : Int) ∧ free j = N_TRUE :=
          ⟨le_refl _, by push_cast; omega, hi⟩
        rw [if_neg h1, if_pos h2]
        simp [table_set]
      · have ht : table_set free i N_FALSE j = free j := by simp [table_set, hj]
        rw [ht]
        have hiff : (i + 1 ≤ j ∧ j < i + 1 + (rem : Int) ∧ free j = N_TRUE) ↔
            (i ≤ j ∧ j < i + ((rem + 1 : Nat) : Int) ∧ free j = N_TRUE) := by
          push_cast
          constructor
          · rintro ⟨a, b, c⟩; exact ⟨by omega, by omega, c⟩
          · rintro ⟨a, b, c⟩; exact ⟨by omega, by omega, c⟩
        simp only [hiff]
    · simp only [hi, if_false]
      rw [ih]
      by_cases hj : j = i
      · subst hj
        have h1 : ¬ (j + 1 ≤ j ∧ j < j + 1 + (rem : Int) ∧ free j = N_TRUE) := by
          rintro ⟨h, _⟩; omega
        have h2 : ¬ (j ≤ j ∧ j < j + ((rem + 1 : Nat) : Int) ∧ free j = N_TRUE) := by
          rintro ⟨_, _, h⟩; exact hi h
        rw [if_neg h1, if_neg h2]
      · have hiff : (i + 1 ≤ j ∧ j < i + 1 + (rem : Int) ∧ free j = N_TRUE) ↔
            (i ≤ j ∧ j < i + ((rem + 1 : Nat) : Int) ∧ free j = N_TRUE) := by
          push_cast
          constructor
          · rintro ⟨a, b, c⟩; exact ⟨by omega, by omega, c⟩
          · rintro ⟨a, b, c⟩; exact ⟨by omega, by omega, c⟩
        simp only [hiff]

/-- Without a free entry in its range the search leaves the port number as it is. -/
theorem bound_port_search_none (k : Consts) :
    ∀ (rem : Nat) (i : Int) (free : Int → Int) (p : Int),
      (∀ j, i ≤ j → j < i + rem → free j ≠ N_TRUE) →
      (bound_port_search k rem i free p).2 = p := by
  intro rem
  induction rem with
  | zero => intro i free p _; rfl
  | succ rem ih =>
    intro i free p h
    unfold bound_port_search
    have hi : free i ≠ N_TRUE := h i (le_refl _) (by push_cast; omega)
    simp only [hi, if_false]
    exact ih _ _ _ (fun j h1 h2 => h j (by omega) (by push_cast; omega))

/-- The search assigns the last free entry of its range. -/
theorem bound_port_search_last (k : Consts) :
    ∀ (rem : Nat) (i : Int) (free : Int → Int) (p j0 : Int),
      i ≤ j0 → j0 < i + rem → free j0 = N_TRUE →
      (∀ j, j0 < j → j < i + rem → free j ≠ N_TRUE) →
      (bound_port_search k rem i free p).2 = j0 + k.MIN_BOUND_PORT := by
  intro rem
  induction rem with
  | zero =>
    intro i free p j0 h1 h2
    simp at h2
    omega
  | succ rem ih =>
    intro i free p j0 h1 h2 h3 h4
    unfold bound_port_search
    push_cast at h2 h4
    by_cases hij : i = j0
    · subst hij
      simp only [h3, if_true]
      apply bound_port_search_none
      intro j hj1 hj2
      have : table_set free i N_FALSE j = free j := by
        simp [table_set, show j ≠ i by omega]
      rw [this]
      exact h4 j (by omega) (by omega)
    · by_cases hi : free i = N_TRUE
      · simp only [hi, if_true]
        apply ih _ _ _ _ (by omega) (by omega)
        · simp [table_set, show j0 ≠ i by omega, h3]
        · intro j hj1 hj2
          have : table_set free i N_FALSE j = free j := by
            simp [table_set, show j ≠ i by omega]
          rw [this]
          exact h4 j hj1 (by omega)
      · simp only [hi, if_false]
        exact ih _ _ _ _ (by omega) (by omega) h3 (fun j hj1 hj2 => h4 j hj1 (by omega))

/-- Outcome of `miniport_create_bound` once the sequential phase is over and with the
mutex free: the table is what the search loop leaves, and the port number is the one the
loop assigned last. -/
theorem miniport_create_bound_slow {k : Consts} {net : Net} {s : semaphore} (remote : Nat)
    {rp : Int} {m : Ptr} (lock : Wait) (unlock : Ptr)
    (hrp : ¬ (rp < k.MIN_UNBOUND_PORT ∨ rp > k.MAX_UNBOUND_PORT)) (hm : m ≠ NULL)
    (hs : net.sems net.mutex = some s) (hc : 0 < s.count)
    (hslow : ¬ net.nPorts < k.MAX_PORTS - 1) :
    ∃ net', miniport_create_bound k net (some remote) rp m lock unlock =
        some (if (bound_port_search k k.MAX_PORTS.toNat 0 net.bound_ports_free (-1)).2 = -1
              then NULL else m, net') ∧
      net'.bound_ports_free =
        (bound_port_search k k.MAX_PORTS.toNat 0 net.bound_ports_free (-1)).1 ∧
      ((bound_port_search k k.MAX_PORTS.toNat 0 net.bound_ports_free (-1)).2 ≠ -1 →
        (net'.miniports m).map (fun p => p.p_number) =
          some (bound_port_search k k.MAX_PORTS.toNat 0 net.bound_ports_free (-1)).2) ∧
      net'.mutex = net.mutex ∧ net'.nPorts = net.nPorts ∧
      net'.sems net'.mutex = some s := by
  generalize hr : bound_port_search k k.MAX_PORTS.toNat 0 net.bound_ports_free (-1) = r
  obtain ⟨p0, hp0⟩ : ∃ p0 : miniport, p0 =
      { p_type := 'b', p_number := -1, data := queue_new, data_ready := NULL,
        remote_addr := 0, remote_unbound_port := 0 } := ⟨_, rfl⟩
  have hP := @sem_P_free { net with miniports := write net.miniports m p0 } _ _ lock hs hc
  have hback : ({ s with count := s.count - 1 + 1 } : semaphore) = s := by
    cases s; simp
  have hV : ∀ net1 : Net, net1.sems = write net.sems net.mutex { s with count := s.count - 1 } →
      sem_V net1 net.mutex unlock = some { net1 with
        sems := write net1.sems net.mutex { s with count := s.count - 1 + 1 } } := by
    intro net1 h1
    exact sem_V_free unlock (s := { s with count := s.count - 1 })
      (by rw [h1, write_same]) (by show 0 ≤ s.count - 1; omega)
  by_cases hp : r.2 = -1
  · apply Exists.intro
    constructor
    · simp only [miniport_create_bound, hrp, hm, if_false, ← hp0, hP, hslow, hr]
      rw [hV _ rfl]
      simp only [hp, if_true]
      rfl
    · refine ⟨rfl, fun h => absurd hp h, rfl, rfl, ?_⟩
      show write _ net.mutex _ net.mutex = some s
      rw [write_same, hback]
  · apply Exists.intro
    constructor
    · simp only [miniport_create_bound, hrp, hm, if_false, ← hp0, hP, hslow, hr]
      rw [hV _ rfl]
      simp only [hp, if_false]
      rfl
    · refine ⟨rfl, fun _ => ?_, rfl, rfl, ?_⟩
      · show (write _ m _ m).map _ = _
        rw [write_same]
        rfl
      · show write _ net.mutex _ net.mutex = some s
        rw [write_same, hback]

/-- C18 (defect). The numbers 32768 .. 65534 have been handed out and the ports 32773 and
32777 destroyed, so the entries 5, 9 and 32767 of the table are free.  The search loop of
`miniport_create_bound` has no `break`: the call returns the port 80 with the last free
number, 65535, and marks all three entries as used.  The free numbers 32773 and 32777
belong to no port and are lost: every entry of the table is now marked as used, and the
next call returns NULL. -/
theorem miniport_create_bound_one_number :
    ∃ net', miniport_create_bound consts_example net_full (some 5) 3 80 no_wait 9 =
        some (80, net') ∧
      (net'.miniports 80).map (fun p => p.p_number) = some 65535 ∧
      (net_full.bound_ports_free 5, net_full.bound_ports_free 9,
        net_full.bound_ports_free 32767) = (N_TRUE, N_TRUE, N_TRUE) ∧
      (net'.bound_ports_free 5, net'.bound_ports_free 9, net'.bound_ports_free 32767) =
        (N_FALSE, N_FALSE, N_FALSE) ∧
      (∀ i, net'.bound_ports_free i = N_FALSE) ∧
      ∃ net'', miniport_create_bound consts_example net' (some 5) 3 82 no_wait 9 =
        some (NULL, net'') := by
  have hlast : (bound_port_search consts_example consts_example.MAX_PORTS.toNat 0
      net_full.bound_ports_free (-1)).2 = 65535 := by
    have := bound_port_search_last consts_example 32768 0 free_example (-1) 32767
      (by decide) (by decide) (by decide) (fun j h1 h2 => by
        have : (0 : Int) + ((32768 : Nat) : Int) = 32768 := by norm_num
        omega)
    exact this
  obtain ⟨net', hrun, hfree, hport, hmutex, hn, hsem⟩ :=
    @miniport_create_bound_slow consts_example net_full ( semaphore_initialize 1) 5 3 80
      no_wait 9
      (by decide) (by decide) rfl (by decide) (by decide)
  have hall : ∀ i, net'.bound_ports_free i = N_FALSE := by
    intro i
    rw [hfree, bound_port_search_marks]
    split
    · rfl
    · next hc =>
      show free_example i = N_FALSE
      unfold free_example
      split
      · next h =>
        exfalso
        apply hc
        have h32 : consts_example.MAX_PORTS.toNat = 32768 := rfl
        rw [h32]
        refine ⟨by rcases h with h | h | h <;> omega, by rcases h with h | h | h <;> omega, ?_⟩
        show free_example i = N_TRUE
        unfold free_example
        rw [if_pos h]
      · rfl
  rw [hlast] at hrun hport
  refine ⟨net', hrun, hport (by decide), rfl, ?_, hall, ?_⟩
  · rw [hall 5, hall 9, hall 32767]
  · have hnone : (bound_port_search consts_example consts_example.MAX_PORTS.toNat 0
        net'.bound_ports_free (-1)).2 = -1 :=
      bound_port_search_none _ _ _ _ _ (fun j _ _ => by rw [hall j]; decide)
    obtain ⟨net'', hrun2, _⟩ :=
      @miniport_create_bound_slow consts_example net' ( semaphore_initialize 1) 5 3 82
        no_wait 9 (by decide) (by decide) hsem (by decide)
        (by rw [hn]; decide)
    rw [hnone] at hrun2
    exact ⟨net'', hrun2⟩

/-! ## Datagrams on their way to an unbound port -/

/-- Appending to one of the queues that live next to the multilevel queue. -/
theorem mrepx_extra_append_at {h : NodeHeap} {mq : multilevel_queue} {css : List (List Cell)}
    {qx : List queue} {cx : List (List Cell)} (hm : MRepX h mq css qx cx) {i : Nat}
    {q : queue} {ws : List Cell} (hq : qx[i]? = some q) (hw : cx[i]? = some ws) (item : Ptr)
    {n : Ptr} (hn0 : n ≠ NULL) (hn : h n = none) :
    ∃ h' q', queue_append h q item n = some (0, h', q') ∧
      MRepX h' mq css (qx.set i q')
        (cx.set i (ws ++ [{ addr := n, data := item, priority := 0 }])) ∧
      (∀ a, h a = none → a ≠ n → h' a = none) := by
  have hq' : (mq.level_queues ++ qx)[css.length + i]? = some q := by
    rw [← hm.length, List.getElem?_append_right (by omega)]
    simpa using hq
  have hw' : (css ++ cx)[css.length + i]? = some ws := by
    rw [List.getElem?_append_right (by omega)]
    simpa using hw
  obtain ⟨h', q', happ, hall, hframe⟩ := repAll_append hm.all hq' hw' item hn0 hn
  have e1 : (mq.level_queues ++ qx).set (css.length + i) q' =
      mq.level_queues ++ qx.set i q' := by
    rw [List.set_append_right _ _ (by rw [hm.length]; omega), hm.length]; simp
  have e2 : ∀ x, (css ++ cx).set (css.length + i) x = css ++ cx.set i x := by
    intro x
    rw [List.set_append_right _ _ (by omega)]; simp
  rw [e1, e2] at hall
  refine ⟨h', q', happ, ⟨hm.levels, hm.length, hall⟩, ?_⟩
  intro a ha han
  rw [hframe a (rep_fresh (hm.all.rep _ _ _ hq' hw') ha) han]
  exact ha

/-- Dequeueing from one of the queues that live next to the multilevel queue. -/
theorem mrepx_extra_dequeue_at {h : NodeHeap} {mq : multilevel_queue}
    {css : List (List Cell)} {qx : List queue} {cx : List (List Cell)}
    (hm : MRepX h mq css qx cx) {i : Nat} {q : queue} {c : Cell} {ws : List Cell}
    (hq : qx[i]? = some q) (hw : cx[i]? = some (c :: ws)) :
    ∃ q', queue_dequeue h q = some (0, c.data, release h c.addr, q') ∧
      MRepX (release h c.addr) mq css (qx.set i q') (cx.set i ws) := by
  have hq' : (mq.level_queues ++ qx)[css.length + i]? = some q := by
    rw [← hm.length, List.getElem?_append_right (by omega)]
    simpa using hq
  have hw' : (css ++ cx)[css.length + i]? = some (c :: ws) := by
    rw [List.getElem?_append_right (by omega)]
    simpa using hw
  obtain ⟨q', hdq, hall⟩ := repAll_dequeue hm.all hq' hw'
  have e1 : (mq.level_queues ++ qx).set (css.length + i) q' =
      mq.level_queues ++ qx.set i q' := by
    rw [List.set_append_right _ _ (by rw [hm.length]; omega), hm.length]; simp
  have e2 : ∀ x, (css ++ cx).set (css.length + i) x = css ++ cx.set i x := by
    intro x
    rw [List.set_append_right _ _ (by omega)]; simp
  rw [e1, e2] at hall
  exact ⟨q', hdq, hm.levels, hm.length, hall⟩

/-- `semaphore_V` on the semaphore of a well-formed port: the count goes up by one, a
waiter, if there is one, is started, and the data queue of the port is not touched. -/
theorem semaphore_V_port {st : State} {dq : queue} {sem : semaphore} {mq : multilevel_queue}
    {css : List (List Cell)} {ds ws : List Cell} (hinv : PortInv st dq sem mq css ds ws)
    {n : Ptr} (hn0 : n ≠ NULL) (hn : st.nodes n = none) :
    ∃ st' w sem' mq' css' ws', semaphore_V st sem n = some (st', w, sem') ∧
      sem'.count = sem.count + 1 ∧ PortInv st' dq sem' mq' css' ds ws' := by
  by_cases hneg : sem.count + 1 ≤ 0
  · cases ws with
    | nil =>
      have := hinv.count
      simp only [List.length_nil] at this
      push_cast at this
      omega
    | cons c ws =>
      have hq1 : ([dq, sem.wait_list] : List queue)[1]? = some sem.wait_list := rfl
      have hw1 : ([ds, c :: ws] : List (List Cell))[1]? = some (c :: ws) := rfl
      obtain ⟨wl', hdq, hrep⟩ := mrepx_extra_dequeue_at hinv.rep hq1 hw1
      simp only [List.set_cons_succ, List.set_cons_zero] at hrep
      obtain ⟨th, hth, hl0, hl4⟩ := hinv.waiters c (List.mem_cons_self _ _)
      have hlen : css.length = 4 := by
        have h1 := mrepx_n_levels hinv.rep
        have h2 := hinv.four
        simp only [MAX_LEVELS] at h2
        omega
      simp only [MAX_LEVELS] at hl4
      obtain ⟨cs, hcs⟩ := getElem?_of_lt (show th.level.toNat < css.length by omega)
      have hn' : release st.nodes c.addr n = none := by
        unfold release
        split
        · rfl
        · exact hn
      obtain ⟨h2, q2, henq, hrep2, _⟩ :=
        multilevel_queue_enqueue_spec hrep hl0 hcs c.data hn0 hn'
      refine ⟨{ st with
          nodes := h2,
          threads := write st.threads c.data { th with s := status.RUNNABLE },
          runnable_queue := some { mq with
            level_queues := mq.level_queues.set th.level.toNat q2 } },
        some c.data, { count := sem.count + 1, wait_list := wl' }, _, _, ws, ?_, rfl,
        ⟨rfl, hinv.four, hrep2, ?_, ?_⟩⟩
      · simp only [semaphore_V, hneg, if_true, hdq, minithread_start, hth, hinv.rq, henq]
      · intro c' hc'
        obtain ⟨th', hth', hr⟩ := hinv.waiters c' (List.mem_cons_of_mem _ hc')
        by_cases he : c'.data = c.data
        · refine ⟨{ th with s := status.RUNNABLE }, ?_, hl0, by simpa [MAX_LEVELS] using hl4⟩
          show write st.threads c.data _ c'.data = _
          rw [he, write_same]
        · refine ⟨th', ?_, hr⟩
          show write st.threads c.data _ c'.data = _
          rw [write_other _ _ he]
          exact hth'
      · show (ws.length : Int) = max 0 (-(sem.count + 1))
        have := hinv.count
        simp only [List.length_cons] at this
        push_cast at this
        omega
  · refine ⟨st, none, { sem with count := sem.count + 1 }, mq, css, ws, ?_, rfl,
      ⟨hinv.rq, hinv.four, hinv.rep, hinv.waiters, ?_⟩⟩
    · simp only [semaphore_V, hneg, if_false]
    · show (ws.length : Int) = max 0 (-(sem.count + 1))
      have := hinv.count
      omega

theorem portInv_net_datagram :
    PortInv net_datagram.st queue_new ( semaphore_initialize 0) mlq_boot [[], [], [], []] [] [] := by
  refine ⟨rfl, rfl, ⟨by decide, rfl, repAll_empty _ rfl ?_ ?_⟩, ?_, rfl⟩
  · intro q hq
    simp only [mlq_boot, semaphore_initialize, List.cons_append, List.nil_append,
      List.mem_cons, List.mem_singleton, List.not_mem_nil, or_false] at hq
    rcases hq with e | e | e | e | e | e <;> exact e
  · intro cs hcs
    simp only [List.cons_append, List.nil_append, List.mem_cons, List.mem_singleton,
      List.not_mem_nil, or_false] at hcs
    rcases hcs with e | e | e | e | e | e <;> exact e
  · intro c hc
    cases hc

/-- The datagrams that the ingress path does deliver: a datagram-protocol packet of more
than `sizeof(mini_header_t)` and at most `MAX_NETWORK_PKT_SIZE` bytes whose destination
port lies within the table of unbound ports is dropped, with nothing else changed, if no
port exists for it; if the port exists and is well formed, the packet is appended at the
tail of the port's data queue and the count of its `data_ready` semaphore goes up by
one. -/
theorem network_handler_datagram {fuel : Nat} {k : Consts} {net : Net} {arg : Ptr}
    {pkt : network_interrupt_arg} (o : Ingress) (ha : arg ≠ NULL)
    (hpkt : net.packets arg = some pkt)
    (hproto : pkt.header.protocol = protocol_t.PROTOCOL_MINIDATAGRAM)
    (hlo : k.mini_header_size < pkt.size) (hhi : pkt.size ≤ k.MAX_NETWORK_PKT_SIZE)
    (hport : 0 ≤ pkt.header.destination_port ∧ pkt.header.destination_port < k.MAX_PORTS) :
    (net.unbound_ports pkt.header.destination_port = NULL →
      network_handler fuel k net arg o = some (free_packet net arg)) ∧
    (∀ (mp : miniport) (s : semaphore) (mq : multilevel_queue) (css : List (List Cell))
        (ds ws : List Cell),
      net.unbound_ports pkt.header.destination_port ≠ NULL →
      net.miniports (net.unbound_ports pkt.header.destination_port) = some mp →
      net.sems mp.data_ready = some s →
      PortInv net.st mp.data s mq css ds ws →
      o.node ≠ NULL → net.st.nodes o.node = none →
      o.wake ≠ NULL → o.wake ≠ o.node → net.st.nodes o.wake = none →
      ∃ net' data' s' mq' css' ws',
        network_handler fuel k net arg o = some net' ∧
        net'.miniports (net.unbound_ports pkt.header.destination_port) =
          some { mp with data := data' } ∧
        net'.sems mp.data_ready = some s' ∧ s'.count = s.count + 1 ∧
        PortInv net'.st data' s' mq' css'
          (ds ++ [{ addr := o.node, data := arg, priority := 0 }]) ws' ∧
        net'.packets arg = some pkt ∧ net'.unbound_ports = net.unbound_ports) := by
  have h1 : ¬ pkt.size < k.mini_header_size := by omega
  have h2 : ¬ (pkt.size ≤ k.mini_header_size ∨ pkt.size > k.MAX_NETWORK_PKT_SIZE) := by omega
  have h3 : ¬ (pkt.header.destination_port < 0 ∨
      pkt.header.destination_port ≥ k.MAX_PORTS) := by omega
  constructor
  · intro hnull
    simp only [network_handler, ha, if_false, hpkt, h1, hproto, if_true, handle_udp_packet, h2,
      h3, hnull]
  · intro mp s mq css ds ws hex hmp hs hinv hn0 hn hw0 hwn hw
    have hq0 : ([mp.data, s.wait_list] : List queue)[0]? = some mp.data := rfl
    have hd0 : ([ds, ws] : List (List Cell))[0]? = some ds := rfl
    obtain ⟨h', data', happ, hrep, hframe⟩ :=
      mrepx_extra_append_at hinv.rep hq0 hd0 arg hn0 hn
    simp only [List.set_cons_zero] at hrep
    have hinv1 : PortInv { net.st with nodes := h' } data' s mq css
        (ds ++ [{ addr := o.node, data := arg, priority := 0 }]) ws :=
      ⟨hinv.rq, hinv.four, hrep, hinv.waiters, hinv.count⟩
    obtain ⟨st', w, s', mq', css', ws', hV, hcount, hinv'⟩ :=
      semaphore_V_port hinv1 hw0 (hframe _ hw hwn)
    refine ⟨{ net with
        st := st',
        miniports := write net.miniports (net.unbound_ports pkt.header.destination_port)
          { mp with data := data' },
        sems := write net.sems mp.data_ready s' },
      data', s', mq', css', ws', ?_, write_same _ _ _, write_same _ _ _, hcount, hinv', hpkt,
      rfl⟩
    simp only [network_handler, ha, if_false, hpkt, h1, hproto, if_true, handle_udp_packet, h2,
      h3, hex, hmp, happ, sem_V, hs, hV]

/-- The delivery of a datagram of 22 bytes to the unbound port 7 of the example. -/
theorem network_handler_datagram_example :
    (70 : Ptr) ≠ NULL ∧ net_datagram.packets 70 = some (datagram 22 [9]) ∧
    (datagram 22 [9]).header.protocol = protocol_t.PROTOCOL_MINIDATAGRAM ∧
    consts_example.mini_header_size < (datagram 22 [9]).size ∧
    (datagram 22 [9]).size ≤ consts_example.MAX_NETWORK_PKT_SIZE ∧
    (0 ≤ (datagram 22 [9]).header.destination_port ∧
      (datagram 22 [9]).header.destination_port < consts_example.MAX_PORTS) ∧
    net_datagram.unbound_ports 7 = 80 ∧
    PortInv net_datagram.st queue_new ( semaphore_initialize 0) mlq_boot [[], [], [], []] [] [] ∧
    ∃ net' data' s' mq' css' ws',
      network_handler 3 consts_example net_datagram 70 ingress_example = some net' ∧
      net'.miniports 80 =
        some { p_type := 'u', p_number := 7, data := data', data_ready := 81,
               remote_addr := 0, remote_unbound_port := 0 } ∧
      net'.sems 81 = some s' ∧ s'.count = 0 + 1 ∧
      PortInv net'.st data' s' mq' css' ([] ++ [{ addr := 41, data := 70, priority := 0 }]) ws' ∧
      net'.packets 70 = some (datagram 22 [9]) ∧
      net'.unbound_ports = net_datagram.unbound_ports :=
  ⟨by decide, rfl, rfl, by decide, by decide, by decide, rfl, portInv_net_datagram,
    (@network_handler_datagram 3 consts_example net_datagram 70 (datagram 22 [9])
      ingress_example (by decide) rfl rfl (by decide) (by decide) (by decide)).2
      { p_type := 'u', p_number := 7, data := queue_new, data_ready := 81,
        remote_addr := 0, remote_unbound_port := 0 }
      ( semaphore_initialize 0) mlq_boot [[], [], [], []] [] [] (by decide) rfl rfl
      portInv_net_datagram (by decide) rfl (by decide) (by decide) rfl⟩

/-- The handshake of the example in which no packet arrives: the packets handed to the
network are eight SYN packets for port 80 of host 5, and the data queue, the alarm queue
and the runnable queue are empty again at the end. -/
theorem quiet_handshake_eval :
    (minisocket_client_create 3 net_boot (some 5) 80 minisocket_error.SOCKET_NOERROR
      (client_oracle (List.replicate 8 quiet_round))).map
      (fun r => (r.2.2.1.sent.map (fun p => (p.1, p.2.1.message_type,
          p.2.1.destination_port, p.2.1.source_port)),
        r.2.2.1.st.alarm_queue, r.2.2.1.st.nInterrupts, r.2.2.1.st.running_thread)) =
    some (List.replicate 8 (5, msg_t.MSG_SYN, 80, 32768),
      some { front := NULL, rear := NULL, count := 0 }, 255, 101) := by
  rfl

/-! ## What a clock tick fires -/

/-- Outcome of `get_next_alarm` on a well-formed alarm queue: the head alarm if its
deadline is the current tick, else NULL. -/
theorem get_next_alarm_spec {st : State} {aq : queue} {cs : List Cell}
    (haq : st.alarm_queue = some aq) (hr : Rep st.nodes aq cs) (hok : AlarmsOk st cs) :
    get_next_alarm st = some (next_due st.nInterrupts cs) := by
  cases cs with
  | nil =>
    have hc : queue_length aq = 0 := by simpa [queue_length] using hr.count
    simp [get_next_alarm, haq, queue_front, hc, next_due]
  | cons c cs =>
    obtain ⟨hp, hp0, nx, hnx, _⟩ := hr.chain
    obtain ⟨hd0, al, hal, hend⟩ := hok.alloc c (List.mem_cons_self _ _)
    have hc : queue_length aq ≠ 0 := by
      have := hr.count
      simp only [List.length_cons] at this
      unfold queue_length
      push_cast at this
      omega
    simp only [get_next_alarm, haq, queue_front, hc, if_false, ← hp, hnx, hd0, hal, hend,
      next_due]
    split <;> rfl

/-- The loop of `clock_handler` on a well-formed alarm queue, with handlers that leave the
alarm queue alone: it fires the alarms of the longest front part of the queue whose
deadlines all equal the current tick, in order, removes them, and stops at the first
alarm with another deadline. -/
theorem clock_handler_loop_spec {run : Ptr → Ptr → State → Option State}
    (hrun : ∀ f x st, ∃ st', run f x st = some st' ∧ st'.nodes = st.nodes ∧
      st'.alarms = st.alarms ∧ st'.alarm_queue = st.alarm_queue ∧
      st'.nInterrupts = st.nInterrupts) (qfuel : Nat) :
    ∀ (cs : List Cell) (st : State) (aq : queue) (next : Ptr) (calls : List (Ptr × Ptr)),
      st.alarm_queue = some aq → Rep st.nodes aq cs → AlarmsOk st cs →
      get_next_alarm st = some next →
      ∃ st' aq', clock_handler_loop run (qfuel + 1) (cs.length + 1) st next calls =
          some (st', calls ++
            alarm_calls st (cs.takeWhile (fun c => decide (c.priority = st.nInterrupts)))) ∧
        st'.alarm_queue = some aq' ∧ st'.nInterrupts = st.nInterrupts ∧
        Rep st'.nodes aq' (cs.dropWhile (fun c => decide (c.priority = st.nInterrupts))) ∧
        AlarmsOk st' (cs.dropWhile (fun c => decide (c.priority = st.nInterrupts))) := by
  intro cs
  induction cs with
  | nil =>
    intro st aq next calls haq hr hok hnext
    rw [get_next_alarm_spec haq hr hok] at hnext
    cases hnext
    exact ⟨st, aq, by simp [clock_handler_loop, alarm_calls, next_due], haq, rfl, hr, hok⟩
  | cons c cs ih =>
    intro st aq next calls haq hr hok hnext
    rw [get_next_alarm_spec haq hr hok] at hnext
    obtain ⟨hd0, al, hal, hend⟩ := hok.alloc c (List.mem_cons_self _ _)
    by_cases hdue : c.priority = st.nInterrupts
    · simp only [next_due, hdue, if_true] at hnext
      cases hnext
      obtain ⟨st1, hst1, hn1, ha1, hq1, ht1⟩ := hrun al.call_back al.arg st
      obtain ⟨q', hdel, hr'⟩ := queue_delete_front hr hd0 qfuel
      have hnd := hok.nodup
      simp only [items, List.map_cons, List.nodup_cons] at hnd
      obtain ⟨st2, hst2⟩ : ∃ st2 : State, st2 =
          { st1 with nodes := release st.nodes c.addr, alarm_queue := some q',
                     alarms := release st.alarms c.data } := ⟨_, rfl⟩
      have hdereg : deregister_alarm (qfuel + 1) st1 c.data = some (1, st2) := by
        have hle : al.end_ ≤ st1.nInterrupts := by rw [ht1, hend, hdue]
        simp only [deregister_alarm, hd0, if_false, ha1, hal, hle, if_true,
          alarm_delete_and_free, hq1, haq, hn1, hdel, hst2]
      have hok2 : AlarmsOk st2 cs := by
        refine ⟨?_, hnd.2⟩
        intro c' hc'
        obtain ⟨h0, al', hal', hend'⟩ := hok.alloc c' (List.mem_cons_of_mem _ hc')
        refine ⟨h0, al', ?_, hend'⟩
        rw [hst2]
        show release st.alarms c.data c'.data = some al'
        have hne : c'.data ≠ c.data := fun e =>
          hnd.1 (e ▸ List.mem_map_of_mem Cell.data hc')
        rw [release_other _ hne]
        exact hal'
      have haq2 : st2.alarm_queue = some q' := by rw [hst2]
      have hr2 : Rep st2.nodes q' cs := by rw [hst2]; exact hr'
      have ht2 : st2.nInterrupts = st.nInterrupts := by rw [hst2]; exact ht1
      obtain ⟨st', aq', hloop, haq', ht', hrep', hok'⟩ :=
        ih st2 q' _ (calls ++ [(al.call_back, al.arg)]) haq2 hr2 hok2
          (get_next_alarm_spec haq2 hr2 hok2)
      have hcalls : alarm_calls st2
          (cs.takeWhile (fun c => decide (c.priority = st2.nInterrupts))) =
          alarm_calls st (cs.takeWhile (fun c => decide (c.priority = st.nInterrupts))) := by
        rw [ht2]
        unfold alarm_calls
        apply List.filterMap_congr
        intro c' hc'
        have hc'' : c' ∈ cs := (List.takeWhile_sublist _).subset hc'
        have hne : c'.data ≠ c.data := fun e =>
          hnd.1 (e ▸ List.mem_map_of_mem Cell.data hc'')
        rw [hst2]
        show (release st.alarms c.data c'.data).map _ = _
        rw [release_other _ hne]
      refine ⟨st', aq', ?_, haq', ht'.trans ht2, ?_, ?_⟩
      · have step : clock_handler_loop run (qfuel + 1) ((c :: cs).length + 1) st c.data calls =
            clock_handler_loop run (qfuel + 1) (cs.length + 1) st2
              (next_due st2.nInterrupts cs) (calls ++ [(al.call_back, al.arg)]) := by
          rw [show (c :: cs).length + 1 = (cs.length + 1) + 1 from rfl, clock_handler_loop]
          simp only [hd0, if_false, hal, call_handler, hst1, hdereg,
            get_next_alarm_spec haq2 hr2 hok2]
        rw [step, hloop, hcalls]
        simp [List.takeWhile, hdue, alarm_calls, hal]
      · simpa [List.dropWhile, hdue, ht2] using hrep'
      · simpa [List.dropWhile, hdue, ht2] using hok'
    · simp only [next_due, hdue, if_false] at hnext
      cases hnext
      refine ⟨st, aq, ?_, haq, rfl, ?_, ?_⟩
      · simp [clock_handler_loop, List.takeWhile, hdue, alarm_calls]
      · simpa [List.dropWhile, hdue] using hr
      · simpa [List.dropWhile, hdue] using hok

/-- With the queue sorted by deadline and no deadline before the current tick, the loop
of `clock_handler` leaves no alarm with the deadline of the current tick: every alarm
that remains has a later deadline. -/
theorem due_prefix_complete {cs : List Cell} {t : Int} (hs : sorted_cells cs)
    (hge : ∀ c ∈ cs, t ≤ c.priority) :
    ∀ c ∈ cs.dropWhile (fun c => decide (c.priority = t)), t < c.priority := by
  induction cs with
  | nil => intro c hc; cases hc
  | cons d ds ih =>
    intro c hc
    have hs' : sorted_cells ds := (List.pairwise_cons.mp hs).2
    by_cases hd : d.priority = t
    · simp only [List.dropWhile, hd, decide_True] at hc
      exact ih hs' (fun x hx => hge x (List.mem_cons_of_mem _ hx)) c hc
    · simp only [List.dropWhile, hd, decide_False] at hc
      have hdt : t < d.priority := lt_of_le_of_ne (hge d (List.mem_cons_self _ _)) (Ne.symm hd)
      rcases List.mem_cons.mp hc with e | e
      · rw [e]; exact hdt
      · exact lt_of_lt_of_le hdt ((List.pairwise_cons.mp hs).1 c e)

/-! ## Levels stay in range -/

/-- The state in which the main thread runs is reachable. -/
theorem reach_state_main : Reach state_main :=
  Reach.yield state_init 2 state_main
    (Reach.boot 100 status.RUNNABLE 0 101 status.RUNNABLE 102 status.RUNNABLE 1 state_init
      (by decide) (by decide) (by decide) (by decide) (by decide) (by decide) (by decide) rfl)
    (by decide) rfl rfl

/-- In a well-formed state `minithread_fork` returns. -/
theorem minithread_fork_returns {st : State} {mq : multilevel_queue} {css : List (List Cell)}
    {qx : List queue} {cx : List (List Cell)} (hri : RunInv st mq css qx cx) {m : Ptr}
    (hm : st.threads m = none) (s0 : status) {n : Ptr} (hn0 : n ≠ NULL)
    (hn : st.nodes n = none) : ∃ r, minithread_fork st m s0 n = some r := by
  obtain ⟨hri1, hnodes, h1, h2⟩ := minithread_create_run hri hm s0
  unfold minithread_fork
  by_cases h0 : m = NULL
  · simp only [h2 h0, if_true]
    exact ⟨_, rfl⟩
  · obtain ⟨e, hth⟩ := h1 h0
    obtain ⟨th, hth⟩ := Option.ne_none_iff_exists'.mp hth
    obtain ⟨st', _, _, hstart, _⟩ := minithread_start_inv hri1.sched hth hn0 (hnodes ▸ hn)
    simp only [e, h0, if_false, hstart]
    exact ⟨_, rfl⟩

/-- C30: in every reachable scheduler state `curr_level` and the level of every thread
lie within `0 .. MAX_LEVELS - 1`, the runnable queue has `MAX_LEVELS` level queues, so the
level queue that an enqueue of a thread or the circular search of a dequeue indexes
exists, the lookups in the tables `level_quantum_value` and `level_max_quanta` at
`curr_level` are within the tables, and `minithread_yield`, `minithread_stop`, the
scheduling step of a clock tick, `minithread_start` of an existing thread and
`minithread_fork` all return. -/
theorem scheduler_levels_in_range {st : State} (hr : Reach st) :
    (0 ≤ st.curr_level ∧ st.curr_level < MAX_LEVELS) ∧
    (∀ t th, st.threads t = some th → 0 ≤ th.level ∧ th.level < MAX_LEVELS) ∧
    (∃ mq, st.runnable_queue = some mq ∧ mq.n_levels = MAX_LEVELS ∧
      (mq.level_queues.length : Int) = MAX_LEVELS ∧
      (∀ t th, st.threads t = some th → ∃ q, mq.level_queues[th.level.toNat]? = some q) ∧
      (∀ i : Nat, ∃ q,
        mq.level_queues[(Int.tmod (st.curr_level + i) mq.n_levels).toNat]? = some q)) ∧
    (∃ qv mx, table_get level_quantum_value st.curr_level = some qv ∧
      table_get level_max_quanta st.curr_level = some mx) ∧
    (∀ n, n ≠ NULL → st.nodes n = none →
      (∃ st', minithread_yield st n = some st') ∧ (∃ st', minithread_stop st = some st') ∧
      (∃ st', implement_scheduler st n = some st') ∧
      (∀ t, st.threads t ≠ none → ∃ st', minithread_start st t n = some st') ∧
      (∀ m s0, st.threads m = none → ∃ r, minithread_fork st m s0 n = some r)) := by
  obtain ⟨mq, css, hri⟩ := reach_inv hr
  have hinv := hri.sched
  have hlen : (mq.level_queues.length : Int) = MAX_LEVELS := by
    rw [hinv.rep.levels]; exact hinv.four
  have hlen4 : mq.level_queues.length = 4 := by
    simp only [MAX_LEVELS] at hlen
    omega
  obtain ⟨⟨qv, hqv⟩, ⟨mx, hmx⟩⟩ := table_get_some hinv.curr
  refine ⟨hinv.curr, hinv.levels, ⟨mq, hinv.rq, hinv.four, hlen, ?_, ?_⟩, ⟨qv, mx, hqv, hmx⟩, ?_⟩
  · intro t th hth
    obtain ⟨h0, h4⟩ := hinv.levels t th hth
    simp only [MAX_LEVELS] at h4
    exact getElem?_of_lt (by omega)
  · intro i
    obtain ⟨h0, h4⟩ := hinv.curr
    simp only [MAX_LEVELS] at h4
    apply getElem?_of_lt
    rw [hinv.four, hlen4]
    have h1 : 0 ≤ st.curr_level + (i : Int) := by omega
    have h2 := Int.tmod_nonneg (4 : Int) h1
    have h3 := Int.tmod_lt_of_pos (st.curr_level + (i : Int)) (show (0 : Int) < 4 by decide)
    simp only [MAX_LEVELS]
    omega
  · intro n hn0 hn
    refine ⟨?_, ?_, ?_, ?_, ?_⟩
    · obtain ⟨st', _, _, h, _⟩ := minithread_yield_run hri hn0 hn
      exact ⟨st', h⟩
    · obtain ⟨st', _, _, h, _⟩ := minithread_stop_run hri
      exact ⟨st', h⟩
    · obtain ⟨st', _, _, h, _⟩ := implement_scheduler_run hri hn0 hn
      exact ⟨st', h⟩
    · intro t ht
      obtain ⟨th, hth⟩ := Option.ne_none_iff_exists'.mp ht
      obtain ⟨st', _, _, h, _⟩ := minithread_start_inv hinv hth hn0 hn
      exact ⟨st', h⟩
    · intro m s0 hm
      exact minithread_fork_returns hri hm s0 hn0 hn

/-- C30 at a concrete input: the state in which the main thread runs after the scheduler
thread has yielded to it. -/
theorem scheduler_levels_in_range_witness :
    Reach state_main ∧
    (0 ≤ state_main.curr_level ∧ state_main.curr_level < MAX_LEVELS) ∧
    (∀ t th, state_main.threads t = some th → 0 ≤ th.level ∧ th.level < MAX_LEVELS) ∧
    (∃ mq, state_main.runnable_queue = some mq ∧ mq.n_levels = MAX_LEVELS ∧
      (mq.level_queues.length : Int) = MAX_LEVELS ∧
      (∀ t th, state_main.threads t = some th →
        ∃ q, mq.level_queues[th.level.toNat]? = some q) ∧
      (∀ i : Nat, ∃ q,
        mq.level_queues[(Int.tmod (state_main.curr_level + i) mq.n_levels).toNat]? =
          some q)) ∧
    (∃ qv mx, table_get level_quantum_value state_main.curr_level = some qv ∧
      table_get level_max_quanta state_main.curr_level = some mx) ∧
    (∀ n, n ≠ NULL → state_main.nodes n = none →
      (∃ st', minithread_yield state_main n = some st') ∧
      (∃ st', minithread_stop state_main = some st') ∧
      (∃ st', implement_scheduler state_main n = some st') ∧
      (∀ t, state_main.threads t ≠ none → ∃ st', minithread_start state_main t n = some st') ∧
      (∀ m s0, state_main.threads m = none →
        ∃ r, minithread_fork state_main m s0 n = some r)) :=
  ⟨reach_state_main, scheduler_levels_in_range reach_state_main⟩

/-! ## Starting a null thread -/

/-- C29, evaluated: `minithread_start` applied to the null pointer writes `t->s` through
it, which has no defined result; `semaphore_V` on a semaphore whose count is negative
while its wait list is empty (count -1 here) reaches that call with the `NULL` its local
variable `thread` was initialised with. -/
theorem minithread_start_null_faults :
    minithread_start state_boot NULL 1 = none ∧
    state_boot.threads NULL = none ∧
    queue_dequeue state_boot.nodes queue_new = some (-1, NULL, state_boot.nodes, queue_new) ∧
    (semaphore_V state_boot { count := -1, wait_list := queue_new } 1).isNone = true :=
  ⟨rfl, rfl, rfl, rfl⟩

/-! ## Counting the calls on a semaphore -/

/-- Every `semaphore_P` lowers the count by one and every `semaphore_V` raises it by one,
whether or not a thread waits or is started. -/
theorem sem_run_count (ops : List SemOp) :
    ∀ (st : State) (sem : semaphore) (r : State × semaphore × List Ptr × List Ptr),
      sem_run st sem ops = some r → r.2.1.count = sem.count + count_V ops - count_P ops := by
  induction ops with
  | nil =>
    intro st sem r h
    simp only [sem_run, Option.some.injEq] at h
    subst h
    simp [count_V, count_P]
  | cons op ops ih =>
    intro st sem r h
    cases op with
    | P n =>
      simp only [sem_run] at h
      cases hP : semaphore_P st sem n with
      | none => simp [hP] at h
      | some x =>
        obtain ⟨st1, b, sem1⟩ := x
        have hc : sem1.count = sem.count - 1 := by
          unfold semaphore_P at hP
          simp only at hP
          split at hP
          · split at hP
            · cases hP
            · split at hP
              · cases hP
              · cases hP; rfl
          · cases hP; rfl
        simp only [hP] at h
        cases hrun : sem_run st1 sem1 ops with
        | none => simp [hrun] at h
        | some y =>
          simp only [hrun, Option.some.injEq] at h
          subst h
          have := ih st1 sem1 y hrun
          simp only [count_V, count_P]
          rw [this, hc]
          ring
    | V n =>
      simp only [sem_run] at h
      cases hV : semaphore_V st sem n with
      | none => simp [hV] at h
      | some x =>
        obtain ⟨st1, w, sem1⟩ := x
        have hc : sem1.count = sem.count + 1 := by
          unfold semaphore_V at hV
          simp only at hV
          split at hV
          · split at hV
            · cases hV
            · split at hV
              · cases hV
              · cases hV; rfl
          · cases hV; rfl
        simp only [hV] at h
        cases hrun : sem_run st1 sem1 ops with
        | none => simp [hrun] at h
        | some y =>
          simp only [hrun, Option.some.injEq] at h
          subst h
          have := ih st1 sem1 y hrun
          simp only [count_V, count_P]
          rw [this, hc]
          ring

/-- C24 as the spec states it, at a concrete input: a semaphore of count 0 in the booted
system and one `semaphore_P`.  The number of V calls minus the number of P calls is -1,
while `count_initial - count_current + |waiters|` is `0 - (-1) + 1 = 2`. -/
theorem semaphore_conservation_fails :
    (sem_run state_boot ( semaphore_initialize 0) [SemOp.P 1]).map
      (fun r => (count_V [SemOp.P 1] - count_P [SemOp.P 1],
        0 - r.2.1.count + queue_length r.2.1.wait_list, r.2.1.count,
        queue_length r.2.1.wait_list)) = some (-1, 2, -1, 1) := by
  rfl

/-- C24, as the code has it: for a semaphore initialised with a non-negative count in a
well-formed system, any sequence of `semaphore_P` and `semaphore_V` calls runs to
completion, and afterwards the number of V calls minus the number of P calls is
`count_current - count_initial` for the signed counter of the code, whose negative part is
the number of waiters; so the number of P calls minus the number of V calls is
`count_initial - max(count_current, 0) + |waiters|`. -/
theorem semaphore_conservation {st : State} {mq : multilevel_queue} {css : List (List Cell)}
    (hinv : SchedInv st mq css [queue_new] [[]]) {cnt : Int} (hcnt : 0 ≤ cnt)
    (ops : List SemOp) (hfresh : oracles_fresh st ( semaphore_initialize cnt) ops = true) :
    ∃ st' sem' bl wk ws, sem_run st ( semaphore_initialize cnt) ops = some (st', sem', bl, wk) ∧
      Rep st'.nodes sem'.wait_list ws ∧
      count_V ops - count_P ops = sem'.count - cnt ∧
      (ws.length : Int) = max 0 (-sem'.count) ∧
      count_P ops - count_V ops = cnt - max sem'.count 0 + (ws.length : Int) := by
  obtain ⟨st', sem', bl, wk, mq', css', ws, hrun, hinv', _⟩ :=
    sem_run_inv ops st _ mq css [] (sysInv_init hinv hcnt) hfresh
  have hc := sem_run_count ops st _ _ hrun
  have hc' : sem'.count = cnt + count_V ops - count_P ops := hc
  have hw := hinv'.count
  refine ⟨st', sem', bl, wk, ws, hrun, sysInv_wait_rep hinv', by omega, hw, ?_⟩
  rcases le_total 0 sem'.count with h | h
  · rw [max_eq_left h]
    rw [max_eq_left (by omega)] at hw
    omega
  · rw [max_eq_right h]
    rw [max_eq_right (by omega)] at hw
    omega

/-- C24 at a concrete input: in the booted system a semaphore of count 1; the running
thread calls P twice and waits in the second call, then a V follows. -/
theorem semaphore_conservation_witness :
    ∃ st' sem' bl wk ws,
      sem_run state_boot ( semaphore_initialize 1) [SemOp.P 1, SemOp.P 2, SemOp.V 3] =
        some (st', sem', bl, wk) ∧
      Rep st'.nodes sem'.wait_list ws ∧
      count_V [SemOp.P 1, SemOp.P 2, SemOp.V 3] - count_P [SemOp.P 1, SemOp.P 2, SemOp.V 3] =
        sem'.count - 1 ∧
      (ws.length : Int) = max 0 (-sem'.count) ∧
      count_P [SemOp.P 1, SemOp.P 2, SemOp.V 3] - count_V [SemOp.P 1, SemOp.P 2, SemOp.V 3] =
        1 - max sem'.count 0 + (ws.length : Int) :=
  semaphore_conservation schedInv_boot (by decide) [SemOp.P 1, SemOp.P 2, SemOp.V 3] rfl

/-! ## The accounting of a clock tick -/

/-- The shape of `implement_scheduler`: the accounting, followed by
`yield_running_thread` if the level counter has reached its maximum or the running thread
has used up the quanta of the current level. -/
theorem implement_scheduler_eq {st : State} {rt : minithread} {qv mx : Int}
    (hrt : st.threads st.running_thread = some rt)
    (hqv : table_get level_quantum_value st.curr_level = some qv)
    (hmx : table_get level_max_quanta st.curr_level = some mx) (n : Ptr) :
    implement_scheduler st n =
      if st.curr_level_quanta + 1 = mx ∨ rt.quanta + 1 = qv then
        yield_running_thread (tick_account st rt qv mx) n
      else some (tick_account st rt qv mx) := by
  by_cases hm : st.curr_level_quanta + 1 = mx <;> by_cases h1 : rt.quanta + 1 = qv <;>
    simp [implement_scheduler, tick_account, hrt, hqv, hmx, hm, h1, write_write, next_level]

/-- The accounting of a tick keeps a well-formed state well formed. -/
theorem tick_account_inv {st : State} {mq : multilevel_queue} {css : List (List Cell)}
    {qx : List queue} {cx : List (List Cell)} (hinv : SchedInv st mq css qx cx)
    {rt : minithread} (hrt : st.threads st.running_thread = some rt) (qv mx : Int) :
    SchedInv (tick_account st rt qv mx) mq css qx cx := by
  have hrun : (tick_account st rt qv mx).running_thread = st.running_thread := rfl
  refine schedInv_congr hinv rfl rfl ?_ ?_ ?_ ?_ ?_
  · show (0 : Int) ≤ (if st.curr_level_quanta + 1 = mx then
        Int.tmod (st.curr_level + 1) MAX_LEVELS else st.curr_level) ∧
      (if st.curr_level_quanta + 1 = mx then
        Int.tmod (st.curr_level + 1) MAX_LEVELS else st.curr_level) < MAX_LEVELS
    split
    · exact next_cursor_range hinv.curr
    · exact hinv.curr
  · show write st.threads st.running_thread _ st.running_thread ≠ none
    rw [write_same]; simp
  · exact write_ne_none _ _ hinv.sched
  · exact fun t ht => write_ne_none _ _ ht
  · refine levels_write hinv.levels ?_
    split
    · exact next_level_range hinv.curr
    · exact hinv.levels _ rt hrt

/-- The interrupt level on the return paths of `miniport_create_unbound`: a port number
out of range, a failed allocation and a newly created port leave it as it was on entry;
the return of an existing port leaves it `DISABLED`. -/
theorem miniport_create_unbound_levels {k : Consts} {net : Net} {port_number : Int}
    {m sm : Ptr} {r : Ptr × Net} (h : miniport_create_unbound k net port_number m sm = some r) :
    ((port_number > k.MAX_UNBOUND_PORT ∨ port_number < k.MIN_UNBOUND_PORT ∨
        net.unbound_ports port_number = NULL) →
      r.2.interrupt_level = net.interrupt_level) ∧
    (¬ (port_number > k.MAX_UNBOUND_PORT ∨ port_number < k.MIN_UNBOUND_PORT) →
      net.unbound_ports port_number ≠ NULL →
      r.1 = net.unbound_ports port_number ∧
      r.2.interrupt_level = interrupt_level_t.DISABLED) := by
  unfold miniport_create_unbound at h
  by_cases hr : port_number > k.MAX_UNBOUND_PORT ∨ port_number < k.MIN_UNBOUND_PORT
  · rw [if_pos hr] at h
    cases h
    exact ⟨fun _ => rfl, fun hn => absurd hr hn⟩
  · rw [if_neg hr] at h
    simp only [set_interrupt_level] at h
    split at h
    · cases h
    · by_cases hex : net.unbound_ports port_number = NULL
      · simp only [hex, ne_eq, not_true_eq_false, if_false] at h
        refine ⟨fun _ => ?_, fun _ hne => absurd hex hne⟩
        split at h
        · cases h; rfl
        · split at h
          · cases h
          · cases h; rfl
      · simp only [ne_eq, hex, not_false_eq_true, if_true] at h
        cases h
        refine ⟨fun hc => ?_, fun _ _ => ⟨rfl, rfl⟩⟩
        rcases hc with hc | hc | hc
        · exact absurd (Or.inl hc) hr
        · exact absurd (Or.inr hc) hr
        · exact absurd hc hex

/-- C25, evaluated: `miniport_create_unbound(7)` is called with interrupts enabled when
the port 7 exists already (record 80).  The call returns the existing port and leaves the
interrupt level `DISABLED`: that path returns after `set_interrupt_level(DISABLED)`
without restoring `old_level`. -/
theorem miniport_create_unbound_leaves_disabled :
    net_port.bind (fun net =>
      (miniport_create_unbound consts_example net 7 82 83).map
        (fun r => (net.interrupt_level, net.unbound_ports 7, r.1, r.2.interrupt_level))) =
    some (interrupt_level_t.ENABLED, 80, 80, interrupt_level_t.DISABLED) := by
  rfl

/-! ## Sending on a stream socket -/

/-- The example call of `minisocket_send`: one byte on the connected socket 60, whose
sequence number is 2.  One packet of type ACK with sequence number 2 and the byte is handed
to the network, the peer acknowledges sequence number 3, and the call returns 1. -/
theorem minisocket_send_eval :
    (net_open.bind (fun net => minisocket_send 3 consts_example net 60 false [120] 1
        minisocket_error.SOCKET_NOERROR send_example)).map
      (fun r => (r.1, r.2.1, (r.2.2.1.sockets 60).map (fun s => (s.socket_state,
          s.seq_number, s.ack_flag)),
        (r.2.2.1.sent.drop 2).map (fun p => (p.1, p.2.1.message_type, p.2.1.seq_number,
          p.2.2)), r.2.2.1.st.running_thread)) =
    some (1, minisocket_error.SOCKET_NOERROR, some (m_status.OPEN, 3, 1),
      [(5, msg_t.MSG_ACK, 2, [120])], 101) := by
  rfl

/-- C26, evaluated: the socket 60 has the semaphores 61 (`data_ready`) and 62
(`wait_for_ack`).  The alarm that `minisocket_send` registers for the transmission has the
handler `semaphore_V` with the argument 61, the `data_ready` semaphore, while the sender
then waits on 62.  If the sender waits on 62 with that alarm pending and the alarm fires,
the count of 61 goes up to 1 and the sender stays in the wait list of 62 (count -1, one
waiter): the scheduler thread 100 runs. -/
theorem minisocket_send_alarm_argument :
    net_open.bind (fun net => (minisocket_send 3 consts_example net 60 false [120] 1
        minisocket_error.SOCKET_NOERROR send_example).map
      (fun r => ((net.sockets 60).map (fun s => (s.data_ready, s.wait_for_ack)), r.1,
        r.2.2.2))) =
      some (some (61, 62), 1, [(100, FN_SEMAPHORE_V, 61)]) ∧
    net_open.bind (fun net =>
      (register_alarm 3 net.st 100 FN_SEMAPHORE_V 61 33 34).bind (fun r =>
        (sem_P { net with st := r.2 } 62 { node := 35, env := env_timeout 61 33 }).map
          (fun n => (net.st.running_thread, n.st.running_thread, n.st.scheduler_thread,
            (n.sems 61).map (fun s => s.count),
            (n.sems 62).map (fun s => (s.count, s.wait_list.count)),
            n.st.alarm_queue.map (fun q => q.count))))) =
      some (101, 100, 100, some 1, some (-1, 1), some 0) := by
  constructor <;> rfl

/-- C27, evaluated: one byte is sent on the connected socket 60 and acknowledged after the
first transmission.  The call returns 1; the count of the mutex (semaphore 63) is 1 before
the call and 2 after it: the branch for a received acknowledgement releases the mutex
before `break`, and the end of the function releases it again. -/
theorem minisocket_send_mutex_count :
    net_open.bind (fun net => (minisocket_send 3 consts_example net 60 false [120] 1
        minisocket_error.SOCKET_NOERROR send_example).map
      (fun r => (r.1, r.2.1, (net.sems 63).map (fun s => s.count),
        (r.2.2.1.sems 63).map (fun s => s.count)))) =
    some (1, minisocket_error.SOCKET_NOERROR, some 1, some 2) := by
  rfl

/-! ## Acknowledgements on an open socket -/

/-- `semaphore_V` on a semaphore whose wait list is one of the queues next to the runnable
queue: with a positive new count nothing but the count changes; otherwise the head waiter
leaves the wait list, is marked RUNNABLE and is appended to the level queue of its
level. -/
theorem semaphore_V_at {st : State} {mq : multilevel_queue} {css : List (List Cell)}
    {qx : List queue} {cx : List (List Cell)} (hrq : st.runnable_queue = some mq)
    (hfour : mq.n_levels = MAX_LEVELS) (hrep : MRepX st.nodes mq css qx cx) {i : Nat}
    {sem : semaphore} {ws : List Cell} (hq : qx[i]? = some sem.wait_list)
    (hw : cx[i]? = some ws)
    (hwait : ∀ c ∈ ws, ∃ th, st.threads c.data = some th ∧ 0 ≤ th.level ∧ th.level < MAX_LEVELS)
    (hc : sem.count + 1 ≤ 0 → ws ≠ []) {n : Ptr} (hn0 : n ≠ NULL) (hn : st.nodes n = none) :
    (0 < sem.count + 1 ∧
      semaphore_V st sem n = some (st, none, { sem with count := sem.count + 1 })) ∨
    (sem.count + 1 ≤ 0 ∧ ∃ c wsr th cs wl' h' mq', ws = c :: wsr ∧
      st.threads c.data = some th ∧ css[th.level.toNat]? = some cs ∧
      semaphore_V st sem n =
        some ({ st with nodes := h',
                        threads := write st.threads c.data { th with s := status.RUNNABLE },
                        runnable_queue := some mq' },
          some c.data, { count := sem.count + 1, wait_list := wl' }) ∧
      mq'.n_levels = MAX_LEVELS ∧
      MRepX h' mq' (css.set th.level.toNat (cs ++ [{ addr := n, data := c.data, priority := 0 }]))
        (qx.set i wl') (cx.set i wsr) ∧
      (∀ a, st.nodes a = none → a ≠ n → h' a = none)) := by
  by_cases hneg : sem.count + 1 ≤ 0
  · right
    refine ⟨hneg, ?_⟩
    cases ws with
    | nil => exact absurd rfl (hc hneg)
    | cons c wsr =>
      obtain ⟨wl', hdq, hrep1⟩ := mrepx_extra_dequeue_at hrep hq hw
      obtain ⟨th, hth, hl0, hl4⟩ := hwait c (List.mem_cons_self _ _)
      have hlen : css.length = 4 := by
        have h1 := mrepx_n_levels hrep
        simp only [MAX_LEVELS] at hfour
        omega
      simp only [MAX_LEVELS] at hl4
      obtain ⟨cs, hcs⟩ := getElem?_of_lt (show th.level.toNat < css.length by omega)
      have hn' : release st.nodes c.addr n = none := by
        unfold release
        split
        · rfl
        · exact hn
      obtain ⟨h2, q2, henq, hrep2, hframe⟩ :=
        multilevel_queue_enqueue_spec hrep1 hl0 hcs c.data hn0 hn'
      refine ⟨c, wsr, th, cs, wl', h2,
        { mq with level_queues := mq.level_queues.set th.level.toNat q2 }, rfl, hth, hcs, ?_,
        hfour, hrep2, ?_⟩
      · simp only [semaphore_V, hneg, if_true, hdq, minithread_start, hth, hrq, henq]
      · intro a ha han
        have hr : release st.nodes c.addr a = none := by
          unfold release
          split
          · rfl
          · exact ha
        have hq' : (mq.level_queues)[th.level.toNat]? ≠ none := by
          rw [ne_eq, List.getElem?_eq_none_iff, hrep.length]
          omega
        obtain ⟨q, hq0⟩ := Option.ne_none_iff_exists'.mp hq'
        have hmem : a ∉ addrs cs := rep_fresh (mrepx_level_rep hrep1 hq0 hcs) hr
        rw [hframe a hmem han]
        exact hr
  · left
    refine ⟨by omega, ?_⟩
    simp only [semaphore_V, hneg, if_false]

/-- `semaphore_V` on the `data_ready` semaphore of a well-formed socket. -/
theorem semaphore_V_data_ready {st : State} {dq : queue} {dr wa : semaphore}
    {mq : multilevel_queue} {css : List (List Cell)} {ds ws1 ws2 : List Cell}
    (hinv : SockInv st dq dr wa mq css ds ws1 ws2) {n : Ptr} (hn0 : n ≠ NULL)
    (hn : st.nodes n = none) :
    ∃ st' w dr' mq' css' ws1', semaphore_V st dr n = some (st', w, dr') ∧
      dr'.count = dr.count + 1 ∧ SockInv st' dq dr' wa mq' css' ds ws1' ws2 ∧
      (∀ a, st.nodes a = none → a ≠ n → st'.nodes a = none) := by
  have hq : ([dq, dr.wait_list, wa.wait_list] : List queue)[1]? = some dr.wait_list := rfl
  have hw : ([ds, ws1, ws2] : List (List Cell))[1]? = some ws1 := rfl
  have hc : dr.count + 1 ≤ 0 → ws1 ≠ [] := by
    intro h e
    have := hinv.count1
    rw [e] at this
    simp only [List.length_nil] at this
    push_cast at this
    omega
  rcases semaphore_V_at hinv.rq hinv.four hinv.rep hq hw
      (fun c hc' => hinv.waiters c (List.mem_append_left _ hc')) hc hn0 hn with
    ⟨hpos, hV⟩ | ⟨hneg, c, wsr, th, cs, wl', h', mq', hws, hth, hcs, hV, hfour, hrep, hframe⟩
  · refine ⟨st, none, { dr with count := dr.count + 1 }, mq, css, ws1, hV, rfl,
      ⟨hinv.rq, hinv.four, hinv.rep, hinv.waiters, ?_, hinv.count2⟩, fun a ha _ => ha⟩
    show (ws1.length : Int) = max 0 (-(dr.count + 1))
    have := hinv.count1
    omega
  · subst hws
    simp only [List.set_cons_succ, List.set_cons_zero] at hrep
    refine ⟨_, some c.data, _, mq', _, wsr, hV, rfl, ⟨rfl, hfour, hrep, ?_, ?_, hinv.count2⟩,
      hframe⟩
    · intro c' hc'
      have hmem : c' ∈ (c :: wsr) ++ ws2 := by
        rcases List.mem_append.mp hc' with h | h
        · exact List.mem_append_left _ (List.mem_cons_of_mem _ h)
        · exact List.mem_append_right _ h
      obtain ⟨th', hth', hr⟩ := hinv.waiters c' hmem
      obtain ⟨_, thc, hl0, hl4⟩ := hinv.waiters c
        (List.mem_append_left _ (List.mem_cons_self _ _))
      by_cases he : c'.data = c.data
      · refine ⟨{ th with s := status.RUNNABLE }, ?_, ?_⟩
        · show write st.threads c.data _ c'.data = _
          rw [he, write_same]
        · rw [he, hth] at hth'
          rw [← Option.some.inj hth'] at hr
          exact hr
      · refine ⟨th', ?_, hr⟩
        show write st.threads c.data _ c'.data = _
        rw [write_other _ _ he]
        exact hth'
    · show (wsr.length : Int) = max 0 (-(dr.count + 1))
      have := hinv.count1
      simp only [List.length_cons] at this
      push_cast at this
      omega

/-- `semaphore_V` on the `wait_for_ack` semaphore of a well-formed socket. -/
theorem semaphore_V_wait_for_ack {st : State} {dq : queue} {dr wa : semaphore}
    {mq : multilevel_queue} {css : List (List Cell)} {ds ws1 ws2 : List Cell}
    (hinv : SockInv st dq dr wa mq css ds ws1 ws2) {n : Ptr} (hn0 : n ≠ NULL)
    (hn : st.nodes n = none) :
    ∃ st' w wa' mq' css' ws2', semaphore_V st wa n = some (st', w, wa') ∧
      wa'.count = wa.count + 1 ∧ SockInv st' dq dr wa' mq' css' ds ws1 ws2' ∧
      (∀ a, st.nodes a = none → a ≠ n → st'.nodes a = none) := by
  have hq : ([dq, dr.wait_list, wa.wait_list] : List queue)[2]? = some wa.wait_list := rfl
  have hw : ([ds, ws1, ws2] : List (List Cell))[2]? = some ws2 := rfl
  have hc : wa.count + 1 ≤ 0 → ws2 ≠ [] := by
    intro h e
    have := hinv.count2
    rw [e] at this
    simp only [List.length_nil] at this
    push_cast at this
    omega
  rcases semaphore_V_at hinv.rq hinv.four hinv.rep hq hw
      (fun c hc' => hinv.waiters c (List.mem_append_right _ hc')) hc hn0 hn with
    ⟨hpos, hV⟩ | ⟨hneg, c, wsr, th, cs, wl', h', mq', hws, hth, hcs, hV, hfour, hrep, hframe⟩
  · refine ⟨st, none, { wa with count := wa.count + 1 }, mq, css, ws2, hV, rfl,
      ⟨hinv.rq, hinv.four, hinv.rep, hinv.waiters, hinv.count1, ?_⟩, fun a ha _ => ha⟩
    show (ws2.length : Int) = max 0 (-(wa.count + 1))
    have := hinv.count2
    omega
  · subst hws
    simp only [List.set_cons_succ, List.set_cons_zero] at hrep
    refine ⟨_, some c.data, _, mq', _, wsr, hV, rfl, ⟨rfl, hfour, hrep, ?_, hinv.count1, ?_⟩,
      hframe⟩
    · intro c' hc'
      have hmem : c' ∈ ws1 ++ (c :: wsr) := by
        rcases List.mem_append.mp hc' with h | h
        · exact List.mem_append_left _ h
        · exact List.mem_append_right _ (List.mem_cons_of_mem _ h)
      obtain ⟨th', hth', hr⟩ := hinv.waiters c' hmem
      by_cases he : c'.data = c.data
      · refine ⟨{ th with s := status.RUNNABLE }, ?_, ?_⟩
        · show write st.threads c.data _ c'.data = _
          rw [he, write_same]
        · rw [he, hth] at hth'
          rw [← Option.some.inj hth'] at hr
          exact hr
      · refine ⟨th', ?_, hr⟩
        show write st.threads c.data _ c'.data = _
        rw [write_other _ _ he]
        exact hth'
    · show (wsr.length : Int) = max 0 (-(wa.count + 1))
      have := hinv.count2
      simp only [List.length_cons] at this
      push_cast at this
      omega

/-- A transmission changes nothing but the log of packets handed to the network. -/
theorem send_control_message_frame (net : Net) (t : msg_t) (dp : Int) (da : Nat) (sp : Int)
    (seq ack : Nat) (e : minisocket_error) (o : Send) :
    ∃ sent', (send_control_message net t dp da sp seq ack e o).1 = { net with sent := sent' } := by
  unfold send_control_message
  split
  · exact ⟨net.sent, rfl⟩
  · split <;> exact ⟨_, rfl⟩

/-- The data part of the handling of an acknowledgement on a well-formed socket: without
payload nothing changes; with a payload the packet is appended to the data queue, the
count of `data_ready` goes up by one and `ack_number` advances by the size of the payload,
all else in the socket record staying as it is. -/
theorem tcp_ack_payload_spec {k : Consts} {net : Net} {arg : Ptr} {pkt : network_interrupt_arg}
    {sock : Ptr} {s : minisocket} {dr wa : semaphore} {mq : multilevel_queue}
    {css : List (List Cell)} {ds ws1 ws2 : List Cell} (o : Ingress)
    (hs : net.sockets sock = some s) (hdr : net.sems s.data_ready = some dr)
    (hwa : net.sems s.wait_for_ack = some wa) (hne : s.data_ready ≠ s.wait_for_ack)
    (hinv : SockInv net.st s.data dr wa mq css ds ws1 ws2)
    (hn0 : o.node ≠ NULL) (hn : net.st.nodes o.node = none)
    (hw0 : o.wake ≠ NULL) (hwn : o.wake ≠ o.node) (hw : net.st.nodes o.wake = none) :
    ∃ net3 data3 ack3 dr3 mq3 css3 ds3 ws13,
      tcp_ack_payload k net arg pkt sock s o = some net3 ∧
      net3.sockets sock = some { s with data := data3, ack_number := ack3 } ∧
      net3.sems s.data_ready = some dr3 ∧ net3.sems s.wait_for_ack = some wa ∧
      SockInv net3.st data3 dr3 wa mq3 css3 ds3 ws13 ws2 ∧
      (pkt.size - k.mini_header_reliable_size ≠ 0 →
        ds3 = ds ++ [{ addr := o.node, data := arg, priority := 0 }] ∧
        dr3.count = dr.count + 1 ∧
        ack3 = (((s.ack_number : Int) + (pkt.size - k.mini_header_reliable_size)) %
          2 ^ 32).toNat) ∧
      (pkt.size - k.mini_header_reliable_size = 0 →
        net3 = net ∧ data3 = s.data ∧ ack3 = s.ack_number ∧ dr3 = dr ∧ ds3 = ds ∧ ws13 = ws1) ∧
      (∀ a, net.st.nodes a = none → a ≠ o.node → a ≠ o.wake → net3.st.nodes a = none) := by
  by_cases hsz : pkt.size - k.mini_header_reliable_size = 0
  · refine ⟨net, s.data, s.ack_number, dr, mq, css, ds, ws1, ?_, hs, hdr, hwa, hinv,
      fun h => absurd hsz h, fun _ => ⟨rfl, rfl, rfl, rfl, rfl, rfl⟩, fun a ha _ _ => ha⟩
    simp only [tcp_ack_payload, hsz, ne_eq, not_true_eq_false, if_false]
  · have hq0 : ([s.data, dr.wait_list, wa.wait_list] : List queue)[0]? = some s.data := rfl
    have hd0 : ([ds, ws1, ws2] : List (List Cell))[0]? = some ds := rfl
    obtain ⟨h', data', happ, hrep, hframe⟩ :=
      mrepx_extra_append_at hinv.rep hq0 hd0 arg hn0 hn
    simp only [List.set_cons_zero] at hrep
    have hinv1 : SockInv { net.st with nodes := h' } data' dr wa mq css
        (ds ++ [{ addr := o.node, data := arg, priority := 0 }]) ws1 ws2 :=
      ⟨hinv.rq, hinv.four, hrep, hinv.waiters, hinv.count1, hinv.count2⟩
    obtain ⟨st', w, dr', mq', css', ws1', hV, hcount, hinv', hframe'⟩ :=
      semaphore_V_data_ready hinv1 hw0 (hframe _ hw hwn)
    obtain ⟨sent', hsent⟩ := send_control_message_frame
      { net with st := st',
                 sockets := write net.sockets sock { s with data := data' },
                 sems := write net.sems s.data_ready dr' }
      msg_t.MSG_ACK pkt.header.source_port pkt.header.source_address
      pkt.header.destination_port s.seq_number
      (((s.ack_number : Int) + (pkt.size - k.mini_header_reliable_size)) % 2 ^ 32).toNat
      minisocket_error.SOCKET_NOERROR o.send
    obtain ⟨net3, hnet3⟩ : ∃ net3 : Net, net3 =
        { net with
          st := st', sems := write net.sems s.data_ready dr', sent := sent',
          sockets := write (write net.sockets sock { s with data := data' }) sock
            { s with data := data', ack_number := (((s.ack_number : Int) +
              (pkt.size - k.mini_header_reliable_size)) % 2 ^ 32).toNat } } := ⟨_, rfl⟩
    refine ⟨net3, data',
      (((s.ack_number : Int) + (pkt.size - k.mini_header_reliable_size)) % 2 ^ 32).toNat,
      dr', mq', css', _, ws1', ?_, ?_, ?_, ?_, ?_, fun _ => ⟨rfl, hcount, rfl⟩,
      fun h => absurd h hsz, ?_⟩
    · simp only [tcp_ack_payload, hsz, ne_eq, not_false_eq_true, if_true, happ, sem_V, hdr, hV,
        write_same, hsent, hnet3]
    · rw [hnet3]
      exact write_same _ _ _
    · rw [hnet3]
      exact write_same _ _ _
    · rw [hnet3]
      show write net.sems s.data_ready dr' s.wait_for_ack = some wa
      rw [write_other _ _ (Ne.symm hne)]
      exact hwa
    · rw [hnet3]
      exact hinv'
    · intro a ha han haw
      rw [hnet3]
      exact hframe' a (hframe a ha han) haw

/-- The end of the handling of an acknowledgement on a well-formed socket: with
`ack_flag` 0 the flag becomes 1 and the count of `wait_for_ack` goes up by one; otherwise
nothing changes. -/
theorem tcp_ack_flag_spec {net : Net} {sock : Ptr} {s : minisocket} {dr wa : semaphore}
    {mq : multilevel_queue} {css : List (List Cell)} {ds ws1 ws2 : List Cell} (o : Ingress)
    (hs : net.sockets sock = some s) (hdr : net.sems s.data_ready = some dr)
    (hwa : net.sems s.wait_for_ack = some wa) (hne : s.data_ready ≠ s.wait_for_ack)
    (hinv : SockInv net.st s.data dr wa mq css ds ws1 ws2)
    (hn0 : o.wake_ack ≠ NULL) (hn : net.st.nodes o.wake_ack = none) :
    ∃ net' flag' wa' mq' css' ws2',
      tcp_ack_flag net sock o = some net' ∧
      net'.sockets sock = some { s with ack_flag := flag' } ∧
      net'.sems s.data_ready = some dr ∧ net'.sems s.wait_for_ack = some wa' ∧
      SockInv net'.st s.data dr wa' mq' css' ds ws1 ws2' ∧
      (s.ack_flag = 0 → flag' = 1 ∧ wa'.count = wa.count + 1) ∧
      (s.ack_flag ≠ 0 → net' = net ∧ flag' = s.ack_flag ∧ wa' = wa) ∧
      net'.packets = net.packets := by
  by_cases hf : s.ack_flag = 0
  · obtain ⟨st', w, wa', mq', css', ws2', hV, hcount, hinv', _⟩ :=
      semaphore_V_wait_for_ack hinv hn0 hn
    obtain ⟨net', hnet'⟩ : ∃ net' : Net, net' =
        { net with
          st := st', sems := write net.sems s.wait_for_ack wa',
          sockets := write net.sockets sock { s with ack_flag := 1 } } := ⟨_, rfl⟩
    refine ⟨net', 1, wa', mq', css', ws2', ?_, ?_, ?_, ?_, ?_, fun _ => ⟨rfl, hcount⟩,
      fun h => absurd hf h, ?_⟩
    · simp only [tcp_ack_flag, hs, hf, if_true, sem_V, hwa, hV, hnet']
    · rw [hnet']
      exact write_same _ _ _
    · rw [hnet']
      show write net.sems s.wait_for_ack wa' s.data_ready = some dr
      rw [write_other _ _ hne]
      exact hdr
    · rw [hnet']
      exact write_same _ _ _
    · rw [hnet']
      exact hinv'
    · rw [hnet']
  · refine ⟨net, s.ack_flag, wa, mq, css, ws2, ?_, hs, hdr, hwa, hinv, fun h => absurd h hf,
      fun _ => ⟨rfl, rfl, rfl⟩, rfl⟩
    simp only [tcp_ack_flag, hs, hf, if_false]

theorem sockInv_net_acked :
    SockInv net_acked.st queue_new ( semaphore_initialize 0) ( semaphore_initialize 0) mlq_boot
      [[], [], [], []] [] [] [] := by
  refine ⟨rfl, rfl, ⟨by decide, rfl, repAll_empty _ rfl ?_ ?_⟩, ?_, rfl, rfl⟩
  · intro q hq
    simp only [mlq_boot, semaphore_initialize, List.cons_append, List.nil_append,
      List.mem_cons, List.mem_singleton, List.not_mem_nil, or_false] at hq
    rcases hq with e | e | e | e | e | e | e <;> exact e
  · intro cs hcs
    simp only [List.cons_append, List.nil_append, List.mem_cons, List.mem_singleton,
      List.not_mem_nil, or_false] at hcs
    rcases hcs with e | e | e | e | e | e | e <;> exact e
  · intro c hc
    cases hc

/-- C28: an ACK packet from the connected peer for an OPEN socket.  If its
acknowledgement number differs from the socket's sequence number, the handler only frees
the packet: sockets, semaphores, queues and the scheduler state are as before.  If the
numbers are equal and the socket is well formed, the handler returns, and in the socket
record only `data`, `ack_number` and `ack_flag` can differ from before: a packet with
payload is appended at the tail of the data queue, the count of `data_ready` goes up by
one and `ack_number` advances by the size of the payload (modulo `2 ^ 32`), a packet
without payload changes none of these; and if `ack_flag` was 0 it becomes 1 and the count
of `wait_for_ack` goes up by one, otherwise the flag and that semaphore stay as they
are. -/
theorem minisocket_handle_tcp_packet_ack {fuel : Nat} {k : Consts} {net : Net} {arg : Ptr}
    {pkt : network_interrupt_arg} {s : minisocket} (o : Ingress)
    (hpkt : net.packets arg = some pkt)
    (hport : MIN_SERVER_PORT ≤ pkt.header.destination_port ∧
      pkt.header.destination_port ≤ MAX_CLIENT_PORT)
    (hsock : net.ports pkt.header.destination_port ≠ NULL)
    (hs : net.sockets (net.ports pkt.header.destination_port) = some s)
    (hopen : s.socket_state = m_status.OPEN)
    (hpeer : s.remote_addr = pkt.header.source_address ∧
      s.remote_port = pkt.header.source_port)
    (hack : pkt.header.message_type = msg_t.MSG_ACK) :
    (pkt.header.ack_number ≠ s.seq_number →
      minisocket_handle_tcp_packet fuel k net arg o = some (free_packet net arg)) ∧
    (pkt.header.ack_number = s.seq_number →
      ∀ (dr wa : semaphore) (mq : multilevel_queue) (css : List (List Cell))
        (ds ws1 ws2 : List Cell),
      net.sems s.data_ready = some dr → net.sems s.wait_for_ack = some wa →
      s.data_ready ≠ s.wait_for_ack →
      SockInv net.st s.data dr wa mq css ds ws1 ws2 →
      o.node ≠ NULL → net.st.nodes o.node = none →
      o.wake ≠ NULL → o.wake ≠ o.node → net.st.nodes o.wake = none →
      o.wake_ack ≠ NULL → o.wake_ack ≠ o.node → o.wake_ack ≠ o.wake →
      net.st.nodes o.wake_ack = none →
      ∃ net' data' ack' flag' dr' wa' mq' css' ds' ws1' ws2',
        minisocket_handle_tcp_packet fuel k net arg o = some net' ∧
        net'.sockets (net.ports pkt.header.destination_port) =
          some { s with data := data', ack_number := ack', ack_flag := flag' } ∧
        net'.sems s.data_ready = some dr' ∧ net'.sems s.wait_for_ack = some wa' ∧
        SockInv net'.st data' dr' wa' mq' css' ds' ws1' ws2' ∧
        (pkt.size - k.mini_header_reliable_size ≠ 0 →
          ds' = ds ++ [{ addr := o.node, data := arg, priority := 0 }] ∧
          dr'.count = dr.count + 1 ∧
          ack' = (((s.ack_number : Int) + (pkt.size - k.mini_header_reliable_size)) %
            2 ^ 32).toNat) ∧
        (pkt.size - k.mini_header_reliable_size = 0 →
          ds' = ds ∧ data' = s.data ∧ dr' = dr ∧ ack' = s.ack_number) ∧
        (s.ack_flag = 0 → flag' = 1 ∧ wa'.count = wa.count + 1) ∧
        (s.ack_flag ≠ 0 → flag' = s.ack_flag ∧ wa' = wa)) := by
  have h1 : ¬ (pkt.header.destination_port < MIN_SERVER_PORT ∨
      pkt.header.destination_port > MAX_CLIENT_PORT ∨
      net.ports pkt.header.destination_port = NULL) := by
    rintro (h | h | h)
    · omega
    · omega
    · exact hsock h
  have h2 : ¬ (s.socket_state = m_status.INITIAL ∨ s.socket_state = m_status.CLOSED) := by
    rw [hopen]; decide
  have h3 : ¬ (s.socket_state ≠ m_status.OPEN) := by rw [hopen]; decide
  have h4 : ¬ (s.remote_addr ≠ pkt.header.source_address ∨
      s.remote_port ≠ pkt.header.source_port) := by
    rintro (h | h)
    · exact h hpeer.1
    · exact h hpeer.2
  have h5 : ¬ (pkt.header.message_type = msg_t.MSG_SYNACK) := by rw [hack]; decide
  have h6 : ¬ (pkt.header.message_type = msg_t.MSG_FIN) := by rw [hack]; decide
  have hshape : minisocket_handle_tcp_packet fuel k net arg o =
      if pkt.header.ack_number = s.seq_number then
        match tcp_ack_payload k net arg pkt (net.ports pkt.header.destination_port) s o with
        | none => none
        | some net3 => tcp_ack_flag net3 (net.ports pkt.header.destination_port) o
      else some (free_packet net arg) := by
    simp only [minisocket_handle_tcp_packet, hpkt, h1, if_false, hs, h2, h3, h4, h5, h6]
    simp only [hack, if_true]
  constructor
  · intro hne
    rw [hshape, if_neg hne]
  · intro heq dr wa mq css ds ws1 ws2 hdr hwa hne hinv hn0 hn hw0 hwn hw ha0 han haw ha
    obtain ⟨net3, data3, ack3, dr3, mq3, css3, ds3, ws13, hrun3, hs3, hdr3, hwa3, hinv3,
      hp1, hp0, hframe⟩ := @tcp_ack_payload_spec k _ arg pkt _ _ _ _ _ _ _ _ _ o hs hdr hwa
        hne hinv hn0 hn hw0 hwn hw
    obtain ⟨net', flag', wa', mq', css', ws2', hrun', hs', hdr', hwa', hinv', hf0, hf1, _⟩ :=
      tcp_ack_flag_spec o hs3 hdr3 hwa3 hne hinv3 ha0 (hframe _ ha han haw)
    refine ⟨net', data3, ack3, flag', dr3, wa', mq', css', ds3, ws13, ws2', ?_, hs', hdr',
      hwa', hinv', hp1, ?_, hf0, ?_⟩
    · rw [hshape, if_pos heq, hrun3]
      exact hrun'
    · intro h0
      obtain ⟨_, e1, e2, e3, e4, _⟩ := hp0 h0
      exact ⟨e4, e1, e3, e2⟩
    · intro hf
      obtain ⟨_, e1, e2⟩ := hf1 hf
      exact ⟨e1, e2⟩

/-- C28 at a concrete input: the connected socket 60 (sequence number 2, `ack_flag` 0) and
`packet_five`, which acknowledges 2 and carries five bytes. -/
theorem minisocket_handle_tcp_packet_ack_witness :
    net_acked.packets 70 = some packet_five ∧
    (MIN_SERVER_PORT ≤ packet_five.header.destination_port ∧
      packet_five.header.destination_port ≤ MAX_CLIENT_PORT) ∧
    net_acked.ports packet_five.header.destination_port = 60 ∧
    (net_acked.sockets 60).map (fun s => (s.socket_state, s.remote_addr, s.remote_port,
      s.seq_number, s.ack_number, s.ack_flag, s.data, s.data_ready, s.wait_for_ack)) =
      some (m_status.OPEN, 5, 80, 2, 1, 0, queue_new, 61, 62) ∧
    packet_five.header.message_type = msg_t.MSG_ACK ∧
    packet_five.header.ack_number = 2 ∧
    net_acked.sems 61 = some ( semaphore_initialize 0) ∧
    net_acked.sems 62 = some ( semaphore_initialize 0) ∧
    ∃ net' data' ack' flag' dr' wa' mq' css' ds' ws1' ws2',
      minisocket_handle_tcp_packet 3 consts_example net_acked 70 ingress_example =
        some net' ∧
      (net'.sockets 60).map (fun s => (s.data, s.ack_number, s.ack_flag, s.seq_number,
        s.socket_state)) = some (data', ack', flag', 2, m_status.OPEN) ∧
      net'.sems 61 = some dr' ∧ net'.sems 62 = some wa' ∧
      SockInv net'.st data' dr' wa' mq' css' ds' ws1' ws2' ∧
      ds' = [] ++ [{ addr := 41, data := 70, priority := 0 }] ∧ dr'.count = 0 + 1 ∧
      ack' = 6 ∧ flag' = 1 ∧ wa'.count = 0 + 1 := by
  refine ⟨rfl, by decide, rfl, rfl, rfl, rfl, rfl, rfl, ?_⟩
  obtain ⟨s, hs⟩ : ∃ s, net_acked.sockets 60 = some s := ⟨_, rfl⟩
  have hfields : (s.socket_state, s.remote_addr, s.remote_port, s.seq_number, s.ack_number,
      s.ack_flag, s.data, s.data_ready, s.wait_for_ack) =
      (m_status.OPEN, 5, 80, 2, 1, 0, queue_new, 61, 62) := by
    have h : (net_acked.sockets 60).map (fun s => (s.socket_state, s.remote_addr,
        s.remote_port, s.seq_number, s.ack_number, s.ack_flag, s.data, s.data_ready,
        s.wait_for_ack)) = some (m_status.OPEN, 5, 80, 2, 1, 0, queue_new, 61, 62) := rfl
    rw [hs] at h
    exact Option.some.inj h
  simp only [Prod.mk.injEq] at hfields
  obtain ⟨f1, f2, f3, f4, f5, f6, f7, f8, f9⟩ := hfields
  have hinv : SockInv net_acked.st s.data ( semaphore_initialize 0) ( semaphore_initialize 0)
      mlq_boot [[], [], [], []] [] [] [] := by
    rw [f7]; exact sockInv_net_acked
  obtain ⟨net', data', ack', flag', dr', wa', mq', css', ds', ws1', ws2', hrun, hs', hdr',
    hwa', hinv', hp1, _, hf0, _⟩ :=
    (@minisocket_handle_tcp_packet_ack 3 consts_example net_acked 70 packet_five s
      ingress_example rfl (by decide) (by decide) hs f1 ⟨f2, f3⟩ rfl).2 f4.symm
      ( semaphore_initialize 0) ( semaphore_initialize 0) mlq_boot [[], [], [], []] [] [] []
      (by rw [f8]; rfl) (by rw [f9]; rfl) (by rw [f8, f9]; decide) hinv
      (by decide) rfl (by decide) (by decide) rfl (by decide) (by decide) (by decide) rfl
  obtain ⟨e1, e2, e3⟩ := hp1 (by decide)
  obtain ⟨e4, e5⟩ := hf0 f6
  rw [f8] at hdr'
  rw [f9] at hwa'
  refine ⟨net', data', ack', flag', dr', wa', mq', css', ds', ws1', ws2', hrun, ?_, hdr', hwa',
    hinv', e1, e2, ?_, e4, e5⟩
  · have : net'.sockets 60 = some { s with data := data', ack_number := ack', ack_flag := flag' } :=
      hs'
    rw [this]
    simp only [Option.map_some', f4, f1]
  · rw [e3, f5]
    rfl

/-! ## No thread is queued twice -/

theorem join_set_cons_perm {α : Type} {l : List (List α)} {i : Nat} {c : α} {cs : List α}
    (h : l[i]? = some (c :: cs)) : l.flatten.Perm (c :: (l.set i cs).flatten) := by
  induction l generalizing i with
  | nil => simp at h
  | cons a l ih =>
    cases i with
    | zero =>
      simp only [List.getElem?_cons_zero, Option.some.injEq] at h
      subst h
      simp
    | succ i =>
      simp only [List.getElem?_cons_succ] at h
      simp only [List.set_cons_succ, List.flatten_cons]
      exact ((ih h).append_left a).trans List.perm_middle

theorem join_set_append_perm {α : Type} {l : List (List α)} {i : Nat} {cs : List α} (x : α)
    (h : l[i]? = some cs) : (l.set i (cs ++ [x])).flatten.Perm (x :: l.flatten) := by
  induction l generalizing i with
  | nil => simp at h
  | cons a l ih =>
    cases i with
    | zero =>
      simp only [List.getElem?_cons_zero, Option.some.injEq] at h
      subst h
      simp only [List.set_cons_zero, List.flatten_cons, List.append_assoc, List.singleton_append]
      exact List.perm_middle
    | succ i =>
      simp only [List.getElem?_cons_succ] at h
      simp only [List.set_cons_succ, List.flatten_cons]
      exact ((ih h).append_left a).trans List.perm_middle

theorem queued_threads_dequeue {css : List (List Cell)} (cx : List (List Cell)) {i : Nat}
    {c : Cell} {cs : List Cell} (h : css[i]? = some (c :: cs)) :
    (queued_threads css cx).Perm (c.data :: queued_threads (css.set i cs) cx) := by
  unfold queued_threads items
  have := ((join_set_cons_perm h).append_right cx.flatten).map Cell.data
  simpa using this

theorem queued_threads_enqueue {css : List (List Cell)} (cx : List (List Cell)) {i : Nat}
    {cs : List Cell} (x : Cell) (h : css[i]? = some cs) :
    (queued_threads (css.set i (cs ++ [x])) cx).Perm (x.data :: queued_threads css cx) := by
  unfold queued_threads items
  have := ((join_set_append_perm x h).append_right cx.flatten).map Cell.data
  simpa using this

theorem queued_threads_wake {cx : List (List Cell)} (css : List (List Cell)) {i : Nat}
    {c : Cell} {cs : List Cell} (h : cx[i]? = some (c :: cs)) :
    (queued_threads css cx).Perm (c.data :: queued_threads css (cx.set i cs)) := by
  unfold queued_threads items
  have := (((join_set_cons_perm h).append_left css.flatten).trans List.perm_middle).map Cell.data
  simpa using this

theorem queued_threads_wait {cx : List (List Cell)} (css : List (List Cell)) {i : Nat}
    {cs : List Cell} (x : Cell) (h : cx[i]? = some cs) :
    (queued_threads css (cx.set i (cs ++ [x]))).Perm (x.data :: queued_threads css cx) := by
  unfold queued_threads items
  have := (((join_set_append_perm x h).append_left css.flatten).trans List.perm_middle).map
    Cell.data
  simpa using this

theorem keeps_refl (st : State) : Keeps st st := ⟨rfl, rfl, fun _ h => h⟩

theorem keeps_trans {a b c : State} (h1 : Keeps a b) (h2 : Keeps b c) : Keeps a c :=
  ⟨h2.stopped.trans h1.stopped, h2.idle.trans h1.idle, fun t h => h2.free t (h1.free t h)⟩

theorem keeps_write {st : State} {t : Ptr} {th : minithread} (rt : minithread)
    (ht : st.threads t = some th) :
    Keeps st { st with threads := write st.threads t rt } := by
  refine ⟨rfl, rfl, ?_⟩
  intro t' h'
  have hne : t' ≠ t := fun e => by rw [e, ht] at h'; cases h'
  show write st.threads t rt t' = none
  rw [write_other _ _ hne]
  exact h'

theorem switch_to_next_keeps {st st' : State} {res : Int} {t : Ptr}
    (h : switch_to_next st res t = some st') : Keeps st st' := by
  by_cases hres : res = -1
  · subst hres
    rw [switch_to_next_none] at h
    cases h
    exact ⟨rfl, rfl, fun _ h => h⟩
  · cases hth : st.threads t with
    | none => simp [switch_to_next, hres, hth] at h
    | some fr =>
      rw [switch_to_next_found hres hth] at h
      cases h
      exact ⟨rfl, rfl, fun _ h => h⟩

theorem stop_running_thread_keeps {st st' : State} (h : stop_running_thread st = some st') :
    Keeps st st' := by
  rw [stop_running_thread_eq] at h
  split at h
  · cases h
  · split at h
    · cases h
    · have hk := switch_to_next_keeps h
      exact ⟨hk.stopped, hk.idle, hk.free⟩

theorem yield_running_thread_keeps {st st' : State} {n : Ptr}
    (h : yield_running_thread st n = some st') : Keeps st st' := by
  unfold yield_running_thread at h
  split at h
  · cases h
  · split at h
    · cases h
    · dsimp only at h
      split at h
      · split at h
        · cases h
        · split at h
          · cases h
          · have hk := switch_to_next_keeps h
            exact ⟨hk.stopped, hk.idle, hk.free⟩
      · have hk := switch_to_next_keeps h
        exact ⟨hk.stopped, hk.idle, hk.free⟩

theorem minithread_start_keeps {st st' : State} {t n : Ptr}
    (h : minithread_start st t n = some st') : Keeps st st' := by
  cases hth : st.threads t with
  | none => simp [minithread_start, hth] at h
  | some th =>
    have hk := keeps_write { th with s := status.RUNNABLE } hth
    simp only [minithread_start, hth] at h
    split at h
    · cases h
      exact hk
    · split at h
      · cases h
      · cases h
        exact ⟨hk.stopped, hk.idle, hk.free⟩

theorem minithread_stop_keeps {st st' : State} (h : minithread_stop st = some st') :
    Keeps st st' := by
  unfold minithread_stop at h
  split at h
  · next rt qv hrt _ =>
    exact keeps_trans (keeps_write _ hrt) (stop_running_thread_keeps h)
  · cases h

theorem minithread_yield_keeps {st st' : State} {n : Ptr}
    (h : minithread_yield st n = some st') : Keeps st st' := by
  unfold minithread_yield at h
  split at h
  · next rt qv hrt _ =>
    split at h
    · exact keeps_trans (keeps_write _ hrt) (yield_running_thread_keeps h)
    · exact yield_running_thread_keeps h
  · cases h

theorem implement_scheduler_keeps {st st' : State} {n : Ptr}
    (h : implement_scheduler st n = some st') : Keeps st st' := by
  cases hrt : st.threads st.running_thread with
  | none => simp [implement_scheduler, hrt] at h
  | some rt =>
    cases hqv : table_get level_quantum_value st.curr_level with
    | none => simp [implement_scheduler, hrt, hqv] at h
    | some qv =>
      cases hmx : table_get level_max_quanta st.curr_level with
      | none => simp [implement_scheduler, hrt, hqv, hmx] at h
      | some mx =>
        rw [implement_scheduler_eq hrt hqv hmx] at h
        have hk : Keeps st (tick_account st rt qv mx) := by
          refine ⟨rfl, rfl, ?_⟩
          intro t' h'
          have hne : t' ≠ st.running_thread := fun e => by rw [e, hrt] at h'; cases h'
          show write st.threads st.running_thread _ t' = none
          rw [write_other _ _ hne]
          exact h'
        split at h
        · exact keeps_trans hk (yield_running_thread_keeps h)
        · cases h
          exact hk

/-- The queued threads after the scheduler has taken the next thread from the level
queues: the thread taken is no longer queued. -/
theorem queued_after_switch {css css' cx : List (List Cell)} {idle run' : Ptr}
    (hnd : (queued_threads css cx).Nodup) (hs : idle ∉ queued_threads css cx)
    (h : ((∀ cs ∈ css, cs = []) ∧ css' = css ∧ run' = idle) ∨
      ∃ k c cs, css[k]? = some (c :: cs) ∧ css' = css.set k cs ∧ run' = c.data) :
    (queued_threads css' cx).Nodup ∧ run' ∉ queued_threads css' cx ∧
      idle ∉ queued_threads css' cx ∧
      (∀ x, x ∈ queued_threads css' cx → x ∈ queued_threads css cx) ∧
      (run' = idle ∨ run' ∈ queued_threads css cx) := by
  rcases h with ⟨_, e1, e2⟩ | ⟨k, c, cs, hk, e1, e2⟩
  · subst e1 e2
    exact ⟨hnd, hs, hs, fun _ h => h, Or.inl rfl⟩
  · subst e1 e2
    have hp := queued_threads_dequeue cx hk
    have hnd' := (hp.nodup_iff).mp hnd
    rw [List.nodup_cons] at hnd'
    refine ⟨hnd'.2, hnd'.1, ?_, ?_, Or.inr (hp.mem_iff.mpr (List.mem_cons_self _ _))⟩
    · intro hmem
      exact hs (hp.mem_iff.mpr (List.mem_cons_of_mem _ hmem))
    · intro x hx
      exact hp.mem_iff.mpr (List.mem_cons_of_mem _ hx)

/-- A new record for the running thread with a level in range keeps the state well
formed. -/
theorem schedInv_write_running {st : State} {mq : multilevel_queue} {css : List (List Cell)}
    {qx : List queue} {cx : List (List Cell)} (hinv : SchedInv st mq css qx cx)
    {rt : minithread} (hl : 0 ≤ rt.level ∧ rt.level < MAX_LEVELS) :
    SchedInv { st with threads := write st.threads st.running_thread rt } mq css qx cx :=
  schedInv_congr hinv rfl rfl hinv.curr (by show write _ _ _ _ ≠ none; rw [write_same]; simp)
    (write_ne_none _ _ hinv.sched) (fun t ht => write_ne_none _ _ ht)
    (levels_write hinv.levels hl)

theorem null_write_running {st : State} (hrun : st.threads st.running_thread ≠ none)
    (hnull : st.threads NULL = none) (rt : minithread) :
    write st.threads st.running_thread rt NULL = none := by
  have hne : NULL ≠ st.running_thread := fun e => hrun (e ▸ hnull)
  rw [write_other _ _ hne]
  exact hnull

/-- The function `stop_running_thread` where no thread is queued twice and the scheduler
thread is not queued: afterwards the running thread is not queued either. -/
theorem stop_running_thread_queues {st st' : State} {mq : multilevel_queue}
    {css : List (List Cell)} {qx : List queue} {cx : List (List Cell)}
    (hinv : SchedInv st mq css qx cx) (hnull : st.threads NULL = none)
    (hnd : (queued_threads css cx).Nodup) (hs : st.scheduler_thread ∉ queued_threads css cx)
    (h : stop_running_thread st = some st') :
    ∃ mq' css', QueueInv st' mq' css' qx cx := by
  have hk := stop_running_thread_keeps h
  obtain ⟨res, t, h1, mq1, css1, hdq, hinv1, _, hcase⟩ := dequeue_next_inv hinv
  have ht : res ≠ -1 → st.threads t ≠ none := by
    rcases hcase with ⟨_, e, _⟩ | ⟨j, c, cs, _, _, _, _, et, hc, _⟩
    · intro hne
      exact absurd e hne
    · intro _
      rw [et]
      exact hc
  obtain ⟨st2, hsw, hinv2, _, _, _, hr1, hr2⟩ := switch_to_next_inv hinv1 res t ht
  have e : stop_running_thread st = some st2 := by
    rw [stop_running_thread_eq, hinv.rq]
    simp only [hdq]
    exact hsw
  rw [h] at e
  have e' : st' = st2 := Option.some.inj e
  subst e'
  have hsw : ((∀ cs ∈ css, cs = []) ∧ css1 = css ∧ st'.running_thread = st.scheduler_thread) ∨
      ∃ k c cs, css[k]? = some (c :: cs) ∧ css1 = css.set k cs ∧
        st'.running_thread = c.data := by
    rcases hcase with ⟨he, e, ec⟩ | ⟨j, c, cs, _, _, hc, hne, et, _, ec⟩
    · exact Or.inl ⟨he, ec, hr1 e⟩
    · exact Or.inr ⟨_, c, cs, hc, ec, et ▸ (hr2 hne).1⟩
  obtain ⟨nd1, run1, idle1, _, _⟩ := queued_after_switch hnd hs hsw
  exact ⟨mq1, css1, hinv2, hk.free NULL hnull, nd1, run1, hk.idle ▸ idle1⟩

/-- The function `minithread_stop` where no thread is queued twice and the scheduler thread
is not queued. -/
theorem minithread_stop_queues {st st' : State} {mq : multilevel_queue}
    {css : List (List Cell)} {qx : List queue} {cx : List (List Cell)}
    (hinv : SchedInv st mq css qx cx) (hnull : st.threads NULL = none)
    (hnd : (queued_threads css cx).Nodup) (hs : st.scheduler_thread ∉ queued_threads css cx)
    (h : minithread_stop st = some st') :
    ∃ mq' css', QueueInv st' mq' css' qx cx := by
  unfold minithread_stop at h
  split at h
  · next rt qv hrt _ =>
    exact stop_running_thread_queues
      (schedInv_write_running hinv (account_quantum_level rt qv hinv.curr (hinv.levels _ _ hrt)))
      (null_write_running hinv.running hnull _) hnd hs h
  · cases h

/-- The function `yield_running_thread` keeps the invariant: the caller is queued once,
the thread taken from the level queues runs. -/
theorem yield_running_thread_queues {st st' : State} {mq : multilevel_queue}
    {css : List (List Cell)} {qx : List queue} {cx : List (List Cell)}
    (hq : QueueInv st mq css qx cx) {n : Ptr} (hn0 : n ≠ NULL) (hn : st.nodes n = none)
    (h : yield_running_thread st n = some st') :
    ∃ mq' css', QueueInv st' mq' css' qx cx := by
  have hinv := hq.sched
  obtain ⟨rt, hrt⟩ := Option.ne_none_iff_exists'.mp hinv.running
  obtain ⟨st2, mq', css1, cs, hrun, hcase, hcs1, hinv', hthr, hsch, _⟩ :=
    yield_running_thread_spec hinv hrt hn0 hn
  rw [h] at hrun
  have e' : st' = st2 := Option.some.inj hrun
  subst e'
  have hsw : ((∀ cs ∈ css, cs = []) ∧ css1 = css ∧ st'.running_thread = st.scheduler_thread) ∨
      ∃ k c cs, css[k]? = some (c :: cs) ∧ css1 = css.set k cs ∧
        st'.running_thread = c.data := by
    rcases hcase with ⟨he, ec, er⟩ | ⟨j, c, cs', _, _, hc, ec, er, _⟩
    · exact Or.inl ⟨he, ec, er⟩
    · exact Or.inr ⟨_, c, cs', hc, ec, er⟩
  obtain ⟨nd1, run1, idle1, hsub, hrun'⟩ := queued_after_switch hq.nodup hq.idle hsw
  have hnull : st'.threads NULL = none := by rw [hthr]; exact hq.null
  by_cases hne : st.running_thread ≠ st.scheduler_thread
  · rw [if_pos hne] at hinv'
    have hp := queued_threads_enqueue cx
      { addr := n, data := st.running_thread, priority := 0 } hcs1
    have hold : st.running_thread ∉ queued_threads css1 cx := fun hm => hq.running (hsub _ hm)
    have hdiff : st'.running_thread ≠ st.running_thread := by
      rcases hrun' with e | hm
      · rw [e]
        exact Ne.symm hne
      · intro e
        exact hq.running (e ▸ hm)
    refine ⟨mq', _, hinv', hnull, ?_, ?_, ?_⟩
    · exact hp.nodup_iff.mpr (List.nodup_cons.mpr ⟨hold, nd1⟩)
    · intro hm
      rcases List.mem_cons.mp (hp.mem_iff.mp hm) with e | hm'
      · exact hdiff e
      · exact run1 hm'
    · rw [hsch]
      intro hm
      rcases List.mem_cons.mp (hp.mem_iff.mp hm) with e | hm'
      · exact hne e.symm
      · exact idle1 hm'
  · rw [if_neg hne] at hinv'
    exact ⟨mq', css1, hinv', hnull, nd1, run1, hsch ▸ idle1⟩

/-- A new record for the running thread with a level in range keeps the invariant. -/
theorem queueInv_write_running {st : State} {mq : multilevel_queue} {css : List (List Cell)}
    {qx : List queue} {cx : List (List Cell)} (hq : QueueInv st mq css qx cx)
    {rt : minithread} (hl : 0 ≤ rt.level ∧ rt.level < MAX_LEVELS) :
    QueueInv { st with threads := write st.threads st.running_thread rt } mq css qx cx :=
  ⟨schedInv_write_running hq.sched hl, null_write_running hq.sched.running hq.null _,
    hq.nodup, hq.running, hq.idle⟩

/-- The function `minithread_yield` keeps the invariant. -/
theorem minithread_yield_queues {st st' : State} {mq : multilevel_queue}
    {css : List (List Cell)} {qx : List queue} {cx : List (List Cell)}
    (hq : QueueInv st mq css qx cx) {n : Ptr} (hn0 : n ≠ NULL) (hn : st.nodes n = none)
    (h : minithread_yield st n = some st') :
    ∃ mq' css', QueueInv st' mq' css' qx cx := by
  unfold minithread_yield at h
  split at h
  · next rt qv hrt _ =>
    split at h
    · exact yield_running_thread_queues
        (queueInv_write_running hq (next_level_range hq.sched.curr)) hn0 hn h
    · exact yield_running_thread_queues hq hn0 hn h
  · cases h

/-- The scheduling step of a clock tick keeps the invariant. -/
theorem implement_scheduler_queues {st st' : State} {mq : multilevel_queue}
    {css : List (List Cell)} {qx : List queue} {cx : List (List Cell)}
    (hq : QueueInv st mq css qx cx) {n : Ptr} (hn0 : n ≠ NULL) (hn : st.nodes n = none)
    (h : implement_scheduler st n = some st') :
    ∃ mq' css', QueueInv st' mq' css' qx cx := by
  cases hrt : st.threads st.running_thread with
  | none => simp [implement_scheduler, hrt] at h
  | some rt =>
    cases hqv : table_get level_quantum_value st.curr_level with
    | none => simp [implement_scheduler, hrt, hqv] at h
    | some qv =>
      cases hmx : table_get level_max_quanta st.curr_level with
      | none => simp [implement_scheduler, hrt, hqv, hmx] at h
      | some mx =>
        rw [implement_scheduler_eq hrt hqv hmx] at h
        have hq1 : QueueInv (tick_account st rt qv mx) mq css qx cx :=
          ⟨tick_account_inv hq.sched hrt qv mx,
            null_write_running hq.sched.running hq.null _, hq.nodup, hq.running, hq.idle⟩
        split at h
        · exact yield_running_thread_queues hq1 hn0 hn h
        · cases h
          exact ⟨mq, css, hq1⟩

/-- Every queued thread has a thread record. -/
theorem queued_threads_alloc {st : State} {mq : multilevel_queue} {css : List (List Cell)}
    {qx : List queue} {cx : List (List Cell)} (hinv : SchedInv st mq css qx cx) :
    ∀ x ∈ queued_threads css cx, st.threads x ≠ none := by
  intro x hx
  unfold queued_threads items at hx
  obtain ⟨c, hc, e⟩ := List.mem_map.mp hx
  subst e
  rcases List.mem_append.mp hc with h1 | h1
  · obtain ⟨cs, hcs, hm⟩ := List.mem_flatten.mp h1
    exact hinv.queued cs (List.mem_append_left _ hcs) c hm
  · obtain ⟨cs, hcs, hm⟩ := List.mem_flatten.mp h1
    exact hinv.queued cs (List.mem_append_right _ hcs) c hm

/-- The function `minithread_start` on a thread that is neither queued nor running keeps
the invariant. -/
theorem minithread_start_queues {st st' : State} {mq : multilevel_queue}
    {css : List (List Cell)} {qx : List queue} {cx : List (List Cell)}
    (hq : QueueInv st mq css qx cx) {t : Ptr} (ht : t ∉ queued_threads css cx)
    (htr : t ≠ st.running_thread) (hts : t ≠ st.scheduler_thread) {n : Ptr} (hn0 : n ≠ NULL)
    (hn : st.nodes n = none) (h : minithread_start st t n = some st') :
    ∃ mq' css', QueueInv st' mq' css' qx cx := by
  have hk := minithread_start_keeps h
  obtain ⟨_, hr, hs, th, hth⟩ := minithread_start_fields h
  obtain ⟨st2, mq', cs, hrun, hcs, hinv', _, _⟩ := minithread_start_inv hq.sched hth hn0 hn
  rw [h] at hrun
  have e' : st' = st2 := Option.some.inj hrun
  subst e'
  have hp := queued_threads_enqueue cx { addr := n, data := t, priority := 0 } hcs
  refine ⟨mq', _, hinv', hk.free NULL hq.null, ?_, ?_, ?_⟩
  · exact hp.nodup_iff.mpr (List.nodup_cons.mpr ⟨ht, hq.nodup⟩)
  · rw [hr]
    intro hm
    rcases List.mem_cons.mp (hp.mem_iff.mp hm) with e | hm'
    · exact htr e.symm
    · exact hq.running hm'
  · rw [hs]
    intro hm
    rcases List.mem_cons.mp (hp.mem_iff.mp hm) with e | hm'
    · exact hts e.symm
    · exact hq.idle hm'

/-- The function `minithread_create` keeps the invariant. -/
theorem minithread_create_queues {st : State} {mq : multilevel_queue}
    {css : List (List Cell)} {qx : List queue} {cx : List (List Cell)}
    (hq : QueueInv st mq css qx cx) (m : Ptr) (s0 : status) :
    QueueInv (minithread_create st m s0).2 mq css qx cx := by
  have hinv := hq.sched
  by_cases h0 : m = NULL
  · have e : minithread_create st m s0 = (NULL, st) := by simp [minithread_create, h0]
    rw [e]
    exact hq
  · have e : minithread_create st m s0 = (m, { st with
        threads := write st.threads m
          { id := st.minithreads_count, s := s0, level := 0, quanta := 0 },
        minithreads_count := st.minithreads_count + 1 }) := by
      simp [minithread_create, h0]
    rw [e]
    refine ⟨?_, ?_, hq.nodup, hq.running, hq.idle⟩
    · exact schedInv_congr hinv rfl rfl hinv.curr (write_ne_none _ _ hinv.running)
        (write_ne_none _ _ hinv.sched) (fun t ht => write_ne_none _ _ ht)
        (levels_write hinv.levels ⟨le_refl _, by simp [MAX_LEVELS]⟩)
    · show write st.threads m _ NULL = none
      rw [write_other _ _ (Ne.symm h0)]
      exact hq.null

/-- The function `minithread_fork` keeps the invariant: the new thread is queued once. -/
theorem minithread_fork_queues {st st' : State} {mq : multilevel_queue}
    {css : List (List Cell)} {qx : List queue} {cx : List (List Cell)}
    (hq : QueueInv st mq css qx cx) {m : Ptr} (hm : st.threads m = none) {s0 : status}
    {n t : Ptr} (hn0 : n ≠ NULL) (hn : st.nodes n = none)
    (h : minithread_fork st m s0 n = some (t, st')) :
    (∃ mq' css', QueueInv st' mq' css' qx cx) ∧ st'.stopped_queue = st.stopped_queue := by
  have hq1 := minithread_create_queues hq m s0
  unfold minithread_fork at h
  by_cases h0 : m = NULL
  · have e : minithread_create st m s0 = (NULL, st) := by simp [minithread_create, h0]
    rw [e] at h hq1
    simp only [if_true] at h
    cases h
    exact ⟨⟨mq, css, hq1⟩, rfl⟩
  · have e : minithread_create st m s0 = (m, { st with
        threads := write st.threads m
          { id := st.minithreads_count, s := s0, level := 0, quanta := 0 },
        minithreads_count := st.minithreads_count + 1 }) := by
      simp [minithread_create, h0]
    rw [e] at h hq1
    simp only [h0, if_false] at h
    split at h
    · cases h
    · next st2 hst2 =>
      cases h
      have hal := queued_threads_alloc hq.sched
      refine ⟨minithread_start_queues hq1 (fun hmem => hal m hmem hm) ?_ ?_ hn0 hn hst2,
        (minithread_start_keeps hst2).stopped⟩
      · exact fun e => hq.sched.running (e ▸ hm)
      · exact fun e => hq.sched.sched (e ▸ hm)

/-- A further, empty queue next to represented queues. -/
theorem repAll_concat_empty {h : NodeHeap} {qs : List queue} {css : List (List Cell)}
    (hall : RepAll h qs css) : RepAll h (qs ++ [queue_new]) (css ++ [[]]) := by
  have hlast : ∀ (k : Nat) (cs : List Cell), css.length ≤ k → (css ++ [[]])[k]? = some cs →
      cs = [] := by
    intro k cs hk hcs
    rw [List.getElem?_append_right hk] at hcs
    cases hd : k - css.length with
    | zero =>
      rw [hd] at hcs
      exact (Option.some.inj hcs).symm
    | succ d =>
      rw [hd] at hcs
      cases hcs
  refine ⟨by simp [hall.length], ?_, ?_⟩
  · intro i q cs hq hcs
    by_cases hi : i < qs.length
    · rw [List.getElem?_append_left hi] at hq
      rw [List.getElem?_append_left (hall.length ▸ hi)] at hcs
      exact hall.rep i q cs hq hcs
    · have hi' : css.length ≤ i := by rw [← hall.length]; omega
      have ecs := hlast i cs hi' hcs
      rw [List.getElem?_append_right (by omega)] at hq
      cases hd : i - qs.length with
      | zero =>
        rw [hd] at hq
        rw [ecs, ← Option.some.inj hq]
        exact rep_new h
      | succ d =>
        rw [hd] at hq
        cases hq
  · intro i j a b hij ha hb x hx hxb
    by_cases hi : i < css.length
    · by_cases hj : j < css.length
      · rw [List.getElem?_append_left hi] at ha
        rw [List.getElem?_append_left hj] at hb
        exact hall.disjoint i j a b hij ha hb x hx hxb
      · have eb := hlast j b (by omega) hb
        rw [eb] at hxb
        cases hxb
    · have ea := hlast i a (by omega) ha
      rw [ea] at hx
      cases hx

/-- A new semaphore, whose wait list is empty, keeps the invariant. -/
theorem queueInv_new_semaphore {st : State} {mq : multilevel_queue} {css : List (List Cell)}
    {qx : List queue} {cx : List (List Cell)} (hq : QueueInv st mq css qx cx) :
    QueueInv st mq css (qx ++ [queue_new]) (cx ++ [[]]) := by
  have hinv := hq.sched
  have hrep : MRepX st.nodes mq css (qx ++ [queue_new]) (cx ++ [[]]) := by
    refine ⟨hinv.rep.levels, hinv.rep.length, ?_⟩
    rw [← List.append_assoc, ← List.append_assoc]
    exact repAll_concat_empty hinv.rep.all
  have e : queued_threads css (cx ++ [[]]) = queued_threads css cx := by
    simp [queued_threads]
  refine ⟨⟨hinv.rq, hinv.four, hrep, hinv.curr, hinv.running, hinv.sched, ?_, hinv.levels⟩,
    hq.null, e ▸ hq.nodup, e ▸ hq.running, e ▸ hq.idle⟩
  intro cs hcs c hc
  rw [← List.append_assoc] at hcs
  rcases List.mem_append.mp hcs with h1 | h1
  · exact hinv.queued cs h1 c hc
  · rw [List.mem_singleton.mp h1] at hc
    cases hc

/-- The wait lists are as many as their contents. -/
theorem mrepx_extra_length {h : NodeHeap} {mq : multilevel_queue} {css : List (List Cell)}
    {qx : List queue} {cx : List (List Cell)} (hm : MRepX h mq css qx cx) :
    qx.length = cx.length := by
  have h1 := hm.all.length
  have h2 := hm.length
  simp only [List.length_append] at h1
  omega

/-- The representation of one of the further queues. -/
theorem mrepx_extra_rep {h : NodeHeap} {mq : multilevel_queue} {css : List (List Cell)}
    {qx : List queue} {cx : List (List Cell)} (hm : MRepX h mq css qx cx) {i : Nat}
    {q : queue} {ws : List Cell} (hq : qx[i]? = some q) (hw : cx[i]? = some ws) :
    Rep h q ws := by
  have hq' : (mq.level_queues ++ qx)[css.length + i]? = some q := by
    rw [← hm.length, List.getElem?_append_right (by omega)]
    simpa using hq
  have hw' : (css ++ cx)[css.length + i]? = some ws := by
    rw [List.getElem?_append_right (by omega)]
    simpa using hw
  exact hm.all.rep _ q ws hq' hw'

/-- Other nodes and other contents of the further queues keep the state well formed, as
long as the queued items are threads. -/
theorem schedInv_extras {st : State} {mq : multilevel_queue} {css : List (List Cell)}
    {qx : List queue} {cx : List (List Cell)} (hinv : SchedInv st mq css qx cx)
    {h' : NodeHeap} {qx' : List queue} {cx' : List (List Cell)}
    (hrep : MRepX h' mq css qx' cx')
    (hqd : ∀ cs ∈ cx', ∀ c ∈ cs, st.threads c.data ≠ none) :
    SchedInv { st with nodes := h' } mq css qx' cx' := by
  refine ⟨hinv.rq, hinv.four, hrep, hinv.curr, hinv.running, hinv.sched, ?_, hinv.levels⟩
  intro cs hcs c hc
  rcases List.mem_append.mp hcs with h1 | h1
  · exact hinv.queued cs (List.mem_append_left _ h1) c hc
  · exact hqd cs h1 c hc

/-- The function `semaphore_P`, called by a thread other than the scheduler thread, keeps
the invariant: a caller that has to wait is queued once, in the wait list. -/
theorem semaphore_P_queues {st st' : State} {mq : multilevel_queue} {css : List (List Cell)}
    {qx : List queue} {cx : List (List Cell)} (hq : QueueInv st mq css qx cx) {i : Nat}
    {sem sem' : semaphore} (hi : qx[i]? = some sem.wait_list)
    (hne : st.running_thread ≠ st.scheduler_thread) {n : Ptr} (hn0 : n ≠ NULL)
    (hn : st.nodes n = none) {b : Option Ptr} (h : semaphore_P st sem n = some (st', b, sem')) :
    (∃ mq' css' cx', QueueInv st' mq' css' (qx.set i sem'.wait_list) cx') ∧
      st'.stopped_queue = st.stopped_queue := by
  have hinv := hq.sched
  by_cases hneg : sem.count - 1 < 0
  · obtain ⟨ws, hw⟩ := getElem?_of_lt
      (show i < cx.length by rw [← mrepx_extra_length hinv.rep]; exact getElem?_lt hi)
    obtain ⟨h', q', happ, hrep, _⟩ :=
      mrepx_extra_append_at hinv.rep hi hw (minithread_self st) hn0 hn
    simp only [semaphore_P, hneg, if_true, happ] at h
    split at h
    · cases h
    · next st2 hst2 =>
      cases h
      have hinv1 : SchedInv { st with nodes := h' } mq css (qx.set i q')
          (cx.set i (ws ++ [{ addr := n, data := minithread_self st, priority := 0 }])) := by
        refine schedInv_extras hinv hrep ?_
        intro cs hcs c hc
        rcases mem_of_mem_set hcs with h1 | h1
        · exact hinv.queued cs (List.mem_append_right _ h1) c hc
        · rw [h1] at hc
          rcases List.mem_append.mp hc with h2 | h2
          · exact hinv.queued ws (List.mem_append_right _ (List.mem_iff_getElem?.mpr ⟨i, hw⟩))
              c h2
          · rw [List.mem_singleton.mp h2]
            exact hinv.running
      have hp := queued_threads_wait css
        { addr := n, data := minithread_self st, priority := 0 } hw
      have hnd := hp.nodup_iff.mpr (List.nodup_cons.mpr ⟨hq.running, hq.nodup⟩)
      have hs : st.scheduler_thread ∉ queued_threads css
          (cx.set i (ws ++ [{ addr := n, data := minithread_self st, priority := 0 }])) := by
        intro hm
        rcases List.mem_cons.mp (hp.mem_iff.mp hm) with e | hm'
        · exact hne e.symm
        · exact hq.idle hm'
      obtain ⟨mq', css', hq'⟩ := minithread_stop_queues hinv1 hq.null hnd hs hst2
      exact ⟨⟨mq', css', _, hq'⟩, (minithread_stop_keeps hst2).stopped⟩
  · simp only [semaphore_P, hneg, if_false] at h
    cases h
    refine ⟨⟨mq, css, cx, ?_⟩, rfl⟩
    rw [set_getElem?_self _ _ _ hi]
    exact hq

/-- The function `semaphore_V` keeps the invariant: a thread that is woken leaves the wait
list and is queued once, in a level queue. -/
theorem semaphore_V_queues {st st' : State} {mq : multilevel_queue} {css : List (List Cell)}
    {qx : List queue} {cx : List (List Cell)} (hq : QueueInv st mq css qx cx) {i : Nat}
    {sem sem' : semaphore} (hi : qx[i]? = some sem.wait_list) {n : Ptr} (hn0 : n ≠ NULL)
    (hn : st.nodes n = none) {w : Option Ptr} (h : semaphore_V st sem n = some (st', w, sem')) :
    (∃ mq' css' cx', QueueInv st' mq' css' (qx.set i sem'.wait_list) cx') ∧
      st'.stopped_queue = st.stopped_queue := by
  have hinv := hq.sched
  by_cases hneg : sem.count + 1 ≤ 0
  · obtain ⟨ws, hw⟩ := getElem?_of_lt
      (show i < cx.length by rw [← mrepx_extra_length hinv.rep]; exact getElem?_lt hi)
    cases ws with
    | nil =>
      have hrep := mrepx_extra_rep hinv.rep hi hw
      have hf : sem.wait_list.front = NULL := hrep.chain
      simp [semaphore_V, hneg, queue_dequeue, hf, minithread_start, hq.null] at h
    | cons c wsr =>
      obtain ⟨wl', hdq, hrep1⟩ := mrepx_extra_dequeue_at hinv.rep hi hw
      simp only [semaphore_V, hneg, if_true, hdq] at h
      split at h
      · cases h
      · next st2 hst2 =>
        cases h
        have hinv1 : SchedInv { st with nodes := release st.nodes c.addr } mq css
            (qx.set i wl') (cx.set i wsr) := by
          refine schedInv_extras hinv hrep1 ?_
          intro cs hcs c' hc
          rcases mem_of_mem_set hcs with h1 | h1
          · exact hinv.queued cs (List.mem_append_right _ h1) c' hc
          · rw [h1] at hc
            exact hinv.queued (c :: wsr)
              (List.mem_append_right _ (List.mem_iff_getElem?.mpr ⟨i, hw⟩)) c'
              (List.mem_cons_of_mem _ hc)
        have hp := queued_threads_wake css hw
        have hnd := hp.nodup_iff.mp hq.nodup
        rw [List.nodup_cons] at hnd
        have hsub : ∀ x, x ∈ queued_threads css (cx.set i wsr) → x ∈ queued_threads css cx :=
          fun x hx => hp.mem_iff.mpr (List.mem_cons_of_mem _ hx)
        have hc : c.data ∈ queued_threads css cx := hp.mem_iff.mpr (List.mem_cons_self _ _)
        have hq1 : QueueInv { st with nodes := release st.nodes c.addr } mq css
            (qx.set i wl') (cx.set i wsr) :=
          ⟨hinv1, hq.null, hnd.2, fun hm => hq.running (hsub _ hm),
            fun hm => hq.idle (hsub _ hm)⟩
        have hn' : release st.nodes c.addr n = none := by
          unfold release
          split
          · rfl
          · exact hn
        obtain ⟨mq', css', hq'⟩ := minithread_start_queues hq1 hnd.1
          (fun e => hq.running (e ▸ hc)) (fun e => hq.idle (e ▸ hc)) hn0 hn' hst2
        exact ⟨⟨mq', css', _, hq'⟩, (minithread_start_keeps hst2).stopped⟩
  · simp only [semaphore_V, hneg, if_false] at h
    cases h
    refine ⟨⟨mq, css, cx, ?_⟩, rfl⟩
    rw [set_getElem?_self _ _ _ hi]
    exact hq

/-- The state `minithread_system_initialize` leaves satisfies the invariant, and the
stopped queue is empty. -/
theorem queueInv_boot {sched : Ptr} {s0 : status} {q0 : Int} {reaper : Ptr} {s1 : status}
    {main : Ptr} {s2 : status} {n : Ptr} {st : State} (hs0 : sched ≠ NULL)
    (hsm : sched ≠ main) (hrm : reaper ≠ main) (hn0 : n ≠ NULL)
    (h : minithread_system_initialize state_null sched s0 q0 reaper s1 main s2 n = some st) :
    (∃ mq css, QueueInv st mq css [] []) ∧ st.stopped_queue = some queue_new := by
  obtain ⟨st3, hst3⟩ : ∃ st3 : State, st3 =
      { state_null with
        runnable_queue := some mlq_boot, stopped_queue := some queue_new,
        threads := write state_null.threads sched
          { id := state_null.minithreads_count, s := s0, level := 0, quanta := q0 },
        minithreads_count := state_null.minithreads_count + 1,
        scheduler_thread := sched, running_thread := sched,
        alarm_queue := some queue_new } := ⟨_, rfl⟩
  have hq3 : QueueInv st3 mlq_boot [[], [], [], []] [] [] := by
    subst hst3
    refine ⟨⟨rfl, rfl, ⟨by decide, rfl, repAll_empty _ rfl ?_ ?_⟩,
      (show (0 : Int) ≤ 0 ∧ (0 : Int) < MAX_LEVELS from ⟨le_refl _, by simp [MAX_LEVELS]⟩),
      ?_, ?_, ?_, ?_⟩, ?_, ?_, ?_, ?_⟩
    · intro q hq
      simp only [mlq_boot, List.append_nil, List.mem_cons, List.mem_singleton,
        List.not_mem_nil, or_false] at hq
      rcases hq with e | e | e | e <;> exact e
    · intro cs hcs
      simp only [List.append_nil, List.mem_cons, List.mem_singleton, List.not_mem_nil,
        or_false] at hcs
      rcases hcs with e | e | e | e <;> exact e
    · show write _ sched _ sched ≠ none
      rw [write_same]; simp
    · show write _ sched _ sched ≠ none
      rw [write_same]; simp
    · intro cs hcs c hc
      simp only [List.append_nil, List.mem_cons, List.mem_singleton, List.not_mem_nil,
        or_false] at hcs
      rcases hcs with e | e | e | e <;> rw [e] at hc <;> cases hc
    · exact levels_write (fun t th ht => by cases ht) ⟨le_refl _, by simp [MAX_LEVELS]⟩
    · show write state_null.threads sched _ NULL = none
      rw [write_other _ _ (Ne.symm hs0)]
      rfl
    · simp [queued_threads, items]
    · simp [queued_threads, items]
    · simp [queued_threads, items]
  have hthr3 : ∀ t, t ≠ sched → st3.threads t = none := by
    intro t ht
    subst hst3
    show write state_null.threads sched _ t = none
    rw [write_other _ _ ht]
    rfl
  have hnodes3 : st3.nodes n = none := by subst hst3; rfl
  have hstop3 : st3.stopped_queue = some queue_new := by subst hst3; rfl
  have hq4 := minithread_create_queues hq3 reaper s1
  have hnodes4 : (minithread_create st3 reaper s1).2.nodes = st3.nodes := by
    unfold minithread_create
    split <;> rfl
  have hstop4 : (minithread_create st3 reaper s1).2.stopped_queue = st3.stopped_queue := by
    unfold minithread_create
    split <;> rfl
  have hq5 : QueueInv
      { (minithread_create st3 reaper s1).2 with
        reaper_thread := (minithread_create st3 reaper s1).1 } mlq_boot [[], [], [], []] [] [] :=
    ⟨schedInv_congr hq4.sched rfl rfl hq4.sched.curr hq4.sched.running hq4.sched.sched
      (fun _ ht => ht) hq4.sched.levels, hq4.null, hq4.nodup, hq4.running, hq4.idle⟩
  have hthr5 : (minithread_create st3 reaper s1).2.threads main = none := by
    unfold minithread_create
    split
    · exact hthr3 main (Ne.symm hsm)
    · show write st3.threads reaper _ main = none
      rw [write_other _ _ (Ne.symm hrm)]
      exact hthr3 main (Ne.symm hsm)
  have hinit : minithread_system_initialize state_null sched s0 q0 reaper s1 main s2 n =
      match minithread_fork { (minithread_create st3 reaper s1).2 with
          reaper_thread := (minithread_create st3 reaper s1).1 } main s2 n with
      | none => none
      | some (_, st5) => some st5 := by
    subst hst3
    simp only [ minithread_system_initialize, scheduler_thread_create, hs0, if_false]
    rfl
  rw [hinit] at h
  split at h
  · cases h
  · next t st5 hfork =>
    cases h
    obtain ⟨hq', hs⟩ := minithread_fork_queues hq5 hthr5 hn0 (hnodes4 ▸ hnodes3) hfork
    exact ⟨hq', hs.trans (hstop4.trans hstop3)⟩

/-- Every reachable state of scheduler and semaphores satisfies the invariant, with an
empty stopped queue. -/
theorem sysReach_inv {st : State} {sems : List semaphore} (hr : SysReach st sems) :
    ∃ mq css wss, QueueInv st mq css (sems.map semaphore.wait_list) wss ∧
      st.stopped_queue = some queue_new := by
  induction hr with
  | boot sched s0 q0 reaper s1 main s2 n st hs0 _ hsm hrm hn0 h =>
    obtain ⟨⟨mq, css, hq⟩, hst⟩ := queueInv_boot hs0 hsm hrm hn0 h
    exact ⟨mq, css, [], hq, hst⟩
  | create st sems cnt _ ih =>
    obtain ⟨mq, css, wss, hq, hst⟩ := ih
    refine ⟨mq, css, wss ++ [[]], ?_, hst⟩
    rw [List.map_append]
    exact queueInv_new_semaphore hq
  | fork st sems m s0 n t st' _ hm hn0 hn h ih =>
    obtain ⟨mq, css, wss, hq, hst⟩ := ih
    obtain ⟨⟨mq', css', hq'⟩, hs⟩ := minithread_fork_queues hq hm hn0 hn h
    exact ⟨mq', css', wss, hq', hs.trans hst⟩
  | yield st sems n st' _ hn0 hn h ih =>
    obtain ⟨mq, css, wss, hq, hst⟩ := ih
    obtain ⟨mq', css', hq'⟩ := minithread_yield_queues hq hn0 hn h
    exact ⟨mq', css', wss, hq', (minithread_yield_keeps h).stopped.trans hst⟩
  | stop st sems st' _ h ih =>
    obtain ⟨mq, css, wss, hq, hst⟩ := ih
    obtain ⟨mq', css', hq'⟩ := minithread_stop_queues hq.sched hq.null hq.nodup hq.idle h
    exact ⟨mq', css', wss, hq', (minithread_stop_keeps h).stopped.trans hst⟩
  | tick st sems n st' _ hn0 hn h ih =>
    obtain ⟨mq, css, wss, hq, hst⟩ := ih
    obtain ⟨mq', css', hq'⟩ := implement_scheduler_queues hq hn0 hn h
    exact ⟨mq', css', wss, hq', (implement_scheduler_keeps h).stopped.trans hst⟩
  | P st sems i sem n st' b sem' _ hi hne hn0 hn h ih =>
    obtain ⟨mq, css, wss, hq, hst⟩ := ih
    have hi' : (sems.map semaphore.wait_list)[i]? = some sem.wait_list := by
      rw [List.getElem?_map, hi]
      rfl
    obtain ⟨⟨mq', css', cx', hq'⟩, hs⟩ := semaphore_P_queues hq hi' hne hn0 hn h
    refine ⟨mq', css', cx', ?_, hs.trans hst⟩
    rw [List.map_set]
    exact hq'
  | V st sems i sem n st' w sem' _ hi hn0 hn h ih =>
    obtain ⟨mq, css, wss, hq, hst⟩ := ih
    have hi' : (sems.map semaphore.wait_list)[i]? = some sem.wait_list := by
      rw [List.getElem?_map, hi]
      rfl
    obtain ⟨⟨mq', css', cx', hq'⟩, hs⟩ := semaphore_V_queues hq hi' hn0 hn h
    refine ⟨mq', css', cx', ?_, hs.trans hst⟩
    rw [List.map_set]
    exact hq'

/-- The example: after the main thread has blocked in `semaphore_P`, thread 103 runs, the
main thread 102 is in the wait list and the level queues are empty; after `semaphore_V`
the main thread is in the queue of level 1, the wait list is empty and the count is 0. -/
theorem state_woken_eval :
    (state_blocked.running_thread, sem_blocked.count,
      queue_items 4 state_blocked.nodes sem_blocked.wait_list,
      state_blocked.runnable_queue.map (fun mq => mq.level_queues.map queue_length),
      state_woken.running_thread, sem_woken.count,
      queue_items 4 state_woken.nodes sem_woken.wait_list,
      state_woken.runnable_queue.map (fun mq =>
        mq.level_queues.map (queue_items 4 state_woken.nodes))) =
    (103, -1, some [102], some [0, 0, 0, 0], 103, 0, some [],
      some [some [], some [102], some [], some []]) := by
  rfl

theorem sysReach_state_woken : SysReach state_woken [sem_woken] :=
  SysReach.V state_blocked [sem_blocked] 0 sem_blocked 7 state_woken (some 102) sem_woken
    (SysReach.P state_forked [ semaphore_initialize 0] 0 ( semaphore_initialize 0) 6
      state_blocked (some 102) sem_blocked
      (SysReach.fork state_main [ semaphore_initialize 0] 103 status.RUNNABLE 5 103
        state_forked
        (SysReach.create state_main [] 0
          (SysReach.yield state_init [] 2 state_main
            (SysReach.boot 100 status.RUNNABLE 0 101 status.RUNNABLE 102 status.RUNNABLE 1
              state_init (by decide) (by decide) (by decide) (by decide) (by decide) rfl)
            (by decide) rfl rfl))
        rfl (by decide) rfl rfl)
      rfl (by decide) (by decide) rfl rfl)
    rfl (by decide) rfl rfl

/-- Why `semaphore_P` is left to threads other than the scheduler thread: were the
scheduler thread 100 to wait on a semaphore, it would run again as soon as the level queues
are empty, still in the wait list, and the next `semaphore_V` would queue it on a level
while it runs. -/
theorem scheduler_thread_waiting_eval :
    (state_init.running_thread,
      idle_wait_run.map (fun r => (r.1.running_thread, queue_items 4 r.1.nodes r.2.2.wait_list)),
      state_idle_waits.running_thread,
      idle_woken_run.map (fun r => (r.1.running_thread, r.1.scheduler_thread,
        r.1.runnable_queue.map (fun mq =>
          mq.level_queues.map (queue_items 4 r.1.nodes))))) =
    (100, some (102, some [100]), 100,
      some (100, 100, some [some [], some [100], some [], some []])) := by
  rfl

/-- C23: in every state reachable from `minithread_system_initialize` by creating
semaphores, by `minithread_fork`, `minithread_yield`, `minithread_stop`, the scheduling
step of a clock tick, and `semaphore_P` / `semaphore_V` (with `semaphore_P` called by
threads other than the scheduler thread, which only yields), the level queues of the
runnable queue, the wait lists of the semaphores and the stopped queue are queues of the
node heap holding the nodes `css`, `wss` and `scs`; no thread appears twice among the
items of all these queues taken together, and the running thread is in no level queue. -/
theorem no_thread_queued_twice {st : State} {sems : List semaphore} (hr : SysReach st sems) :
    ∃ mq css wss sq scs, st.runnable_queue = some mq ∧ st.stopped_queue = some sq ∧
      MRepX st.nodes mq css (sems.map semaphore.wait_list) wss ∧ Rep st.nodes sq scs ∧
      (items (css.flatten ++ wss.flatten ++ scs)).Nodup ∧
      st.running_thread ∉ items css.flatten := by
  obtain ⟨mq, css, wss, hq, hst⟩ := sysReach_inv hr
  refine ⟨mq, css, wss, queue_new, [], hq.sched.rq, hst, hq.sched.rep, rep_new _, ?_, ?_⟩
  · rw [List.append_nil]
    exact hq.nodup
  · intro hm
    apply hq.running
    unfold queued_threads items at *
    rw [List.map_append]
    exact List.mem_append_left _ hm

/-- C23 on an example: the state in which thread 103 has woken the main thread. -/
theorem no_thread_queued_twice_witness :
    SysReach state_woken [sem_woken] ∧
    ∃ mq css wss sq scs, state_woken.runnable_queue = some mq ∧
      state_woken.stopped_queue = some sq ∧
      MRepX state_woken.nodes mq css ([sem_woken].map semaphore.wait_list) wss ∧
      Rep state_woken.nodes sq scs ∧
      (items (css.flatten ++ wss.flatten ++ scs)).Nodup ∧
      state_woken.running_thread ∉ items css.flatten :=
  ⟨sysReach_state_woken, no_thread_queued_twice sysReach_state_woken⟩

/-! ## Thread ids -/

/-- C16 (defect). `minisocket_client_create` declares `minisocket_error s_error;` without
a value, `send_control_message` writes it only when the transmission fails, and the
loop tests `s_error == SOCKET_OUTOFMEMORY` after every SYN.  With `SOCKET_OUTOFMEMORY` in
the variable and no packet ever received, the set-up reaches the loop as usual, the first
SYN is handed to the network and leaves `s_error` as it was, and the function takes the
out-of-memory exit at once: no alarm is registered and nothing is waited for; the exit
frees the socket and then reads its `local_port`, so the call has no defined result.  With
`SOCKET_NOERROR` in the variable the same handshake registers the eight alarms. -/
theorem minisocket_client_create_stale_error :
    client_setup net_boot (some 5) 80 client_oracle_stale = some (Sum.inr net_syn) ∧
    ((send_control_message net_syn msg_t.MSG_SYN 80 5 32768 0 0 client_oracle_stale.s_error
        quiet_round.syn).2,
      (send_control_message net_syn msg_t.MSG_SYN 80 5 32768 0 0 client_oracle_stale.s_error
        quiet_round.syn).1.sent.map
        (fun p => (p.1, p.2.1.message_type, p.2.1.destination_port, p.2.1.source_port))) =
      (minisocket_error.SOCKET_OUTOFMEMORY, [(5, msg_t.MSG_SYN, 80, 32768)]) ∧
    ((minisocket_free 3 net_syn 60 no_wait 9).bind
        (fun net => sem_P net net.ports_mutex no_wait)).map
      (fun net => (net.sockets 60).isNone) = some true ∧
    minisocket_client_create 3 net_boot (some 5) 80 minisocket_error.SOCKET_NOERROR
      client_oracle_stale = none ∧
    (minisocket_client_create 3 net_boot (some 5) 80 minisocket_error.SOCKET_NOERROR
      (client_oracle (List.replicate 8 quiet_round))).map (fun r => r.2.2.2) =
      some [100, 200, 400, 800, 1600, 3200, 6400, 12800] := by
  refine ⟨?_, ?_, ?_, ?_, ?_⟩ <;> rfl

/-! ## Datagrams that the ingress path drops -/

/-- Every datagram-protocol packet that consists of the header alone, and every one of
more than `MAX_NETWORK_PKT_SIZE` bytes, is dropped by the ingress path whatever its
destination port: the packet is freed and nothing else changes, in particular no port,
queue or semaphore. -/
theorem network_handler_drops_header_only {fuel : Nat} {k : Consts} {net : Net} {arg : Ptr}
    {pkt : network_interrupt_arg} (o : Ingress) (ha : arg ≠ NULL)
    (hpkt : net.packets arg = some pkt)
    (hproto : pkt.header.protocol = protocol_t.PROTOCOL_MINIDATAGRAM)
    (hsz : pkt.size = k.mini_header_size ∨ k.MAX_NETWORK_PKT_SIZE < pkt.size) :
    network_handler fuel k net arg o = some (free_packet net arg) ∧
      (free_packet net arg).st = net.st ∧ (free_packet net arg).sems = net.sems ∧
      (free_packet net arg).miniports = net.miniports ∧
      (free_packet net arg).unbound_ports = net.unbound_ports := by
  refine ⟨?_, rfl, rfl, rfl, rfl⟩
  have h2 : pkt.size ≤ k.mini_header_size ∨ pkt.size > k.MAX_NETWORK_PKT_SIZE := by
    rcases hsz with e | e
    · exact Or.inl (le_of_eq e)
    · exact Or.inr e
  by_cases h1 : pkt.size < k.mini_header_size
  · simp only [network_handler, ha, if_false, hpkt, h1, if_true]
  · simp only [network_handler, ha, if_false, hpkt, h1, hproto, if_true, handle_udp_packet, h2]

/-- A header-only datagram for the existing unbound port 7 of the example is dropped. -/
theorem network_handler_drops_header_only_example :
    net_port.map (fun net => net.unbound_ports 7) = some 80 ∧
    net_port.bind (fun net => network_handler 3 consts_example
        { net with packets := write net.packets 70 (datagram 21 []) } 70 ingress_example) =
      net_port.map (fun net =>
        free_packet { net with packets := write net.packets 70 (datagram 21 []) } 70) := by
  constructor
  · rfl
  · cases h : net_port with
    | none => rfl
    | some net =>
      exact (@network_handler_drops_header_only 3 consts_example _ 70 (datagram 21 [])
        ingress_example (by decide)
        (show write net.packets 70 (datagram 21 []) 70 = some (datagram 21 []) from
          write_same _ _ _) rfl (Or.inl rfl)).1

end Minithreads
